import Mathlib

/-!
# mnist-dnn: a shallow embedding of `dnn.c`

The network of `dnn.c` lives in one memory block and is traversed with pointers.
In this development

* a C `int` is an `Int`, a loop `for (int i=0; i<n; i++)` runs over `forRange n`;
* a `double` is an element of an arbitrary linearly ordered field `R` (exact arithmetic),
  the functions of `math.h` are the fields of a `Libm R`;
* a pointer to a layer is the index of the layer, a pointer to a column is the pair
  (layer, column id) and a pointer to a node is the triple (layer, column id, node id) with
  which `getNetworkNode` finds it; `NULL` is `none`;
* a pointer to a weight is either the address of `nn->nullWeight` or `nn->weightsPtr + i`;
* a byte size is an `Int`; the sizes of the weight blocks, which are `unsigned long` values
  computed from `int` weight counts and which `setNetworkDefaults` compares with the weight
  count, are taken modulo `2 ^ 64`, and a pointer that is moved by such a size is moved by
  the byte offset `weightBlockStep`;
* `exit(1)` and undefined behaviour are the two values of `Fault`.
-/

namespace MnistDnn

set_option linter.unusedSectionVars false

/-! ## Data model (`dnn.h`) -/

/-- The two ways in which a run of the C code stops without a result. -/
inductive Fault where
  | exit1
  | undefined
  deriving DecidableEq, Repr

inductive LayerType where
  | EMPTY
  | INPUT
  | CONVOLUTIONAL
  | FULLY_CONNECTED
  | OUTPUT
  deriving DecidableEq, Repr

inductive ActFctType where
  | SIGMOID
  | TANH
  | RELU
  | NONE
  deriving DecidableEq, Repr

structure Volume where
  width : Int
  height : Int
  depth : Int
  deriving DecidableEq, Repr

structure LayerDefinition where
  layerType : LayerType
  activationType : ActFctType
  nodeMap : Volume
  filter : Int
  deriving DecidableEq, Repr

/-- A `Node *`: the layer, the column id and the node id that `getNetworkNode` receives. -/
structure NodeRef where
  layer : Nat
  column : Int
  node : Int
  deriving DecidableEq, Repr

/-- A `Weight *`: `&nn->nullWeight` or `nn->weightsPtr + i`. -/
inductive WeightRef where
  | nullWeight
  | block (i : Int)
  deriving DecidableEq, Repr

structure Connection where
  nodePtr : Option NodeRef
  weightPtr : WeightRef
  deriving DecidableEq, Repr

structure Node (R : Type) where
  size : Int
  bias : R
  output : R
  errorSum : R
  backwardConnCount : Int
  forwardConnCount : Int
  connections : Int → Connection

/-- The header of a column; its nodes are found in `Network.nodes`. -/
structure Column where
  size : Int
  maxConnCountPerNode : Int
  nodeCount : Int
  deriving DecidableEq, Repr

/-- The header of a layer; `layerDef` is the index in the array of layer definitions that
the C pointer points at, `weightsPtr` the index in the weight block where the layer's
weights start. -/
structure Layer where
  id : Int
  size : Int
  layerDef : Int
  weightsPtr : Int
  columnCount : Int
  deriving DecidableEq, Repr

/-- The memory block of a network, together with the array of layer definitions that the
layers point into. `weightsPtr` is the byte offset of the weight block in the network. -/
structure Network (R : Type) where
  size : Int
  learningRate : R
  weightCount : Int
  weightsPtr : Int
  nullWeight : R
  layerCount : Int
  layerDefs : List LayerDefinition
  layers : Nat → Layer
  columns : Nat → Int → Column
  nodes : NodeRef → Node R
  weights : Int → R

/-- The functions and the constant of `math.h` that `dnn.c` calls. -/
structure Libm (R : Type) where
  exp : R → R
  tanh : R → R
  log : R → R
  pow : R → R → R
  M_E : R

/-- The values of `sizeof` that `dnn.c` uses. -/
structure Abi where
  sizeofNode : Int
  sizeofConnection : Int
  sizeofColumn : Int
  sizeofLayer : Int
  sizeofNetwork : Int
  sizeofWeight : Int
  sizeofVector : Int
  sizeofDouble : Int
  deriving DecidableEq, Repr

/-- A `Vector` of `mnist-utils.h`; `vals` holds the values written so far. -/
structure Vector (α : Type) where
  count : Int
  vals : List α

/-- The values `0, 1, ..., n-1` of the counter of `for (int i=0; i<n; i++)`. -/
def forRange (n : Int) : List Int :=
  (List.range n.toNat).map Int.ofNat

/-- The marker for node ids outside the node map. -/
def OUT_OF_RANGE : Int := -1

def MAX_CONVOLUTIONAL_FILTER : Int := 10

/-! ## Memory access -/

section Memory

variable {R : Type}

def Network.setNode (nn : Network R) (node : NodeRef) (v : Node R) : Network R :=
  { nn with nodes := Function.update nn.nodes node v }

def Network.setColumn (nn : Network R) (layer : Nat) (columnId : Int) (v : Column) :
    Network R :=
  { nn with columns := Function.update nn.columns layer (Function.update (nn.columns layer) columnId v) }

def Network.setLayer (nn : Network R) (layer : Nat) (v : Layer) : Network R :=
  { nn with layers := Function.update nn.layers layer v }

/-- Reads `*weightPtr`. -/
def Network.readWeight (nn : Network R) : WeightRef → R
  | .nullWeight => nn.nullWeight
  | .block i => nn.weights i

/-- Writes `*weightPtr = v`. -/
def Network.writeWeight (nn : Network R) (weightPtr : WeightRef) (v : R) : Network R :=
  match weightPtr with
  | .nullWeight => { nn with nullWeight := v }
  | .block i => { nn with weights := Function.update nn.weights i v }

/-- Writes `node->connections[i] = conn`. -/
def Node.setConnection (node : Node R) (i : Int) (conn : Connection) : Node R :=
  { node with connections := Function.update node.connections i conn }

/-- Replaces the array of connections of a node. -/
def Network.setConnections (nn : Network R) (node : NodeRef) (g : Int → Connection) :
    Network R :=
  nn.setNode node { nn.nodes node with connections := g }

/-- Reads `*layerDef` for an index into the array of layer definitions. -/
def defAt (layerDefs : List LayerDefinition) (layerDef : Int) : Except Fault LayerDefinition :=
  if 0 ≤ layerDef then
    match layerDefs[layerDef.toNat]? with
    | some d => .ok d
    | none => .error .undefined
  else .error .undefined

/-- Reads `*layer->layerDef` in a network whose layers point into the definition array. -/
def Network.layerDefOf (nn : Network R) (layer : Nat) : LayerDefinition :=
  nn.layerDefs.getD (nn.layers layer).layerDef.toNat
    ⟨.EMPTY, .SIGMOID, ⟨0, 0, 0⟩, 0⟩

end Memory

/-! ## Layer geometry -/

def getLayerColumnCount (layerDef : LayerDefinition) : Int :=
  layerDef.nodeMap.width * layerDef.nodeMap.height

def getLayerNodeCount (layerDef : LayerDefinition) : Int :=
  getLayerColumnCount layerDef * layerDef.nodeMap.depth

def getNodeBackwardConnectionCount (layerDefs : List LayerDefinition) (layerDef : Int) :
    Except Fault Int := do
  let d ← defAt layerDefs layerDef
  match d.layerType with
  | .INPUT => pure 0
  | .FULLY_CONNECTED | .OUTPUT => do
    let prev ← defAt layerDefs (layerDef - 1)
    pure (getLayerNodeCount prev)
  | .CONVOLUTIONAL => do
    let prev ← defAt layerDefs (layerDef - 1)
    pure (d.filter * d.filter * prev.nodeMap.depth)
  | .EMPTY => throw .exit1

def getNodeForwardConnectionCount (layerDefs : List LayerDefinition) (layerDef : Int) :
    Except Fault Int := do
  let d ← defAt layerDefs layerDef
  if d.layerType = .INPUT ∨ d.layerType = .OUTPUT then pure 0
  else do
    let next ← defAt layerDefs (layerDef + 1)
    match next.layerType with
    | .OUTPUT | .FULLY_CONNECTED => pure (getLayerNodeCount next)
    | .CONVOLUTIONAL => pure (next.filter ^ 2 * next.nodeMap.depth)
    | _ => throw .exit1

def getLayerWeightCount (layerDefs : List LayerDefinition) (layerDef : Int) :
    Except Fault Int := do
  let d ← defAt layerDefs layerDef
  match d.layerType with
  | .INPUT => pure 0
  | .FULLY_CONNECTED | .OUTPUT => do
    let prev ← defAt layerDefs (layerDef - 1)
    pure (getLayerNodeCount d * getLayerNodeCount prev)
  | .CONVOLUTIONAL => do
    let prev ← defAt layerDefs (layerDef - 1)
    pure (d.filter * d.filter * d.nodeMap.depth * prev.nodeMap.depth)
  | .EMPTY => throw .exit1

def getColumnCount (layerDef : LayerDefinition) : Int :=
  layerDef.nodeMap.width * layerDef.nodeMap.height

/-- The result type `ByteSize` is `unsigned long`, a type of 64 bits: the product of the
`int` value `weightCount` and `sizeof(Weight)` is taken modulo `2 ^ 64`, so that a negative
weight count gives a size near `2 ^ 64`. -/
def getLayerWeightBlockSize (abi : Abi) (layerDefs : List LayerDefinition) (layerDef : Int) :
    Except Fault Int := do
  let weightCount ← getLayerWeightCount layerDefs layerDef
  pure ((weightCount * abi.sizeofWeight) % 2 ^ 64)

/-- The sum `size += getLayerWeightBlockSize(...)` is a sum of `ByteSize` values, taken
modulo `2 ^ 64`. -/
def getNetworkWeightBlockSize (abi : Abi) (layerCount : Int) (layerDefs : List LayerDefinition) :
    Except Fault Int :=
  (forRange layerCount).foldlM
    (fun size l => do pure ((size + (← getLayerWeightBlockSize abi layerDefs l)) % 2 ^ 64)) 0

/-- The number of bytes by which the statement `sbptr2 += getLayerWeightBlockSize(...)` of
`initNetworkLayer` moves the pointer `sbptr2`. The model keeps a pointer as a byte offset
that is an integer; in the address space of 64 bits the sum of an address and the value
`(weightCount * sizeof(Weight)) % 2 ^ 64` of `getLayerWeightBlockSize` is the address at the
offset `weightCount * sizeof(Weight)`, behind the pointer or, for a negative weight count,
before it. The function fails where `getLayerWeightBlockSize` fails. -/
def weightBlockStep (abi : Abi) (layerDefs : List LayerDefinition) (layerDef : Int) :
    Except Fault Int := do
  let weightCount ← getLayerWeightCount layerDefs layerDef
  pure (weightCount * abi.sizeofWeight)

def getNodeSize (abi : Abi) (layerDefs : List LayerDefinition) (layerDef : Int) :
    Except Fault Int := do
  let backwardConnectCount ← getNodeBackwardConnectionCount layerDefs layerDef
  let forwardConnectCount ← getNodeForwardConnectionCount layerDefs layerDef
  let connectCount := backwardConnectCount + forwardConnectCount
  pure (abi.sizeofNode + connectCount * abi.sizeofConnection)

def getColumnSize (abi : Abi) (layerDefs : List LayerDefinition) (layerDef : Int) :
    Except Fault Int := do
  let d ← defAt layerDefs layerDef
  let nodesPerColumn := d.nodeMap.depth
  let nodeSize ← getNodeSize abi layerDefs layerDef
  pure (abi.sizeofColumn + nodesPerColumn * nodeSize)

def getLayerSize (abi : Abi) (layerDefs : List LayerDefinition) (layerDef : Int) :
    Except Fault Int := do
  let columnSize ← getColumnSize abi layerDefs layerDef
  let d ← defAt layerDefs layerDef
  pure (abi.sizeofLayer + getLayerColumnCount d * columnSize)

def getNetworkSize (abi : Abi) (layerCount : Int) (layerDefs : List LayerDefinition) :
    Except Fault Int := do
  let size ← (forRange layerCount).foldlM
    (fun size i => do pure (size + (← getLayerSize abi layerDefs i))) abi.sizeofNetwork
  let weightBlockSize ← getNetworkWeightBlockSize abi layerCount layerDefs
  pure (size + weightBlockSize)

/-! ## Addressing -/

section Passes

variable {R : Type} [LinearOrderedField R]

/-- The layer that the walk over `layerId` layers arrives at (the first one when
`layerId` is not positive). -/
def getNetworkLayer (_nn : Network R) (layerId : Int) : Nat :=
  layerId.toNat

def getNetworkNode (layer : Nat) (columnId : Int) (nodeId : Int) : NodeRef :=
  ⟨layer, columnId, nodeId⟩

/-- The byte offset, from `nn->layers`, that `getNetworkLayer` arrives at by adding up the
stored sizes of the layers before `layerId`. -/
def getNetworkLayerOffset (nn : Network R) (layerId : Int) : Int :=
  (forRange layerId).foldl (fun sbptr i => sbptr + (nn.layers i.toNat).size) 0

/-! ## Training and inference -/

def getDerivative (m : Libm R) (outVal : R) (actType : ActFctType) : R :=
  match actType with
  | .SIGMOID => outVal * (1 - outVal)
  | .TANH => 1 - m.pow (m.tanh outVal) 2
  | .RELU => 1 / (1 + m.pow m.M_E (-outVal))
  | .NONE => 1

def updateNodeWeights (nn : Network R) (updateNode : NodeRef) (learningRate : R) :
    Network R :=
  let nn1 := (forRange (nn.nodes updateNode).backwardConnCount).foldl
    (fun s i =>
      match ((s.nodes updateNode).connections i).nodePtr with
      | some prevLayerNode =>
        s.writeWeight ((s.nodes updateNode).connections i).weightPtr
          (s.readWeight ((s.nodes updateNode).connections i).weightPtr
            + learningRate * (s.nodes prevLayerNode).output * (s.nodes updateNode).errorSum)
      | none => s) nn
  nn1.setNode updateNode
    { nn1.nodes updateNode with
      bias := (nn1.nodes updateNode).bias + learningRate * 1 * (nn1.nodes updateNode).errorSum }

/-- Reading `targetNode->errorSum` through a `NULL` pointer is undefined. -/
def calcNodeError (nn : Network R) (thisNode : NodeRef) : Except Fault R :=
  let forwardConnStart := (nn.nodes thisNode).backwardConnCount
  (forRange (nn.nodes thisNode).forwardConnCount).foldlM
    (fun nodeErrorSum c =>
      match ((nn.nodes thisNode).connections (forwardConnStart + c)).nodePtr with
      | some targetNode =>
        pure (nodeErrorSum + (nn.nodes targetNode).errorSum
          * nn.readWeight ((nn.nodes thisNode).connections (forwardConnStart + c)).weightPtr)
      | none => throw Fault.undefined) 0

/-- The body of the two loops of `backPropagateLayer`. -/
def backPropagateLayerNode (m : Libm R) (nn : Network R) (hl : Nat) (c n : Int) :
    Except Fault (Network R) := do
  let hn := getNetworkNode hl c n
  let e ← calcNodeError nn hn
  let nn1 := nn.setNode hn
    { nn.nodes hn with
      errorSum := e * getDerivative m (nn.nodes hn).output (nn.layerDefOf hl).activationType }
  pure (updateNodeWeights nn1 hn nn1.learningRate)

def backPropagateLayer (m : Libm R) (nn : Network R) (layerId : Int) :
    Except Fault (Network R) :=
  let hl := getNetworkLayer nn layerId
  (forRange (nn.layers hl).columnCount).foldlM
    (fun s c => (forRange (s.columns hl 0).nodeCount).foldlM
      (fun s n => backPropagateLayerNode m s hl c n) s) nn

/-- The body of the two loops of `backPropagateOutputLayer`. -/
def backPropagateOutputNode (m : Libm R) (nn : Network R) (ol : Nat)
    (targetClassification : Int) (o n : Int) : Network R :=
  let outNode := getNetworkNode ol o n
  let targetOutput : Int := if o = targetClassification then 1 else 0
  let errorDelta : R := (targetOutput : R) - (nn.nodes outNode).output
  let nn1 := nn.setNode outNode
    { nn.nodes outNode with
      errorSum := errorDelta * getDerivative m (nn.nodes outNode).output (nn.layerDefOf ol).activationType }
  updateNodeWeights nn1 outNode nn1.learningRate

def backPropagateOutputLayer (m : Libm R) (nn : Network R) (targetClassification : Int) :
    Network R :=
  let ol := getNetworkLayer nn (nn.layerCount - 1)
  (forRange (nn.layers ol).columnCount).foldl
    (fun s o => (forRange (s.columns ol 0).nodeCount).foldl
      (fun s n => backPropagateOutputNode m s ol targetClassification o n) s) nn

/-- The counter of `for (int i=layerCount-2; i>0; i--)`. -/
def backwardLayerIds (layerCount : Int) : List Int :=
  ((forRange (layerCount - 1)).filter (fun i => 0 < i)).reverse

def backPropagateNetwork (m : Libm R) (nn : Network R) (targetClassification : Int) :
    Except Fault (Network R) :=
  (backwardLayerIds nn.layerCount).foldlM (fun s i => backPropagateLayer m s i)
    (backPropagateOutputLayer m nn targetClassification)

def activateNode (m : Libm R) (nn : Network R) (node : NodeRef) (actType : ActFctType) :
    Network R :=
  match actType with
  | .SIGMOID =>
    nn.setNode node { nn.nodes node with output := 1 / (1 + m.exp (-(nn.nodes node).output)) }
  | .TANH => nn.setNode node { nn.nodes node with output := m.tanh (nn.nodes node).output }
  | .RELU =>
    nn.setNode node
      { nn.nodes node with output := m.log (1 + m.pow m.M_E (nn.nodes node).output) }
  | .NONE => nn

def calcNodeOutput (nn : Network R) (node : NodeRef) : Network R :=
  let nn0 := nn.setNode node { nn.nodes node with output := (nn.nodes node).bias }
  (forRange (nn0.nodes node).backwardConnCount).foldl
    (fun s i =>
      match ((s.nodes node).connections i).nodePtr with
      | some targetNode =>
        let weight := s.readWeight ((s.nodes node).connections i).weightPtr
        s.setNode node
          { s.nodes node with
            output := (s.nodes node).output + (s.nodes targetNode).output * weight }
      | none => s) nn0

def calcNetworkLayer (m : Libm R) (nn : Network R) (layer : Nat) : Network R :=
  (forRange (nn.layers layer).columnCount).foldl
    (fun s c => (forRange (s.columns layer 0).nodeCount).foldl
      (fun s n =>
        let node := getNetworkNode layer c n
        activateNode m (calcNodeOutput s node) node (s.layerDefOf layer).activationType) s) nn

/-- The counter of `for (int l=1; l<layerCount; l++)`. -/
def forwardLayerIds (layerCount : Int) : List Int :=
  (forRange layerCount).filter (fun l => 0 < l)

def feedForwardNetwork (m : Libm R) (nn : Network R) : Network R :=
  (forwardLayerIds nn.layerCount).foldl
    (fun s l => calcNetworkLayer m s (getNetworkLayer s l)) nn

def feedInput (nn : Network R) (v : Vector R) : Except Fault (Network R) :=
  let inputLayer : Nat := 0
  if v.count ≠ (nn.layers inputLayer).columnCount then throw .exit1
  else
    (forRange v.count).foldlM
      (fun s i =>
        match v.vals[i.toNat]? with
        | some x =>
          let inputNode := getNetworkNode inputLayer i 0
          pure (s.setNode inputNode { s.nodes inputNode with output := x })
        | none => throw Fault.undefined) nn

def getNetworkClassification (nn : Network R) : Int :=
  let l := getNetworkLayer nn (nn.layerCount - 1)
  ((forRange (nn.layers l).columnCount).foldl
    (fun (acc : R × Int) i =>
      let outNode := getNetworkNode l i 0
      if (nn.nodes outNode).output > acc.1 then ((nn.nodes outNode).output, i) else acc)
    ((0 : R), (0 : Int))).2

end Passes

/-! ## Construction of the network -/

section Construction

variable {R : Type} [LinearOrderedField R]

/-- The ceiling of the exact quotient `a / b` of two integers, `b ≠ 0`. -/
def ceilQuot (a b : Int) : Int :=
  -(Int.fdiv (-a) b)

/-- The floor of the exact quotient `a / b` of two integers, `b ≠ 0`. -/
def floorQuot (a b : Int) : Int :=
  Int.fdiv a b

/-- The quotient is taken in exact arithmetic; with a divisor `srcWidth - 1 = 0` the C code
converts an infinity or a NaN to `int`, which is undefined. -/
def calcStride (tgtWidth filter srcWidth : Int) : Except Fault Int :=
  if srcWidth - 1 = 0 then throw .undefined
  else pure (ceilQuot (tgtWidth - filter) (srcWidth - 1))

/-- The part of `calcFilterColumnIds` after the four values were read from the two layer
definitions. The loops write `vals[id]` for `id = 0, 1, ...` in turn, so `vals` grows at
its end. -/
def filterWindow (srcWidth tgtWidth tgtHeight filter srcColId : Int) (vals : List Int) :
    Except Fault (List Int) := do
  let stride ← calcStride tgtWidth filter srcWidth
  if srcWidth = 0 then throw .undefined
  let startX := (srcColId.tmod srcWidth) * stride
  let startY := floorQuot srcColId srcWidth * stride
  (forRange filter).foldlM
    (fun vals y => (forRange filter).foldlM
      (fun vals x => do
        let colId := ((startY + y) * tgtWidth) + (startX + x)
        if tgtWidth = 0 then throw Fault.undefined
        let colId :=
          if (colId.tdiv tgtWidth > startY + y) ∨ (colId ≥ tgtWidth * tgtHeight)
          then OUT_OF_RANGE else colId
        pure (vals ++ [colId])) vals) vals

def calcFilterColumnIds (nn : Network R) (srcLayer : Nat) (srcColId : Int) (tgtLayer : Nat)
    (filterColIds : Vector Int) : Except Fault (Vector Int) := do
  let srcWidth := (nn.layerDefOf srcLayer).nodeMap.width
  let tgtWidth := (nn.layerDefOf tgtLayer).nodeMap.width
  let tgtHeight := (nn.layerDefOf tgtLayer).nodeMap.height
  let filter := (nn.layerDefOf srcLayer).filter
  let vals ← filterWindow srcWidth tgtWidth tgtHeight filter srcColId filterColIds.vals
  pure { filterColIds with vals := vals }

/-- The parameter `nullWeight` of the C function is always `&nn->nullWeight`. -/
def initNetworkBackwardConnectionsConvNode (nn : Network R) (node : NodeRef) (srcLevel : Int)
    (srcLayerWeightPtr : Int) (targetLayer : Nat) (filterColIds : Vector Int) :
    Except Fault (Network R) :=
  let filterSize := filterColIds.count
  let tgtDepth := (nn.layerDefOf targetLayer).nodeMap.depth
  (forRange filterSize).foldlM
    (fun s posInsideFilter =>
      match filterColIds.vals[posInsideFilter.toNat]? with
      | none => throw Fault.undefined
      | some targetColId =>
        pure ((forRange tgtDepth).foldl
          (fun s tgtLevel =>
            let i := (tgtLevel * filterSize) + posInsideFilter
            if targetColId ≠ OUT_OF_RANGE then
              let weightPosition :=
                (srcLevel * (tgtDepth * filterSize)) + (tgtLevel * filterSize) + posInsideFilter
              let tgtWeight := WeightRef.block (srcLayerWeightPtr + weightPosition)
              let tgtNode := getNetworkNode targetLayer targetColId tgtLevel
              s.setNode node ((s.nodes node).setConnection i ⟨some tgtNode, tgtWeight⟩)
            else
              s.setNode node ((s.nodes node).setConnection i ⟨none, WeightRef.nullWeight⟩))
          s)) nn

/-- The two byte pointers of the C function walk over the columns of the previous layer and
over the nodes of each column; the state of the loops is the network and the two counters. -/
def initNetworkBackwardConnectionsFCNode (nn : Network R) (thisNode : NodeRef)
    (prevLayer : Nat) (nodeWeightPtr : Int) : Network R :=
  ((forRange (nn.layers prevLayer).columnCount).foldl
    (fun (st : Network R × Int × Int) col =>
      (forRange (st.1.columns prevLayer col).nodeCount).foldl
        (fun (st : Network R × Int × Int) n =>
          let connId := st.2.1
          let nodeWeightId := st.2.2
          (st.1.setNode thisNode
            ((st.1.nodes thisNode).setConnection connId
              ⟨some ⟨prevLayer, col, n⟩, WeightRef.block (nodeWeightPtr + nodeWeightId)⟩),
            connId + 1, nodeWeightId + 1)) st)
    (nn, 0, 0)).1

/-- The state of the loops is the network and the counter `forwardConnCount`. -/
def initNetworkForwardConnectionsAnyNode (nn : Network R) (thisNode : NodeRef)
    (nextLayer : Nat) : Except Fault (Network R) := do
  let maxForwardConnCount := (nn.nodes thisNode).forwardConnCount
  let forwardConnStart := (nn.nodes thisNode).backwardConnCount
  let st ← (forRange (nn.layers nextLayer).columnCount).foldlM
    (fun (st : Network R × Int) o =>
      (forRange (st.1.columns nextLayer 0).nodeCount).foldlM
        (fun (st : Network R × Int) n =>
          let nextLayerNode := getNetworkNode nextLayer o n
          (forRange (st.1.nodes nextLayerNode).backwardConnCount).foldlM
            (fun (st : Network R × Int) c =>
              if ((st.1.nodes nextLayerNode).connections c).nodePtr = some thisNode then
                let s := st.1.setNode thisNode
                  ((st.1.nodes thisNode).setConnection (forwardConnStart + st.2)
                    ⟨some nextLayerNode, ((st.1.nodes nextLayerNode).connections c).weightPtr⟩)
                let forwardConnCount := st.2 + 1
                if forwardConnCount > maxForwardConnCount then throw Fault.exit1
                else pure (s, forwardConnCount)
              else pure st) st) st)
    (nn, 0)
  pure (st.1.setNode thisNode { st.1.nodes thisNode with forwardConnCount := st.2 })

/-- The function `initNetworkForwardConnectionsAnyNode` with the memory kept that a run
leaves behind when it stops with `exit(1)`: the fault of a run is that memory. -/
def initNetworkForwardConnectionsAnyNodeMemory (nn : Network R) (thisNode : NodeRef)
    (nextLayer : Nat) : Except (Network R) (Network R) := do
  let maxForwardConnCount := (nn.nodes thisNode).forwardConnCount
  let forwardConnStart := (nn.nodes thisNode).backwardConnCount
  let st ← (forRange (nn.layers nextLayer).columnCount).foldlM
    (fun (st : Network R × Int) o =>
      (forRange (st.1.columns nextLayer 0).nodeCount).foldlM
        (fun (st : Network R × Int) n =>
          let nextLayerNode := getNetworkNode nextLayer o n
          (forRange (st.1.nodes nextLayerNode).backwardConnCount).foldlM
            (fun (st : Network R × Int) c =>
              if ((st.1.nodes nextLayerNode).connections c).nodePtr = some thisNode then
                let s := st.1.setNode thisNode
                  ((st.1.nodes thisNode).setConnection (forwardConnStart + st.2)
                    ⟨some nextLayerNode, ((st.1.nodes nextLayerNode).connections c).weightPtr⟩)
                let forwardConnCount := st.2 + 1
                if forwardConnCount > maxForwardConnCount then throw s
                else pure (s, forwardConnCount)
              else pure st) st) st)
    (nn, 0)
  pure (st.1.setNode thisNode { st.1.nodes thisNode with forwardConnCount := st.2 })

def initNetworkForwardConnections (nn : Network R) (layerId : Int) :
    Except Fault (Network R) :=
  if layerId = 0 ∨ layerId = nn.layerCount - 1 then pure nn
  else
    let thisLayer := getNetworkLayer nn layerId
    let nextLayer := getNetworkLayer nn (layerId + 1)
    (forRange (nn.layers thisLayer).columnCount).foldlM
      (fun s c => (forRange (s.columns thisLayer c).nodeCount).foldlM
        (fun s n => initNetworkForwardConnectionsAnyNode s (getNetworkNode thisLayer c n) nextLayer)
        s) nn

def createFilterColumnIds (nn : Network R) (thisLayer : Nat) (columnId : Int)
    (prevLayer : Nat) : Except Fault (Vector Int) :=
  let colIdCount := (nn.layerDefOf thisLayer).filter * (nn.layerDefOf thisLayer).filter
  calcFilterColumnIds nn thisLayer columnId prevLayer { count := colIdCount, vals := [] }

def setNetworkNodeDefaults (abi : Abi) (nn : Network R) (thisLayer : Nat) (columnId : Int)
    (node : NodeRef) : Except Fault (Network R) := do
  let nodeSize ← getNodeSize abi nn.layerDefs (nn.layers thisLayer).layerDef
  let backwardConnCount ← getNodeBackwardConnectionCount nn.layerDefs (nn.layers thisLayer).layerDef
  let forwardConnCount ← getNodeForwardConnectionCount nn.layerDefs (nn.layers thisLayer).layerDef
  let nn1 := nn.setNode node
    { nn.nodes node with
      size := nodeSize, bias := 0, output := 0, errorSum := 0,
      backwardConnCount := backwardConnCount, forwardConnCount := forwardConnCount }
  pure ((forRange (nn1.columns thisLayer columnId).maxConnCountPerNode).foldl
    (fun s c => s.setNode node ((s.nodes node).setConnection c ⟨none, WeightRef.nullWeight⟩))
    nn1)

/-- The body of the loop of `initNetworkNodes`. -/
def initNetworkNode (abi : Abi) (nn : Network R) (thisLayer prevLayer : Nat) (columnId : Int)
    (filterColIds : Vector Int) (n : Int) : Except Fault (Network R) := do
  let node := getNetworkNode thisLayer columnId n
  let s1 ← setNetworkNodeDefaults abi nn thisLayer columnId node
  let s2 ←
    (if (s1.layerDefOf thisLayer).layerType = .FULLY_CONNECTED
        ∨ (s1.layerDefOf thisLayer).layerType = .OUTPUT then
      (do
        let nodeId := (columnId * (s1.columns thisLayer columnId).nodeCount) + n
        let backwardConnCount ←
          getNodeBackwardConnectionCount s1.layerDefs (s1.layers thisLayer).layerDef
        let layerWeightsId := nodeId * backwardConnCount
        pure (initNetworkBackwardConnectionsFCNode s1 node prevLayer
          ((s1.layers thisLayer).weightsPtr + layerWeightsId)))
    else pure s1)
  if (s2.layerDefOf thisLayer).layerType = .CONVOLUTIONAL then
    initNetworkBackwardConnectionsConvNode s2 node n (s2.layers thisLayer).weightsPtr prevLayer
      filterColIds
  else pure s2

def initNetworkNodes (abi : Abi) (nn : Network R) (layerId : Int) (columnId : Int) :
    Except Fault (Network R) := do
  let thisLayer := getNetworkLayer nn layerId
  let prevLayer := getNetworkLayer nn (layerId - 1)
  let _nodeSize ← getNodeSize abi nn.layerDefs (nn.layers thisLayer).layerDef
  let filterColIds ← createFilterColumnIds nn thisLayer columnId prevLayer
  (forRange (nn.columns thisLayer columnId).nodeCount).foldlM
    (fun s n => initNetworkNode abi s thisLayer prevLayer columnId filterColIds n) nn

def initNetworkColumns (abi : Abi) (nn : Network R) (layerId : Int) :
    Except Fault (Network R) := do
  let layer := getNetworkLayer nn layerId
  let backwardConnCount ← getNodeBackwardConnectionCount nn.layerDefs (nn.layers layer).layerDef
  let forwardConnCount ← getNodeForwardConnectionCount nn.layerDefs (nn.layers layer).layerDef
  let columnSize ← getColumnSize abi nn.layerDefs (nn.layers layer).layerDef
  (forRange (nn.layers layer).columnCount).foldlM
    (fun s c => do
      let s1 := s.setColumn layer c
        { size := columnSize,
          nodeCount := (s.layerDefOf layer).nodeMap.depth,
          maxConnCountPerNode := backwardConnCount + forwardConnCount }
      let testColumnSize ← getColumnSize abi s1.layerDefs (s1.layers layer).layerDef
      if c * testColumnSize ≠ c * columnSize then throw Fault.exit1
      initNetworkNodes abi s1 layerId c) nn

/-- The layer at the byte offset `sum of getLayerSize` is the layer `layerId`. The pointer
`sbptr2` starts at `nn->weightsPtr` and is moved by the value of `getLayerWeightBlockSize`
for each layer before `layerId`, that is by `weightBlockStep` bytes; the weights of the
layer start at the index `(sum of weightBlockStep) / sizeof(Weight)` of the weight block. -/
def initNetworkLayer (abi : Abi) (nn : Network R) (layerId : Int)
    (layerDefs : List LayerDefinition) : Except Fault (Network R) := do
  let layerDef := layerId
  let sbptr1 ← (forRange layerId).foldlM
    (fun sbptr1 l => do pure (sbptr1 + (← getLayerSize abi layerDefs l))) (0 : Int)
  let layer := layerId.toNat
  let sbptr2 ← (forRange layerId).foldlM
    (fun sbptr2 l => do pure (sbptr2 + (← weightBlockStep abi layerDefs l))) (0 : Int)
  let w := sbptr2 / abi.sizeofWeight
  let size ← getLayerSize abi layerDefs layerDef
  let d ← defAt layerDefs layerDef
  let nn1 := nn.setLayer layer
    { id := layerId, layerDef := layerDef, weightsPtr := w, size := size,
      columnCount := getColumnCount d }
  if getNetworkLayerOffset nn1 layerId ≠ sbptr1 then throw Fault.exit1
  initNetworkColumns abi nn1 layerId

def initNetwork (abi : Abi) (nn : Network R) (layerCount : Int)
    (layerDefs : List LayerDefinition) : Except Fault (Network R) := do
  let nn1 ← (forRange layerCount).foldlM (fun s l => initNetworkLayer abi s l layerDefs) nn
  (forRange layerCount).foldlM (fun s l => initNetworkForwardConnections s l) nn1

/-- The test `nn->weightCount != (double)weightBlockSize/sizeof(Weight)` compares exact
quotients, hence it is the test `weightCount * sizeof(Weight) ≠ weightBlockSize`, in which
`weightBlockSize` is the `ByteSize` value of `getNetworkWeightBlockSize`, a number from 0
to `2 ^ 64 - 1`, and `weightCount` is the sum of the `int` values of
`getLayerWeightCount`: a negative weight count differs from every such quotient. -/
def setNetworkDefaults (abi : Abi) (nn : Network R) (layerCount : Int)
    (layerDefs : List LayerDefinition) (netSize : Int) : Except Fault (Network R) := do
  let weightBlockSize ← getNetworkWeightBlockSize abi layerCount layerDefs
  let nn1 : Network R :=
    { nn with
      size := netSize, layerCount := layerCount, weightsPtr := netSize - weightBlockSize,
      nullWeight := 0, learningRate := 1 / 1000, weightCount := 0 }
  let weightCount ← (forRange layerCount).foldlM
    (fun wc l => do pure (wc + (← getLayerWeightCount layerDefs l))) nn1.weightCount
  let nn2 := { nn1 with weightCount := weightCount }
  if nn2.weightCount * abi.sizeofWeight ≠ weightBlockSize then throw .exit1
  pure nn2

/-- The function `createNetwork` up to its last step, the call of `initNetworkWeights`. The
memory that `malloc` returns is the argument `mem`; its field `layerDefs` is made to hold
the array that the layers will point into. -/
def createNetworkStructure (abi : Abi) (mem : Network R) (layerCount : Int)
    (layerDefs : List LayerDefinition) : Except Fault (Network R) := do
  let netSize ← getNetworkSize abi layerCount layerDefs
  let nn : Network R := { mem with layerDefs := layerDefs }
  let nn1 ← setNetworkDefaults abi nn layerCount layerDefs netSize
  initNetwork abi nn1 layerCount layerDefs

end Construction

/-! ## The construction without its self-checks -/

/-- The byte offset, from `layer->columns`, that `getLayerColumn` arrives at: `columnId`
times the size that `getColumnSize` gives for the definition of the layer. -/
def getLayerColumnOffset {R : Type} (abi : Abi) (nn : Network R) (layer : Nat)
    (columnId : Int) : Except Fault Int := do
  let columnSize ← getColumnSize abi nn.layerDefs (nn.layers layer).layerDef
  pure (columnId * columnSize)

/-- The function `initNetworkColumns` without its test of the column pointer. -/
def initNetworkColumnsUnchecked {R : Type} [LinearOrderedField R] (abi : Abi)
    (nn : Network R) (layerId : Int) : Except Fault (Network R) := do
  let layer := getNetworkLayer nn layerId
  let backwardConnCount ← getNodeBackwardConnectionCount nn.layerDefs (nn.layers layer).layerDef
  let forwardConnCount ← getNodeForwardConnectionCount nn.layerDefs (nn.layers layer).layerDef
  let columnSize ← getColumnSize abi nn.layerDefs (nn.layers layer).layerDef
  (forRange (nn.layers layer).columnCount).foldlM
    (fun s c => do
      let s1 := s.setColumn layer c
        { size := columnSize,
          nodeCount := (s.layerDefOf layer).nodeMap.depth,
          maxConnCountPerNode := backwardConnCount + forwardConnCount }
      initNetworkNodes abi s1 layerId c) nn

/-- The function `initNetworkLayer` without its test of the layer pointer and without the
test of the column pointers in `initNetworkColumns`. -/
def initNetworkLayerUnchecked {R : Type} [LinearOrderedField R] (abi : Abi)
    (nn : Network R) (layerId : Int) (layerDefs : List LayerDefinition) :
    Except Fault (Network R) := do
  let layerDef := layerId
  let _sbptr1 ← (forRange layerId).foldlM
    (fun sbptr1 l => do pure (sbptr1 + (← getLayerSize abi layerDefs l))) (0 : Int)
  let layer := layerId.toNat
  let sbptr2 ← (forRange layerId).foldlM
    (fun sbptr2 l => do pure (sbptr2 + (← weightBlockStep abi layerDefs l))) (0 : Int)
  let w := sbptr2 / abi.sizeofWeight
  let size ← getLayerSize abi layerDefs layerDef
  let d ← defAt layerDefs layerDef
  let nn1 := nn.setLayer layer
    { id := layerId, layerDef := layerDef, weightsPtr := w, size := size,
      columnCount := getColumnCount d }
  initNetworkColumnsUnchecked abi nn1 layerId

/-! ## Validation of the layer definitions -/

/-- The checks of one iteration of the loop of `isValidNetworkDefinition`, after the test
of `isValid` at its start. The definition of the previous layer is read for a
convolutional layer only. -/
def checkLayerDefinition (layerDefs : List LayerDefinition) (i : Int) (isValid : Bool) :
    Except Fault Bool := do
  let layerDef ← defAt layerDefs i
  let isValid :=
    if layerDef.layerType ≠ .INPUT ∧ layerDef.layerType ≠ .CONVOLUTIONAL ∧
        layerDef.layerType ≠ .FULLY_CONNECTED ∧ layerDef.layerType ≠ .OUTPUT then false
    else isValid
  let isValid :=
    if layerDef.nodeMap.width = 0 ∧ layerDef.nodeMap.height = 0 ∧ layerDef.nodeMap.depth = 0
    then false else isValid
  let isValid :=
    if (layerDef.layerType = .INPUT ∨ layerDef.layerType = .FULLY_CONNECTED
        ∨ layerDef.layerType = .OUTPUT) ∧ layerDef.nodeMap.depth ≠ 0 then false
    else isValid
  let isValid :=
    if layerDef.layerType = .CONVOLUTIONAL
        ∧ (layerDef.nodeMap.height = 0 ∨ layerDef.nodeMap.depth = 0) then false
    else isValid
  let isValid :=
    if layerDef.layerType = .CONVOLUTIONAL ∧ layerDef.filter = 0 then false else isValid
  let isValid ←
    if layerDef.layerType = .CONVOLUTIONAL then do
      let prev ← defAt layerDefs (i - 1)
      pure (if layerDef.filter ≥ prev.nodeMap.width ∨ layerDef.filter ≥ prev.nodeMap.height
        then false else isValid)
    else pure isValid
  let isValid :=
    if layerDef.layerType = .CONVOLUTIONAL then
      (if layerDef.filter > MAX_CONVOLUTIONAL_FILTER then false else isValid)
    else isValid
  let isValid :=
    if layerDef.layerType ≠ .INPUT then
      (if layerDef.activationType ≠ .SIGMOID ∧ layerDef.activationType ≠ .TANH ∧
          layerDef.activationType ≠ .RELU ∧ layerDef.activationType ≠ .NONE then false
        else isValid)
    else isValid
  pure isValid

/-- The state of the loop is the value that the function has returned from inside the loop,
if it has, and the variable `isValid`. -/
def isValidNetworkDefinition (layerCount : Int) (layerDefs : List LayerDefinition) :
    Except Fault Bool := do
  let first ← defAt layerDefs 0
  let isValid := if first.layerType ≠ .INPUT then false else true
  let last ← defAt layerDefs (layerCount - 1)
  let isValid := if last.layerType ≠ .OUTPUT then false else isValid
  let st ← (forRange layerCount).foldlM
    (fun (st : Option Bool × Bool) i =>
      match st.1 with
      | some _ => pure st
      | none =>
        if !st.2 then pure (some st.2, st.2)
        else do
          let isValid ← checkLayerDefinition layerDefs i st.2
          pure (none, isValid))
    (none, isValid)
  match st.1 with
  | some r => pure r
  | none => pure st.2

/-- The body of the loop of `setLayerDefinitionDefaults`, for one layer definition. -/
def setLayerDefinitionDefault (d : LayerDefinition) : LayerDefinition :=
  let d := if d.nodeMap.width = 0 then { d with nodeMap := { d.nodeMap with width := 1 } }
    else d
  let d := if d.nodeMap.height = 0 then { d with nodeMap := { d.nodeMap with height := 1 } }
    else d
  let d := if d.nodeMap.depth = 0 then { d with nodeMap := { d.nodeMap with depth := 1 } }
    else d
  if d.layerType ≠ .CONVOLUTIONAL then { d with filter := 0 } else d

def setLayerDefinitionDefaults (layerCount : Int) (layerDefs : List LayerDefinition) :
    Except Fault (List LayerDefinition) :=
  (forRange layerCount).foldlM
    (fun defs l => do
      let d ← defAt defs l
      pure (defs.set l.toNat (setLayerDefinitionDefault d))) layerDefs

/-! ## Notions used in the statements -/

section Notions

variable {R : Type}

/-- Two states of a network with the same structure: the same header fields, layers and
columns, and in every node the same size, connection counts and connections. The states
may differ in outputs, error sums, biases and weights. -/
structure SameWiring (nn nn' : Network R) : Prop where
  size : nn'.size = nn.size
  learningRate : nn'.learningRate = nn.learningRate
  weightCount : nn'.weightCount = nn.weightCount
  weightsPtr : nn'.weightsPtr = nn.weightsPtr
  layerCount : nn'.layerCount = nn.layerCount
  layerDefs : nn'.layerDefs = nn.layerDefs
  layers : nn'.layers = nn.layers
  columns : nn'.columns = nn.columns
  nodeSize : ∀ r, (nn'.nodes r).size = (nn.nodes r).size
  backwardConnCount : ∀ r, (nn'.nodes r).backwardConnCount = (nn.nodes r).backwardConnCount
  forwardConnCount : ∀ r, (nn'.nodes r).forwardConnCount = (nn.nodes r).forwardConnCount
  connections : ∀ r, (nn'.nodes r).connections = (nn.nodes r).connections

/-- Two states of a network that differ at most in the outputs of nodes. -/
structure SameUpToOutputs (nn nn' : Network R) : Prop where
  wiring : SameWiring nn nn'
  bias : ∀ r, (nn'.nodes r).bias = (nn.nodes r).bias
  errorSum : ∀ r, (nn'.nodes r).errorSum = (nn.nodes r).errorSum
  weights : nn'.weights = nn.weights
  nullWeight : nn'.nullWeight = nn.nullWeight

/-- The forward connection that `initNetworkForwardConnectionsAnyNode` stores when it finds
the backward connection `link.2` of the node `link.1`: it points to that node and shares the
weight of that connection. -/
def forwardOf (nn : Network R) (link : NodeRef × Int) : Connection :=
  ⟨some link.1, ((nn.nodes link.1).connections link.2).weightPtr⟩

/-- The connections among the ids `lc` of the node `nextLayerNode` that lead to
`thisNode`. -/
def linksOfNodeIn (nn : Network R) (thisNode nextLayerNode : NodeRef) (lc : List Int) :
    List (NodeRef × Int) :=
  (lc.filter
    (fun c => decide (((nn.nodes nextLayerNode).connections c).nodePtr = some thisNode))).map
    (fun c => (nextLayerNode, c))

/-- The backward connections of the node `nextLayerNode` that lead to `thisNode`, as pairs of
the node and the connection id, in the order of the ids. -/
def linksOfNode (nn : Network R) (thisNode nextLayerNode : NodeRef) : List (NodeRef × Int) :=
  linksOfNodeIn nn thisNode nextLayerNode (forRange (nn.nodes nextLayerNode).backwardConnCount)

/-- The backward connections of the nodes of the layer `nextLayer` that lead to `thisNode`,
in the order in which the loops of `initNetworkForwardConnectionsAnyNode` visit them. -/
def backwardLinksTo (nn : Network R) (thisNode : NodeRef) (nextLayer : Nat) :
    List (NodeRef × Int) :=
  (forRange (nn.layers nextLayer).columnCount).flatMap (fun o =>
    (forRange (nn.columns nextLayer 0).nodeCount).flatMap (fun n =>
      linksOfNode nn thisNode (getNetworkNode nextLayer o n)))

/-- The node with the connections `M` stored behind its backward connections. -/
def Node.withForward (nd : Node R) (M : List Connection) : Node R :=
  { nd with
    connections := fun k =>
      if nd.backwardConnCount ≤ k then
        (M[(k - nd.backwardConnCount).toNat]?).getD (nd.connections k)
      else nd.connections k }

/-- The state of the loops of `initNetworkForwardConnectionsAnyNode` that started in the
network `nn` for the node `thisNode`, after the backward connections `M` were found. -/
def forwardScanState (nn : Network R) (thisNode : NodeRef) (M : List (NodeRef × Int)) :
    Network R × Int :=
  (nn.setNode thisNode ((nn.nodes thisNode).withForward (M.map (forwardOf nn))),
    (M.length : Int))

/-- Two states of a network during the construction that differ at most in the forward
connections of nodes: in the connections behind the backward connections and in
`forwardConnCount`. -/
structure BackwardSame (s u : Network R) : Prop where
  layerCount : u.layerCount = s.layerCount
  layerDefs : u.layerDefs = s.layerDefs
  layers : u.layers = s.layers
  columns : u.columns = s.columns
  weights : u.weights = s.weights
  nullWeight : u.nullWeight = s.nullWeight
  nodeSize : ∀ r, (u.nodes r).size = (s.nodes r).size
  bias : ∀ r, (u.nodes r).bias = (s.nodes r).bias
  output : ∀ r, (u.nodes r).output = (s.nodes r).output
  errorSum : ∀ r, (u.nodes r).errorSum = (s.nodes r).errorSum
  backwardConnCount : ∀ r, (u.nodes r).backwardConnCount = (s.nodes r).backwardConnCount
  connections : ∀ r k, k < (s.nodes r).backwardConnCount →
    (u.nodes r).connections k = (s.nodes r).connections k

/-- The forward connections of the node record `nd` of the node `A` are the backward
connections of the layer `nextLayer` that lead to `A`, one for one and in their order, and
`forwardConnCount` is their number. -/
structure ForwardBuilt (nn : Network R) (nextLayer : Nat) (A : NodeRef) (nd : Node R) :
    Prop where
  count : nd.forwardConnCount = ((backwardLinksTo nn A nextLayer).length : Int)
  conn : ∀ (j : Nat) (h : j < (backwardLinksTo nn A nextLayer).length),
    nd.connections (nd.backwardConnCount + (j : Int))
      = forwardOf nn ((backwardLinksTo nn A nextLayer).get ⟨j, h⟩)

/-- The index in the weight block at which `initNetworkLayer` lets the weights of the layer
`l` start: the sum of the byte counts `weightBlockStep` of the layers before `l`, divided by
the size of a weight. -/
def layerWeightsPtr (abi : Abi) (layerDefs : List LayerDefinition) (l : Int) : Int :=
  match (forRange l).foldlM
    (fun sbptr2 l => do pure (sbptr2 + (← weightBlockStep abi layerDefs l)))
    (0 : Int) with
  | .ok sbptr2 => sbptr2 / abi.sizeofWeight
  | .error _ => 0

/-- What the first phase of `initNetwork` stores in the node at column `c` and level `n`
of the layer `l`: its size, the number of its backward connections, and its backward
connections.

* In a fully connected or output layer the connection `k` leads to the node at column
  `k / depth` and level `k % depth` of the previous layer and refers to the weight
  `(c * depth(l) + n) * backwardConnCount + k` of the layer.
* In a convolutional layer the connection `t * filter² + p` leads to the node at the column
  that `filterWindow` gives for the position `p`, level `t`, of the previous layer and
  refers to the weight `n * (depth(l-1) * filter²) + t * filter² + p` of the layer; when
  the column is out of range it leads nowhere and refers to the null weight. -/
structure NodeBuilt (abi : Abi) (layerDefs : List LayerDefinition) (l c n : Int)
    (nd : Node R) : Prop where
  size : getNodeSize abi layerDefs l = Except.ok nd.size
  backwardConnCount : getNodeBackwardConnectionCount layerDefs l = Except.ok nd.backwardConnCount
  fc : ∀ d dp, defAt layerDefs l = Except.ok d → defAt layerDefs (l - 1) = Except.ok dp →
    (d.layerType = LayerType.FULLY_CONNECTED ∨ d.layerType = LayerType.OUTPUT) →
    0 < dp.nodeMap.depth →
    ∀ k, 0 ≤ k → k < getColumnCount dp * dp.nodeMap.depth →
      nd.connections k
        = ⟨some ⟨(l - 1).toNat, k / dp.nodeMap.depth, k % dp.nodeMap.depth⟩,
            WeightRef.block (layerWeightsPtr abi layerDefs l
              + (c * d.nodeMap.depth + n) * nd.backwardConnCount + k)⟩
  conv : ∀ d dp, defAt layerDefs l = Except.ok d → defAt layerDefs (l - 1) = Except.ok dp →
    d.layerType = LayerType.CONVOLUTIONAL →
    ∃ vals, filterWindow d.nodeMap.width dp.nodeMap.width dp.nodeMap.height d.filter c []
        = Except.ok vals ∧
      ∀ t p, 0 ≤ t → t < dp.nodeMap.depth → 0 ≤ p → p < d.filter * d.filter →
        ∃ col, vals[p.toNat]? = some col ∧
          nd.connections (t * (d.filter * d.filter) + p)
            = if col ≠ OUT_OF_RANGE then
                ⟨some ⟨(l - 1).toNat, col, t⟩,
                  WeightRef.block (layerWeightsPtr abi layerDefs l
                    + (n * (dp.nodeMap.depth * (d.filter * d.filter))
                      + t * (d.filter * d.filter) + p))⟩
              else ⟨none, WeightRef.nullWeight⟩

/-- What the first phase of `initNetwork` stores for the layer `l`: the header of the layer,
the headers of its columns and its nodes. -/
structure LayerBuilt (abi : Abi) (layerDefs : List LayerDefinition) (l : Int)
    (t : Network R) : Prop where
  layerDef : (t.layers l.toNat).layerDef = l
  weightsPtr : (t.layers l.toNat).weightsPtr = layerWeightsPtr abi layerDefs l
  weightsBefore : ∃ sbptr2, (forRange l).foldlM
    (fun sbptr2 l => do pure (sbptr2 + (← weightBlockStep abi layerDefs l)))
    (0 : Int) = Except.ok sbptr2
  columnCount : ∀ d, defAt layerDefs l = Except.ok d →
    (t.layers l.toNat).columnCount = getColumnCount d
  nodeCount : ∀ d c, defAt layerDefs l = Except.ok d → 0 ≤ c → c < getColumnCount d →
    (t.columns l.toNat c).nodeCount = d.nodeMap.depth
  nodes : ∀ d c n, defAt layerDefs l = Except.ok d → 0 ≤ c → c < getColumnCount d →
    0 ≤ n → n < d.nodeMap.depth →
    NodeBuilt abi layerDefs l c n (t.nodes ⟨l.toNat, c, n⟩)

/-- The first phase of `initNetwork` has set `forwardConnCount` in the nodes of the layer
`l` to the value of `getNodeForwardConnectionCount`. -/
def ForwardCountSet (layerDefs : List LayerDefinition) (l : Int) (t : Network R) : Prop :=
  ∀ d c n, defAt layerDefs l = Except.ok d → 0 ≤ c → c < getColumnCount d → 0 ≤ n →
    n < d.nodeMap.depth →
    getNodeForwardConnectionCount layerDefs l
      = Except.ok (t.nodes ⟨l.toNat, c, n⟩).forwardConnCount

/-- Two states of a network with the same fields outside the layers: the header of the
network, the array of layer definitions and the weights. -/
structure SameTop (s t : Network R) : Prop where
  size : t.size = s.size
  learningRate : t.learningRate = s.learningRate
  weightCount : t.weightCount = s.weightCount
  weightsPtr : t.weightsPtr = s.weightsPtr
  nullWeight : t.nullWeight = s.nullWeight
  layerCount : t.layerCount = s.layerCount
  layerDefs : t.layerDefs = s.layerDefs
  weights : t.weights = s.weights

variable [LinearOrderedField R]

/-- What the iteration `i` of the loop of `updateNodeWeights` adds to the weight `w`:
`learningRate * source.output * errorSum` when the connection `i` has a source node and
refers to `w`, and nothing otherwise. -/
def weightDelta (nn : Network R) (node : NodeRef) (learningRate : R) (w : WeightRef)
    (i : Int) : R :=
  match ((nn.nodes node).connections i).nodePtr with
  | some prevLayerNode =>
    if ((nn.nodes node).connections i).weightPtr = w then
      learningRate * (nn.nodes prevLayerNode).output * (nn.nodes node).errorSum
    else 0
  | none => 0

/-- The value `bias + Σ target.output * weight` over the backward connections of a node
that have a target node, added up in the order of the connections. Connections with a
`NULL` target add nothing. -/
def weightedInput (nn : Network R) (node : NodeRef) : R :=
  (forRange (nn.nodes node).backwardConnCount).foldl
    (fun acc i =>
      match ((nn.nodes node).connections i).nodePtr with
      | some targetNode =>
        acc + (nn.nodes targetNode).output
          * nn.readWeight ((nn.nodes node).connections i).weightPtr
      | none => acc) (nn.nodes node).bias

/-- The value that `activateNode` stores for a node whose field `output` holds `x`. -/
def activationValue (m : Libm R) (actType : ActFctType) (x : R) : R :=
  match actType with
  | .SIGMOID => 1 / (1 + m.exp (-x))
  | .TANH => m.tanh x
  | .RELU => m.log (1 + m.pow m.M_E x)
  | .NONE => x

/-- The node at column `c` and level `n` of the layer `l` is one that the loops over the
layer process. -/
def Network.IsNode (nn : Network R) (l : Nat) (c n : Int) : Prop :=
  0 ≤ c ∧ c < (nn.layers l).columnCount ∧ 0 ≤ n ∧ n < (nn.columns l 0).nodeCount

/-- The value `Σ target.errorSum * weight` over the forward connections of a node, added up
in the order of the connections, as `calcNodeError` computes it when every forward connection
has a target node. -/
def forwardErrorSum (nn : Network R) (node : NodeRef) : R :=
  (forRange (nn.nodes node).forwardConnCount).foldl
    (fun acc c =>
      match ((nn.nodes node).connections ((nn.nodes node).backwardConnCount + c)).nodePtr with
      | some targetNode =>
        acc + (nn.nodes targetNode).errorSum
          * nn.readWeight
              ((nn.nodes node).connections ((nn.nodes node).backwardConnCount + c)).weightPtr
      | none => acc) 0

/-- The states that the loops of `backPropagateLayer` on the layer `L` go through when
they start in `s`: the structure and the outputs are those of `s`, the nodes outside the
layer are those of `s`, and so are the weights that no backward connection with a source
node of a node of the layer refers to. -/
structure BackLayerInv (s : Network R) (L : Nat) (u : Network R) : Prop where
  wiring : SameWiring s u
  output : ∀ r, (u.nodes r).output = (s.nodes r).output
  others : ∀ r, r.layer ≠ L → u.nodes r = s.nodes r
  weights : ∀ w, (∀ c n i, s.IsNode L c n → 0 ≤ i →
      i < (s.nodes (getNetworkNode L c n)).backwardConnCount →
      ((s.nodes (getNetworkNode L c n)).connections i).nodePtr ≠ none →
      ((s.nodes (getNetworkNode L c n)).connections i).weightPtr ≠ w) →
    u.readWeight w = s.readWeight w

/-- The connection `k` of the node at column `c` and level `n` of the layer `l` is a
backward connection of a node of a fully connected or output layer of the network. -/
def Network.IsFullyConnectedLink (nn : Network R) (l c n k : Int) : Prop :=
  0 ≤ l ∧ l < nn.layerCount ∧
    ((nn.layerDefOf (getNetworkLayer nn l)).layerType = LayerType.FULLY_CONNECTED
      ∨ (nn.layerDefOf (getNetworkLayer nn l)).layerType = LayerType.OUTPUT) ∧
    nn.IsNode (getNetworkLayer nn l) c n ∧ 0 ≤ k ∧
    k < (nn.nodes (getNetworkNode (getNetworkLayer nn l) c n)).backwardConnCount

end Notions

/-! ## Weight ranges -/

/-- The number of weights of the layer `i`; zero when `getLayerWeightCount` stops. -/
def weightCountOf (layerDefs : List LayerDefinition) (i : Int) : Int :=
  match getLayerWeightCount layerDefs i with
  | .ok w => w
  | .error _ => 0

/-- The sum of the weight counts of the layers before the layer `l`: the index in the
weight block at which the range of the layer `l` starts. -/
def weightRangeStart (layerDefs : List LayerDefinition) (l : Int) : Int :=
  ((forRange l).map (weightCountOf layerDefs)).sum

/-- The node maps of the first `layerCount` layer definitions have positive widths, heights
and depths. -/
def PositiveDims (layerDefs : List LayerDefinition) (layerCount : Int) : Prop :=
  ∀ d ∈ layerDefs.take layerCount.toNat,
    0 < d.nodeMap.width ∧ 0 < d.nodeMap.height ∧ 0 < d.nodeMap.depth

instance (layerDefs : List LayerDefinition) (layerCount : Int) :
    Decidable (PositiveDims layerDefs layerCount) := by
  unfold PositiveDims
  infer_instance

/-- In the state `t` every node of a layer in between has a `forwardConnCount` that is not
less than the number of the backward connections of the next layer that lead to the node
in the state `p`. -/
def HasCapacity {R : Type} (p t : Network R) : Prop :=
  ∀ l c n, 0 < l → l < p.layerCount - 1 → 0 ≤ c → c < (p.layers l.toNat).columnCount →
    0 ≤ n → n < (p.columns l.toNat c).nodeCount →
    ((backwardLinksTo p (getNetworkNode l.toNat c n) (l + 1).toNat).length : Int)
      ≤ (t.nodes (getNetworkNode l.toNat c n)).forwardConnCount

/-- The conditions on an array of layer definitions under which the nodes get room for all
their forward connections: every layer between the first and the last one is fully
connected or convolutional, and every convolutional layer is at least 2 columns wide and
has a positive filter that is narrower than the layer before it. -/
def WiringFits (defs : List LayerDefinition) (layerCount : Int) : Prop :=
  (∀ l ∈ forRange (layerCount - 1), 0 < l → ∀ d ∈ defs[l.toNat]?,
    d.layerType = LayerType.FULLY_CONNECTED ∨ d.layerType = LayerType.CONVOLUTIONAL) ∧
  (∀ l ∈ forRange layerCount, 0 < l → ∀ d ∈ defs[l.toNat]?, ∀ dp ∈ defs[(l - 1).toNat]?,
    d.layerType = LayerType.CONVOLUTIONAL →
    2 ≤ d.nodeMap.width ∧ 0 < d.filter ∧ d.filter < dp.nodeMap.width)

instance (defs : List LayerDefinition) (layerCount : Int) :
    Decidable (WiringFits defs layerCount) := by
  unfold WiringFits
  infer_instance

/-! ## Accepted layer definitions -/

/-- The conditions on one layer definition in the words of the specification: a known
kind; not all dimensions zero; depth 0 unless convolutional; for a convolutional layer a
height, a depth and a filter other than 0, a filter smaller than the width and the height
of the layer before, and not greater than `MAX_CONVOLUTIONAL_FILTER`; a known activation
unless the layer is an input layer. -/
def AcceptedLayer (layerDefs : List LayerDefinition) (i : Int) (d : LayerDefinition) :
    Prop :=
  (d.layerType = .INPUT ∨ d.layerType = .CONVOLUTIONAL ∨ d.layerType = .FULLY_CONNECTED
    ∨ d.layerType = .OUTPUT) ∧
  ¬ (d.nodeMap.width = 0 ∧ d.nodeMap.height = 0 ∧ d.nodeMap.depth = 0) ∧
  (d.layerType ≠ .CONVOLUTIONAL → d.nodeMap.depth = 0) ∧
  (d.layerType = .CONVOLUTIONAL →
    d.nodeMap.height ≠ 0 ∧ d.nodeMap.depth ≠ 0 ∧ d.filter ≠ 0 ∧
    (∀ dp, defAt layerDefs (i - 1) = Except.ok dp →
      d.filter < dp.nodeMap.width ∧ d.filter < dp.nodeMap.height) ∧
    d.filter ≤ MAX_CONVOLUTIONAL_FILTER) ∧
  (d.layerType ≠ .INPUT →
    d.activationType = .SIGMOID ∨ d.activationType = .TANH ∨ d.activationType = .RELU
      ∨ d.activationType = .NONE)

/-- The conditions on an array of layer definitions in the words of the specification: the
first layer is an input layer, the last one an output layer, and every layer is accepted. -/
def AcceptedDefinition (layerCount : Int) (layerDefs : List LayerDefinition) : Prop :=
  (∀ d, defAt layerDefs 0 = Except.ok d → d.layerType = .INPUT) ∧
  (∀ d, defAt layerDefs (layerCount - 1) = Except.ok d → d.layerType = .OUTPUT) ∧
  ∀ i d, 0 ≤ i → i < layerCount → defAt layerDefs i = Except.ok d →
    AcceptedLayer layerDefs i d

/-! ## Networks of two layers -/

/-- The state `nn` is a state of a network of two layers that `initNetwork` has built from
an input layer `d0` with one level and an output layer `d1` with the activation `NONE`;
its weights, biases, outputs and error sums are arbitrary. -/
structure TwoLayerIdentity {R : Type} [LinearOrderedField R] (abi : Abi)
    (d0 d1 : LayerDefinition) (nn : Network R) : Prop where
  input : d0.layerType = LayerType.INPUT
  inputDepth : d0.nodeMap.depth = 1
  output : d1.layerType = LayerType.OUTPUT
  identity : d1.activationType = ActFctType.NONE
  positive : PositiveDims [d0, d1] 2
  built : ∃ nn0 nnB : Network R, nn0.layerDefs = [d0, d1] ∧ nn0.layerCount = 2 ∧
    initNetwork abi nn0 2 [d0, d1] = Except.ok nnB ∧ SameWiring nnB nn

/-! ## Concrete networks -/

/-- The sizes of the structures of `dnn.h` on an LP64 machine. -/
def lp64 : Abi := ⟨40, 16, 16, 40, 48, 8, 8, 8⟩

/-- A block of memory filled with zeros. -/
def zeroMemory : Network ℚ :=
  { size := 0, learningRate := 0, weightCount := 0, weightsPtr := 0, nullWeight := 0,
    layerCount := 0, layerDefs := [],
    layers := fun _ => ⟨0, 0, 0, 0, 0⟩,
    columns := fun _ _ => ⟨0, 0, 0⟩,
    nodes := fun _ => ⟨0, 0, 0, 0, 0, 0, fun _ => ⟨none, WeightRef.nullWeight⟩⟩,
    weights := fun _ => 0 }

/-- A stand-in for `math.h` over the rationals, for running the definitions. -/
def libmQ : Libm ℚ := ⟨fun x => x, fun x => x, fun x => x, fun x _ => x, 2⟩

/-- The output layer (layer 1, two nodes) of a network whose outputs are `-2` and `-1`,
as they are after a forward pass through an output layer with activation `TANH` or `NONE`. -/
def negativeOutputs : Network ℚ :=
  { zeroMemory with
    layerCount := 2
    layerDefs := [⟨.INPUT, .SIGMOID, ⟨1, 1, 1⟩, 0⟩, ⟨.OUTPUT, .NONE, ⟨2, 1, 1⟩, 0⟩]
    layers := fun l => if l = 1 then ⟨1, 0, 1, 0, 2⟩ else ⟨0, 0, 0, 0, 1⟩
    columns := fun _ _ => ⟨0, 1, 1⟩
    nodes := fun r =>
      if r = ⟨1, 0, 0⟩ then ⟨0, -2, -2, 0, 1, 0, fun _ => ⟨some ⟨0, 0, 0⟩, WeightRef.block 0⟩⟩
      else if r = ⟨1, 1, 0⟩ then
        ⟨0, -1, -1, 0, 1, 0, fun _ => ⟨some ⟨0, 0, 0⟩, WeightRef.block 1⟩⟩
      else ⟨0, 0, 0, 0, 0, 0, fun _ => ⟨none, WeightRef.nullWeight⟩⟩ }

/-- The network that a run of the constructor returned, or the untouched memory. -/
def builtOr (x : Except Fault (Network ℚ)) : Network ℚ :=
  match x with
  | .ok nn => nn
  | .error _ => zeroMemory

def fcDefs : List LayerDefinition :=
  [⟨.INPUT, .SIGMOID, ⟨2, 1, 1⟩, 0⟩, ⟨.FULLY_CONNECTED, .SIGMOID, ⟨2, 1, 1⟩, 0⟩,
    ⟨.OUTPUT, .SIGMOID, ⟨2, 1, 1⟩, 0⟩]

def fcNet0 : Network ℚ := { zeroMemory with layerDefs := fcDefs, layerCount := 3 }

def fcNet : Network ℚ := builtOr (initNetwork lp64 fcNet0 3 fcDefs)

/-- A stand-in for `math.h` over the rationals with a positive exponential function. -/
def libmPositive : Libm ℚ := ⟨fun _ => 1, fun x => x, fun x => x, fun x _ => x, 2⟩

/-- The memory that `createNetwork` passes to `initNetwork` for `fcDefs`, with the
learning rate 1. -/
def trainNet0 : Network ℚ := { fcNet0 with learningRate := 1 }

def trainNet : Network ℚ := builtOr (initNetwork lp64 trainNet0 3 fcDefs)

/-- An input layer of 3 × 3 nodes. -/
def convInput : LayerDefinition := ⟨.INPUT, .SIGMOID, ⟨3, 3, 1⟩, 0⟩

/-- A convolutional layer of 2 × 2 columns with one node each and a filter of 2 × 2. -/
def convHidden : LayerDefinition := ⟨.CONVOLUTIONAL, .SIGMOID, ⟨2, 2, 1⟩, 2⟩

def convDefs : List LayerDefinition :=
  [convInput, convHidden, ⟨.OUTPUT, .SIGMOID, ⟨2, 1, 1⟩, 0⟩]

def convNet0 : Network ℚ := { zeroMemory with layerDefs := convDefs, layerCount := 3 }

def convNet : Network ℚ := builtOr (initNetwork lp64 convNet0 3 convDefs)

/-- An input layer, and two output layers behind it: the nodes of the layer in the middle
get no room for forward connections. -/
def abortDefs : List LayerDefinition :=
  [⟨.INPUT, .SIGMOID, ⟨2, 1, 1⟩, 0⟩, ⟨.OUTPUT, .SIGMOID, ⟨2, 1, 1⟩, 0⟩,
    ⟨.OUTPUT, .SIGMOID, ⟨2, 1, 1⟩, 0⟩]

def abortNet0 : Network ℚ := { zeroMemory with layerDefs := abortDefs, layerCount := 3 }

/-- The network of `abortDefs` after the first loop of `initNetwork`. -/
def abortPhase1 : Network ℚ :=
  builtOr ((forRange 3).foldlM (fun s l => initNetworkLayer lp64 s l abortDefs) abortNet0)

/-- A fully connected layer of 3 × 3 nodes before a convolutional layer of 2 × 2 columns
with a filter of 2 × 2: the windows of the filter cover the node in a corner once and the
node in the middle four times. -/
def poolDefs : List LayerDefinition :=
  [⟨.INPUT, .SIGMOID, ⟨2, 1, 1⟩, 0⟩, ⟨.FULLY_CONNECTED, .SIGMOID, ⟨3, 3, 1⟩, 0⟩,
    ⟨.CONVOLUTIONAL, .SIGMOID, ⟨2, 2, 1⟩, 2⟩, ⟨.OUTPUT, .SIGMOID, ⟨2, 1, 1⟩, 0⟩]

def poolNet : Network ℚ := builtOr (createNetworkStructure lp64 zeroMemory 4 poolDefs)

def poolNet0 : Network ℚ := { zeroMemory with layerDefs := poolDefs, layerCount := 4 }

/-- The network of `poolDefs` after the first loop of `initNetwork`. -/
def poolPhase1 : Network ℚ :=
  builtOr ((forRange 4).foldlM (fun s l => initNetworkLayer lp64 s l poolDefs) poolNet0)

/-- An input layer of 28 × 28 nodes and a convolutional layer of 13 × 13 columns with a
filter of 5 × 5, with layers that point at their definitions. -/
def windowNet : Network ℚ :=
  { zeroMemory with
    layerDefs := [⟨.INPUT, .SIGMOID, ⟨28, 28, 1⟩, 0⟩, ⟨.CONVOLUTIONAL, .RELU, ⟨13, 13, 1⟩, 5⟩]
    layerCount := 2
    layers := fun l => ⟨l, 0, l, 0, 0⟩ }

/-- The network of `fcDefs` after the first loop of `initNetwork`. -/
def fcPhase1 : Network ℚ :=
  builtOr ((forRange 3).foldlM (fun s l => initNetworkLayer lp64 s l fcDefs) fcNet0)

/-- An input layer with the width -3 before an output layer. -/
def negativeDefs : List LayerDefinition :=
  [⟨.INPUT, .SIGMOID, ⟨-3, 2, 0⟩, 0⟩, ⟨.OUTPUT, .SIGMOID, ⟨10, 0, 0⟩, 0⟩]

/-- The definitions `negativeDefs` after `setLayerDefinitionDefaults`: the dimensions that
were 0 are 1. -/
def negativeDefaulted : List LayerDefinition :=
  [⟨.INPUT, .SIGMOID, ⟨-3, 2, 1⟩, 0⟩, ⟨.OUTPUT, .SIGMOID, ⟨10, 1, 1⟩, 0⟩]

/-- An input layer of two nodes before an output layer with the width -1. -/
def negativeOutputDefs : List LayerDefinition :=
  [⟨.INPUT, .SIGMOID, ⟨2, 1, 0⟩, 0⟩, ⟨.OUTPUT, .SIGMOID, ⟨-1, 0, 0⟩, 0⟩]

/-- The definitions `negativeOutputDefs` after `setLayerDefinitionDefaults`. -/
def negativeOutputDefaulted : List LayerDefinition :=
  [⟨.INPUT, .SIGMOID, ⟨2, 1, 1⟩, 0⟩, ⟨.OUTPUT, .SIGMOID, ⟨-1, 1, 1⟩, 0⟩]

/-- The definitions of the convolutional network of `main.c` as they are passed to
`setLayerDefinitions`: dimensions that are not set are 0. -/
def rawDefs : List LayerDefinition :=
  [⟨.INPUT, .SIGMOID, ⟨28, 28, 0⟩, 0⟩, ⟨.CONVOLUTIONAL, .RELU, ⟨13, 13, 5⟩, 5⟩,
    ⟨.CONVOLUTIONAL, .RELU, ⟨6, 6, 5⟩, 3⟩, ⟨.OUTPUT, .RELU, ⟨10, 0, 0⟩, 0⟩]

/-- An array of layer definitions with a layer of no known kind in the middle. -/
def emptyKindDefs : List LayerDefinition :=
  [⟨.INPUT, .SIGMOID, ⟨2, 1, 1⟩, 0⟩, ⟨.EMPTY, .SIGMOID, ⟨2, 1, 1⟩, 0⟩,
    ⟨.OUTPUT, .SIGMOID, ⟨2, 1, 1⟩, 0⟩]

/-- An input layer of two nodes. -/
def identityInput : LayerDefinition := ⟨.INPUT, .SIGMOID, ⟨2, 1, 1⟩, 0⟩

/-- An output layer of two nodes with the activation `NONE`. -/
def identityOutput : LayerDefinition := ⟨.OUTPUT, .NONE, ⟨2, 1, 1⟩, 0⟩

def identityDefs : List LayerDefinition := [identityInput, identityOutput]

def identityNet0 : Network ℚ := { zeroMemory with layerDefs := identityDefs, layerCount := 2 }

def identityNet : Network ℚ := builtOr (initNetwork lp64 identityNet0 2 identityDefs)

/-- The network `identityNet` with the value 5 in all its weights. -/
def heavyNet : Network ℚ := { identityNet with weights := fun _ => 5 }

/-! ## The addresses of the nodes -/

section OffsetDefs

variable {R : Type} [LinearOrderedField R]

/-- The byte offset, from `column->nodes`, that `getColumnNode` arrives at: `nodeId` times
the node size computed from `column->maxConnCountPerNode`. -/
def getColumnNodeOffset (abi : Abi) (nn : Network R) (layer : Nat) (columnId nodeId : Int) :
    Int :=
  let nodeSize := abi.sizeofNode
    + ((nn.columns layer columnId).maxConnCountPerNode * abi.sizeofConnection)
  nodeId * nodeSize

/-- The byte offset, from the start of the network, of the node that `getNetworkNode`
returns for the layer that `getNetworkLayer` returns for `layerId`. The arrays `nn->layers`,
`layer->columns` and `column->nodes` start where the structures `Network`, `Layer` and
`Column` end. -/
def getNetworkNodeOffset (abi : Abi) (nn : Network R) (layerId columnId nodeId : Int) :
    Except Fault Int := do
  let layer := getNetworkLayer nn layerId
  let layerOffset := abi.sizeofNetwork + getNetworkLayerOffset nn layerId
  let columnOffset ← getLayerColumnOffset abi nn layer columnId
  let column := layerOffset + abi.sizeofLayer + columnOffset
  pure (column + abi.sizeofColumn + getColumnNodeOffset abi nn layer columnId nodeId)

end OffsetDefs

/-! ## The initial weights -/

/-- The values that the calls of `rand()` return one after the other, and `RAND_MAX`. -/
structure RandSource where
  RAND_MAX : Int
  rand : Nat → Int

section CreateDefs

variable {R : Type} [LinearOrderedField R]

/-- The weight `nn->weightsPtr[i]` is the weight `i` of the weight block; the node that
`getColumnNode` returns for the column `c` of the layer is the node `(layer, c, n)`. The
state of the loops is the network and the number of the calls of `rand()` made so far. -/
def initNetworkWeights (rs : RandSource) (nn : Network R) : Network R :=
  let st1 := (forRange nn.weightCount).foldl
    (fun (st : Network R × Nat) i =>
      let w := WeightRef.block i
      let s1 := st.1.writeWeight w (4 / 10 * (rs.rand st.2 : R) / (rs.RAND_MAX : R))
      let s2 := if i.tmod 2 ≠ 0 then s1.writeWeight w (-(s1.readWeight w)) else s1
      (s2, st.2 + 1)) (nn, 0)
  ((forRange nn.layerCount).foldl
    (fun (st : Network R × Nat) l =>
      let layer := getNetworkLayer st.1 l
      (forRange (st.1.layers layer).columnCount).foldl
        (fun (st : Network R × Nat) c =>
          (forRange (st.1.columns layer c).nodeCount).foldl
            (fun (st : Network R × Nat) n =>
              let node := getNetworkNode layer c n
              let s1 := st.1.setNode node
                { st.1.nodes node with bias := (rs.rand st.2 : R) / (rs.RAND_MAX : R) }
              let s2 :=
                if n.tmod 2 ≠ 0 then
                  s1.setNode node { s1.nodes node with bias := -(s1.nodes node).bias }
                else s1
              (s2, st.2 + 1)) st) st) st1).1

/-- The steps of `createNetwork` before the call of `initNetworkWeights` are the function
`createNetworkStructure`. -/
def createNetwork (rs : RandSource) (abi : Abi) (mem : Network R) (layerCount : Int)
    (layerDefs : List LayerDefinition) : Except Fault (Network R) := do
  let nn ← createNetworkStructure abi mem layerCount layerDefs
  pure (initNetworkWeights rs nn)

end CreateDefs

/-- One call of a function that the training loop and the testing loop of `main.c` apply
to the network. -/
inductive Call (R : Type) where
  | feedInput (v : Vector R)
  | feedForwardNetwork
  | backPropagateNetwork (targetClassification : Int)

section CallDefs

variable {R : Type} [LinearOrderedField R]

def runCall (m : Libm R) (nn : Network R) : Call R → Except Fault (Network R)
  | .feedInput v => feedInput nn v
  | .feedForwardNetwork => pure (feedForwardNetwork m nn)
  | .backPropagateNetwork targetClassification =>
    backPropagateNetwork m nn targetClassification

/-- The calls of a list applied one after the other. -/
def runCalls (m : Libm R) (nn : Network R) (calls : List (Call R)) :
    Except Fault (Network R) :=
  calls.foldlM (runCall m) nn

end CallDefs

/-! ## States of a constructed network -/

section ConstructedDef

variable {R : Type} [LinearOrderedField R]

/-- A state of a constructed network: the structure (the headers of the network, of the
layers and of the columns, and the sizes, connection counts and connections of the nodes) is
the one that `initNetwork` has built from the layer definitions `defs`; the outputs, error
sums, biases and weights are arbitrary. -/
def Constructed (abi : Abi) (defs : List LayerDefinition) (layerCount : Int)
    (nn : Network R) : Prop :=
  ∃ nn0 nnB : Network R, nn0.layerDefs = defs ∧ nn0.layerCount = layerCount ∧
    initNetwork abi nn0 layerCount defs = Except.ok nnB ∧ SameWiring nnB nn

end ConstructedDef

/-! ## The places of the weights of a convolutional layer -/

/-- The value of `weightPosition` in `initNetworkBackwardConnectionsConvNode`: the place,
in the weights of the layer, of the weight of the connection from the node at level
`srcLevel` to the level `tgtLevel` of the previous layer at the position `posInsideFilter`
of the filter. -/
def weightPosition (srcLevel tgtDepth filterSize tgtLevel posInsideFilter : Int) : Int :=
  (srcLevel * (tgtDepth * filterSize)) + (tgtLevel * filterSize) + posInsideFilter

/-- The index of the connection that `initNetworkBackwardConnectionsConvNode` writes for
the level `tgtLevel` of the previous layer and the position `posInsideFilter` of the
filter. -/
def connectionSlot (tgtLevel filterSize posInsideFilter : Int) : Int :=
  (tgtLevel * filterSize) + posInsideFilter

/-! ## Layer definitions that the validation accepts -/

/-- No fully connected or convolutional layer among the first `layerCount` layer
definitions is directly followed by an input layer. -/
def NoInputBehindHidden (defs : List LayerDefinition) (layerCount : Int) : Prop :=
  ∀ i ∈ forRange (layerCount - 1), ∀ d ∈ defs[i.toNat]?, ∀ dn ∈ defs[(i + 1).toNat]?,
    (d.layerType = LayerType.FULLY_CONNECTED ∨ d.layerType = LayerType.CONVOLUTIONAL) →
    dn.layerType ≠ LayerType.INPUT

instance (defs : List LayerDefinition) (layerCount : Int) :
    Decidable (NoInputBehindHidden defs layerCount) := by
  unfold NoInputBehindHidden
  infer_instance

/-- An input layer of two nodes and an output layer of one node, as they are passed to
`setLayerDefinitions`. -/
def singleOutputRaw : List LayerDefinition :=
  [⟨.INPUT, .SIGMOID, ⟨2, 1, 0⟩, 0⟩, ⟨.OUTPUT, .SIGMOID, ⟨1, 0, 0⟩, 0⟩]

/-- The definitions `singleOutputRaw` with their defaults. -/
def singleOutputDefs : List LayerDefinition :=
  [⟨.INPUT, .SIGMOID, ⟨2, 1, 1⟩, 0⟩, ⟨.OUTPUT, .SIGMOID, ⟨1, 1, 1⟩, 0⟩]

/-- An input layer in the place of a hidden layer, behind a fully connected layer. -/
def misplacedInputRaw : List LayerDefinition :=
  [⟨.INPUT, .SIGMOID, ⟨2, 1, 0⟩, 0⟩, ⟨.FULLY_CONNECTED, .SIGMOID, ⟨2, 0, 0⟩, 0⟩,
    ⟨.INPUT, .SIGMOID, ⟨2, 1, 0⟩, 0⟩, ⟨.OUTPUT, .SIGMOID, ⟨2, 0, 0⟩, 0⟩]

/-- The definitions `misplacedInputRaw` with their defaults. -/
def misplacedInputDefs : List LayerDefinition :=
  [⟨.INPUT, .SIGMOID, ⟨2, 1, 1⟩, 0⟩, ⟨.FULLY_CONNECTED, .SIGMOID, ⟨2, 1, 1⟩, 0⟩,
    ⟨.INPUT, .SIGMOID, ⟨2, 1, 1⟩, 0⟩, ⟨.OUTPUT, .SIGMOID, ⟨2, 1, 1⟩, 0⟩]

/-! ## More concrete networks -/

/-- A source of random numbers that always returns 1. -/
def constantRand : RandSource := ⟨32767, fun _ => 1⟩

/-- The network of `poolDefs` with the weights and biases that `initNetworkWeights` stores
for the source `constantRand`. -/
def poolNetWeighted : Network ℚ := initNetworkWeights constantRand poolNet

/-- The vector of the two values 1 and 0. -/
def unitVector : Vector ℚ := ⟨2, [1, 0]⟩

/-! ## The backward pass over a list of nodes -/

section BackPassDefs

variable {R : Type} [LinearOrderedField R]

/-- The amount that `updateNodeWeights(node, nn->learningRate)` adds to the weight `w` when
the node holds the error sum and the source nodes hold the outputs of the state `nn`: the
product `learningRate * source.output * node.errorSum` once for each backward connection of
the node that has a source node and refers to `w`. -/
def nodeWeightDelta (nn : Network R) (node : NodeRef) (w : WeightRef) : R :=
  ((forRange (nn.nodes node).backwardConnCount).map
    (weightDelta nn node nn.learningRate w)).sum

/-- The nodes of the layer `l`, column by column. -/
def layerNodes (nn : Network R) (l : Nat) : List NodeRef :=
  (forRange (nn.layers l).columnCount).flatMap
    (fun c => (forRange (nn.columns l 0).nodeCount).map (fun n => getNetworkNode l c n))

/-- The nodes of the layers `1` to `layerCount - 1`: all nodes but those of the input
layer. -/
def trainedNodes (nn : Network R) : List NodeRef :=
  (forwardLayerIds nn.layerCount).flatMap (fun l => layerNodes nn l.toNat)

/-- The state `u` is the state `s` after each node of the list `ps` has got an error sum
and has had its weights and its bias updated with it, once: the structure and the outputs
are those of `s`, the other nodes are those of `s`, the bias of a node of the list has
grown by `learningRate * errorSum`, and every weight has grown by the amounts
`nodeWeightDelta` of the nodes of the list, taken with the error sums that `u` holds. -/
structure BackPass (s : Network R) (ps : List NodeRef) (u : Network R) : Prop where
  wiring : SameWiring s u
  output : ∀ r, (u.nodes r).output = (s.nodes r).output
  others : ∀ r, r ∉ ps → u.nodes r = s.nodes r
  bias : ∀ p ∈ ps,
    (u.nodes p).bias = (s.nodes p).bias + s.learningRate * (u.nodes p).errorSum
  weights : ∀ w,
    u.readWeight w = s.readWeight w + (ps.map (fun p => nodeWeightDelta u p w)).sum

end BackPassDefs

/-! ## Loops -/

theorem mem_forRange {n x : Int} : x ∈ forRange n ↔ 0 ≤ x ∧ x < n := by
  unfold forRange
  constructor
  · intro h
    obtain ⟨a, ha, rfl⟩ := List.mem_map.1 h
    have := List.mem_range.1 ha
    constructor
    · exact Int.ofNat_nonneg a
    · have h2 : (a : Int) < (n.toNat : Int) := by exact_mod_cast this
      have h3 : ((n.toNat : Nat) : Int) = max n 0 := Int.toNat_eq_max n
      change (a : Int) < n
      omega
  · rintro ⟨h0, h1⟩
    refine List.mem_map.2 ⟨x.toNat, List.mem_range.2 ?_, ?_⟩
    · omega
    · change ((x.toNat : Nat) : Int) = x
      omega

theorem forRange_nodup (n : Int) : (forRange n).Nodup := by
  unfold forRange
  exact (List.nodup_range _).map (fun a b h => by injection h)

theorem forRange_of_nonpos {n : Int} (h : n ≤ 0) : forRange n = [] := by
  unfold forRange
  have : n.toNat = 0 := by omega
  rw [this]; rfl

theorem forRange_succ {n : Int} (h : 0 ≤ n) : forRange (n + 1) = forRange n ++ [n] := by
  unfold forRange
  have h1 : (n + 1).toNat = n.toNat + 1 := by omega
  rw [h1, List.range_succ, List.map_append]
  congr 1
  simp only [List.map_cons, List.map_nil]
  congr 1
  change ((n.toNat : Nat) : Int) = n
  omega

theorem forRange_length (n : Int) : ((forRange n).length : Int) = max n 0 := by
  unfold forRange
  simp only [List.length_map, List.length_range]
  omega

theorem forRange_pairwise (n : Int) : (forRange n).Pairwise (fun a b => a < b) := by
  unfold forRange
  rw [List.pairwise_map]
  exact (List.pairwise_lt_range n.toNat).imp (fun h => Int.ofNat_lt.2 h)

theorem mem_forwardLayerIds {n l : Int} : l ∈ forwardLayerIds n ↔ 0 < l ∧ l < n := by
  unfold forwardLayerIds
  rw [List.mem_filter, mem_forRange]
  simp only [decide_eq_true_eq]
  omega

/-- In the list of the layers of the forward pass, the layers before a layer are lower. -/
theorem forwardLayerIds_split {n a : Int} {pre post : List Int}
    (h : forwardLayerIds n = pre ++ a :: post) : ∀ b ∈ pre, b < a := by
  have hp : (forwardLayerIds n).Pairwise (fun a b => a < b) :=
    (forRange_pairwise n).sublist (List.filter_sublist _)
  rw [h] at hp
  intro b hb
  exact (List.pairwise_append.1 hp).2.2 b hb a (List.mem_cons_self _ _)

theorem mem_backwardLayerIds {n l : Int} : l ∈ backwardLayerIds n ↔ 0 < l ∧ l < n - 1 := by
  unfold backwardLayerIds
  rw [List.mem_reverse, List.mem_filter, mem_forRange]
  simp only [decide_eq_true_eq]
  omega

theorem backwardLayerIds_pairwise (n : Int) :
    (backwardLayerIds n).Pairwise (fun a b => b < a) := by
  unfold backwardLayerIds
  rw [List.pairwise_reverse]
  exact (forRange_pairwise (n - 1)).sublist (List.filter_sublist _)

/-- In the list of the layers of the backward pass, the layers before a layer are higher. -/
theorem backwardLayerIds_split {n a : Int} {pre post : List Int}
    (h : backwardLayerIds n = pre ++ a :: post) : ∀ b ∈ pre, a < b := by
  have hp := backwardLayerIds_pairwise n
  rw [h] at hp
  intro b hb
  exact (List.pairwise_append.1 hp).2.2 b hb a (List.mem_cons_self _ _)

/-- The part of `forRange n` before an element `a` is `forRange a`. -/
theorem forRange_split {n a : Int} {pre post : List Int} (h : forRange n = pre ++ a :: post) :
    pre = forRange a ∧ 0 ≤ a ∧ a < n := by
  have hmem : a ∈ forRange n := by rw [h]; simp
  have ha := mem_forRange.1 hmem
  refine ⟨?_, ha.1, ha.2⟩
  unfold forRange at h ⊢
  have hlen : pre.length = a.toNat := by
    have h1 : ((List.range n.toNat).map Int.ofNat)[pre.length]? = some a := by
      rw [h, List.getElem?_append_right (le_refl _)]; simp
    rw [List.getElem?_map] at h1
    have h2 : pre.length < n.toNat := by
      have := congrArg List.length h
      simp at this
      omega
    rw [List.getElem?_range h2] at h1
    simp at h1
    omega
  have h3 : pre = (((List.range n.toNat).map Int.ofNat)).take a.toNat := by
    rw [h, ← hlen]; simp
  rw [h3, ← List.map_take, List.take_range]
  congr 2
  omega

/-- An invariant of the processed part of a list holds at the end of a `foldl`. -/
theorem foldl_prefix_inv {σ α : Type} (f : σ → α → σ) (Inv : List α → σ → Prop)
    (l : List α) (s : σ) (h0 : Inv [] s)
    (hstep : ∀ pre a post t, l = pre ++ a :: post → Inv pre t → Inv (pre ++ [a]) (f t a)) :
    Inv l (l.foldl f s) := by
  have key : ∀ (post pre : List α) (t : σ), l = pre ++ post → Inv pre t →
      Inv l (post.foldl f t) := by
    intro post
    induction post with
    | nil => intro pre t hl hI; simp at hl; subst hl; simpa using hI
    | cons a post ih =>
      intro pre t hl hI
      simp only [List.foldl_cons]
      apply ih (pre ++ [a]) (f t a)
      · simp [hl]
      · exact hstep pre a post t hl hI
  exact key l [] s (by simp) h0

/-- An invariant that every step keeps holds at the end of a `foldl`. -/
theorem foldl_inv {σ α : Type} (f : σ → α → σ) (Q : σ → Prop) (l : List α) (s : σ)
    (h0 : Q s) (hstep : ∀ a t, a ∈ l → Q t → Q (f t a)) : Q (l.foldl f s) := by
  induction l generalizing s with
  | nil => simpa using h0
  | cons a l ih =>
    simp only [List.foldl_cons]
    apply ih
    · exact hstep a s (by simp) h0
    · intro b t hb ht
      exact hstep b t (by simp [hb]) ht

theorem bind_eq_ok {ε α β : Type} {x : Except ε α} {f : α → Except ε β} {b : β} :
    (x >>= f) = Except.ok b ↔ ∃ a, x = Except.ok a ∧ f a = Except.ok b := by
  cases x with
  | error e => simp [bind, Except.bind]
  | ok a => simp [bind, Except.bind]

theorem foldlM_append_ok {σ α ε : Type} (f : σ → α → Except ε σ) (l1 l2 : List α) (s s' : σ) :
    (l1 ++ l2).foldlM f s = Except.ok s' ↔
      ∃ t, l1.foldlM f s = Except.ok t ∧ l2.foldlM f t = Except.ok s' := by
  rw [List.foldlM_append]
  exact bind_eq_ok

theorem foldlM_cons_ok {σ α ε : Type} (f : σ → α → Except ε σ) (a : α) (l : List α)
    (s s' : σ) :
    (a :: l).foldlM f s = Except.ok s' ↔
      ∃ t, f s a = Except.ok t ∧ l.foldlM f t = Except.ok s' := by
  rw [List.foldlM_cons]
  exact bind_eq_ok

/-- An invariant of the processed part of a list holds at the end of a successful
`foldlM`. -/
theorem foldlM_prefix_inv {σ α ε : Type} (f : σ → α → Except ε σ)
    (Inv : List α → σ → Prop) (l : List α) (s s' : σ) (h0 : Inv [] s)
    (hstep : ∀ pre a post t t', l = pre ++ a :: post → Inv pre t → f t a = Except.ok t' →
      Inv (pre ++ [a]) t')
    (hrun : l.foldlM f s = Except.ok s') : Inv l s' := by
  have key : ∀ (post pre : List α) (t : σ), l = pre ++ post → Inv pre t →
      post.foldlM f t = Except.ok s' → Inv l s' := by
    intro post
    induction post with
    | nil =>
      intro pre t hl hI hr
      simp only [List.foldlM_nil, pure, Except.pure, Except.ok.injEq] at hr
      subst hr
      simp at hl; subst hl; exact hI
    | cons a post ih =>
      intro pre t hl hI hr
      obtain ⟨t', h1, h2⟩ := (foldlM_cons_ok f a post t s').1 hr
      apply ih (pre ++ [a]) t'
      · simp [hl]
      · exact hstep pre a post t t' hl hI h1
      · exact h2
  exact key l [] s (by simp) h0 hrun

/-- A `foldlM` all of whose steps succeed under an invariant succeeds. -/
theorem foldlM_prefix_ok {σ α ε : Type} (f : σ → α → Except ε σ)
    (Inv : List α → σ → Prop) (l : List α) (s : σ) (h0 : Inv [] s)
    (hstep : ∀ pre a post t, l = pre ++ a :: post → Inv pre t →
      ∃ t', f t a = Except.ok t' ∧ Inv (pre ++ [a]) t') :
    ∃ s', l.foldlM f s = Except.ok s' ∧ Inv l s' := by
  have key : ∀ (post pre : List α) (t : σ), l = pre ++ post → Inv pre t →
      ∃ s', post.foldlM f t = Except.ok s' ∧ Inv l s' := by
    intro post
    induction post with
    | nil =>
      intro pre t hl hI
      refine ⟨t, rfl, ?_⟩
      simp at hl; subst hl; exact hI
    | cons a post ih =>
      intro pre t hl hI
      obtain ⟨t', h1, h2⟩ := hstep pre a post t hl hI
      obtain ⟨s', h3, h4⟩ := ih (pre ++ [a]) t' (by simp [hl]) h2
      exact ⟨s', (foldlM_cons_ok f a post t s').2 ⟨t', h1, h3⟩, h4⟩
  exact key l [] s (by simp) h0

/-- A loop over distinct elements whose steps keep `Q`, establish `P a` at the element `a`
and keep `P a` at the other elements ends with `Q` and with `P a` for all its elements. -/
theorem foldl_establish {σ α : Type} (f : σ → α → σ) (l : List α) (hn : l.Nodup)
    (Q : σ → Prop) (P : α → σ → Prop) (s : σ) (hQ0 : Q s)
    (hQ : ∀ a t, a ∈ l → Q t → Q (f t a))
    (hP : ∀ a t, a ∈ l → Q t → P a (f t a))
    (hkeep : ∀ a b t, a ∈ l → b ∈ l → a ≠ b → Q t → P a t → P a (f t b)) :
    Q (l.foldl f s) ∧ ∀ a ∈ l, P a (l.foldl f s) := by
  have h := foldl_prefix_inv f (fun pre t => Q t ∧ ∀ a ∈ pre, P a t) l s
    ⟨hQ0, fun a ha => by simp at ha⟩
    (by
      intro pre a post t hl hI
      obtain ⟨hQt, hPt⟩ := hI
      have ha : a ∈ l := by rw [hl]; simp
      refine ⟨hQ a t ha hQt, ?_⟩
      intro b hb
      rcases List.mem_append.1 hb with hb1 | hb1
      · have hbl : b ∈ l := by rw [hl]; simp [hb1]
        have hne : b ≠ a := by
          rintro rfl
          rw [hl] at hn
          have := (List.nodup_append.1 hn).2.2
          exact this hb1 (List.mem_cons_self _ _)
        exact hkeep b a t hbl ha hne hQt (hPt b hb1)
      · simp at hb1; subst hb1
        exact hP b t ha hQt)
  exact h

/-- The same for a loop that can stop with a fault, when it does not. -/
theorem foldlM_establish {σ α ε : Type} (f : σ → α → Except ε σ) (l : List α)
    (hn : l.Nodup) (Q : σ → Prop) (P : α → σ → Prop) (s s' : σ) (hQ0 : Q s)
    (hQ : ∀ a t t', a ∈ l → Q t → f t a = Except.ok t' → Q t')
    (hP : ∀ a t t', a ∈ l → Q t → f t a = Except.ok t' → P a t')
    (hkeep : ∀ a b t t', a ∈ l → b ∈ l → a ≠ b → Q t → P a t → f t b = Except.ok t' →
      P a t')
    (hrun : l.foldlM f s = Except.ok s') :
    Q s' ∧ ∀ a ∈ l, P a s' := by
  have h := foldlM_prefix_inv f (fun pre t => Q t ∧ ∀ a ∈ pre, P a t) l s s'
    ⟨hQ0, fun a ha => by simp at ha⟩
    (by
      intro pre a post t t' hl hI hstep
      obtain ⟨hQt, hPt⟩ := hI
      have ha : a ∈ l := by rw [hl]; simp
      refine ⟨hQ a t t' ha hQt hstep, ?_⟩
      intro b hb
      rcases List.mem_append.1 hb with hb1 | hb1
      · have hbl : b ∈ l := by rw [hl]; simp [hb1]
        have hne : b ≠ a := by
          rintro rfl
          rw [hl] at hn
          have := (List.nodup_append.1 hn).2.2
          exact this hb1 (List.mem_cons_self _ _)
        exact hkeep b a t t' hbl ha hne hQt (hPt b hb1) hstep
      · simp at hb1; subst hb1
        exact hP b t t' ha hQt hstep) hrun
  exact h

/-- A loop that can stop with a fault does not, when its steps succeed under an invariant
that they keep. -/
theorem foldlM_ok_of_inv {σ α ε : Type} (f : σ → α → Except ε σ) (l : List α)
    (Q : σ → Prop) (s : σ) (hQ0 : Q s)
    (hstep : ∀ a t, a ∈ l → Q t → ∃ t', f t a = Except.ok t' ∧ Q t') :
    ∃ s', l.foldlM f s = Except.ok s' ∧ Q s' := by
  have h := foldlM_prefix_ok f (fun _ t => Q t) l s hQ0
    (by
      intro pre a post t hl hI
      exact hstep a t (by rw [hl]; simp) hI)
  exact h

/-- A loop that can stop with a fault, over distinct elements, whose steps succeed under
`Q`, keep `Q`, establish `P a` at the element `a` and keep `P b` at the other elements,
succeeds and ends with `Q` and with `P a` for all its elements. -/
theorem foldlM_establish_ok {σ α ε : Type} (f : σ → α → Except ε σ) (l : List α)
    (hn : l.Nodup) (Q : σ → Prop) (P : α → σ → Prop) (s : σ) (hQ0 : Q s)
    (hstep : ∀ a t, a ∈ l → Q t →
      ∃ t', f t a = Except.ok t' ∧ Q t' ∧ P a t' ∧ ∀ b ∈ l, b ≠ a → P b t → P b t') :
    ∃ s', l.foldlM f s = Except.ok s' ∧ Q s' ∧ ∀ a ∈ l, P a s' := by
  have h := foldlM_prefix_ok f (fun pre t => Q t ∧ ∀ a ∈ pre, P a t) l s
    ⟨hQ0, fun a ha => by simp at ha⟩
    (by
      intro pre a post t hl hI
      obtain ⟨hQt, hPt⟩ := hI
      have ha : a ∈ l := by rw [hl]; simp
      obtain ⟨t', h1, h2, h3, h4⟩ := hstep a t ha hQt
      refine ⟨t', h1, h2, ?_⟩
      intro b hb
      rcases List.mem_append.1 hb with hb1 | hb1
      · have hbl : b ∈ l := by rw [hl]; simp [hb1]
        have hne : b ≠ a := by
          rintro rfl
          rw [hl] at hn
          have := (List.nodup_append.1 hn).2.2
          exact this hb1 (List.mem_cons_self _ _)
        exact h4 b hbl hne (hPt b hb1)
      · simp at hb1; subst hb1
        exact h3)
  exact h

/-- An invariant that every successful step keeps holds at the end of a successful
`foldlM`. -/
theorem foldlM_inv {σ α ε : Type} (f : σ → α → Except ε σ) (Q : σ → Prop) (l : List α)
    (s s' : σ) (hQ0 : Q s) (hQ : ∀ a t t', a ∈ l → Q t → f t a = Except.ok t' → Q t')
    (hrun : l.foldlM f s = Except.ok s') : Q s' := by
  have h := foldlM_prefix_inv f (fun _ t => Q t) l s s' hQ0
    (by
      intro pre a post t t' hl hI hstep
      exact hQ a t t' (by rw [hl]; simp) hI hstep) hrun
  exact h

theorem forRange_split_length {n a : Int} {pre post : List Int}
    (h : forRange n = pre ++ a :: post) : (pre.length : Int) = a := by
  obtain ⟨h1, h2, -⟩ := forRange_split h
  rw [h1, forRange_length]
  omega

/-- The rule for a counting loop: an invariant of the counter and the state that holds at
the start and that every iteration carries from `a` to `a + 1` holds at the end. -/
theorem forRange_foldl_inv {σ : Type} (f : σ → Int → σ) (n : Int) (Inv : Int → σ → Prop)
    (s : σ) (h0 : Inv 0 s)
    (hstep : ∀ a t, 0 ≤ a → a < n → Inv a t → Inv (a + 1) (f t a)) :
    Inv (max n 0) ((forRange n).foldl f s) := by
  have h := foldl_prefix_inv f (fun pre t => Inv (pre.length : Int) t) (forRange n) s
    (by simpa using h0)
    (by
      intro pre a post t hl hI
      have hlen := forRange_split_length hl
      obtain ⟨-, ha0, ha⟩ := forRange_split hl
      simp only [List.length_append, List.length_cons, List.length_nil] at hI ⊢
      rw [hlen] at hI
      have : ((pre.length + (0 + 1) : Nat) : Int) = a + 1 := by omega
      rw [this]
      exact hstep a t ha0 ha hI)
  simp only at h
  rw [forRange_length] at h
  exact h

/-- The rule for a counting loop that can stop with a fault, when it does not. -/
theorem forRange_foldlM_inv {σ ε : Type} (f : σ → Int → Except ε σ) (n : Int)
    (Inv : Int → σ → Prop) (s s' : σ) (h0 : Inv 0 s)
    (hstep : ∀ a t t', 0 ≤ a → a < n → Inv a t → f t a = Except.ok t' → Inv (a + 1) t')
    (hrun : (forRange n).foldlM f s = Except.ok s') :
    Inv (max n 0) s' := by
  have h := foldlM_prefix_inv f (fun pre t => Inv (pre.length : Int) t) (forRange n) s s'
    (by simpa using h0)
    (by
      intro pre a post t t' hl hI hst
      have hlen := forRange_split_length hl
      obtain ⟨-, ha0, ha⟩ := forRange_split hl
      simp only [List.length_append, List.length_cons, List.length_nil] at hI ⊢
      rw [hlen] at hI
      have : ((pre.length + (0 + 1) : Nat) : Int) = a + 1 := by omega
      rw [this]
      exact hstep a t t' ha0 ha hI hst) hrun
  simp only at h
  rw [forRange_length] at h
  exact h

/-! ## Classification -/

/-- C1, evaluated where it fails: the output nodes hold `-2` and `-1`, so node 1 holds the
maximum, but `getNetworkClassification` starts its search with `maxOut = 0`, finds no
output greater than that and returns index 0, which holds a smaller output than node 1. -/
theorem getNetworkClassification_negativeOutputs :
    getNetworkClassification negativeOutputs = 0 ∧
      (negativeOutputs.nodes (getNetworkNode 1 0 0)).output
        < (negativeOutputs.nodes (getNetworkNode 1 1 0)).output := by
  have hr : forRange 2 = [0, 1] := by decide
  constructor
  · norm_num [getNetworkClassification, getNetworkLayer, getNetworkNode, negativeOutputs,
      zeroMemory, hr]
  · simp [getNetworkNode, negativeOutputs, zeroMemory]

/-! ## Reading and writing the memory -/

section MemoryLemmas

variable {R : Type}

theorem readWeight_writeWeight (nn : Network R) (w w' : WeightRef) (v : R) :
    (nn.writeWeight w v).readWeight w' = if w' = w then v else nn.readWeight w' := by
  cases w <;> cases w' <;>
    simp [Network.writeWeight, Network.readWeight, Function.update_apply]

@[simp] theorem writeWeight_nodes (nn : Network R) (w : WeightRef) (v : R) :
    (nn.writeWeight w v).nodes = nn.nodes := by
  cases w <;> rfl

@[simp] theorem writeWeight_layers (nn : Network R) (w : WeightRef) (v : R) :
    (nn.writeWeight w v).layers = nn.layers := by
  cases w <;> rfl

@[simp] theorem writeWeight_columns (nn : Network R) (w : WeightRef) (v : R) :
    (nn.writeWeight w v).columns = nn.columns := by
  cases w <;> rfl

@[simp] theorem writeWeight_layerDefs (nn : Network R) (w : WeightRef) (v : R) :
    (nn.writeWeight w v).layerDefs = nn.layerDefs := by
  cases w <;> rfl

@[simp] theorem writeWeight_layerCount (nn : Network R) (w : WeightRef) (v : R) :
    (nn.writeWeight w v).layerCount = nn.layerCount := by
  cases w <;> rfl

@[simp] theorem writeWeight_learningRate (nn : Network R) (w : WeightRef) (v : R) :
    (nn.writeWeight w v).learningRate = nn.learningRate := by
  cases w <;> rfl

@[simp] theorem writeWeight_size (nn : Network R) (w : WeightRef) (v : R) :
    (nn.writeWeight w v).size = nn.size := by
  cases w <;> rfl

@[simp] theorem writeWeight_weightCount (nn : Network R) (w : WeightRef) (v : R) :
    (nn.writeWeight w v).weightCount = nn.weightCount := by
  cases w <;> rfl

@[simp] theorem writeWeight_weightsPtr (nn : Network R) (w : WeightRef) (v : R) :
    (nn.writeWeight w v).weightsPtr = nn.weightsPtr := by
  cases w <;> rfl

@[simp] theorem writeWeight_layerDefOf (nn : Network R) (w : WeightRef) (v : R) (l : Nat) :
    (nn.writeWeight w v).layerDefOf l = nn.layerDefOf l := by
  cases w <;> rfl

theorem setNode_nodes (nn : Network R) (r r' : NodeRef) (v : Node R) :
    (nn.setNode r v).nodes r' = if r' = r then v else nn.nodes r' := by
  simp [Network.setNode, Function.update_apply]

@[simp] theorem setNode_nodes_same (nn : Network R) (r : NodeRef) (v : Node R) :
    (nn.setNode r v).nodes r = v := by
  simp [Network.setNode]

theorem setNode_nodes_ne (nn : Network R) {r r' : NodeRef} (v : Node R) (h : r' ≠ r) :
    (nn.setNode r v).nodes r' = nn.nodes r' := by
  simp [Network.setNode, Function.update_apply, h]

@[simp] theorem setNode_readWeight (nn : Network R) (r : NodeRef) (v : Node R)
    (w : WeightRef) : (nn.setNode r v).readWeight w = nn.readWeight w := by
  cases w <;> rfl

@[simp] theorem setNode_layers (nn : Network R) (r : NodeRef) (v : Node R) :
    (nn.setNode r v).layers = nn.layers := rfl

@[simp] theorem setNode_columns (nn : Network R) (r : NodeRef) (v : Node R) :
    (nn.setNode r v).columns = nn.columns := rfl

@[simp] theorem setNode_layerDefs (nn : Network R) (r : NodeRef) (v : Node R) :
    (nn.setNode r v).layerDefs = nn.layerDefs := rfl

@[simp] theorem setNode_layerCount (nn : Network R) (r : NodeRef) (v : Node R) :
    (nn.setNode r v).layerCount = nn.layerCount := rfl

@[simp] theorem setNode_learningRate (nn : Network R) (r : NodeRef) (v : Node R) :
    (nn.setNode r v).learningRate = nn.learningRate := rfl

@[simp] theorem setNode_size (nn : Network R) (r : NodeRef) (v : Node R) :
    (nn.setNode r v).size = nn.size := rfl

@[simp] theorem setNode_weightCount (nn : Network R) (r : NodeRef) (v : Node R) :
    (nn.setNode r v).weightCount = nn.weightCount := rfl

@[simp] theorem setNode_weightsPtr (nn : Network R) (r : NodeRef) (v : Node R) :
    (nn.setNode r v).weightsPtr = nn.weightsPtr := rfl

@[simp] theorem setNode_layerDefOf (nn : Network R) (r : NodeRef) (v : Node R) (l : Nat) :
    (nn.setNode r v).layerDefOf l = nn.layerDefOf l := rfl

end MemoryLemmas

section WiringLemmas

variable {R : Type}

theorem SameWiring.refl (nn : Network R) : SameWiring nn nn :=
  ⟨rfl, rfl, rfl, rfl, rfl, rfl, rfl, rfl, fun _ => rfl, fun _ => rfl, fun _ => rfl,
    fun _ => rfl⟩

theorem SameWiring.trans {a b c : Network R} (h1 : SameWiring a b) (h2 : SameWiring b c) :
    SameWiring a c :=
  ⟨h2.size.trans h1.size, h2.learningRate.trans h1.learningRate,
    h2.weightCount.trans h1.weightCount, h2.weightsPtr.trans h1.weightsPtr,
    h2.layerCount.trans h1.layerCount, h2.layerDefs.trans h1.layerDefs,
    h2.layers.trans h1.layers, h2.columns.trans h1.columns,
    fun r => (h2.nodeSize r).trans (h1.nodeSize r),
    fun r => (h2.backwardConnCount r).trans (h1.backwardConnCount r),
    fun r => (h2.forwardConnCount r).trans (h1.forwardConnCount r),
    fun r => (h2.connections r).trans (h1.connections r)⟩

theorem SameWiring.layerDefOf {a b : Network R} (h : SameWiring a b) (l : Nat) :
    b.layerDefOf l = a.layerDefOf l := by
  simp [Network.layerDefOf, h.layerDefs, h.layers]

theorem SameWiring.writeWeight (nn : Network R) (w : WeightRef) (v : R) :
    SameWiring nn (nn.writeWeight w v) := by
  constructor <;> simp

/-- Writing a node that keeps its size, its connection counts and its connections. -/
theorem SameWiring.setNode (nn : Network R) (r : NodeRef) (v : Node R)
    (h1 : v.size = (nn.nodes r).size)
    (h2 : v.backwardConnCount = (nn.nodes r).backwardConnCount)
    (h3 : v.forwardConnCount = (nn.nodes r).forwardConnCount)
    (h4 : v.connections = (nn.nodes r).connections) :
    SameWiring nn (nn.setNode r v) := by
  constructor <;> try simp
  all_goals
    intro r'
    rw [setNode_nodes]
    split
    · next h => subst h; assumption
    · rfl

end WiringLemmas

/-! ## The weight update -/

section UpdateLemmas

variable {R : Type} [LinearOrderedField R]

/-- The loop of `updateNodeWeights` over any list of connection ids: the nodes and the
structure stay as they are, and every weight grows by the sum of its `weightDelta`s. -/
theorem updateLoop_spec (node : NodeRef) (lr : R) (l : List Int) (nn : Network R) :
    let s' := l.foldl
      (fun s i =>
        match ((s.nodes node).connections i).nodePtr with
        | some prevLayerNode =>
          s.writeWeight ((s.nodes node).connections i).weightPtr
            (s.readWeight ((s.nodes node).connections i).weightPtr
              + lr * (s.nodes prevLayerNode).output * (s.nodes node).errorSum)
        | none => s) nn
    s'.nodes = nn.nodes ∧ SameWiring nn s' ∧
      ∀ w, s'.readWeight w = nn.readWeight w + (l.map (weightDelta nn node lr w)).sum := by
  induction l generalizing nn with
  | nil => simp [SameWiring.refl]
  | cons i l ih =>
    simp only [List.foldl_cons, List.map_cons, List.sum_cons]
    cases hc : ((nn.nodes node).connections i).nodePtr with
    | none =>
      simp only
      obtain ⟨h1, h2, h3⟩ := ih nn
      refine ⟨h1, h2, fun w => ?_⟩
      rw [h3 w]
      simp [weightDelta, hc]
    | some p =>
      simp only
      obtain ⟨h1, h2, h3⟩ := ih (nn.writeWeight ((nn.nodes node).connections i).weightPtr
        (nn.readWeight ((nn.nodes node).connections i).weightPtr
          + lr * (nn.nodes p).output * (nn.nodes node).errorSum))
      refine ⟨by rw [h1]; simp, (SameWiring.writeWeight _ _ _).trans h2, fun w => ?_⟩
      rw [h3 w, readWeight_writeWeight]
      have hd : weightDelta (nn.writeWeight ((nn.nodes node).connections i).weightPtr
          (nn.readWeight ((nn.nodes node).connections i).weightPtr
            + lr * (nn.nodes p).output * (nn.nodes node).errorSum)) node lr w
          = weightDelta nn node lr w := by
        funext j; simp [weightDelta]
      rw [hd]
      by_cases hw : w = ((nn.nodes node).connections i).weightPtr
      · subst hw
        simp only [weightDelta, hc, if_true]
        ring
      · have hw' : ¬ ((nn.nodes node).connections i).weightPtr = w := fun h => hw h.symm
        simp only [weightDelta, hc, hw, hw', if_false]
        ring

/-- The state after `updateNodeWeights`, field by field. -/
theorem updateNodeWeights_fields (nn : Network R) (node : NodeRef) (lr : R) :
    SameWiring nn (updateNodeWeights nn node lr) ∧
    (∀ r, ((updateNodeWeights nn node lr).nodes r).output = (nn.nodes r).output) ∧
    (∀ r, ((updateNodeWeights nn node lr).nodes r).errorSum = (nn.nodes r).errorSum) ∧
    (∀ r, r ≠ node → ((updateNodeWeights nn node lr).nodes r).bias = (nn.nodes r).bias) ∧
    ((updateNodeWeights nn node lr).nodes node).bias
      = (nn.nodes node).bias + lr * (nn.nodes node).errorSum ∧
    (∀ w, (updateNodeWeights nn node lr).readWeight w = nn.readWeight w
      + ((forRange (nn.nodes node).backwardConnCount).map (weightDelta nn node lr w)).sum) := by
  obtain ⟨h1, h2, h3⟩ := updateLoop_spec node lr (forRange (nn.nodes node).backwardConnCount) nn
  unfold updateNodeWeights
  simp only
  refine ⟨h2.trans (SameWiring.setNode _ _ _ rfl rfl rfl rfl), ?_, ?_, ?_, ?_, ?_⟩
  · intro r
    rw [setNode_nodes]
    split
    · next h => subst h; simp [h1]
    · rw [h1]
  · intro r
    rw [setNode_nodes]
    split
    · next h => subst h; simp [h1]
    · rw [h1]
  · intro r hr
    rw [setNode_nodes_ne _ _ hr, h1]
  · rw [setNode_nodes_same]
    simp [h1]
  · intro w
    rw [setNode_readWeight, h3 w]

theorem updateNodeWeights_nodes_ne (nn : Network R) (node : NodeRef) (lr : R) (r : NodeRef)
    (h : r ≠ node) : (updateNodeWeights nn node lr).nodes r = nn.nodes r := by
  obtain ⟨h1, -, -⟩ := updateLoop_spec node lr (forRange (nn.nodes node).backwardConnCount) nn
  unfold updateNodeWeights
  simp only
  rw [setNode_nodes_ne _ _ h, h1]

theorem sum_map_eq_zero {α : Type} (f : α → R) (l : List α) (h : ∀ j ∈ l, f j = 0) :
    (l.map f).sum = 0 := by
  induction l with
  | nil => simp
  | cons a l ih =>
    simp only [List.map_cons, List.sum_cons]
    rw [h a (by simp), ih (fun j hj => h j (by simp [hj]))]
    simp

theorem sum_map_eq_single {α : Type} (f : α → R) (l : List α) (i : α) (hn : l.Nodup)
    (hi : i ∈ l) (h : ∀ j ∈ l, j ≠ i → f j = 0) : (l.map f).sum = f i := by
  induction l with
  | nil => simp at hi
  | cons a l ih =>
    simp only [List.map_cons, List.sum_cons]
    rw [List.nodup_cons] at hn
    rcases List.mem_cons.1 hi with rfl | hil
    · rw [sum_map_eq_zero f l (fun j hj => h j (by simp [hj]) (fun e => hn.1 (e ▸ hj)))]
      simp
    · rw [ih hn.2 hil (fun j hj hne => h j (by simp [hj]) hne),
        h a (by simp) (fun e => hn.1 (e ▸ hil))]
      simp

/-- C3: `updateNodeWeights(node, lr)` adds to every weight `lr * source.output *
node.errorSum` once for each backward connection of the node that has a source node and
refers to that weight; so the weight of a connection with a source node that shares its
weight with no other such connection of the node grows by exactly that product; the bias
grows by `lr * node.errorSum`; and the weight that a connection without a source node refers
to keeps its value (no connection with a source node of the node refers to the same weight:
in a network that was built, connections without a source refer to the null weight and the
others to the weight block). -/
theorem updateNodeWeights_spec (nn : Network R) (node : NodeRef) (lr : R) :
    (∀ w, (updateNodeWeights nn node lr).readWeight w = nn.readWeight w
      + ((forRange (nn.nodes node).backwardConnCount).map (weightDelta nn node lr w)).sum) ∧
    (∀ i src, 0 ≤ i → i < (nn.nodes node).backwardConnCount →
      ((nn.nodes node).connections i).nodePtr = some src →
      (∀ j, 0 ≤ j → j < (nn.nodes node).backwardConnCount → j ≠ i →
        ((nn.nodes node).connections j).nodePtr ≠ none →
        ((nn.nodes node).connections j).weightPtr ≠ ((nn.nodes node).connections i).weightPtr) →
      (updateNodeWeights nn node lr).readWeight ((nn.nodes node).connections i).weightPtr
        = nn.readWeight ((nn.nodes node).connections i).weightPtr
          + lr * (nn.nodes src).output * (nn.nodes node).errorSum) ∧
    ((updateNodeWeights nn node lr).nodes node).bias
      = (nn.nodes node).bias + lr * (nn.nodes node).errorSum ∧
    (∀ i, 0 ≤ i → i < (nn.nodes node).backwardConnCount →
      ((nn.nodes node).connections i).nodePtr = none →
      (∀ j, 0 ≤ j → j < (nn.nodes node).backwardConnCount →
        ((nn.nodes node).connections j).nodePtr ≠ none →
        ((nn.nodes node).connections j).weightPtr ≠ ((nn.nodes node).connections i).weightPtr) →
      (updateNodeWeights nn node lr).readWeight ((nn.nodes node).connections i).weightPtr
        = nn.readWeight ((nn.nodes node).connections i).weightPtr) := by
  obtain ⟨-, -, -, -, hbias, hw⟩ := updateNodeWeights_fields nn node lr
  refine ⟨hw, ?_, hbias, ?_⟩
  · intro i src h0 h1 hsrc hothers
    rw [hw, sum_map_eq_single _ _ i (forRange_nodup _) (mem_forRange.2 ⟨h0, h1⟩)]
    · simp [weightDelta, hsrc]
    · intro j hj hne
      have hj' := mem_forRange.1 hj
      unfold weightDelta
      cases hc : ((nn.nodes node).connections j).nodePtr with
      | none => rfl
      | some p =>
        simp only
        rw [if_neg]
        exact hothers j hj'.1 hj'.2 hne (by simp [hc])
  · intro i h0 h1 hnone hothers
    rw [hw, sum_map_eq_zero]
    · simp
    · intro j hj
      have hj' := mem_forRange.1 hj
      unfold weightDelta
      cases hc : ((nn.nodes node).connections j).nodePtr with
      | none => rfl
      | some p =>
        simp only
        rw [if_neg]
        exact hothers j hj'.1 hj'.2 (by simp [hc])

/-- A weight that no backward connection with a source node of the node refers to keeps
its value in `updateNodeWeights`. -/
theorem updateNodeWeights_readWeight_of_untouched (nn : Network R) (node : NodeRef) (lr : R)
    (w : WeightRef)
    (h : ∀ i, 0 ≤ i → i < (nn.nodes node).backwardConnCount →
      ((nn.nodes node).connections i).nodePtr ≠ none →
      ((nn.nodes node).connections i).weightPtr ≠ w) :
    (updateNodeWeights nn node lr).readWeight w = nn.readWeight w := by
  obtain ⟨-, -, -, -, -, hw⟩ := updateNodeWeights_fields nn node lr
  rw [hw, sum_map_eq_zero]
  · simp
  · intro j hj
    have hj' := mem_forRange.1 hj
    unfold weightDelta
    cases hc : ((nn.nodes node).connections j).nodePtr with
    | none => rfl
    | some p =>
      simp only
      rw [if_neg]
      exact h j hj'.1 hj'.2 (by simp [hc])

end UpdateLemmas

/-! ## Back propagation in the output layer -/

section OutputLayer

variable {R : Type} [LinearOrderedField R]

/-- The state after the body of the loops of `backPropagateOutputLayer`. -/
theorem backPropagateOutputNode_fields (m : Libm R) (s : Network R) (ol : Nat)
    (label o n : Int) :
    SameWiring s (backPropagateOutputNode m s ol label o n) ∧
    (∀ r, ((backPropagateOutputNode m s ol label o n).nodes r).output = (s.nodes r).output) ∧
    ((backPropagateOutputNode m s ol label o n).nodes (getNetworkNode ol o n)).errorSum
      = ((if o = label then (1 : R) else 0) - (s.nodes (getNetworkNode ol o n)).output)
        * getDerivative m (s.nodes (getNetworkNode ol o n)).output
            (s.layerDefOf ol).activationType ∧
    (∀ r, r ≠ getNetworkNode ol o n →
      ((backPropagateOutputNode m s ol label o n).nodes r).errorSum = (s.nodes r).errorSum) := by
  unfold backPropagateOutputNode
  simp only
  generalize hnd : ({ s.nodes (getNetworkNode ol o n) with
      errorSum := (((if o = label then 1 else 0 : Int) : R)
        - (s.nodes (getNetworkNode ol o n)).output)
        * getDerivative m (s.nodes (getNetworkNode ol o n)).output
            (s.layerDefOf ol).activationType } : Node R) = nd
  have hsw : SameWiring s (s.setNode (getNetworkNode ol o n) nd) := by
    apply SameWiring.setNode <;> rw [← hnd]
  obtain ⟨h1, h2, h3, -, -, -⟩ := updateNodeWeights_fields
    (s.setNode (getNetworkNode ol o n) nd) (getNetworkNode ol o n)
    (s.setNode (getNetworkNode ol o n) nd).learningRate
  refine ⟨hsw.trans h1, ?_, ?_, ?_⟩
  · intro r
    rw [h2, setNode_nodes]
    split
    · next h => subst h; rw [← hnd]
    · rfl
  · rw [h3, setNode_nodes_same, ← hnd]
    simp only
    congr 2
    split <;> simp
  · intro r hr
    rw [h3, setNode_nodes_ne _ _ hr]

/-- C4: after `backPropagateOutputLayer(nn, label)` the node at column `o` and level `n` of
the output layer has `errorSum = (t - output) * getDerivative(output, activation)` with
`t = 1` if `o = label` and `t = 0` otherwise, for the output that the node holds before and
after the call; so for a label that is not the column of an output node every target
is 0. -/
theorem backPropagateOutputLayer_errorSum (m : Libm R) (nn : Network R) (label o n : Int)
    (ho0 : 0 ≤ o)
    (ho : o < (nn.layers (getNetworkLayer nn (nn.layerCount - 1))).columnCount)
    (hn0 : 0 ≤ n)
    (hn : n < (nn.columns (getNetworkLayer nn (nn.layerCount - 1)) 0).nodeCount) :
    ((backPropagateOutputLayer m nn label).nodes
        (getNetworkNode (getNetworkLayer nn (nn.layerCount - 1)) o n)).errorSum
      = ((if o = label then (1 : R) else 0)
          - (nn.nodes (getNetworkNode (getNetworkLayer nn (nn.layerCount - 1)) o n)).output)
        * getDerivative m
            (nn.nodes (getNetworkNode (getNetworkLayer nn (nn.layerCount - 1)) o n)).output
            (nn.layerDefOf (getNetworkLayer nn (nn.layerCount - 1))).activationType ∧
    ((backPropagateOutputLayer m nn label).nodes
        (getNetworkNode (getNetworkLayer nn (nn.layerCount - 1)) o n)).output
      = (nn.nodes (getNetworkNode (getNetworkLayer nn (nn.layerCount - 1)) o n)).output ∧
    ((label < 0 ∨ (nn.layers (getNetworkLayer nn (nn.layerCount - 1))).columnCount ≤ label) →
      ((backPropagateOutputLayer m nn label).nodes
          (getNetworkNode (getNetworkLayer nn (nn.layerCount - 1)) o n)).errorSum
        = (0 - (nn.nodes (getNetworkNode (getNetworkLayer nn (nn.layerCount - 1)) o n)).output)
          * getDerivative m
              (nn.nodes (getNetworkNode (getNetworkLayer nn (nn.layerCount - 1)) o n)).output
              (nn.layerDefOf (getNetworkLayer nn (nn.layerCount - 1))).activationType) := by
  generalize hol : getNetworkLayer nn (nn.layerCount - 1) = ol at *
  have key := foldl_establish
    (fun s o => (forRange (s.columns ol 0).nodeCount).foldl
      (fun s n => backPropagateOutputNode m s ol label o n) s)
    (forRange (nn.layers ol).columnCount) (forRange_nodup _)
    (fun t => SameWiring nn t ∧ ∀ r, (t.nodes r).output = (nn.nodes r).output)
    (fun o t => ∀ n, 0 ≤ n → n < (nn.columns ol 0).nodeCount →
      (t.nodes (getNetworkNode ol o n)).errorSum
        = ((if o = label then (1 : R) else 0) - (nn.nodes (getNetworkNode ol o n)).output)
          * getDerivative m (nn.nodes (getNetworkNode ol o n)).output
              (nn.layerDefOf ol).activationType)
    nn ⟨SameWiring.refl nn, fun _ => rfl⟩
    (by
      intro a t _ hQ
      apply foldl_inv _ (fun t => SameWiring nn t ∧ ∀ r, (t.nodes r).output = (nn.nodes r).output)
      · exact hQ
      · intro b u _ hu
        obtain ⟨h1, h2, -, -⟩ := backPropagateOutputNode_fields m u ol label a b
        exact ⟨hu.1.trans h1, fun r => (h2 r).trans (hu.2 r)⟩)
    (by
      intro a t _ hQ
      have hcols : (t.columns ol 0).nodeCount = (nn.columns ol 0).nodeCount := by
        rw [hQ.1.columns]
      have inner := foldl_establish
        (fun s n => backPropagateOutputNode m s ol label a n)
        (forRange (t.columns ol 0).nodeCount) (forRange_nodup _)
        (fun u => SameWiring nn u ∧ ∀ r, (u.nodes r).output = (nn.nodes r).output)
        (fun n u => (u.nodes (getNetworkNode ol a n)).errorSum
          = ((if a = label then (1 : R) else 0) - (nn.nodes (getNetworkNode ol a n)).output)
            * getDerivative m (nn.nodes (getNetworkNode ol a n)).output
                (nn.layerDefOf ol).activationType)
        t hQ
        (by
          intro b u _ hu
          obtain ⟨h1, h2, -, -⟩ := backPropagateOutputNode_fields m u ol label a b
          exact ⟨hu.1.trans h1, fun r => (h2 r).trans (hu.2 r)⟩)
        (by
          intro b u _ hu
          obtain ⟨-, -, h3, -⟩ := backPropagateOutputNode_fields m u ol label a b
          rw [h3, hu.2, hu.1.layerDefOf])
        (by
          intro b c u _ _ hbc _ hP
          obtain ⟨-, -, -, h4⟩ := backPropagateOutputNode_fields m u ol label a c
          rw [h4, hP]
          intro h
          apply hbc
          simpa [getNetworkNode] using h)
      intro n hn0 hn
      exact inner.2 n (mem_forRange.2 ⟨hn0, by rw [hcols]; exact hn⟩))
    (by
      intro a b t _ _ hab hQ hP n hn0 hn
      have inner := foldl_inv
        (fun s n' => backPropagateOutputNode m s ol label b n')
        (fun u => (u.nodes (getNetworkNode ol a n)).errorSum
          = (t.nodes (getNetworkNode ol a n)).errorSum)
        (forRange (t.columns ol 0).nodeCount) t rfl
        (by
          intro c u _ hu
          obtain ⟨-, -, -, h4⟩ := backPropagateOutputNode_fields m u ol label b c
          rw [h4, hu]
          intro h
          apply hab
          simpa [getNetworkNode] using congrArg NodeRef.column h)
      rw [inner, hP n hn0 hn])
  have herr := key.2 o (mem_forRange.2 ⟨ho0, ho⟩) n hn0 hn
  have hout := key.1.2 (getNetworkNode ol o n)
  have hdef : backPropagateOutputLayer m nn label
      = (forRange (nn.layers ol).columnCount).foldl
        (fun s o => (forRange (s.columns ol 0).nodeCount).foldl
          (fun s n => backPropagateOutputNode m s ol label o n) s) nn := by
    unfold backPropagateOutputLayer
    simp only [hol]
  rw [hdef]
  refine ⟨herr, hout, ?_⟩
  intro hlabel
  rw [herr, if_neg]
  omega

/-- The pass over the output layer keeps the structure and the outputs, and changes no
node outside the output layer. -/
theorem backPropagateOutputLayer_frame (m : Libm R) (nn : Network R) (label : Int) :
    SameWiring nn (backPropagateOutputLayer m nn label) ∧
    (∀ r, ((backPropagateOutputLayer m nn label).nodes r).output = (nn.nodes r).output) ∧
    (∀ r, r.layer ≠ getNetworkLayer nn (nn.layerCount - 1) →
      (backPropagateOutputLayer m nn label).nodes r = nn.nodes r) := by
  unfold backPropagateOutputLayer
  simp only
  generalize getNetworkLayer nn (nn.layerCount - 1) = ol
  have hnode : ∀ (u : Network R) (o n : Int),
      (SameWiring nn u ∧ (∀ r, (u.nodes r).output = (nn.nodes r).output) ∧
        ∀ r, r.layer ≠ ol → u.nodes r = nn.nodes r) →
      (SameWiring nn (backPropagateOutputNode m u ol label o n) ∧
        (∀ r, ((backPropagateOutputNode m u ol label o n).nodes r).output
          = (nn.nodes r).output) ∧
        ∀ r, r.layer ≠ ol → (backPropagateOutputNode m u ol label o n).nodes r = nn.nodes r) := by
    intro u o n hu
    obtain ⟨h1, h2, -, -⟩ := backPropagateOutputNode_fields m u ol label o n
    refine ⟨hu.1.trans h1, fun r => (h2 r).trans (hu.2.1 r), ?_⟩
    intro r hr
    have hne : r ≠ getNetworkNode ol o n := by
      intro h; apply hr; rw [h]; rfl
    unfold backPropagateOutputNode
    simp only
    rw [updateNodeWeights_nodes_ne _ _ _ _ hne, setNode_nodes_ne _ _ hne, hu.2.2 r hr]
  apply foldl_inv _ (fun u => SameWiring nn u ∧
    (∀ r, (u.nodes r).output = (nn.nodes r).output) ∧
    ∀ r, r.layer ≠ ol → u.nodes r = nn.nodes r)
  · exact ⟨SameWiring.refl nn, fun _ => rfl, fun _ _ => rfl⟩
  · intro o t _ ht
    apply foldl_inv _ (fun u => SameWiring nn u ∧
      (∀ r, (u.nodes r).output = (nn.nodes r).output) ∧
      ∀ r, r.layer ≠ ol → u.nodes r = nn.nodes r)
    · exact ht
    · intro n u _ hu
      exact hnode u o n hu

end OutputLayer

/-! ## The forward pass -/

section ForwardPass

variable {R : Type} [LinearOrderedField R]

theorem SameUpToOutputs.refl_outputs (nn : Network R) : SameUpToOutputs nn nn :=
  ⟨SameWiring.refl nn, fun _ => rfl, fun _ => rfl, rfl, rfl⟩

theorem SameUpToOutputs.trans_outputs {a b c : Network R} (h1 : SameUpToOutputs a b)
    (h2 : SameUpToOutputs b c) : SameUpToOutputs a c :=
  ⟨h1.wiring.trans h2.wiring, fun r => (h2.bias r).trans (h1.bias r),
    fun r => (h2.errorSum r).trans (h1.errorSum r), h2.weights.trans h1.weights,
    h2.nullWeight.trans h1.nullWeight⟩

theorem SameUpToOutputs.readWeight {a b : Network R} (h : SameUpToOutputs a b)
    (w : WeightRef) : b.readWeight w = a.readWeight w := by
  cases w <;> simp [Network.readWeight, h.weights, h.nullWeight]

/-- Writing the output of a node changes at most outputs. -/
theorem SameUpToOutputs.setOutput (nn : Network R) (r : NodeRef) (x : R) :
    SameUpToOutputs nn (nn.setNode r { nn.nodes r with output := x }) := by
  refine ⟨SameWiring.setNode _ _ _ rfl rfl rfl rfl, ?_, ?_, rfl, rfl⟩
  all_goals
    intro r'
    rw [setNode_nodes]
    split
    · next h => subst h; rfl
    · rfl

theorem setNode_setNode (nn : Network R) (r : NodeRef) (a b : Node R) :
    (nn.setNode r a).setNode r b = nn.setNode r b := by
  simp [Network.setNode]

theorem setNode_self (nn : Network R) (r : NodeRef) : nn.setNode r (nn.nodes r) = nn := by
  simp [Network.setNode]

theorem foldl_congr_mem {α β : Type} (f g : β → α → β) (l : List α) (b : β)
    (h : ∀ a ∈ l, ∀ x, f x a = g x a) : l.foldl f b = l.foldl g b := by
  induction l generalizing b with
  | nil => rfl
  | cons a l ih =>
    simp only [List.foldl_cons]
    rw [h a (by simp) b]
    exact ih _ (fun a' ha' x => h a' (by simp [ha']) x)

/-- The weighted input of a node is the same in two states with the same bias, connections
and weights in which the targets of the node hold the same outputs. -/
theorem weightedInput_congr (a b : Network R) (node : NodeRef)
    (hbias : (b.nodes node).bias = (a.nodes node).bias)
    (hcount : (b.nodes node).backwardConnCount = (a.nodes node).backwardConnCount)
    (hconn : (b.nodes node).connections = (a.nodes node).connections)
    (hw : ∀ w, b.readWeight w = a.readWeight w)
    (hout : ∀ i t, 0 ≤ i → i < (a.nodes node).backwardConnCount →
      ((a.nodes node).connections i).nodePtr = some t →
      (b.nodes t).output = (a.nodes t).output) :
    weightedInput b node = weightedInput a node := by
  unfold weightedInput
  rw [hbias, hcount, hconn]
  apply foldl_congr_mem
  intro i hi x
  have hi' := mem_forRange.1 hi
  cases hc : ((a.nodes node).connections i).nodePtr with
  | none => rfl
  | some t =>
    simp only
    rw [hout i t hi'.1 hi'.2 hc, hw]

/-- The loop of `calcNodeOutput` over any list of connection ids, for a node none of
whose connections in the list targets the node itself. -/
theorem calcLoop_spec (node : NodeRef) (l : List Int) (s : Network R)
    (hself : ∀ i ∈ l, ((s.nodes node).connections i).nodePtr ≠ some node) :
    l.foldl
      (fun s i =>
        match ((s.nodes node).connections i).nodePtr with
        | some targetNode =>
          let weight := s.readWeight ((s.nodes node).connections i).weightPtr
          s.setNode node
            { s.nodes node with
              output := (s.nodes node).output + (s.nodes targetNode).output * weight }
        | none => s) s
    = s.setNode node
      { s.nodes node with
        output := l.foldl
          (fun acc i =>
            match ((s.nodes node).connections i).nodePtr with
            | some targetNode =>
              acc + (s.nodes targetNode).output
                * s.readWeight ((s.nodes node).connections i).weightPtr
            | none => acc) (s.nodes node).output } := by
  induction l generalizing s with
  | nil =>
    simp only [List.foldl_nil]
    exact (setNode_self s node).symm
  | cons i l ih =>
    simp only [List.foldl_cons]
    cases hc : ((s.nodes node).connections i).nodePtr with
    | none =>
      simp only
      exact ih s (fun j hj => hself j (by simp [hj]))
    | some t =>
      simp only
      have ht : t ≠ node := by
        intro h
        exact hself i (by simp) (by rw [hc, h])
      rw [ih]
      · rw [setNode_setNode]
        simp only [setNode_nodes_same, setNode_readWeight]
        congr 2
        apply foldl_congr_mem
        intro j hj x
        cases hcj : ((s.nodes node).connections j).nodePtr with
        | none => rfl
        | some t' =>
          simp only
          have ht' : t' ≠ node := by
            intro h
            exact hself j (by simp [hj]) (by rw [hcj, h])
          rw [setNode_nodes_ne _ _ ht']
      · intro j hj
        simp only [setNode_nodes_same]
        exact hself j (by simp [hj])

/-- With no connection to itself, `calcNodeOutput` stores the weighted input. -/
theorem calcNodeOutput_eq (s : Network R) (node : NodeRef)
    (hself : ∀ i, 0 ≤ i → i < (s.nodes node).backwardConnCount →
      ((s.nodes node).connections i).nodePtr ≠ some node) :
    calcNodeOutput s node
      = s.setNode node { s.nodes node with output := weightedInput s node } := by
  unfold calcNodeOutput
  simp only
  rw [calcLoop_spec]
  · rw [setNode_setNode]
    simp only [setNode_nodes_same, setNode_readWeight]
    unfold weightedInput
    congr 2
    apply foldl_congr_mem
    intro j hj x
    have hj' := mem_forRange.1 hj
    cases hcj : ((s.nodes node).connections j).nodePtr with
    | none => rfl
    | some t' =>
      simp only
      have ht' : t' ≠ node := by
        intro h
        exact hself j hj'.1 hj'.2 (by rw [hcj, h])
      rw [setNode_nodes_ne _ _ ht']
  · intro i hi
    simp only [setNode_nodes_same] at hi ⊢
    have hi' := mem_forRange.1 hi
    exact hself i hi'.1 hi'.2

theorem activateNode_eq (m : Libm R) (s : Network R) (node : NodeRef)
    (actType : ActFctType) :
    activateNode m s node actType
      = s.setNode node
        { s.nodes node with output := activationValue m actType (s.nodes node).output } := by
  cases actType <;> simp only [activateNode, activationValue]
  exact (setNode_self s node).symm

/-- The body of the loops of `calcNetworkLayer`, for a node with no connection to itself. -/
theorem calcNetworkLayer_node (m : Libm R) (s : Network R) (node : NodeRef)
    (actType : ActFctType)
    (hself : ∀ i, 0 ≤ i → i < (s.nodes node).backwardConnCount →
      ((s.nodes node).connections i).nodePtr ≠ some node) :
    activateNode m (calcNodeOutput s node) node actType
      = s.setNode node
        { s.nodes node with output := activationValue m actType (weightedInput s node) } := by
  rw [activateNode_eq, calcNodeOutput_eq s node hself, setNode_setNode]
  simp only [setNode_nodes_same]

/-- One layer of the forward pass, for a layer whose nodes have no backward connection
into the layer itself: only outputs of the layer change, and every node of the layer gets
the activation of its weighted input. -/
theorem calcNetworkLayer_spec (m : Libm R) (s : Network R) (L : Nat)
    (hw : ∀ c n i t, 0 ≤ c → c < (s.layers L).columnCount → 0 ≤ n →
      n < (s.columns L 0).nodeCount → 0 ≤ i →
      i < (s.nodes (getNetworkNode L c n)).backwardConnCount →
      ((s.nodes (getNetworkNode L c n)).connections i).nodePtr = some t → t.layer ≠ L) :
    SameUpToOutputs s (calcNetworkLayer m s L) ∧
    (∀ r, r.layer ≠ L → ((calcNetworkLayer m s L).nodes r).output = (s.nodes r).output) ∧
    (∀ c n, 0 ≤ c → c < (s.layers L).columnCount → 0 ≤ n → n < (s.columns L 0).nodeCount →
      ((calcNetworkLayer m s L).nodes (getNetworkNode L c n)).output
        = activationValue m (s.layerDefOf L).activationType
            (weightedInput s (getNetworkNode L c n))) := by
  have hstep : ∀ (u : Network R) (c n : Int),
      (SameUpToOutputs s u ∧ ∀ r, r.layer ≠ L → (u.nodes r).output = (s.nodes r).output) →
      0 ≤ c → c < (s.layers L).columnCount → 0 ≤ n → n < (s.columns L 0).nodeCount →
      activateNode m (calcNodeOutput u (getNetworkNode L c n)) (getNetworkNode L c n)
          (u.layerDefOf L).activationType
        = u.setNode (getNetworkNode L c n)
          { u.nodes (getNetworkNode L c n) with
            output := activationValue m (s.layerDefOf L).activationType
              (weightedInput s (getNetworkNode L c n)) } := by
    intro u c n hQ hc0 hc hn0 hn
    have htgt : ∀ i t, 0 ≤ i → i < (s.nodes (getNetworkNode L c n)).backwardConnCount →
        ((s.nodes (getNetworkNode L c n)).connections i).nodePtr = some t → t.layer ≠ L :=
      fun i t hi0 hi ht => hw c n i t hc0 hc hn0 hn hi0 hi ht
    have hwi : weightedInput u (getNetworkNode L c n)
        = weightedInput s (getNetworkNode L c n) := by
      apply weightedInput_congr
      · exact hQ.1.bias _
      · exact hQ.1.wiring.backwardConnCount _
      · exact hQ.1.wiring.connections _
      · exact hQ.1.readWeight
      · intro i t hi0 hi ht
        exact hQ.2 t (htgt i t hi0 hi ht)
    rw [calcNetworkLayer_node, hQ.1.wiring.layerDefOf, hwi]
    · intro i hi0 hi hc'
      rw [hQ.1.wiring.backwardConnCount] at hi
      rw [hQ.1.wiring.connections] at hc'
      exact htgt i _ hi0 hi hc' rfl
  have hQstep : ∀ (u : Network R) (c n : Int),
      (SameUpToOutputs s u ∧ ∀ r, r.layer ≠ L → (u.nodes r).output = (s.nodes r).output) →
      0 ≤ c → c < (s.layers L).columnCount → 0 ≤ n → n < (s.columns L 0).nodeCount →
      (SameUpToOutputs s (activateNode m (calcNodeOutput u (getNetworkNode L c n))
          (getNetworkNode L c n) (u.layerDefOf L).activationType) ∧
        ∀ r, r.layer ≠ L →
          ((activateNode m (calcNodeOutput u (getNetworkNode L c n))
            (getNetworkNode L c n) (u.layerDefOf L).activationType).nodes r).output
          = (s.nodes r).output) := by
    intro u c n hQ hc0 hc hn0 hn
    rw [hstep u c n hQ hc0 hc hn0 hn]
    refine ⟨hQ.1.trans_outputs (SameUpToOutputs.setOutput _ _ _), ?_⟩
    intro r hr
    rw [setNode_nodes_ne, hQ.2 r hr]
    intro h
    apply hr
    rw [h]
    rfl
  have key := foldl_establish
    (fun s' c => (forRange (s'.columns L 0).nodeCount).foldl
      (fun s'' n =>
        let node := getNetworkNode L c n
        activateNode m (calcNodeOutput s'' node) node (s''.layerDefOf L).activationType) s')
    (forRange (s.layers L).columnCount) (forRange_nodup _)
    (fun t => SameUpToOutputs s t ∧ ∀ r, r.layer ≠ L → (t.nodes r).output = (s.nodes r).output)
    (fun c t => ∀ n, 0 ≤ n → n < (s.columns L 0).nodeCount →
      (t.nodes (getNetworkNode L c n)).output
        = activationValue m (s.layerDefOf L).activationType
            (weightedInput s (getNetworkNode L c n)))
    s ⟨SameUpToOutputs.refl_outputs s, fun _ _ => rfl⟩
    (by
      intro c t hcm hQ
      have hc' := mem_forRange.1 hcm
      have hcols : (t.columns L 0).nodeCount = (s.columns L 0).nodeCount := by
        rw [hQ.1.wiring.columns]
      apply foldl_inv _ (fun t => SameUpToOutputs s t ∧
        ∀ r, r.layer ≠ L → (t.nodes r).output = (s.nodes r).output)
      · exact hQ
      · intro n u hnm hu
        have hn' := mem_forRange.1 hnm
        exact hQstep u c n hu hc'.1 hc'.2 hn'.1 (by rw [← hcols]; exact hn'.2))
    (by
      intro c t hcm hQ
      have hc' := mem_forRange.1 hcm
      have hcols : (t.columns L 0).nodeCount = (s.columns L 0).nodeCount := by
        rw [hQ.1.wiring.columns]
      have inner := foldl_establish
        (fun s'' n =>
          let node := getNetworkNode L c n
          activateNode m (calcNodeOutput s'' node) node (s''.layerDefOf L).activationType)
        (forRange (t.columns L 0).nodeCount) (forRange_nodup _)
        (fun t => SameUpToOutputs s t ∧
          ∀ r, r.layer ≠ L → (t.nodes r).output = (s.nodes r).output)
        (fun n u => (u.nodes (getNetworkNode L c n)).output
          = activationValue m (s.layerDefOf L).activationType
              (weightedInput s (getNetworkNode L c n)))
        t hQ
        (by
          intro n u hnm hu
          have hn' := mem_forRange.1 hnm
          exact hQstep u c n hu hc'.1 hc'.2 hn'.1 (by rw [← hcols]; exact hn'.2))
        (by
          intro n u hnm hu
          have hn' := mem_forRange.1 hnm
          simp only
          rw [hstep u c n hu hc'.1 hc'.2 hn'.1 (by rw [← hcols]; exact hn'.2),
            setNode_nodes_same])
        (by
          intro n n' u hnm hnm' hne hu hP
          have hn' := mem_forRange.1 hnm'
          simp only
          rw [hstep u c n' hu hc'.1 hc'.2 hn'.1 (by rw [← hcols]; exact hn'.2),
            setNode_nodes_ne, hP]
          intro h
          apply hne
          simpa [getNetworkNode] using h)
      intro n hn0 hn
      exact inner.2 n (mem_forRange.2 ⟨hn0, by rw [hcols]; exact hn⟩))
    (by
      intro c c' t hcm hcm' hne hQ hP n hn0 hn
      have hc' := mem_forRange.1 hcm'
      have hcols : (t.columns L 0).nodeCount = (s.columns L 0).nodeCount := by
        rw [hQ.1.wiring.columns]
      have inner := foldl_inv
        (fun s'' n' =>
          let node := getNetworkNode L c' n'
          activateNode m (calcNodeOutput s'' node) node (s''.layerDefOf L).activationType)
        (fun u => (SameUpToOutputs s u ∧
            ∀ r, r.layer ≠ L → (u.nodes r).output = (s.nodes r).output) ∧
          (u.nodes (getNetworkNode L c n)).output = (t.nodes (getNetworkNode L c n)).output)
        (forRange (t.columns L 0).nodeCount) t ⟨hQ, rfl⟩
        (by
          intro n' u hnm hu
          have hn' := mem_forRange.1 hnm
          refine ⟨hQstep u c' n' hu.1 hc'.1 hc'.2 hn'.1 (by rw [← hcols]; exact hn'.2), ?_⟩
          simp only
          rw [hstep u c' n' hu.1 hc'.1 hc'.2 hn'.1 (by rw [← hcols]; exact hn'.2),
            setNode_nodes_ne, hu.2]
          intro h
          apply hne
          simpa [getNetworkNode] using congrArg NodeRef.column h)
      rw [inner.2, hP n hn0 hn])
  refine ⟨key.1.1, key.1.2, ?_⟩
  intro c n hc0 hc hn0 hn
  exact key.2 c (mem_forRange.2 ⟨hc0, hc⟩) n hn0 hn

/-- C2: in a network in which the backward connections of the nodes of every layer after
the first one lead to nodes of lower layers, after `feedForwardNetwork` the output of every
node of such a layer is the activation function of the layer applied to `bias + Σ
target.output * weight` over the backward connections with a target node (connections with
a `NULL` target add nothing), where bias, weights and the outputs of the targets are those
of the network after the pass; biases, weights, error sums and the structure are those from
before the pass. -/
theorem feedForwardNetwork_output (m : Libm R) (nn : Network R) (l : Nat) (c n : Int)
    (hwired : ∀ (l' : Nat) (c' n' i : Int) (t : NodeRef), 0 < l' → (l' : Int) < nn.layerCount →
      0 ≤ c' → c' < (nn.layers l').columnCount → 0 ≤ n' → n' < (nn.columns l' 0).nodeCount →
      0 ≤ i → i < (nn.nodes (getNetworkNode l' c' n')).backwardConnCount →
      ((nn.nodes (getNetworkNode l' c' n')).connections i).nodePtr = some t → t.layer < l')
    (hl0 : 0 < l) (hl : (l : Int) < nn.layerCount)
    (hc0 : 0 ≤ c) (hc : c < (nn.layers l).columnCount)
    (hn0 : 0 ≤ n) (hn : n < (nn.columns l 0).nodeCount) :
    ((feedForwardNetwork m nn).nodes (getNetworkNode l c n)).output
      = activationValue m (nn.layerDefOf l).activationType
          (weightedInput (feedForwardNetwork m nn) (getNetworkNode l c n)) ∧
    SameUpToOutputs nn (feedForwardNetwork m nn) := by
  have key := foldl_prefix_inv
    (fun s l => calcNetworkLayer m s (getNetworkLayer s l))
    (fun pre t => SameUpToOutputs nn t ∧ ∀ a ∈ pre, ∀ c n, 0 ≤ c →
      c < (nn.layers a.toNat).columnCount → 0 ≤ n → n < (nn.columns a.toNat 0).nodeCount →
      (t.nodes (getNetworkNode a.toNat c n)).output
        = activationValue m (nn.layerDefOf a.toNat).activationType
            (weightedInput t (getNetworkNode a.toNat c n)))
    (forwardLayerIds nn.layerCount) nn
    ⟨SameUpToOutputs.refl_outputs nn, fun a ha => by simp at ha⟩
    (by
      intro pre a post t hsplit hI
      obtain ⟨hS, hP⟩ := hI
      have ha : a ∈ forwardLayerIds nn.layerCount := by rw [hsplit]; simp
      have ha' := mem_forwardLayerIds.1 ha
      have hlt := forwardLayerIds_split hsplit
      have hanat : ((a.toNat : Nat) : Int) = a := by omega
      have hapos : 0 < a.toNat := by omega
      -- the targets of the nodes of a layer `b` lie below `b`, in `nn` and in `t`
      have htgt : ∀ (u : Network R), SameUpToOutputs nn u → ∀ (b : Nat) (c n i : Int)
          (x : NodeRef), 0 < b → (b : Int) < nn.layerCount → 0 ≤ c →
          c < (u.layers b).columnCount → 0 ≤ n → n < (u.columns b 0).nodeCount → 0 ≤ i →
          i < (u.nodes (getNetworkNode b c n)).backwardConnCount →
          ((u.nodes (getNetworkNode b c n)).connections i).nodePtr = some x →
          x.layer < b := by
        intro u hu b c n i x hb0 hb hc0 hc hn0 hn hi0 hi hx
        rw [hu.wiring.layers] at hc
        rw [hu.wiring.columns] at hn
        rw [hu.wiring.backwardConnCount] at hi
        rw [hu.wiring.connections] at hx
        exact hwired b c n i x hb0 hb hc0 hc hn0 hn hi0 hi hx
      obtain ⟨h1, h2, h3⟩ := calcNetworkLayer_spec m t a.toNat
        (by
          intro c n i x hc0 hc hn0 hn hi0 hi hx
          have := htgt t hS a.toNat c n i x hapos (by omega) hc0 hc hn0 hn hi0 hi hx
          omega)
      have hS' : SameUpToOutputs nn (calcNetworkLayer m t a.toNat) := hS.trans_outputs h1
      -- the weighted input of a node at or below layer `a` is not changed by the step
      have hwi : ∀ (b : Nat) (c n : Int), 0 < b → b ≤ a.toNat → 0 ≤ c →
          c < (nn.layers b).columnCount → 0 ≤ n → n < (nn.columns b 0).nodeCount →
          weightedInput (calcNetworkLayer m t a.toNat) (getNetworkNode b c n)
            = weightedInput t (getNetworkNode b c n) := by
        intro b c n hb0 hb hc0 hc hn0 hn
        apply weightedInput_congr
        · exact h1.bias _
        · exact h1.wiring.backwardConnCount _
        · exact h1.wiring.connections _
        · exact h1.readWeight
        · intro i x hi0 hi hx
          apply h2
          have := htgt t hS b c n i x hb0 (by omega) hc0
            (by rw [hS.wiring.layers]; exact hc) hn0
            (by rw [hS.wiring.columns]; exact hn) hi0 hi hx
          omega
      refine ⟨hS', ?_⟩
      intro b hb c n hc0 hc hn0 hn
      rcases List.mem_append.1 hb with hb1 | hb1
      · have hba := hlt b hb1
        have hbm : b ∈ forwardLayerIds nn.layerCount := by rw [hsplit]; simp [hb1]
        have hb' := mem_forwardLayerIds.1 hbm
        simp only [getNetworkLayer]
        rw [h2 _ (by simp only [getNetworkNode]; omega), hP b hb1 c n hc0 hc hn0 hn,
          hwi b.toNat c n (by omega) (by omega) hc0 hc hn0 hn]
      · simp at hb1
        subst hb1
        simp only [getNetworkLayer]
        rw [h3 c n hc0 (by rw [hS.wiring.layers]; exact hc) hn0
          (by rw [hS.wiring.columns]; exact hn),
          hwi b.toNat c n hapos (le_refl _) hc0 hc hn0 hn, hS.wiring.layerDefOf])
  have hmem : (l : Int) ∈ forwardLayerIds nn.layerCount :=
    mem_forwardLayerIds.2 ⟨by omega, hl⟩
  have hres := key.2 (l : Int) hmem c n hc0 (by simpa using hc) hn0 (by simpa using hn)
  simp only [Int.toNat_ofNat] at hres
  exact ⟨hres, key.1⟩

end ForwardPass

/-! ## Passes over lists of nodes -/

section LayerNodes

variable {R : Type}

theorem layerNodes_congr {a b : Network R} (h : SameWiring a b) (l : Nat) :
    layerNodes b l = layerNodes a l := by
  unfold layerNodes
  rw [h.layers, h.columns]

theorem mem_layerNodes {nn : Network R} {l : Nat} {p : NodeRef} :
    p ∈ layerNodes nn l ↔ p.layer = l ∧ nn.IsNode l p.column p.node := by
  unfold layerNodes Network.IsNode getNetworkNode
  simp only [List.mem_flatMap, List.mem_map, mem_forRange]
  constructor
  · rintro ⟨c, hc, n, hn, rfl⟩
    exact ⟨rfl, hc.1, hc.2, hn.1, hn.2⟩
  · rintro ⟨hl, hc0, hc, hn0, hn⟩
    refine ⟨p.column, ⟨hc0, hc⟩, p.node, ⟨hn0, hn⟩, ?_⟩
    cases p
    simp only at hl
    subst hl
    rfl

theorem layerNodes_nodup (nn : Network R) (l : Nat) : (layerNodes nn l).Nodup := by
  unfold layerNodes
  rw [List.nodup_flatMap]
  constructor
  · intro c _
    apply (forRange_nodup _).map
    intro a b h
    simpa [getNetworkNode] using h
  · apply (forRange_nodup _).imp
    intro a b hab
    simp only [Function.onFun]
    rw [List.disjoint_left]
    intro p hp hq
    obtain ⟨n1, -, rfl⟩ := List.mem_map.1 hp
    obtain ⟨n2, -, h2⟩ := List.mem_map.1 hq
    apply hab
    simp only [getNetworkNode, NodeRef.mk.injEq] at h2
    exact h2.2.1.symm

theorem mem_trainedNodes {nn : Network R} {p : NodeRef} :
    p ∈ trainedNodes nn ↔
      0 < p.layer ∧ (p.layer : Int) < nn.layerCount ∧ nn.IsNode p.layer p.column p.node := by
  unfold trainedNodes
  simp only [List.mem_flatMap, mem_forwardLayerIds, mem_layerNodes]
  constructor
  · rintro ⟨l, ⟨hl0, hl⟩, hpl, hn⟩
    rw [hpl]
    exact ⟨by omega, by omega, hn⟩
  · rintro ⟨h0, h1, hn⟩
    exact ⟨(p.layer : Int), ⟨by omega, h1⟩, by simp, by simpa using hn⟩

theorem trainedNodes_nodup (nn : Network R) : (trainedNodes nn).Nodup := by
  unfold trainedNodes
  rw [List.nodup_flatMap]
  constructor
  · intro l _
    exact layerNodes_nodup nn _
  · have hnd : (forwardLayerIds nn.layerCount).Nodup := by
      unfold forwardLayerIds
      exact (forRange_nodup _).filter _
    have hpw : (forwardLayerIds nn.layerCount).Pairwise
        (fun a b => 0 < a ∧ 0 < b ∧ a ≠ b) := by
      rw [List.pairwise_iff_forall_sublist]
      intro a b hab
      have ha : a ∈ forwardLayerIds nn.layerCount := hab.subset (by simp)
      have hb : b ∈ forwardLayerIds nn.layerCount := hab.subset (by simp)
      refine ⟨(mem_forwardLayerIds.1 ha).1, (mem_forwardLayerIds.1 hb).1, ?_⟩
      exact (List.pairwise_iff_forall_sublist.1 hnd) hab
    apply hpw.imp
    intro a b hab
    simp only [Function.onFun]
    rw [List.disjoint_left]
    intro p hp hq
    have h1 := (mem_layerNodes.1 hp).1
    have h2 := (mem_layerNodes.1 hq).1
    omega

end LayerNodes

section BackPassLemmas

variable {R : Type} [LinearOrderedField R]

theorem weightDelta_congr (a b : Network R) (p : NodeRef) (lr : R) (w : WeightRef) (i : Int)
    (hc : (b.nodes p).connections = (a.nodes p).connections)
    (ho : ∀ r, (b.nodes r).output = (a.nodes r).output)
    (he : (b.nodes p).errorSum = (a.nodes p).errorSum) :
    weightDelta b p lr w i = weightDelta a p lr w i := by
  unfold weightDelta
  rw [hc, he]
  cases ((a.nodes p).connections i).nodePtr with
  | none => rfl
  | some q => simp only [ho]

/-- The amount that a node adds to a weight is the same in two states with the same
structure and outputs in which the node holds the same error sum. -/
theorem nodeWeightDelta_congr (a b : Network R) (p : NodeRef) (w : WeightRef)
    (hw : SameWiring a b) (ho : ∀ r, (b.nodes r).output = (a.nodes r).output)
    (he : (b.nodes p).errorSum = (a.nodes p).errorSum) :
    nodeWeightDelta b p w = nodeWeightDelta a p w := by
  unfold nodeWeightDelta
  rw [hw.backwardConnCount, hw.learningRate]
  congr 1
  apply List.map_congr_left
  intro i _
  exact weightDelta_congr a b p _ w i (hw.connections p) ho he

theorem BackPass.nil_pass (s : Network R) : BackPass s [] s :=
  ⟨SameWiring.refl s, fun _ => rfl, fun _ _ => rfl, fun _ h => absurd h (List.not_mem_nil _),
    fun _ => by simp⟩

/-- Two passes over lists of nodes without a common node, one after the other. -/
theorem BackPass.append_pass {s t u : Network R} {ps qs : List NodeRef}
    (h1 : BackPass s ps t) (h2 : BackPass t qs u) (hd : ∀ p ∈ ps, p ∉ qs) :
    BackPass s (ps ++ qs) u := by
  refine ⟨h1.wiring.trans h2.wiring, fun r => (h2.output r).trans (h1.output r), ?_, ?_, ?_⟩
  · intro r hr
    rw [List.mem_append, not_or] at hr
    rw [h2.others r hr.2, h1.others r hr.1]
  · intro p hp
    rcases List.mem_append.1 hp with hp1 | hp2
    · rw [h2.others p (hd p hp1)]
      exact h1.bias p hp1
    · have hnp : p ∉ ps := fun h => hd p h hp2
      rw [h2.bias p hp2, h1.others p hnp, h1.wiring.learningRate]
  · intro w
    rw [h2.weights w, h1.weights w, List.map_append, List.sum_append, add_assoc]
    congr 2
    congr 1
    apply List.map_congr_left
    intro p hp
    symm
    apply nodeWeightDelta_congr t u p w h2.wiring h2.output
    rw [h2.others p (hd p hp)]

/-- A pass over a list of nodes is a pass over every list with the same nodes. -/
theorem BackPass.perm_pass {s u : Network R} {ps qs : List NodeRef}
    (h : BackPass s ps u) (hp : ps.Perm qs) : BackPass s qs u := by
  refine ⟨h.wiring, h.output, ?_, ?_, ?_⟩
  · intro r hr
    exact h.others r (fun hm => hr (hp.mem_iff.1 hm))
  · intro p hm
    exact h.bias p (hp.mem_iff.2 hm)
  · intro w
    rw [h.weights w]
    congr 1
    exact (hp.map _).sum_eq

/-- Storing an error sum in a node and updating its weights is a pass over that node. -/
theorem backPass_node (s : Network R) (node : NodeRef) (e : R) :
    BackPass s [node]
      (updateNodeWeights (s.setNode node { s.nodes node with errorSum := e }) node
        (s.setNode node { s.nodes node with errorSum := e }).learningRate) := by
  generalize hnd : ({ s.nodes node with errorSum := e } : Node R) = nd
  have hsw : SameWiring s (s.setNode node nd) := by
    apply SameWiring.setNode <;> rw [← hnd]
  obtain ⟨h1, h2, h3, -, h5, h6⟩ := updateNodeWeights_fields (s.setNode node nd) node
    (s.setNode node nd).learningRate
  have hlr : (s.setNode node nd).learningRate = s.learningRate := rfl
  refine ⟨hsw.trans h1, ?_, ?_, ?_, ?_⟩
  · intro r
    rw [h2, setNode_nodes]
    split
    · next h => subst h; rw [← hnd]
    · rfl
  · intro r hr
    have hne : r ≠ node := by simpa using hr
    rw [updateNodeWeights_nodes_ne _ _ _ _ hne, setNode_nodes_ne _ _ hne]
  · intro p hp
    have hpn : p = node := by simpa using hp
    subst hpn
    rw [h5, h3, setNode_nodes_same, hlr, ← hnd]
  · intro w
    rw [h6, setNode_readWeight, List.map_cons, List.map_nil, List.sum_cons, List.sum_nil,
      add_zero]
    congr 1
    rw [nodeWeightDelta_congr (s.setNode node nd) _ node w h1 h2 (h3 node)]
    rfl

/-- The body of the loops of `backPropagateOutputLayer` is a pass over its node. -/
theorem backPropagateOutputNode_pass (m : Libm R) (s : Network R) (ol : Nat)
    (label o n : Int) :
    BackPass s [getNetworkNode ol o n] (backPropagateOutputNode m s ol label o n) := by
  unfold backPropagateOutputNode
  exact backPass_node s _ _

/-- The body of the loops of `backPropagateLayer` is a pass over its node. -/
theorem backPropagateLayerNode_pass (m : Libm R) (s u : Network R) (L : Nat) (c n : Int)
    (h : backPropagateLayerNode m s L c n = Except.ok u) :
    BackPass s [getNetworkNode L c n] u := by
  unfold backPropagateLayerNode at h
  obtain ⟨e, -, h⟩ := bind_eq_ok.1 h
  simp only [pure, Except.pure, Except.ok.injEq] at h
  rw [← h]
  exact backPass_node s _ _

/-- A loop whose steps are passes over lists of nodes without common nodes is a pass over
all these nodes. -/
theorem backPass_foldlM {α : Type} (f : Network R → α → Except Fault (Network R))
    (nodes : α → List NodeRef) (l : List α)
    (hdisj : l.Pairwise (fun a b => ∀ p ∈ nodes a, p ∉ nodes b)) (s s' : Network R)
    (hstep : ∀ a ∈ l, ∀ t t', SameWiring s t → f t a = Except.ok t' →
      BackPass t (nodes a) t')
    (h : l.foldlM f s = Except.ok s') : BackPass s (l.flatMap nodes) s' := by
  induction l generalizing s with
  | nil =>
    simp only [List.foldlM_nil, pure, Except.pure, Except.ok.injEq] at h
    rw [← h]
    exact BackPass.nil_pass s
  | cons a l ih =>
    obtain ⟨t, h1, h2⟩ := (foldlM_cons_ok _ a l _ s').1 h
    rw [List.pairwise_cons] at hdisj
    have p1 := hstep a (List.mem_cons_self _ _) s t (SameWiring.refl s) h1
    have p2 := ih hdisj.2 t
      (fun b hb u u' hw hf => hstep b (List.mem_cons_of_mem _ hb) u u' (p1.wiring.trans hw) hf)
      h2
    rw [List.flatMap_cons]
    apply p1.append_pass p2
    intro p hp hq
    obtain ⟨b, hb, hpb⟩ := List.mem_flatMap.1 hq
    exact hdisj.1 b hb p hp hpb

theorem backPass_foldl {α : Type} (f : Network R → α → Network R)
    (nodes : α → List NodeRef) (l : List α)
    (hdisj : l.Pairwise (fun a b => ∀ p ∈ nodes a, p ∉ nodes b)) (s : Network R)
    (hstep : ∀ a ∈ l, ∀ t, SameWiring s t → BackPass t (nodes a) (f t a)) :
    BackPass s (l.flatMap nodes) (l.foldl f s) := by
  induction l generalizing s with
  | nil => exact BackPass.nil_pass s
  | cons a l ih =>
    rw [List.pairwise_cons] at hdisj
    have p1 := hstep a (List.mem_cons_self _ _) s (SameWiring.refl s)
    have p2 := ih hdisj.2 (f s a)
      (fun b hb u hw => hstep b (List.mem_cons_of_mem _ hb) u (p1.wiring.trans hw))
    rw [List.flatMap_cons, List.foldl_cons]
    apply p1.append_pass p2
    intro p hp hq
    obtain ⟨b, hb, hpb⟩ := List.mem_flatMap.1 hq
    exact hdisj.1 b hb p hp hpb

theorem flatMap_singleton_map {α β : Type} (f : α → β) (l : List α) :
    l.flatMap (fun a => [f a]) = l.map f := by
  induction l with
  | nil => rfl
  | cons a l ih => rw [List.flatMap_cons, ih]; rfl

/-- The loops of `backPropagateLayer` are a pass over the nodes of the layer. -/
theorem backPropagateLayer_pass (m : Libm R) (s s' : Network R) (L : Nat)
    (h : backPropagateLayer m s (L : Int) = Except.ok s') :
    BackPass s (layerNodes s L) s' := by
  unfold backPropagateLayer at h
  simp only [getNetworkLayer, Int.toNat_ofNat] at h
  unfold layerNodes
  refine backPass_foldlM _
    (fun c => (forRange (s.columns L 0).nodeCount).map (fun n => getNetworkNode L c n))
    _ ?_ s s' ?_ h
  · apply (forRange_nodup _).imp
    intro a b hab p hp hq
    obtain ⟨n1, -, rfl⟩ := List.mem_map.1 hp
    obtain ⟨n2, -, h2⟩ := List.mem_map.1 hq
    apply hab
    simp only [getNetworkNode, NodeRef.mk.injEq] at h2
    exact h2.2.1.symm
  · intro c _ t t' hw hrun
    rw [hw.columns] at hrun
    show BackPass t ((forRange (s.columns L 0).nodeCount).map (fun n => getNetworkNode L c n)) t'
    rw [← flatMap_singleton_map]
    refine backPass_foldlM _ (fun n => [getNetworkNode L c n]) _ ?_ t t' ?_ hrun
    · apply (forRange_nodup _).imp
      intro a b hab p hp hq
      rw [List.mem_singleton] at hp hq
      apply hab
      rw [hp] at hq
      simp only [getNetworkNode, NodeRef.mk.injEq] at hq
      exact hq.2.2
    · intro n _ u u' _ hnode
      exact backPropagateLayerNode_pass m u u' L c n hnode

/-- The loops of `backPropagateOutputLayer` are a pass over the nodes of the output
layer. -/
theorem backPropagateOutputLayer_pass (m : Libm R) (nn : Network R) (label : Int) :
    BackPass nn (layerNodes nn (getNetworkLayer nn (nn.layerCount - 1)))
      (backPropagateOutputLayer m nn label) := by
  unfold backPropagateOutputLayer
  simp only
  generalize getNetworkLayer nn (nn.layerCount - 1) = ol
  unfold layerNodes
  refine backPass_foldl _
    (fun c => (forRange (nn.columns ol 0).nodeCount).map (fun n => getNetworkNode ol c n))
    _ ?_ nn ?_
  · apply (forRange_nodup _).imp
    intro a b hab p hp hq
    obtain ⟨n1, -, rfl⟩ := List.mem_map.1 hp
    obtain ⟨n2, -, h2⟩ := List.mem_map.1 hq
    apply hab
    simp only [getNetworkNode, NodeRef.mk.injEq] at h2
    exact h2.2.1.symm
  · intro c _ t hw
    show BackPass t ((forRange (nn.columns ol 0).nodeCount).map
      (fun n => getNetworkNode ol c n))
      ((forRange (t.columns ol 0).nodeCount).foldl
        (fun s n => backPropagateOutputNode m s ol label c n) t)
    rw [hw.columns, ← flatMap_singleton_map]
    refine backPass_foldl _ (fun n => [getNetworkNode ol c n]) _ ?_ t ?_
    · apply (forRange_nodup _).imp
      intro a b hab p hp hq
      rw [List.mem_singleton] at hp hq
      apply hab
      rw [hp] at hq
      simp only [getNetworkNode, NodeRef.mk.injEq] at hq
      exact hq.2.2
    · intro n _ u _
      exact backPropagateOutputNode_pass m u ol label c n

/-- When `backPropagateNetwork` returns in a network of two or more layers, it has made one
pass over every node of the layers `1` to `layerCount - 1`. -/
theorem backPropagateNetwork_pass (m : Libm R) (nn nn' : Network R) (label : Int)
    (hlc : 1 < nn.layerCount) (h : backPropagateNetwork m nn label = Except.ok nn') :
    BackPass nn (trainedNodes nn) nn' := by
  unfold backPropagateNetwork at h
  have p0 := backPropagateOutputLayer_pass m nn label
  have p1 : BackPass (backPropagateOutputLayer m nn label)
      ((backwardLayerIds nn.layerCount).flatMap (fun l => layerNodes nn l.toNat)) nn' := by
    refine backPass_foldlM _ (fun l => layerNodes nn l.toNat) _ ?_ _ nn' ?_ h
    · have hpw : (backwardLayerIds nn.layerCount).Pairwise
          (fun a b => 0 < a ∧ 0 < b ∧ b < a) := by
        rw [List.pairwise_iff_forall_sublist]
        intro a b hab
        have ha : a ∈ backwardLayerIds nn.layerCount := hab.subset (by simp)
        have hb : b ∈ backwardLayerIds nn.layerCount := hab.subset (by simp)
        refine ⟨(mem_backwardLayerIds.1 ha).1, (mem_backwardLayerIds.1 hb).1, ?_⟩
        exact (List.pairwise_iff_forall_sublist.1 (backwardLayerIds_pairwise _)) hab
      apply hpw.imp
      intro a b hab p hp hq
      have h1 := (mem_layerNodes.1 hp).1
      have h2 := (mem_layerNodes.1 hq).1
      omega
    · intro a ha t t' hw hrun
      have ha' := mem_backwardLayerIds.1 ha
      have hanat : ((a.toNat : Nat) : Int) = a := by omega
      rw [← hanat] at hrun
      have := backPropagateLayer_pass m t t' a.toNat hrun
      rw [layerNodes_congr hw, layerNodes_congr p0.wiring] at this
      exact this
  have hdisj : ∀ p ∈ layerNodes nn (getNetworkLayer nn (nn.layerCount - 1)),
      p ∉ (backwardLayerIds nn.layerCount).flatMap (fun l => layerNodes nn l.toNat) := by
    intro p hp hq
    obtain ⟨b, hb, hpb⟩ := List.mem_flatMap.1 hq
    have hb' := mem_backwardLayerIds.1 hb
    have h1 := (mem_layerNodes.1 hp).1
    have h2 := (mem_layerNodes.1 hpb).1
    simp only [getNetworkLayer] at h1
    omega
  refine (p0.append_pass p1 hdisj).perm_pass ?_
  rw [List.perm_ext_iff_of_nodup ?_ (trainedNodes_nodup nn)]
  · intro p
    rw [mem_trainedNodes, List.mem_append, mem_layerNodes, List.mem_flatMap]
    simp only [getNetworkLayer]
    constructor
    · rintro (⟨hl, hn⟩ | ⟨b, hb, hpb⟩)
      · refine ⟨by omega, by omega, ?_⟩
        rw [hl]
        exact hn
      · have hb' := mem_backwardLayerIds.1 hb
        obtain ⟨h2, hn⟩ := mem_layerNodes.1 hpb
        refine ⟨by omega, by omega, ?_⟩
        rw [h2]
        exact hn
    · rintro ⟨h0, h1, hn⟩
      by_cases hlast : (p.layer : Int) = nn.layerCount - 1
      · left
        have : p.layer = (nn.layerCount - 1).toNat := by omega
        refine ⟨this, ?_⟩
        rw [← this]
        exact hn
      · right
        refine ⟨(p.layer : Int), mem_backwardLayerIds.2 ⟨by omega, by omega⟩, ?_⟩
        rw [mem_layerNodes]
        simp only [Int.toNat_ofNat]
        exact ⟨trivial, hn⟩
  · rw [List.nodup_append]
    refine ⟨layerNodes_nodup nn _, ?_, ?_⟩
    · rw [List.nodup_flatMap]
      constructor
      · intro l _
        exact layerNodes_nodup nn _
      · have hpw : (backwardLayerIds nn.layerCount).Pairwise
            (fun a b => 0 < a ∧ 0 < b ∧ b < a) := by
          rw [List.pairwise_iff_forall_sublist]
          intro a b hab
          have ha : a ∈ backwardLayerIds nn.layerCount := hab.subset (by simp)
          have hb : b ∈ backwardLayerIds nn.layerCount := hab.subset (by simp)
          refine ⟨(mem_backwardLayerIds.1 ha).1, (mem_backwardLayerIds.1 hb).1, ?_⟩
          exact (List.pairwise_iff_forall_sublist.1 (backwardLayerIds_pairwise _)) hab
        apply hpw.imp
        intro a b hab
        simp only [Function.onFun]
        rw [List.disjoint_left]
        intro p hp hq
        have h1 := (mem_layerNodes.1 hp).1
        have h2 := (mem_layerNodes.1 hq).1
        omega
    · rw [List.disjoint_left]
      exact hdisj

end BackPassLemmas

/-! ## Back propagation in the hidden layers -/

section HiddenLayers

variable {R : Type} [LinearOrderedField R]

/-- The loop of `calcNodeError` over any list of forward connection ids, all with a target
node. -/
theorem calcErrorLoop_spec (nn : Network R) (node : NodeRef) (l : List Int) (acc : R)
    (h : ∀ c ∈ l,
      ((nn.nodes node).connections ((nn.nodes node).backwardConnCount + c)).nodePtr ≠ none) :
    l.foldlM
      (fun nodeErrorSum c =>
        match ((nn.nodes node).connections ((nn.nodes node).backwardConnCount + c)).nodePtr with
        | some targetNode =>
          (pure (nodeErrorSum + (nn.nodes targetNode).errorSum
            * nn.readWeight
                ((nn.nodes node).connections ((nn.nodes node).backwardConnCount + c)).weightPtr)
            : Except Fault R)
        | none => throw Fault.undefined) acc
    = Except.ok (l.foldl
      (fun acc c =>
        match ((nn.nodes node).connections ((nn.nodes node).backwardConnCount + c)).nodePtr with
        | some targetNode =>
          acc + (nn.nodes targetNode).errorSum
            * nn.readWeight
                ((nn.nodes node).connections ((nn.nodes node).backwardConnCount + c)).weightPtr
        | none => acc) acc) := by
  induction l generalizing acc with
  | nil => rfl
  | cons c l ih =>
    rw [List.foldlM_cons, List.foldl_cons]
    cases hc : ((nn.nodes node).connections ((nn.nodes node).backwardConnCount + c)).nodePtr with
    | none => exact absurd hc (h c (by simp))
    | some t =>
      simp only [pure, Except.pure, bind, Except.bind]
      exact ih _ (fun c' hc' => h c' (by simp [hc']))

/-- With a target node in every forward connection, `calcNodeError` returns the sum. -/
theorem calcNodeError_eq (nn : Network R) (node : NodeRef)
    (h : ∀ j, 0 ≤ j → j < (nn.nodes node).forwardConnCount →
      ((nn.nodes node).connections ((nn.nodes node).backwardConnCount + j)).nodePtr ≠ none) :
    calcNodeError nn node = Except.ok (forwardErrorSum nn node) := by
  unfold calcNodeError forwardErrorSum
  simp only
  exact calcErrorLoop_spec nn node _ 0
    (fun c hc => h c (mem_forRange.1 hc).1 (mem_forRange.1 hc).2)

/-- The sum of the forward errors of a node is the same in two states with the same
connections in which the forward targets hold the same error sums and the forward weights
the same values. -/
theorem forwardErrorSum_congr (a b : Network R) (node : NodeRef)
    (hb : (b.nodes node).backwardConnCount = (a.nodes node).backwardConnCount)
    (hf : (b.nodes node).forwardConnCount = (a.nodes node).forwardConnCount)
    (hconn : (b.nodes node).connections = (a.nodes node).connections)
    (herr : ∀ j t, 0 ≤ j → j < (a.nodes node).forwardConnCount →
      ((a.nodes node).connections ((a.nodes node).backwardConnCount + j)).nodePtr = some t →
      (b.nodes t).errorSum = (a.nodes t).errorSum)
    (hw : ∀ j, 0 ≤ j → j < (a.nodes node).forwardConnCount →
      b.readWeight
          ((a.nodes node).connections ((a.nodes node).backwardConnCount + j)).weightPtr
        = a.readWeight
          ((a.nodes node).connections ((a.nodes node).backwardConnCount + j)).weightPtr) :
    forwardErrorSum b node = forwardErrorSum a node := by
  unfold forwardErrorSum
  rw [hb, hf, hconn]
  apply foldl_congr_mem
  intro j hj x
  have hj' := mem_forRange.1 hj
  cases hc : ((a.nodes node).connections ((a.nodes node).backwardConnCount + j)).nodePtr with
  | none => rfl
  | some t =>
    simp only
    rw [herr j t hj'.1 hj'.2 hc, hw j hj'.1 hj'.2]

theorem BackLayerInv.refl_layer (s : Network R) (L : Nat) : BackLayerInv s L s :=
  ⟨SameWiring.refl s, fun _ => rfl, fun _ _ => rfl, fun _ _ => rfl⟩

/-- The body of the loops of `backPropagateLayer` at a node of the layer whose forward
connections have targets outside the layer and weights that no backward connection of the
layer refers to. -/
theorem backPropagateLayerNode_spec (m : Libm R) (s u : Network R) (L : Nat) (c n : Int)
    (hf1 : ∀ j, 0 ≤ j → j < (s.nodes (getNetworkNode L c n)).forwardConnCount →
      ∃ t, ((s.nodes (getNetworkNode L c n)).connections
        ((s.nodes (getNetworkNode L c n)).backwardConnCount + j)).nodePtr = some t ∧
        t.layer ≠ L)
    (hf2 : ∀ j c' n' i, 0 ≤ j → j < (s.nodes (getNetworkNode L c n)).forwardConnCount →
      s.IsNode L c' n' → 0 ≤ i → i < (s.nodes (getNetworkNode L c' n')).backwardConnCount →
      ((s.nodes (getNetworkNode L c' n')).connections i).nodePtr ≠ none →
      ((s.nodes (getNetworkNode L c' n')).connections i).weightPtr
        ≠ ((s.nodes (getNetworkNode L c n)).connections
            ((s.nodes (getNetworkNode L c n)).backwardConnCount + j)).weightPtr)
    (hQ : BackLayerInv s L u) (hnode : s.IsNode L c n) :
    ∃ u', backPropagateLayerNode m u L c n = Except.ok u' ∧ BackLayerInv s L u' ∧
      (u'.nodes (getNetworkNode L c n)).errorSum
        = forwardErrorSum s (getNetworkNode L c n)
          * getDerivative m (s.nodes (getNetworkNode L c n)).output
              (s.layerDefOf L).activationType ∧
      ∀ r, r ≠ getNetworkNode L c n → (u'.nodes r).errorSum = (u.nodes r).errorSum := by
  have hcalc : calcNodeError u (getNetworkNode L c n)
      = Except.ok (forwardErrorSum u (getNetworkNode L c n)) := by
    apply calcNodeError_eq
    intro j hj0 hj
    rw [hQ.wiring.forwardConnCount] at hj
    rw [hQ.wiring.connections, hQ.wiring.backwardConnCount]
    obtain ⟨t, ht, -⟩ := hf1 j hj0 hj
    rw [ht]; simp
  have hsum : forwardErrorSum u (getNetworkNode L c n)
      = forwardErrorSum s (getNetworkNode L c n) := by
    apply forwardErrorSum_congr
    · exact hQ.wiring.backwardConnCount _
    · exact hQ.wiring.forwardConnCount _
    · exact hQ.wiring.connections _
    · intro j t hj0 hj ht
      obtain ⟨t', ht', hne⟩ := hf1 j hj0 hj
      rw [ht] at ht'
      injection ht' with ht'
      subst ht'
      rw [hQ.others t hne]
    · intro j hj0 hj
      apply hQ.weights
      intro c' n' i hn' hi0 hi hsrc
      exact hf2 j c' n' i hj0 hj hn' hi0 hi hsrc
  unfold backPropagateLayerNode
  simp only [hcalc, bind, Except.bind, pure, Except.pure]
  generalize hnd : ({ u.nodes (getNetworkNode L c n) with
      errorSum := forwardErrorSum u (getNetworkNode L c n)
        * getDerivative m (u.nodes (getNetworkNode L c n)).output
            (u.layerDefOf L).activationType } : Node R) = nd
  have hsw : SameWiring u (u.setNode (getNetworkNode L c n) nd) := by
    apply SameWiring.setNode <;> rw [← hnd]
  obtain ⟨h1, h2, h3, -, -, -⟩ := updateNodeWeights_fields
    (u.setNode (getNetworkNode L c n) nd) (getNetworkNode L c n)
    (u.setNode (getNetworkNode L c n) nd).learningRate
  refine ⟨_, rfl, ⟨hQ.wiring.trans (hsw.trans h1), ?_, ?_, ?_⟩, ?_, ?_⟩
  · intro r
    rw [h2, setNode_nodes]
    split
    · next h => subst h; rw [← hnd]; exact hQ.output _
    · exact hQ.output r
  · intro r hr
    have hne : r ≠ getNetworkNode L c n := by
      intro h; apply hr; rw [h]; rfl
    rw [updateNodeWeights_nodes_ne _ _ _ _ hne, setNode_nodes_ne _ _ hne, hQ.others r hr]
  · intro w hw
    rw [updateNodeWeights_readWeight_of_untouched, setNode_readWeight, hQ.weights w hw]
    intro i hi0 hi hsrc
    rw [setNode_nodes_same] at hi hsrc ⊢
    rw [← hnd] at hi hsrc ⊢
    simp only at hi hsrc ⊢
    rw [hQ.wiring.backwardConnCount] at hi
    rw [hQ.wiring.connections] at hsrc ⊢
    exact hw c n i hnode hi0 hi hsrc
  · rw [h3, setNode_nodes_same, ← hnd]
    simp only
    rw [hsum, hQ.output, hQ.wiring.layerDefOf]
  · intro r hr
    rw [h3, setNode_nodes_ne _ _ hr]

/-- One hidden layer of the backward pass. -/
theorem backPropagateLayer_spec (m : Libm R) (s : Network R) (L : Nat)
    (hf1 : ∀ c n j, s.IsNode L c n → 0 ≤ j →
      j < (s.nodes (getNetworkNode L c n)).forwardConnCount →
      ∃ t, ((s.nodes (getNetworkNode L c n)).connections
        ((s.nodes (getNetworkNode L c n)).backwardConnCount + j)).nodePtr = some t ∧
        t.layer ≠ L)
    (hf2 : ∀ c n j c' n' i, s.IsNode L c n → 0 ≤ j →
      j < (s.nodes (getNetworkNode L c n)).forwardConnCount →
      s.IsNode L c' n' → 0 ≤ i → i < (s.nodes (getNetworkNode L c' n')).backwardConnCount →
      ((s.nodes (getNetworkNode L c' n')).connections i).nodePtr ≠ none →
      ((s.nodes (getNetworkNode L c' n')).connections i).weightPtr
        ≠ ((s.nodes (getNetworkNode L c n)).connections
            ((s.nodes (getNetworkNode L c n)).backwardConnCount + j)).weightPtr) :
    ∃ s', backPropagateLayer m s (L : Int) = Except.ok s' ∧ BackLayerInv s L s' ∧
      ∀ c n, s.IsNode L c n →
        (s'.nodes (getNetworkNode L c n)).errorSum
          = forwardErrorSum s (getNetworkNode L c n)
            * getDerivative m (s.nodes (getNetworkNode L c n)).output
                (s.layerDefOf L).activationType := by
  have key := foldlM_establish_ok
    (fun t c => (forRange (t.columns L 0).nodeCount).foldlM
      (fun u n => backPropagateLayerNode m u L c n) t)
    (forRange (s.layers L).columnCount) (forRange_nodup _)
    (BackLayerInv s L)
    (fun c t => ∀ n, 0 ≤ n → n < (s.columns L 0).nodeCount →
      (t.nodes (getNetworkNode L c n)).errorSum
        = forwardErrorSum s (getNetworkNode L c n)
          * getDerivative m (s.nodes (getNetworkNode L c n)).output
              (s.layerDefOf L).activationType)
    s (BackLayerInv.refl_layer s L)
    (by
      intro c t hcm hQ
      have hc' := mem_forRange.1 hcm
      have hcols : (t.columns L 0).nodeCount = (s.columns L 0).nodeCount := by
        rw [hQ.wiring.columns]
      have inner := foldlM_establish_ok
        (fun u n => backPropagateLayerNode m u L c n)
        (forRange (t.columns L 0).nodeCount) (forRange_nodup _)
        (fun u => BackLayerInv s L u ∧
          ∀ r, r.column ≠ c → (u.nodes r).errorSum = (t.nodes r).errorSum)
        (fun n u => (u.nodes (getNetworkNode L c n)).errorSum
          = forwardErrorSum s (getNetworkNode L c n)
            * getDerivative m (s.nodes (getNetworkNode L c n)).output
                (s.layerDefOf L).activationType)
        t ⟨hQ, fun _ _ => rfl⟩
        (by
          intro n u hnm hu
          have hn' := mem_forRange.1 hnm
          have hnode : s.IsNode L c n := ⟨hc'.1, hc'.2, hn'.1, by rw [← hcols]; exact hn'.2⟩
          obtain ⟨u', h1, h2, h3, h4⟩ := backPropagateLayerNode_spec m s u L c n
            (fun j hj0 hj => hf1 c n j hnode hj0 hj)
            (fun j c' n' i hj0 hj hn' hi0 hi hsrc =>
              hf2 c n j c' n' i hnode hj0 hj hn' hi0 hi hsrc)
            hu.1 hnode
          refine ⟨u', h1, ⟨h2, ?_⟩, h3, ?_⟩
          · intro r hr
            rw [h4 r (by intro h; apply hr; rw [h]; rfl), hu.2 r hr]
          · intro b _ hbn hP
            rw [h4 _ (by
              intro h
              apply hbn
              simpa [getNetworkNode] using h), hP])
      obtain ⟨t', h1, h2, h3⟩ := inner
      refine ⟨t', h1, h2.1, ?_, ?_⟩
      · intro n hn0 hn
        exact h3 n (mem_forRange.2 ⟨hn0, by rw [hcols]; exact hn⟩)
      · intro b _ hbc hP n hn0 hn
        rw [h2.2 _ (by simpa [getNetworkNode] using hbc), hP n hn0 hn])
  obtain ⟨s', h1, h2, h3⟩ := key
  refine ⟨s', ?_, h2, ?_⟩
  · unfold backPropagateLayer
    simpa [getNetworkLayer] using h1
  · intro c n hnode
    exact h3 c (mem_forRange.2 ⟨hnode.1, hnode.2.1⟩) n hnode.2.2.1 hnode.2.2.2

/-- The error sums after the pass over the output layer: every node of the layer has
`errorSum = (t - output) * getDerivative(output, activation)` with the output that it held
before the pass, where `t` is 1 in the column of the label and 0 in the other columns. -/
theorem backPropagateOutputLayer_errors (m : Libm R) (nn : Network R) (label o n : Int)
    (hnode : nn.IsNode (getNetworkLayer nn (nn.layerCount - 1)) o n) :
    ((backPropagateOutputLayer m nn label).nodes
        (getNetworkNode (getNetworkLayer nn (nn.layerCount - 1)) o n)).errorSum
      = ((if o = label then (1 : R) else 0)
          - (nn.nodes (getNetworkNode (getNetworkLayer nn (nn.layerCount - 1)) o n)).output)
        * getDerivative m
            (nn.nodes (getNetworkNode (getNetworkLayer nn (nn.layerCount - 1)) o n)).output
            (nn.layerDefOf (getNetworkLayer nn (nn.layerCount - 1))).activationType := by
  obtain ⟨ho0, ho, hn0, hn⟩ := hnode
  generalize hol : getNetworkLayer nn (nn.layerCount - 1) = ol at *
  have key := foldl_establish
    (fun s o => (forRange (s.columns ol 0).nodeCount).foldl
      (fun s n => backPropagateOutputNode m s ol label o n) s)
    (forRange (nn.layers ol).columnCount) (forRange_nodup _)
    (fun t => SameWiring nn t ∧ ∀ r, (t.nodes r).output = (nn.nodes r).output)
    (fun o t => ∀ n, 0 ≤ n → n < (nn.columns ol 0).nodeCount →
      (t.nodes (getNetworkNode ol o n)).errorSum
        = ((if o = label then (1 : R) else 0) - (nn.nodes (getNetworkNode ol o n)).output)
          * getDerivative m (nn.nodes (getNetworkNode ol o n)).output
              (nn.layerDefOf ol).activationType)
    nn ⟨SameWiring.refl nn, fun _ => rfl⟩
    (by
      intro a t _ hQ
      apply foldl_inv _ (fun t => SameWiring nn t ∧ ∀ r, (t.nodes r).output = (nn.nodes r).output)
      · exact hQ
      · intro b u _ hu
        obtain ⟨h1, h2, -, -⟩ := backPropagateOutputNode_fields m u ol label a b
        exact ⟨hu.1.trans h1, fun r => (h2 r).trans (hu.2 r)⟩)
    (by
      intro a t _ hQ
      have hcols : (t.columns ol 0).nodeCount = (nn.columns ol 0).nodeCount := by
        rw [hQ.1.columns]
      have inner := foldl_establish
        (fun s n => backPropagateOutputNode m s ol label a n)
        (forRange (t.columns ol 0).nodeCount) (forRange_nodup _)
        (fun u => SameWiring nn u ∧ ∀ r, (u.nodes r).output = (nn.nodes r).output)
        (fun n u => (u.nodes (getNetworkNode ol a n)).errorSum
          = ((if a = label then (1 : R) else 0) - (nn.nodes (getNetworkNode ol a n)).output)
            * getDerivative m (nn.nodes (getNetworkNode ol a n)).output
                (nn.layerDefOf ol).activationType)
        t hQ
        (by
          intro b u _ hu
          obtain ⟨h1, h2, -, -⟩ := backPropagateOutputNode_fields m u ol label a b
          exact ⟨hu.1.trans h1, fun r => (h2 r).trans (hu.2 r)⟩)
        (by
          intro b u _ hu
          obtain ⟨-, -, h3, -⟩ := backPropagateOutputNode_fields m u ol label a b
          rw [h3, hu.2, hu.1.layerDefOf])
        (by
          intro b c u _ _ hbc _ hP
          obtain ⟨-, -, -, h4⟩ := backPropagateOutputNode_fields m u ol label a c
          rw [h4, hP]
          intro h
          apply hbc
          simpa [getNetworkNode] using h)
      intro n hn0 hn
      exact inner.2 n (mem_forRange.2 ⟨hn0, by rw [hcols]; exact hn⟩))
    (by
      intro a b t _ _ hab hQ hP n hn0 hn
      have inner := foldl_inv
        (fun s n' => backPropagateOutputNode m s ol label b n')
        (fun u => (u.nodes (getNetworkNode ol a n)).errorSum
          = (t.nodes (getNetworkNode ol a n)).errorSum)
        (forRange (t.columns ol 0).nodeCount) t rfl
        (by
          intro c u _ hu
          obtain ⟨-, -, -, h4⟩ := backPropagateOutputNode_fields m u ol label b c
          rw [h4, hu]
          intro h
          apply hab
          simpa [getNetworkNode] using congrArg NodeRef.column h)
      rw [inner, hP n hn0 hn])
  have herr := key.2 o (mem_forRange.2 ⟨ho0, ho⟩) n hn0 hn
  have hdef : backPropagateOutputLayer m nn label
      = (forRange (nn.layers ol).columnCount).foldl
        (fun s o => (forRange (s.columns ol 0).nodeCount).foldl
          (fun s n => backPropagateOutputNode m s ol label o n) s) nn := by
    unfold backPropagateOutputLayer
    simp only [hol]
  rw [hdef]
  exact herr

/-- A sum over a list is the sum over the elements that a filter keeps when the terms of
the other elements are 0. -/
theorem sum_map_filter_zero {α : Type} (f : α → R) (P : α → Bool) (l : List α)
    (h : ∀ a ∈ l, P a = false → f a = 0) :
    (l.map f).sum = ((l.filter P).map f).sum := by
  induction l with
  | nil => rfl
  | cons a l ih =>
    have ih' := ih (fun b hb => h b (List.mem_cons_of_mem _ hb))
    cases hP : P a with
    | false =>
      rw [List.filter_cons_of_neg (by simp [hP]), List.map_cons, List.sum_cons,
        h a (List.mem_cons_self _ _) hP, zero_add, ih']
    | true =>
      rw [List.filter_cons_of_pos (by simp [hP]), List.map_cons, List.sum_cons, List.map_cons,
        List.sum_cons, ih']

/-- **C5.** In a network of two or more layers in which every forward connection of a node
of a hidden layer has a target node in a higher layer and refers to a weight that no
backward connection with a source node of a node of the same or of a lower hidden layer
refers to, `backPropagateNetwork` returns a state `nn'` that is tied to the state `nn`
before the call as follows. Every node `h` of a hidden layer has
`errorSum = getDerivative(h.output) * Σ target.errorSum * weight` over its forward
connections, with the error sums and the weights of `nn'`. The error sums of `nn'` are those
of this pass: a node of the output layer has `errorSum = (t - output) * getDerivative(output)`
with the output that it holds in `nn`, where `t` is 1 in the column of the label and 0 in the
other columns, and a node of a hidden layer satisfies the equation above. The weights of
`nn'` are those of `nn` after the updates of this pass: every weight has grown by the
amounts `nodeWeightDelta`, that is `learningRate * source.output * node.errorSum` for each
backward connection that refers to it, of the nodes of the layers 1 to `layerCount - 1`,
each with its error sum of this pass; to the weight of a forward connection of a node of the
hidden layer `l` only nodes of the layers above `l` have added, so that the value in `nn'`
is the value after the updates of the layers above `l` and before any update of the layer
`l` or of a lower layer. The bias of each node of the layers 1 to `layerCount - 1` has grown
by `learningRate * errorSum`. The structure and the outputs are not changed, and no node
outside the layers 1 to `layerCount - 1` is changed, so none of the input layer. -/
theorem backPropagateNetwork_hidden_errorSum (m : Libm R) (nn : Network R) (label : Int)
    (hfwd : ∀ (l' : Nat) (c' n' j : Int), 0 < l' → (l' : Int) < nn.layerCount - 1 →
      nn.IsNode l' c' n' → 0 ≤ j →
      j < (nn.nodes (getNetworkNode l' c' n')).forwardConnCount →
      ∃ t, ((nn.nodes (getNetworkNode l' c' n')).connections
        ((nn.nodes (getNetworkNode l' c' n')).backwardConnCount + j)).nodePtr = some t ∧
        l' < t.layer)
    (hweights : ∀ (l1 l2 : Nat) (c1 n1 i c2 n2 j : Int), 0 < l1 → l1 ≤ l2 →
      (l2 : Int) < nn.layerCount - 1 → nn.IsNode l1 c1 n1 → 0 ≤ i →
      i < (nn.nodes (getNetworkNode l1 c1 n1)).backwardConnCount →
      ((nn.nodes (getNetworkNode l1 c1 n1)).connections i).nodePtr ≠ none →
      nn.IsNode l2 c2 n2 → 0 ≤ j →
      j < (nn.nodes (getNetworkNode l2 c2 n2)).forwardConnCount →
      ((nn.nodes (getNetworkNode l1 c1 n1)).connections i).weightPtr
        ≠ ((nn.nodes (getNetworkNode l2 c2 n2)).connections
            ((nn.nodes (getNetworkNode l2 c2 n2)).backwardConnCount + j)).weightPtr)
    (hlc : 1 < nn.layerCount) :
    ∃ nn', backPropagateNetwork m nn label = Except.ok nn' ∧
      (∀ (l : Nat) (c n : Int), 0 < l → (l : Int) < nn.layerCount - 1 → nn.IsNode l c n →
        (nn'.nodes (getNetworkNode l c n)).errorSum
          = getDerivative m (nn'.nodes (getNetworkNode l c n)).output
              (nn.layerDefOf l).activationType
            * forwardErrorSum nn' (getNetworkNode l c n)) ∧
      (∀ o n : Int, nn.IsNode (getNetworkLayer nn (nn.layerCount - 1)) o n →
        (nn'.nodes (getNetworkNode (getNetworkLayer nn (nn.layerCount - 1)) o n)).errorSum
          = ((if o = label then (1 : R) else 0)
              - (nn.nodes
                  (getNetworkNode (getNetworkLayer nn (nn.layerCount - 1)) o n)).output)
            * getDerivative m
                (nn.nodes (getNetworkNode (getNetworkLayer nn (nn.layerCount - 1)) o n)).output
                (nn.layerDefOf (getNetworkLayer nn (nn.layerCount - 1))).activationType) ∧
      (∀ w, nn'.readWeight w
        = nn.readWeight w + ((trainedNodes nn).map (fun p => nodeWeightDelta nn' p w)).sum) ∧
      (∀ (l : Nat) (c n j : Int), 0 < l → (l : Int) < nn.layerCount - 1 → nn.IsNode l c n →
        0 ≤ j → j < (nn.nodes (getNetworkNode l c n)).forwardConnCount →
        nn'.readWeight ((nn.nodes (getNetworkNode l c n)).connections
            ((nn.nodes (getNetworkNode l c n)).backwardConnCount + j)).weightPtr
          = nn.readWeight ((nn.nodes (getNetworkNode l c n)).connections
              ((nn.nodes (getNetworkNode l c n)).backwardConnCount + j)).weightPtr
            + (((trainedNodes nn).filter (fun p => decide (l < p.layer))).map
                (fun p => nodeWeightDelta nn' p
                  ((nn.nodes (getNetworkNode l c n)).connections
                    ((nn.nodes (getNetworkNode l c n)).backwardConnCount + j)).weightPtr)).sum) ∧
      (∀ p ∈ trainedNodes nn,
        (nn'.nodes p).bias = (nn.nodes p).bias + nn.learningRate * (nn'.nodes p).errorSum) ∧
      (∀ p, p ∈ trainedNodes nn ↔
        0 < p.layer ∧ (p.layer : Int) < nn.layerCount ∧ nn.IsNode p.layer p.column p.node) ∧
      (trainedNodes nn).Nodup ∧
      SameWiring nn nn' ∧
      (∀ r, (nn'.nodes r).output = (nn.nodes r).output) ∧
      (∀ r, r ∉ trainedNodes nn → nn'.nodes r = nn.nodes r) ∧
      (∀ r, r.layer = 0 → nn'.nodes r = nn.nodes r) := by
  obtain ⟨hs0w, hs0o, hs0n⟩ := backPropagateOutputLayer_frame m nn label
  have hol : getNetworkLayer nn (nn.layerCount - 1) ≠ 0 := by
    simp only [getNetworkLayer]; omega
  have key := foldlM_prefix_ok
    (fun s i => backPropagateLayer m s i)
    (fun pre t => SameWiring nn t ∧ (∀ r, (t.nodes r).output = (nn.nodes r).output) ∧
      (∀ r, r.layer = 0 → t.nodes r = nn.nodes r) ∧
      (∀ r, r.layer = getNetworkLayer nn (nn.layerCount - 1) →
        t.nodes r = (backPropagateOutputLayer m nn label).nodes r) ∧
      ∀ a ∈ pre, ∀ c n, nn.IsNode a.toNat c n →
        (t.nodes (getNetworkNode a.toNat c n)).errorSum
          = forwardErrorSum t (getNetworkNode a.toNat c n)
            * getDerivative m (nn.nodes (getNetworkNode a.toNat c n)).output
                (nn.layerDefOf a.toNat).activationType)
    (backwardLayerIds nn.layerCount) (backPropagateOutputLayer m nn label)
    ⟨hs0w, hs0o, fun r hr => hs0n r (by rw [hr]; exact fun h => hol h.symm),
      fun _ _ => rfl, fun a ha => by simp at ha⟩
    (by
      intro pre a post t hsplit hI
      obtain ⟨hW, hO, hZ, hL, hP⟩ := hI
      have ha : a ∈ backwardLayerIds nn.layerCount := by rw [hsplit]; simp
      have ha' := mem_backwardLayerIds.1 ha
      have hgt := backwardLayerIds_split hsplit
      have hanat : ((a.toNat : Nat) : Int) = a := by omega
      have hapos : 0 < a.toNat := by omega
      have hisnode : ∀ (b : Nat) (c n : Int), t.IsNode b c n ↔ nn.IsNode b c n := by
        intro b c n
        unfold Network.IsNode
        rw [hW.layers, hW.columns]
      -- the two hypotheses on the wiring, in the state `t`
      have hfwd' : ∀ (b : Nat) (c n j : Int), 0 < b → (b : Int) < nn.layerCount - 1 →
          t.IsNode b c n → 0 ≤ j → j < (t.nodes (getNetworkNode b c n)).forwardConnCount →
          ∃ x, ((t.nodes (getNetworkNode b c n)).connections
            ((t.nodes (getNetworkNode b c n)).backwardConnCount + j)).nodePtr = some x ∧
            b < x.layer := by
        intro b c n j hb0 hb hn hj0 hj
        rw [hW.forwardConnCount] at hj
        rw [hW.connections, hW.backwardConnCount]
        exact hfwd b c n j hb0 hb ((hisnode b c n).1 hn) hj0 hj
      have hweights' : ∀ (l1 l2 : Nat) (c1 n1 i c2 n2 j : Int), 0 < l1 → l1 ≤ l2 →
          (l2 : Int) < nn.layerCount - 1 → t.IsNode l1 c1 n1 → 0 ≤ i →
          i < (t.nodes (getNetworkNode l1 c1 n1)).backwardConnCount →
          ((t.nodes (getNetworkNode l1 c1 n1)).connections i).nodePtr ≠ none →
          t.IsNode l2 c2 n2 → 0 ≤ j →
          j < (t.nodes (getNetworkNode l2 c2 n2)).forwardConnCount →
          ((t.nodes (getNetworkNode l1 c1 n1)).connections i).weightPtr
            ≠ ((t.nodes (getNetworkNode l2 c2 n2)).connections
                ((t.nodes (getNetworkNode l2 c2 n2)).backwardConnCount + j)).weightPtr := by
        intro l1 l2 c1 n1 i c2 n2 j h1 h12 h2 hn1 hi0 hi hsrc hn2 hj0 hj
        rw [hW.backwardConnCount] at hi
        rw [hW.forwardConnCount] at hj
        rw [hW.connections] at hsrc
        rw [hW.connections, hW.connections, hW.backwardConnCount]
        exact hweights l1 l2 c1 n1 i c2 n2 j h1 h12 h2 ((hisnode _ _ _).1 hn1) hi0 hi hsrc
          ((hisnode _ _ _).1 hn2) hj0 hj
      obtain ⟨t', hrun, hinv, herr⟩ := backPropagateLayer_spec m t a.toNat
        (by
          intro c n j hn hj0 hj
          obtain ⟨x, hx, hlt⟩ := hfwd' a.toNat c n j hapos (by omega) hn hj0 hj
          exact ⟨x, hx, by omega⟩)
        (by
          intro c n j c' n' i hn hj0 hj hn' hi0 hi hsrc
          exact hweights' a.toNat a.toNat c' n' i c n j hapos (le_refl _) (by omega) hn' hi0 hi
            hsrc hn hj0 hj)
      rw [hanat] at hrun
      refine ⟨t', hrun, hW.trans hinv.wiring, fun r => (hinv.output r).trans (hO r), ?_, ?_,
        ?_⟩
      · intro r hr
        rw [hinv.others r (by rw [hr]; omega), hZ r hr]
      · intro r hr
        rw [hinv.others r (by rw [hr]; simp only [getNetworkLayer]; omega), hL r hr]
      -- the sum of the forward errors of a node at or above layer `a` is not changed
      have hsum : ∀ (b : Nat) (c n : Int), a.toNat ≤ b → (b : Int) < nn.layerCount - 1 →
          nn.IsNode b c n →
          forwardErrorSum t' (getNetworkNode b c n)
            = forwardErrorSum t (getNetworkNode b c n) := by
        intro b c n hab hb hn
        apply forwardErrorSum_congr
        · exact hinv.wiring.backwardConnCount _
        · exact hinv.wiring.forwardConnCount _
        · exact hinv.wiring.connections _
        · intro j x hj0 hj hx
          obtain ⟨x', hx', hlt⟩ := hfwd' b c n j (by omega) hb ((hisnode _ _ _).2 hn) hj0 hj
          rw [hx] at hx'
          injection hx' with hx'
          subst hx'
          rw [hinv.others x (by omega)]
        · intro j hj0 hj
          apply hinv.weights
          intro c' n' i hn' hi0 hi hsrc
          exact hweights' a.toNat b c' n' i c n j hapos hab hb hn' hi0 hi hsrc
            ((hisnode _ _ _).2 hn) hj0 hj
      intro b hb c n hn
      rcases List.mem_append.1 hb with hb1 | hb1
      · have hab := hgt b hb1
        have hbm : b ∈ backwardLayerIds nn.layerCount := by rw [hsplit]; simp [hb1]
        have hb' := mem_backwardLayerIds.1 hbm
        rw [hinv.others _ (by simp only [getNetworkNode]; omega), hP b hb1 c n hn,
          hsum b.toNat c n (by omega) (by omega) hn]
      · simp at hb1
        subst hb1
        rw [herr c n ((hisnode _ _ _).2 hn), hsum b.toNat c n (le_refl _) (by omega) hn, hO,
          hW.layerDefOf])
  obtain ⟨nn', hrun, hW, hO, hZ, hL, hP⟩ := key
  have hpass := backPropagateNetwork_pass m nn nn' label hlc hrun
  refine ⟨nn', hrun, ?_, ?_, hpass.weights, ?_, hpass.bias, fun p => mem_trainedNodes,
    trainedNodes_nodup nn, hW, hO, hpass.others, hZ⟩
  · intro l c n hl0 hl hnode
    have hmem : (l : Int) ∈ backwardLayerIds nn.layerCount :=
      mem_backwardLayerIds.2 ⟨by omega, hl⟩
    have hres := hP (l : Int) hmem c n (by simpa using hnode)
    simp only [Int.toNat_ofNat] at hres
    rw [hres, hO, mul_comm]
  · intro o n hnode
    rw [hL _ rfl]
    exact backPropagateOutputLayer_errors m nn label o n hnode
  · intro l c n j hl0 hl hnode hj0 hj
    rw [hpass.weights]
    congr 1
    apply sum_map_filter_zero
    intro p hp hnot
    have hp' := mem_trainedNodes.1 hp
    have hle : p.layer ≤ l := by simpa using hnot
    unfold nodeWeightDelta
    apply sum_map_eq_zero
    intro i hi
    have hi' := mem_forRange.1 hi
    rw [hW.backwardConnCount] at hi'
    unfold weightDelta
    rw [hW.connections]
    cases hc : ((nn.nodes p).connections i).nodePtr with
    | none => rfl
    | some q =>
      simp only
      rw [if_neg]
      have hpe : p = getNetworkNode p.layer p.column p.node := rfl
      rw [hpe]
      refine hweights p.layer l p.column p.node i c n j hp'.1 hle hl hp'.2.2 hi'.1 ?_ ?_
        hnode hj0 hj
      · rw [← hpe]
        exact hi'.2
      · rw [← hpe, hc]
        simp

end HiddenLayers

/-! ## Forward connections -/

section ForwardWiring

variable {R : Type} [LinearOrderedField R]

theorem withForward_nil (nd : Node R) : nd.withForward [] = nd := by
  unfold Node.withForward
  cases nd
  simp

theorem withForward_backwardConnCount (nd : Node R) (M : List Connection) :
    (nd.withForward M).backwardConnCount = nd.backwardConnCount := rfl

theorem withForward_lt (nd : Node R) (M : List Connection) (k : Int)
    (h : k < nd.backwardConnCount) : (nd.withForward M).connections k = nd.connections k := by
  unfold Node.withForward
  simp only
  rw [if_neg (by omega)]

theorem withForward_get (nd : Node R) (M : List Connection) (j : Nat) (h : j < M.length) :
    (nd.withForward M).connections (nd.backwardConnCount + j) = M[j] := by
  unfold Node.withForward
  simp only
  rw [if_pos (by omega)]
  have : (nd.backwardConnCount + (j : Int) - nd.backwardConnCount).toNat = j := by omega
  rw [this, List.getElem?_eq_getElem h]
  rfl

/-- Storing one more connection behind the ones stored so far. -/
theorem withForward_snoc (nd : Node R) (M : List Connection) (x : Connection) :
    (nd.withForward M).setConnection (nd.backwardConnCount + (M.length : Int)) x
      = nd.withForward (M ++ [x]) := by
  unfold Node.withForward Node.setConnection
  simp only
  congr 1
  funext k
  rw [Function.update_apply]
  by_cases hk : k = nd.backwardConnCount + (M.length : Int)
  · subst hk
    rw [if_pos rfl, if_pos (by omega)]
    have : (nd.backwardConnCount + (M.length : Int) - nd.backwardConnCount).toNat = M.length := by
      omega
    rw [this]
    simp
  · rw [if_neg hk]
    by_cases hb : nd.backwardConnCount ≤ k
    · rw [if_pos hb, if_pos hb]
      have hne : (k - nd.backwardConnCount).toNat ≠ M.length := by omega
      rcases Nat.lt_or_gt_of_ne hne with hlt | hgt
      · rw [List.getElem?_append_left hlt]
      · rw [List.getElem?_eq_none (by omega), List.getElem?_eq_none (by simp; omega)]
    · rw [if_neg hb, if_neg hb]

/-- The innermost loop of `initNetworkForwardConnectionsAnyNode`, over any list of
connection ids of a node `B` other than `A`. -/
theorem forwardScan_conns (s : Network R) (A B : NodeRef) (hAB : B ≠ A) (maxF : Int)
    (lc : List Int) (M : List (NodeRef × Int)) (st' : Network R × Int)
    (h : lc.foldlM
      (fun (st : Network R × Int) c =>
        if ((st.1.nodes B).connections c).nodePtr = some A then
          if st.2 + 1 > maxF then (throw Fault.exit1 : Except Fault (Network R × Int))
          else pure (st.1.setNode A
            ((st.1.nodes A).setConnection ((s.nodes A).backwardConnCount + st.2)
              ⟨some B, ((st.1.nodes B).connections c).weightPtr⟩), st.2 + 1)
        else pure st)
      (forwardScanState s A M) = Except.ok st') :
    st' = forwardScanState s A (M ++ linksOfNodeIn s A B lc) := by
  induction lc generalizing M with
  | nil =>
    simp only [List.foldlM_nil, pure, Except.pure, Except.ok.injEq] at h
    simp [linksOfNodeIn, ← h]
  | cons c lc ih =>
    obtain ⟨t, h1, h2⟩ := (foldlM_cons_ok _ c lc _ st').1 h
    have hB : (forwardScanState s A M).1.nodes B = s.nodes B := by
      simp only [forwardScanState]
      exact setNode_nodes_ne _ _ hAB
    simp only [hB] at h1
    by_cases hm : ((s.nodes B).connections c).nodePtr = some A
    · rw [if_pos hm] at h1
      by_cases hmax : (forwardScanState s A M).2 + 1 > maxF
      · rw [if_pos hmax] at h1
        cases h1
      · rw [if_neg hmax] at h1
        simp only [pure, Except.pure, Except.ok.injEq] at h1
        have ht : t = forwardScanState s A (M ++ [(B, c)]) := by
          rw [← h1]
          simp only [forwardScanState, setNode_nodes_same, setNode_setNode, List.map_append,
            List.map_cons, List.map_nil, List.length_append, List.length_cons,
            List.length_nil]
          congr 2
          · have := withForward_snoc (s.nodes A) (M.map (forwardOf s)) (forwardOf s (B, c))
            rw [List.length_map] at this
            exact this
        rw [ht] at h2
        have := ih (M ++ [(B, c)]) h2
        rw [this]
        simp [linksOfNodeIn, hm]
    · rw [if_neg hm] at h1
      simp only [pure, Except.pure, Except.ok.injEq] at h1
      rw [← h1] at h2
      have := ih M h2
      rw [this]
      simp [linksOfNodeIn, hm]

/-- The loop of `initNetworkForwardConnectionsAnyNode` over the nodes of a column of a
layer other than the layer of `A`. -/
theorem forwardScan_nodes (s : Network R) (A : NodeRef) (NL : Nat) (hA : A.layer ≠ NL)
    (maxF : Int) (o : Int) (ln : List Int) (M : List (NodeRef × Int))
    (st' : Network R × Int)
    (h : ln.foldlM
      (fun (st : Network R × Int) n =>
        (forRange (st.1.nodes (getNetworkNode NL o n)).backwardConnCount).foldlM
          (fun (st : Network R × Int) c =>
            if ((st.1.nodes (getNetworkNode NL o n)).connections c).nodePtr = some A then
              if st.2 + 1 > maxF then (throw Fault.exit1 : Except Fault (Network R × Int))
              else pure (st.1.setNode A
                ((st.1.nodes A).setConnection ((s.nodes A).backwardConnCount + st.2)
                  ⟨some (getNetworkNode NL o n),
                    ((st.1.nodes (getNetworkNode NL o n)).connections c).weightPtr⟩),
                st.2 + 1)
            else pure st) st)
      (forwardScanState s A M) = Except.ok st') :
    st' = forwardScanState s A
      (M ++ ln.flatMap (fun n => linksOfNode s A (getNetworkNode NL o n))) := by
  induction ln generalizing M with
  | nil =>
    simp only [List.foldlM_nil, pure, Except.pure, Except.ok.injEq] at h
    simp [← h]
  | cons n ln ih =>
    obtain ⟨t, h1, h2⟩ := (foldlM_cons_ok _ n ln _ st').1 h
    have hne : getNetworkNode NL o n ≠ A := by
      intro e; apply hA; rw [← e]; rfl
    have hB : (forwardScanState s A M).1.nodes (getNetworkNode NL o n)
        = s.nodes (getNetworkNode NL o n) := by
      simp only [forwardScanState]
      exact setNode_nodes_ne _ _ hne
    rw [hB] at h1
    have ht := forwardScan_conns s A (getNetworkNode NL o n) hne maxF _ M t h1
    rw [ht] at h2
    have := ih _ h2
    rw [this]
    simp [linksOfNode, List.flatMap_cons]

/-- The loop of `initNetworkForwardConnectionsAnyNode` over the columns of a layer other
than the layer of `A`. -/
theorem forwardScan_columns (s : Network R) (A : NodeRef) (NL : Nat) (hA : A.layer ≠ NL)
    (maxF : Int) (lo : List Int) (M : List (NodeRef × Int)) (st' : Network R × Int)
    (h : lo.foldlM
      (fun (st : Network R × Int) o =>
        (forRange (st.1.columns NL 0).nodeCount).foldlM
          (fun (st : Network R × Int) n =>
            (forRange (st.1.nodes (getNetworkNode NL o n)).backwardConnCount).foldlM
              (fun (st : Network R × Int) c =>
                if ((st.1.nodes (getNetworkNode NL o n)).connections c).nodePtr = some A then
                  if st.2 + 1 > maxF then (throw Fault.exit1 : Except Fault (Network R × Int))
                  else pure (st.1.setNode A
                    ((st.1.nodes A).setConnection ((s.nodes A).backwardConnCount + st.2)
                      ⟨some (getNetworkNode NL o n),
                        ((st.1.nodes (getNetworkNode NL o n)).connections c).weightPtr⟩),
                    st.2 + 1)
                else pure st) st) st)
      (forwardScanState s A M) = Except.ok st') :
    st' = forwardScanState s A
      (M ++ lo.flatMap (fun o => (forRange (s.columns NL 0).nodeCount).flatMap
        (fun n => linksOfNode s A (getNetworkNode NL o n)))) := by
  induction lo generalizing M with
  | nil =>
    simp only [List.foldlM_nil, pure, Except.pure, Except.ok.injEq] at h
    simp [← h]
  | cons o lo ih =>
    obtain ⟨t, h1, h2⟩ := (foldlM_cons_ok _ o lo _ st').1 h
    have hcol : (forwardScanState s A M).1.columns = s.columns := rfl
    rw [hcol] at h1
    have ht := forwardScan_nodes s A NL hA maxF o _ M t h1
    rw [ht] at h2
    have := ih _ h2
    rw [this]
    simp [List.flatMap_cons]

/-- What `initNetworkForwardConnectionsAnyNode` makes of a node `A` for a next layer other
than the layer of `A`, when it does not stop: behind the backward connections of `A` stands
one forward connection for each backward connection of the next layer that leads to `A`,
and `forwardConnCount` is their number. -/
theorem initNetworkForwardConnectionsAnyNode_eq (s s' : Network R) (A : NodeRef) (NL : Nat)
    (hA : A.layer ≠ NL) (h : initNetworkForwardConnectionsAnyNode s A NL = Except.ok s') :
    s' = s.setNode A
      { (s.nodes A).withForward ((backwardLinksTo s A NL).map (forwardOf s)) with
        forwardConnCount := ((backwardLinksTo s A NL).length : Int) } := by
  unfold initNetworkForwardConnectionsAnyNode at h
  obtain ⟨st, h1, h2⟩ := bind_eq_ok.1 h
  have h0 : ((s, 0) : Network R × Int) = forwardScanState s A [] := by
    simp [forwardScanState, withForward_nil, setNode_self]
  rw [h0] at h1
  have hst := forwardScan_columns s A NL hA _ _ [] st h1
  simp only [pure, Except.pure, Except.ok.injEq] at h2
  rw [← h2, hst]
  simp only [forwardScanState, List.nil_append, setNode_nodes_same, setNode_setNode]
  rfl

theorem BackwardSame.refl_backward (s : Network R) : BackwardSame s s :=
  ⟨rfl, rfl, rfl, rfl, rfl, rfl, fun _ => rfl, fun _ => rfl, fun _ => rfl, fun _ => rfl,
    fun _ => rfl, fun _ _ _ => rfl⟩

theorem BackwardSame.trans_backward {a b c : Network R} (h1 : BackwardSame a b)
    (h2 : BackwardSame b c) : BackwardSame a c :=
  ⟨h2.layerCount.trans h1.layerCount, h2.layerDefs.trans h1.layerDefs,
    h2.layers.trans h1.layers, h2.columns.trans h1.columns, h2.weights.trans h1.weights,
    h2.nullWeight.trans h1.nullWeight,
    fun r => (h2.nodeSize r).trans (h1.nodeSize r),
    fun r => (h2.bias r).trans (h1.bias r),
    fun r => (h2.output r).trans (h1.output r),
    fun r => (h2.errorSum r).trans (h1.errorSum r),
    fun r => (h2.backwardConnCount r).trans (h1.backwardConnCount r),
    fun r k hk => (h2.connections r k (by rw [h1.backwardConnCount]; exact hk)).trans
      (h1.connections r k hk)⟩

theorem mem_linksOfNodeIn {s : Network R} {A B : NodeRef} {lc : List Int}
    {x : NodeRef × Int} :
    x ∈ linksOfNodeIn s A B lc ↔
      x.1 = B ∧ x.2 ∈ lc ∧ ((s.nodes B).connections x.2).nodePtr = some A := by
  unfold linksOfNodeIn
  simp only [List.mem_map, List.mem_filter, decide_eq_true_eq]
  constructor
  · rintro ⟨c, ⟨hc, hm⟩, rfl⟩
    exact ⟨rfl, hc, hm⟩
  · rintro ⟨h1, h2, h3⟩
    exact ⟨x.2, ⟨h2, h3⟩, by rw [← h1]⟩

/-- The members of `backwardLinksTo`: the backward connections of the nodes of the next
layer that lead to the node. -/
theorem mem_backwardLinksTo {s : Network R} {A : NodeRef} {NL : Nat} {x : NodeRef × Int} :
    x ∈ backwardLinksTo s A NL ↔
      ∃ o n, 0 ≤ o ∧ o < (s.layers NL).columnCount ∧ 0 ≤ n ∧
        n < (s.columns NL 0).nodeCount ∧ x.1 = getNetworkNode NL o n ∧ 0 ≤ x.2 ∧
        x.2 < (s.nodes x.1).backwardConnCount ∧
        ((s.nodes x.1).connections x.2).nodePtr = some A := by
  unfold backwardLinksTo linksOfNode
  simp only [List.mem_flatMap, mem_forRange, mem_linksOfNodeIn]
  constructor
  · rintro ⟨o, ho, n, hn, h1, h2, h3⟩
    refine ⟨o, n, ho.1, ho.2, hn.1, hn.2, h1, ?_, ?_, ?_⟩
    · exact h2.1
    · rw [h1]; exact h2.2
    · rw [h1]; exact h3
  · rintro ⟨o, n, ho0, ho, hn0, hn, h1, h2, h3, h4⟩
    refine ⟨o, ⟨ho0, ho⟩, n, ⟨hn0, hn⟩, h1, ⟨h2, ?_⟩, ?_⟩
    · rw [← h1]; exact h3
    · rw [← h1]; exact h4

/-- The backward connections that lead to a node are the same in two states that differ in
forward connections only, and so are the forward connections stored for them. -/
theorem BackwardSame.links {s u : Network R} (h : BackwardSame s u) (A : NodeRef) (NL : Nat) :
    backwardLinksTo u A NL = backwardLinksTo s A NL ∧
      ∀ x ∈ backwardLinksTo s A NL, forwardOf u x = forwardOf s x := by
  constructor
  · unfold backwardLinksTo linksOfNode linksOfNodeIn
    rw [h.layers, h.columns]
    congr 1
    funext o
    congr 1
    funext n
    rw [h.backwardConnCount]
    congr 1
    apply List.filter_congr
    intro c hc
    rw [h.connections _ c (mem_forRange.1 hc).2]
  · intro x hx
    obtain ⟨o, n, -, -, -, -, -, -, h3, -⟩ := mem_backwardLinksTo.1 hx
    unfold forwardOf
    rw [h.connections _ _ h3]

/-- A step of `initNetworkForwardConnectionsAnyNode` changes forward connections only. -/
theorem BackwardSame.withForward (s : Network R) (A : NodeRef) (M : List Connection)
    (f : Int) :
    BackwardSame s (s.setNode A { (s.nodes A).withForward M with forwardConnCount := f }) := by
  refine ⟨rfl, rfl, rfl, rfl, rfl, rfl, ?_, ?_, ?_, ?_, ?_, ?_⟩
  all_goals
    intro r
    rw [setNode_nodes]
    split
    · next h =>
      subst h
      first
        | rfl
        | (intro k hk; exact withForward_lt _ _ _ hk)
    · first
        | rfl
        | (intro k hk; rfl)

/-- One call of `initNetworkForwardConnectionsAnyNode` in a state `u` that differs from
`p` in forward connections only. -/
theorem forwardNode_step (p u u' : Network R) (A : NodeRef) (NL : Nat) (hA : A.layer ≠ NL)
    (hpu : BackwardSame p u)
    (h : initNetworkForwardConnectionsAnyNode u A NL = Except.ok u') :
    BackwardSame p u' ∧ (∀ r, r ≠ A → u'.nodes r = u.nodes r) ∧
      ForwardBuilt p NL A (u'.nodes A) := by
  have heq := initNetworkForwardConnectionsAnyNode_eq u u' A NL hA h
  obtain ⟨hl1, hl2⟩ := hpu.links A NL
  refine ⟨?_, ?_, ?_⟩
  · rw [heq]
    exact hpu.trans_backward (BackwardSame.withForward u A _ _)
  · intro r hr
    rw [heq, setNode_nodes_ne _ _ hr]
  · rw [heq, setNode_nodes_same, hl1]
    constructor
    · rfl
    · intro j hj
      have hj' : j < ((backwardLinksTo p A NL).map (forwardOf u)).length := by
        rw [List.length_map]; exact hj
      have := withForward_get (u.nodes A) ((backwardLinksTo p A NL).map (forwardOf u)) j hj'
      simp only [withForward_backwardConnCount] at this ⊢
      change ((u.nodes A).withForward _).connections _ = _
      rw [this, List.getElem_map]
      exact hl2 _ (List.getElem_mem _)

/-- One layer of the second phase of `initNetwork`. -/
theorem initNetworkForwardConnections_spec (p u0 u1 : Network R) (l : Int) (hl0 : 0 ≤ l)
    (hpu : BackwardSame p u0) (h : initNetworkForwardConnections u0 l = Except.ok u1) :
    BackwardSame p u1 ∧ (∀ r, r.layer ≠ l.toNat → u1.nodes r = u0.nodes r) ∧
      ((l = 0 ∨ l = p.layerCount - 1) → u1 = u0) ∧
      (¬ (l = 0 ∨ l = p.layerCount - 1) → ∀ c n, 0 ≤ c →
        c < (p.layers l.toNat).columnCount → 0 ≤ n → n < (p.columns l.toNat c).nodeCount →
        ForwardBuilt p (l + 1).toNat (getNetworkNode l.toNat c n)
          (u1.nodes (getNetworkNode l.toNat c n))) := by
  unfold initNetworkForwardConnections at h
  rw [hpu.layerCount] at h
  by_cases hskip : l = 0 ∨ l = p.layerCount - 1
  · rw [if_pos hskip] at h
    simp only [pure, Except.pure, Except.ok.injEq] at h
    subst h
    exact ⟨hpu, fun _ _ => rfl, fun _ => rfl, fun hn => absurd hskip hn⟩
  · rw [if_neg hskip] at h
    simp only [getNetworkLayer] at h
    have hNL : ∀ c n, (getNetworkNode l.toNat c n).layer ≠ (l + 1).toNat := by
      intro c n
      simp only [getNetworkNode]
      omega
    have hinner : ∀ (c : Int) (t t' : Network R),
        (BackwardSame p t ∧ ∀ r, r.layer ≠ l.toNat → t.nodes r = u0.nodes r) →
        (forRange (t.columns l.toNat c).nodeCount).foldlM
          (fun s n => initNetworkForwardConnectionsAnyNode s (getNetworkNode l.toNat c n)
            (l + 1).toNat) t = Except.ok t' →
        ((BackwardSame p t' ∧ ∀ r, r.layer ≠ l.toNat → t'.nodes r = u0.nodes r) ∧
          (∀ r, r.column ≠ c → t'.nodes r = t.nodes r)) ∧
          ∀ n, n ∈ forRange (t.columns l.toNat c).nodeCount →
            ForwardBuilt p (l + 1).toNat (getNetworkNode l.toNat c n)
              (t'.nodes (getNetworkNode l.toNat c n)) := by
      intro c t t' hQ hrun
      exact foldlM_establish _ _ (forRange_nodup _)
        (fun u => (BackwardSame p u ∧ ∀ r, r.layer ≠ l.toNat → u.nodes r = u0.nodes r) ∧
          (∀ r, r.column ≠ c → u.nodes r = t.nodes r))
        (fun n u => ForwardBuilt p (l + 1).toNat (getNetworkNode l.toNat c n)
          (u.nodes (getNetworkNode l.toNat c n)))
        t t' ⟨hQ, fun _ _ => rfl⟩
        (by
          intro n u u' _ hu hstep
          obtain ⟨h1, h2, -⟩ := forwardNode_step p u u' _ _ (hNL c n) hu.1.1 hstep
          refine ⟨⟨h1, ?_⟩, ?_⟩
          · intro r hr
            rw [h2 r (by intro e; apply hr; rw [e]; rfl), hu.1.2 r hr]
          · intro r hr
            rw [h2 r (by intro e; apply hr; rw [e]; rfl), hu.2 r hr])
        (by
          intro n u u' _ hu hstep
          exact (forwardNode_step p u u' _ _ (hNL c n) hu.1.1 hstep).2.2)
        (by
          intro n n' u u' _ _ hne hu hP hstep
          obtain ⟨-, h2, -⟩ := forwardNode_step p u u' _ _ (hNL c n') hu.1.1 hstep
          rw [h2 _ (by
            intro e
            apply hne
            simpa [getNetworkNode] using e)]
          exact hP)
        hrun
    have key := foldlM_establish _ _ (forRange_nodup _)
      (fun t => BackwardSame p t ∧ ∀ r, r.layer ≠ l.toNat → t.nodes r = u0.nodes r)
      (fun c t => ∀ n, 0 ≤ n → n < (p.columns l.toNat c).nodeCount →
        ForwardBuilt p (l + 1).toNat (getNetworkNode l.toNat c n)
          (t.nodes (getNetworkNode l.toNat c n)))
      u0 u1 ⟨hpu, fun _ _ => rfl⟩
      (by
        intro c t t' _ hQ hrun
        exact (hinner c t t' hQ hrun).1.1)
      (by
        intro c t t' _ hQ hrun n hn0 hn
        apply (hinner c t t' hQ hrun).2 n
        rw [hQ.1.columns]
        exact mem_forRange.2 ⟨hn0, hn⟩)
      (by
        intro c c' t t' _ _ hne hQ hP hrun n hn0 hn
        rw [(hinner c' t t' hQ hrun).1.2 _ (by simpa [getNetworkNode] using hne)]
        exact hP n hn0 hn)
      h
    refine ⟨key.1.1, key.1.2, fun hs => absurd hs hskip, ?_⟩
    intro _ c n hc0 hc hn0 hn
    refine key.2 c (mem_forRange.2 ⟨hc0, ?_⟩) n hn0 hn
    rw [hpu.layers]
    exact hc

theorem ForwardBuilt.congr {p nn : Network R} (h : BackwardSame p nn) {NL : Nat}
    {A : NodeRef} {nd : Node R} (hb : ForwardBuilt p NL A nd) : ForwardBuilt nn NL A nd := by
  obtain ⟨hl1, hl2⟩ := h.links A NL
  constructor
  · rw [hl1]; exact hb.count
  · intro j hj
    have hj' : j < (backwardLinksTo p A NL).length := by rw [← hl1]; exact hj
    have h1 := hb.conn j hj'
    rw [h1]
    have h2 : (backwardLinksTo nn A NL).get ⟨j, hj⟩ = (backwardLinksTo p A NL).get ⟨j, hj'⟩ := by
      simp only [List.get_eq_getElem]
      congr 1
    rw [h2]
    exact (hl2 _ (List.get_mem _ _ _)).symm

/-- The second phase of `initNetwork`, when it does not stop: it changes forward
connections only, none in the first and the last layer, and every node of a layer in
between gets one forward connection for each backward connection of the next layer that
leads to it. -/
theorem forwardPhase_spec (p nn : Network R) (layerCount : Int)
    (hcount : p.layerCount = layerCount)
    (h : (forRange layerCount).foldlM (fun s l => initNetworkForwardConnections s l) p
      = Except.ok nn) :
    BackwardSame p nn ∧
      (∀ r, ((r.layer : Int) = 0 ∨ (r.layer : Int) = layerCount - 1) →
        nn.nodes r = p.nodes r) ∧
      (∀ l c n, 0 < l → l < layerCount - 1 → 0 ≤ c → c < (nn.layers l.toNat).columnCount →
        0 ≤ n → n < (nn.columns l.toNat c).nodeCount →
        ForwardBuilt nn (l + 1).toNat (getNetworkNode l.toNat c n)
          (nn.nodes (getNetworkNode l.toNat c n))) := by
  have key := foldlM_establish _ _ (forRange_nodup layerCount)
    (fun t => BackwardSame p t ∧
      ∀ r, ((r.layer : Int) = 0 ∨ (r.layer : Int) = layerCount - 1) →
        t.nodes r = p.nodes r)
    (fun l t => 0 < l → l < layerCount - 1 → ∀ c n, 0 ≤ c →
      c < (p.layers l.toNat).columnCount → 0 ≤ n → n < (p.columns l.toNat c).nodeCount →
      ForwardBuilt p (l + 1).toNat (getNetworkNode l.toNat c n)
        (t.nodes (getNetworkNode l.toNat c n)))
    p nn ⟨BackwardSame.refl_backward p, fun _ _ => rfl⟩
    (by
      intro l t t' hl hQ hstep
      have hl' := mem_forRange.1 hl
      obtain ⟨h1, h2, h3, -⟩ := initNetworkForwardConnections_spec p t t' l hl'.1 hQ.1 hstep
      refine ⟨h1, ?_⟩
      intro r hr
      by_cases hs : l = 0 ∨ l = p.layerCount - 1
      · rw [h3 hs]; exact hQ.2 r hr
      · rw [h2 r (by omega)]
        exact hQ.2 r hr)
    (by
      intro l t t' hl hQ hstep hl0 hl1 c n hc0 hc hn0 hn
      have hl' := mem_forRange.1 hl
      obtain ⟨-, -, -, h4⟩ := initNetworkForwardConnections_spec p t t' l hl'.1 hQ.1 hstep
      exact h4 (by omega) c n hc0 hc hn0 hn)
    (by
      intro l l' t t' hl hl' hne hQ hP hstep hl0 hl1 c n hc0 hc hn0 hn
      have hlm := mem_forRange.1 hl
      have hlm' := mem_forRange.1 hl'
      obtain ⟨-, h2, -, -⟩ := initNetworkForwardConnections_spec p t t' l' hlm'.1 hQ.1 hstep
      rw [h2 _ (by simp only [getNetworkNode]; omega)]
      exact hP hl0 hl1 c n hc0 hc hn0 hn)
    h
  refine ⟨key.1.1, key.1.2, ?_⟩
  intro l c n hl0 hl1 hc0 hc hn0 hn
  rw [key.1.1.layers] at hc
  rw [key.1.1.columns] at hn
  exact (key.2 l (mem_forRange.2 ⟨by omega, by omega⟩) hl0 hl1 c n hc0 hc hn0 hn).congr key.1.1

end ForwardWiring

/-! ## Backward connections -/

section BackwardWiring

variable {R : Type} [LinearOrderedField R]

theorem setConnections_self (s : Network R) (A : NodeRef) :
    s.setConnections A (s.nodes A).connections = s := by
  unfold Network.setConnections
  exact setNode_self s A

theorem setConnections_setConnection (s : Network R) (A : NodeRef) (g : Int → Connection)
    (i : Int) (x : Connection) :
    (s.setConnections A g).setNode A (((s.setConnections A g).nodes A).setConnection i x)
      = s.setConnections A (Function.update g i x) := by
  unfold Network.setConnections Node.setConnection
  rw [setNode_setNode, setNode_nodes_same]

theorem setConnections_setConnections (s : Network R) (A : NodeRef)
    (g g' : Int → Connection) :
    (s.setConnections A g).setConnections A g' = s.setConnections A g' := by
  unfold Network.setConnections
  rw [setNode_setNode, setNode_nodes_same]

theorem setConnections_nodes_same (s : Network R) (A : NodeRef) (g : Int → Connection) :
    (s.setConnections A g).nodes A = { s.nodes A with connections := g } := by
  unfold Network.setConnections
  exact setNode_nodes_same _ _ _

theorem setConnections_nodes_ne (s : Network R) (A : NodeRef) (g : Int → Connection)
    {r : NodeRef} (h : r ≠ A) : (s.setConnections A g).nodes r = s.nodes r := by
  unfold Network.setConnections
  exact setNode_nodes_ne _ _ h

theorem div_mod_of_slot {dep col a : Int} (ha0 : 0 ≤ a) (ha : a < dep) :
    (col * dep + a) / dep = col ∧ (col * dep + a) % dep = a := by
  have hd : dep ≠ 0 := by omega
  constructor
  · rw [Int.add_comm, Int.add_mul_ediv_right _ _ hd, Int.ediv_eq_zero_of_lt ha0 ha]
    simp
  · rw [Int.add_comm, Int.add_mul_emod_self, Int.emod_eq_of_lt ha0 ha]

/-- What `initNetworkBackwardConnectionsFCNode` stores in a node, for a previous layer of
`cc` columns with `dep` nodes each: the connection `k` leads to the node at column
`k / dep` and level `k % dep` and refers to the weight `nodeWeightPtr + k`. -/
theorem initNetworkBackwardConnectionsFCNode_spec (s : Network R) (A : NodeRef) (PL : Nat)
    (w cc dep : Int) (hdep : 0 < dep) (hcc : (s.layers PL).columnCount = cc)
    (hnc : ∀ c, 0 ≤ c → c < cc → (s.columns PL c).nodeCount = dep) :
    ∃ g, initNetworkBackwardConnectionsFCNode s A PL w = s.setConnections A g ∧
      ∀ k, 0 ≤ k → k < cc * dep →
        g k = ⟨some ⟨PL, k / dep, k % dep⟩, WeightRef.block (w + k)⟩ := by
  unfold initNetworkBackwardConnectionsFCNode
  rw [hcc]
  have key := forRange_foldl_inv
    (fun (st : Network R × Int × Int) col =>
      (forRange (st.1.columns PL col).nodeCount).foldl
        (fun (st : Network R × Int × Int) n =>
          let connId := st.2.1
          let nodeWeightId := st.2.2
          (st.1.setNode A
            ((st.1.nodes A).setConnection connId
              ⟨some ⟨PL, col, n⟩, WeightRef.block (w + nodeWeightId)⟩),
            connId + 1, nodeWeightId + 1)) st)
    cc
    (fun col st => ∃ g, st = (s.setConnections A g, col * dep, col * dep) ∧
      ∀ k, 0 ≤ k → k < col * dep →
        g k = ⟨some ⟨PL, k / dep, k % dep⟩, WeightRef.block (w + k)⟩)
    (s, 0, 0)
    ⟨(s.nodes A).connections, by simp [setConnections_self], by intro k h0 h1; omega⟩
    (by
      intro col t hc0 hc hI
      obtain ⟨g, ht, hg⟩ := hI
      subst ht
      have hcols : ((s.setConnections A g).columns PL col).nodeCount = dep := hnc col hc0 hc
      simp only [hcols]
      have inner := forRange_foldl_inv
        (fun (st : Network R × Int × Int) n =>
          let connId := st.2.1
          let nodeWeightId := st.2.2
          (st.1.setNode A
            ((st.1.nodes A).setConnection connId
              ⟨some ⟨PL, col, n⟩, WeightRef.block (w + nodeWeightId)⟩),
            connId + 1, nodeWeightId + 1))
        dep
        (fun a st => ∃ g, st = (s.setConnections A g, col * dep + a, col * dep + a) ∧
          ∀ k, 0 ≤ k → k < col * dep + a →
            g k = ⟨some ⟨PL, k / dep, k % dep⟩, WeightRef.block (w + k)⟩)
        (s.setConnections A g, col * dep, col * dep)
        ⟨g, by simp, by intro k h0 h1; exact hg k h0 (by omega)⟩
        (by
          intro a t ha0 ha hI
          obtain ⟨g', ht, hg'⟩ := hI
          subst ht
          refine ⟨Function.update g' (col * dep + a)
            ⟨some ⟨PL, col, a⟩, WeightRef.block (w + (col * dep + a))⟩, ?_, ?_⟩
          · simp only [setConnections_setConnection]
            congr 2 <;> ring
          · intro k hk0 hk
            rw [Function.update_apply]
            split
            · next hk' =>
              subst hk'
              obtain ⟨h1, h2⟩ := @div_mod_of_slot _ col _ ha0 ha
              rw [h1, h2]
            · next hk' => exact hg' k hk0 (by omega))
      have hmax : max dep 0 = dep := by omega
      rw [hmax] at inner
      obtain ⟨g', h1, h2⟩ := inner
      refine ⟨g', ?_, ?_⟩
      · rw [h1]; congr 2 <;> ring
      · intro k hk0 hk
        exact h2 k hk0 (by
          have : (col + 1) * dep = col * dep + dep := by ring
          omega))
  obtain ⟨g, h1, h2⟩ := key
  refine ⟨g, by rw [h1], ?_⟩
  intro k hk0 hk
  apply h2 k hk0
  by_cases hc : 0 ≤ cc
  · rw [max_eq_left hc]; exact hk
  · exfalso
    have : cc * dep < 0 := Int.mul_neg_of_neg_of_pos (by omega) hdep
    omega

theorem slot_inj {fs t p t' p' : Int} (hp0 : 0 ≤ p) (hp : p < fs) (hp0' : 0 ≤ p')
    (hp' : p' < fs) (h : t * fs + p = t' * fs + p') : t = t' ∧ p = p' := by
  obtain ⟨h1, h2⟩ := @div_mod_of_slot _ t _ hp0 hp
  obtain ⟨h1', h2'⟩ := @div_mod_of_slot _ t' _ hp0' hp'
  rw [h] at h1 h2
  exact ⟨h1.symm.trans h1', h2.symm.trans h2'⟩

/-- What `initNetworkBackwardConnectionsConvNode` stores in a node when it does not stop:
for every position `p` of the filter and every level `t` of the target layer, the
connection `t * filterSize + p` leads to the node at the column `vals[p]` and level `t` of
the target layer and refers to the weight `srcLevel * (tgtDepth * filterSize) + t *
filterSize + p` of the layer, or, when `vals[p]` is out of range, leads nowhere and refers
to the null weight. -/
theorem initNetworkBackwardConnectionsConvNode_spec (s s' : Network R) (A : NodeRef)
    (srcLevel W : Int) (TL : Nat) (v : Vector Int)
    (h : initNetworkBackwardConnectionsConvNode s A srcLevel W TL v = Except.ok s') :
    ∃ g, s' = s.setConnections A g ∧
      ∀ t p, 0 ≤ t → t < (s.layerDefOf TL).nodeMap.depth → 0 ≤ p → p < v.count →
        ∃ col, v.vals[p.toNat]? = some col ∧
          g (t * v.count + p)
            = if col ≠ OUT_OF_RANGE then
                ⟨some ⟨TL, col, t⟩,
                  WeightRef.block (W + (srcLevel * ((s.layerDefOf TL).nodeMap.depth * v.count)
                    + t * v.count + p))⟩
              else ⟨none, WeightRef.nullWeight⟩ := by
  unfold initNetworkBackwardConnectionsConvNode at h
  simp only at h
  generalize htd : (s.layerDefOf TL).nodeMap.depth = td at h ⊢
  generalize hfs : v.count = fs at h ⊢
  have key := forRange_foldlM_inv _ fs
    (fun pos st => ∃ g, st = s.setConnections A g ∧
      ∀ t p, 0 ≤ t → t < td → 0 ≤ p → p < pos →
        ∃ col, v.vals[p.toNat]? = some col ∧
          g (t * fs + p)
            = if col ≠ OUT_OF_RANGE then
                ⟨some ⟨TL, col, t⟩,
                  WeightRef.block (W + (srcLevel * (td * fs) + t * fs + p))⟩
              else ⟨none, WeightRef.nullWeight⟩)
    s s'
    ⟨(s.nodes A).connections, by simp [setConnections_self],
      by intro t p _ _ h0 h1; omega⟩
    (by
      intro a u u' ha0 ha hI hstep
      obtain ⟨g, hu, hg⟩ := hI
      subst hu
      cases hv : v.vals[a.toNat]? with
      | none =>
        rw [hv] at hstep
        cases hstep
      | some col =>
        rw [hv] at hstep
        simp only [pure, Except.pure, Except.ok.injEq] at hstep
        have inner := forRange_foldl_inv
          (fun (s : Network R) tgtLevel =>
            let i := (tgtLevel * fs) + a
            if col ≠ OUT_OF_RANGE then
              let weightPosition := (srcLevel * (td * fs)) + (tgtLevel * fs) + a
              let tgtWeight := WeightRef.block (W + weightPosition)
              let tgtNode := getNetworkNode TL col tgtLevel
              s.setNode A ((s.nodes A).setConnection i ⟨some tgtNode, tgtWeight⟩)
            else
              s.setNode A ((s.nodes A).setConnection i ⟨none, WeightRef.nullWeight⟩))
          td
          (fun tl st => ∃ g, st = s.setConnections A g ∧
            (∀ t p, 0 ≤ t → t < td → 0 ≤ p → p < a →
              ∃ col, v.vals[p.toNat]? = some col ∧
                g (t * fs + p)
                  = if col ≠ OUT_OF_RANGE then
                      ⟨some ⟨TL, col, t⟩,
                        WeightRef.block (W + (srcLevel * (td * fs) + t * fs + p))⟩
                    else ⟨none, WeightRef.nullWeight⟩) ∧
            ∀ t, 0 ≤ t → t < tl →
              g (t * fs + a)
                = if col ≠ OUT_OF_RANGE then
                    ⟨some ⟨TL, col, t⟩,
                      WeightRef.block (W + (srcLevel * (td * fs) + t * fs + a))⟩
                  else ⟨none, WeightRef.nullWeight⟩)
          (s.setConnections A g)
          ⟨g, rfl, hg, by intro t h0 h1; omega⟩
          (by
            intro tl w htl0 htl hI
            obtain ⟨g', hw, hg1, hg2⟩ := hI
            subst hw
            refine ⟨Function.update g' (tl * fs + a)
              (if col ≠ OUT_OF_RANGE then
                ⟨some ⟨TL, col, tl⟩,
                  WeightRef.block (W + (srcLevel * (td * fs) + tl * fs + a))⟩
              else ⟨none, WeightRef.nullWeight⟩), ?_, ?_, ?_⟩
            · simp only
              split
              · rw [setConnections_setConnection]; rfl
              · rw [setConnections_setConnection]
            · intro t p ht0 ht hp0 hp
              obtain ⟨col', h1, h2⟩ := hg1 t p ht0 ht hp0 hp
              refine ⟨col', h1, ?_⟩
              rw [Function.update_apply, if_neg, h2]
              intro e
              have := (slot_inj hp0 (by omega) ha0 ha e).2
              omega
            · intro t ht0 ht
              rw [Function.update_apply]
              split
              · next e =>
                have := (slot_inj ha0 ha ha0 ha e).1
                subst this
                rfl
              · next e =>
                have hne : t ≠ tl := by
                  intro h
                  apply e
                  rw [h]
                exact hg2 t ht0 (by omega))
        obtain ⟨g', h1, h2, h3⟩ := inner
        refine ⟨g', by rw [← hstep, ← h1], ?_⟩
        intro t p ht0 ht hp0 hp
        by_cases hpa : p = a
        · subst hpa
          exact ⟨col, hv, h3 t ht0 (by omega)⟩
        · exact h2 t p ht0 ht hp0 (by omega))
    h
  obtain ⟨g, h1, h2⟩ := key
  refine ⟨g, h1, ?_⟩
  intro t p ht0 ht hp0 hp
  exact h2 t p ht0 ht hp0 (by omega)

theorem defAt_ok_iff {defs : List LayerDefinition} {l : Int} {d : LayerDefinition} :
    defAt defs l = Except.ok d ↔ 0 ≤ l ∧ defs[l.toNat]? = some d := by
  unfold defAt
  by_cases h : 0 ≤ l
  · rw [if_pos h]
    cases hd : defs[l.toNat]? with
    | none => simp [h]
    | some d' => simp [h]
  · rw [if_neg h]
    simp [h]

/-- Reading the definition of a layer through the pointer stored in the layer. -/
theorem layerDefOf_eq {s : Network R} {defs : List LayerDefinition} {L : Nat} {l : Int}
    {d : LayerDefinition} (hdefs : s.layerDefs = defs) (hld : (s.layers L).layerDef = l)
    (hd : defAt defs l = Except.ok d) : s.layerDefOf L = d := by
  obtain ⟨-, h2⟩ := defAt_ok_iff.1 hd
  unfold Network.layerDefOf
  rw [hdefs, hld, List.getD_eq_getElem?_getD, h2]
  rfl

/-- The state after `setNetworkNodeDefaults`. -/
theorem setNetworkNodeDefaults_spec (abi : Abi) (s s' : Network R) (L : Nat) (c : Int)
    (A : NodeRef) (h : setNetworkNodeDefaults abi s L c A = Except.ok s') :
    ∃ sz b f g, getNodeSize abi s.layerDefs (s.layers L).layerDef = Except.ok sz ∧
      getNodeBackwardConnectionCount s.layerDefs (s.layers L).layerDef = Except.ok b ∧
      getNodeForwardConnectionCount s.layerDefs (s.layers L).layerDef = Except.ok f ∧
      s' = s.setNode A ⟨sz, 0, 0, 0, b, f, g⟩ := by
  unfold setNetworkNodeDefaults at h
  obtain ⟨sz, h1, h⟩ := bind_eq_ok.1 h
  obtain ⟨b, h2, h⟩ := bind_eq_ok.1 h
  obtain ⟨f, h3, h⟩ := bind_eq_ok.1 h
  simp only [pure, Except.pure, Except.ok.injEq] at h
  have key := foldl_inv
    (fun (s : Network R) c =>
      s.setNode A ((s.nodes A).setConnection c ⟨none, WeightRef.nullWeight⟩))
    (fun t => ∃ g, t = s.setNode A ⟨sz, 0, 0, 0, b, f, g⟩)
    (forRange ((s.setNode A
      { s.nodes A with
        size := sz, bias := 0, output := 0, errorSum := 0,
        backwardConnCount := b, forwardConnCount := f }).columns L c).maxConnCountPerNode)
    (s.setNode A
      { s.nodes A with
        size := sz, bias := 0, output := 0, errorSum := 0,
        backwardConnCount := b, forwardConnCount := f })
    ⟨(s.nodes A).connections, rfl⟩
    (by
      intro a t _ ht
      obtain ⟨g, hg⟩ := ht
      subst hg
      refine ⟨Function.update g a ⟨none, WeightRef.nullWeight⟩, ?_⟩
      simp only [setNode_setNode, setNode_nodes_same, Node.setConnection])
  obtain ⟨g, hg⟩ := key
  exact ⟨sz, b, f, g, h1, h2, h3, by rw [← h, hg]⟩

/-- `initNetworkBackwardConnectionsFCNode` changes the connections of the node only. -/
theorem initNetworkBackwardConnectionsFCNode_frame (s : Network R) (A : NodeRef) (PL : Nat)
    (w : Int) : ∃ g, initNetworkBackwardConnectionsFCNode s A PL w = s.setConnections A g := by
  unfold initNetworkBackwardConnectionsFCNode
  apply foldl_inv _ (fun (st : Network R × Int × Int) => ∃ g, st.1 = s.setConnections A g)
  · exact ⟨(s.nodes A).connections, by simp [setConnections_self]⟩
  · intro col t _ ht
    apply foldl_inv _ (fun (st : Network R × Int × Int) => ∃ g, st.1 = s.setConnections A g)
    · exact ht
    · intro n u _ hu
      obtain ⟨g, hg⟩ := hu
      refine ⟨Function.update g u.2.1
        ⟨some ⟨PL, col, n⟩, WeightRef.block (w + u.2.2)⟩, ?_⟩
      simp only [hg, setConnections_setConnection]

theorem setNode_setConnections (s : Network R) (A : NodeRef) (nd : Node R)
    (g : Int → Connection) :
    (s.setNode A nd).setConnections A g = s.setNode A { nd with connections := g } := by
  unfold Network.setConnections
  rw [setNode_setNode, setNode_nodes_same]

/-- The body of the loop of `initNetworkNodes` at the level `n` of the column `c` of the
layer `l`, in a state in which the headers of the layer, of the column and of the previous
layer are set: it changes the node only, and the node is built. -/
theorem initNetworkNode_spec (abi : Abi) (defs : List LayerDefinition) (s s' : Network R)
    (l c n : Int) (v : Vector Int) (d : LayerDefinition)
    (hdefs : s.layerDefs = defs) (hld : (s.layers l.toNat).layerDef = l)
    (hd : defAt defs l = Except.ok d)
    (hwp : (s.layers l.toNat).weightsPtr = layerWeightsPtr abi defs l)
    (hnc : (s.columns l.toNat c).nodeCount = d.nodeMap.depth)
    (hprev : ∀ dp, defAt defs (l - 1) = Except.ok dp →
      (s.layers (l - 1).toNat).layerDef = l - 1 ∧
      (s.layers (l - 1).toNat).columnCount = getColumnCount dp ∧
      ∀ c', 0 ≤ c' → c' < getColumnCount dp →
        (s.columns (l - 1).toNat c').nodeCount = dp.nodeMap.depth)
    (hv : createFilterColumnIds s l.toNat c (l - 1).toNat = Except.ok v)
    (h : initNetworkNode abi s l.toNat (l - 1).toNat c v n = Except.ok s') :
    (∃ nd, s' = s.setNode (getNetworkNode l.toNat c n) nd) ∧
    NodeBuilt abi defs l c n (s'.nodes (getNetworkNode l.toNat c n)) ∧
    getNodeForwardConnectionCount defs l
      = Except.ok (s'.nodes (getNetworkNode l.toNat c n)).forwardConnCount := by
  unfold initNetworkNode at h
  obtain ⟨s1, h1, h⟩ := bind_eq_ok.1 h
  obtain ⟨sz, b, f, g, hsz, hb, hf, hs1⟩ := setNetworkNodeDefaults_spec abi s s1 _ _ _ h1
  rw [hdefs, hld] at hsz hb hf
  subst hs1
  obtain ⟨s2, h2, h⟩ := bind_eq_ok.1 h
  generalize hA : getNetworkNode l.toNat c n = A at *
  have hdef1 : ∀ nd, (s.setNode A nd).layerDefOf l.toNat = d := by
    intro nd
    rw [setNode_layerDefOf]
    exact layerDefOf_eq hdefs hld hd
  have hdefc : ∀ nd g', ((s.setNode A nd).setConnections A g').layerDefOf l.toNat = d := by
    intro nd g'
    rw [setNode_setConnections]
    exact hdef1 _
  by_cases hfc : d.layerType = LayerType.FULLY_CONNECTED ∨ d.layerType = LayerType.OUTPUT
  · -- a fully connected node
    rw [hdef1, if_pos hfc] at h2
    obtain ⟨b2, hb2, h2⟩ := bind_eq_ok.1 h2
    simp only [setNode_layerDefs, setNode_layers, hdefs, hld, hb] at hb2
    simp only [Except.ok.injEq] at hb2
    subst hb2
    simp only [pure, Except.pure, Except.ok.injEq, setNode_layers, setNode_columns, hwp, hnc]
      at h2
    obtain ⟨g', hg'⟩ := initNetworkBackwardConnectionsFCNode_frame
      (s.setNode A ⟨sz, 0, 0, 0, b, f, g⟩) A (l - 1).toNat
      (layerWeightsPtr abi defs l + (c * d.nodeMap.depth + n) * b)
    have hnotconv : ¬ d.layerType = LayerType.CONVOLUTIONAL := by
      rcases hfc with h | h <;> rw [h] <;> simp
    rw [← h2, hg', hdefc, if_neg hnotconv] at h
    simp only [pure, Except.pure, Except.ok.injEq] at h
    rw [setNode_setConnections] at h
    refine ⟨⟨_, h.symm⟩, ?_, ?_⟩
    · rw [← h, setNode_nodes_same]
      refine ⟨hsz, hb, ?_, ?_⟩
      · intro d' dp hd' hdp _ hdep k hk0 hk
        rw [hd] at hd'
        injection hd' with hd'
        subst hd'
        obtain ⟨hp1, hp2, hp3⟩ := hprev dp hdp
        obtain ⟨g2, hg2, hspec⟩ := initNetworkBackwardConnectionsFCNode_spec
          (s.setNode A ⟨sz, 0, 0, 0, b, f, g⟩) A (l - 1).toNat
          (layerWeightsPtr abi defs l + (c * d.nodeMap.depth + n) * b)
          (getColumnCount dp) dp.nodeMap.depth hdep hp2 hp3
        have hgg : g' = g2 := by
          have e := hg'.symm.trans hg2
          have e2 := congrArg (fun t => (t.nodes A).connections) e
          simpa [setConnections_nodes_same] using e2
        simp only
        rw [hgg, hspec k hk0 hk]
      · intro d' dp hd' _ htype
        rw [hd] at hd'
        injection hd' with hd'
        subst hd'
        exact absurd htype hnotconv
    · rw [← h, setNode_nodes_same]
      exact hf
  · rw [hdef1, if_neg hfc] at h2
    simp only [pure, Except.pure, Except.ok.injEq] at h2
    subst h2
    rw [hdef1] at h
    by_cases hcv : d.layerType = LayerType.CONVOLUTIONAL
    · -- a convolutional node
      rw [if_pos hcv] at h
      obtain ⟨g', hg', hspec⟩ := initNetworkBackwardConnectionsConvNode_spec _ _ _ _ _ _ _ h
      rw [setNode_setConnections] at hg'
      refine ⟨⟨_, hg'⟩, ?_, ?_⟩
      · rw [hg', setNode_nodes_same]
        refine ⟨hsz, hb, ?_, ?_⟩
        · intro d' dp hd' _ htype
          rw [hd] at hd'
          injection hd' with hd'
          subst hd'
          exact absurd htype hfc
        · intro d' dp hd' hdp _
          rw [hd] at hd'
          injection hd' with hd'
          subst hd'
          obtain ⟨hp1, -, -⟩ := hprev dp hdp
          have hdp' : s.layerDefOf (l - 1).toNat = dp := layerDefOf_eq hdefs hp1 hdp
          have hdl : s.layerDefOf l.toNat = d := layerDefOf_eq hdefs hld hd
          unfold createFilterColumnIds calcFilterColumnIds at hv
          simp only [hdp', hdl] at hv
          obtain ⟨vals, hvals, hv⟩ := bind_eq_ok.1 hv
          simp only [pure, Except.pure, Except.ok.injEq] at hv
          refine ⟨vals, hvals, ?_⟩
          intro t p ht0 ht hp0 hp
          have hcount : v.count = d.filter * d.filter := by rw [← hv]
          have hvals' : v.vals = vals := by rw [← hv]
          obtain ⟨col, hcol, hconn⟩ := hspec t p ht0
            (by rw [setNode_layerDefOf, hdp']; exact ht) hp0 (by rw [hcount]; exact hp)
          rw [hvals'] at hcol
          refine ⟨col, hcol, ?_⟩
          simp only
          rw [setNode_layerDefOf, hdp', hcount, setNode_layers, hwp] at hconn
          exact hconn
      · rw [hg', setNode_nodes_same]
        exact hf
    · rw [if_neg hcv] at h
      simp only [pure, Except.pure, Except.ok.injEq] at h
      refine ⟨⟨_, h.symm⟩, ?_, ?_⟩
      · rw [← h, setNode_nodes_same]
        refine ⟨hsz, hb, ?_, ?_⟩
        · intro d' dp hd' _ htype
          rw [hd] at hd'
          injection hd' with hd'
          subst hd'
          exact absurd htype hfc
        · intro d' dp hd' _ htype
          rw [hd] at hd'
          injection hd' with hd'
          subst hd'
          exact absurd htype hcv
      · rw [← h, setNode_nodes_same]
        exact hf

theorem SameTop.refl_top (s : Network R) : SameTop s s :=
  ⟨rfl, rfl, rfl, rfl, rfl, rfl, rfl, rfl⟩

theorem SameTop.trans_top {a b c : Network R} (h1 : SameTop a b) (h2 : SameTop b c) :
    SameTop a c :=
  ⟨h2.size.trans h1.size, h2.learningRate.trans h1.learningRate,
    h2.weightCount.trans h1.weightCount, h2.weightsPtr.trans h1.weightsPtr,
    h2.nullWeight.trans h1.nullWeight, h2.layerCount.trans h1.layerCount,
    h2.layerDefs.trans h1.layerDefs, h2.weights.trans h1.weights⟩

theorem SameTop.setNode_top (s : Network R) (A : NodeRef) (nd : Node R) :
    SameTop s (s.setNode A nd) :=
  ⟨rfl, rfl, rfl, rfl, rfl, rfl, rfl, rfl⟩

theorem SameTop.setColumn (s : Network R) (L : Nat) (c : Int) (v : Column) :
    SameTop s (s.setColumn L c v) :=
  ⟨rfl, rfl, rfl, rfl, rfl, rfl, rfl, rfl⟩

theorem SameTop.setLayer (s : Network R) (L : Nat) (v : Layer) :
    SameTop s (s.setLayer L v) :=
  ⟨rfl, rfl, rfl, rfl, rfl, rfl, rfl, rfl⟩

/-- The filter window of a column depends on the layer definitions only. -/
theorem createFilterColumnIds_congr (s t : Network R) (L PL : Nat) (c : Int)
    (h1 : t.layerDefs = s.layerDefs) (h2 : t.layers = s.layers) :
    createFilterColumnIds t L c PL = createFilterColumnIds s L c PL := by
  unfold createFilterColumnIds calcFilterColumnIds Network.layerDefOf
  rw [h1, h2]

/-- The loop of `initNetworkNodes` over the nodes of the column `c` of the layer `l`. -/
theorem initNetworkNodes_spec (abi : Abi) (defs : List LayerDefinition) (s s' : Network R)
    (l c : Int) (d : LayerDefinition)
    (hdefs : s.layerDefs = defs) (hld : (s.layers l.toNat).layerDef = l)
    (hd : defAt defs l = Except.ok d)
    (hwp : (s.layers l.toNat).weightsPtr = layerWeightsPtr abi defs l)
    (hnc : (s.columns l.toNat c).nodeCount = d.nodeMap.depth)
    (hprev : ∀ dp, defAt defs (l - 1) = Except.ok dp →
      (s.layers (l - 1).toNat).layerDef = l - 1 ∧
      (s.layers (l - 1).toNat).columnCount = getColumnCount dp ∧
      ∀ c', 0 ≤ c' → c' < getColumnCount dp →
        (s.columns (l - 1).toNat c').nodeCount = dp.nodeMap.depth)
    (h : initNetworkNodes abi s l c = Except.ok s') :
    (SameTop s s' ∧ s'.layers = s.layers ∧ s'.columns = s.columns ∧
      ∀ r, ¬ (r.layer = l.toNat ∧ r.column = c) → s'.nodes r = s.nodes r) ∧
    ∀ n, 0 ≤ n → n < d.nodeMap.depth →
      NodeBuilt abi defs l c n (s'.nodes ⟨l.toNat, c, n⟩) ∧
      getNodeForwardConnectionCount defs l
        = Except.ok (s'.nodes ⟨l.toNat, c, n⟩).forwardConnCount := by
  unfold initNetworkNodes at h
  simp only [getNetworkLayer] at h
  obtain ⟨_, -, h⟩ := bind_eq_ok.1 h
  obtain ⟨v, hv, h⟩ := bind_eq_ok.1 h
  rw [hnc] at h
  have hnode : ∀ (n : Int) (t t' : Network R),
      (SameTop s t ∧ t.layers = s.layers ∧ t.columns = s.columns ∧
        ∀ r, ¬ (r.layer = l.toNat ∧ r.column = c) → t.nodes r = s.nodes r) →
      initNetworkNode abi t l.toNat (l - 1).toNat c v n = Except.ok t' →
      (∃ nd, t' = t.setNode (getNetworkNode l.toNat c n) nd) ∧
      NodeBuilt abi defs l c n (t'.nodes (getNetworkNode l.toNat c n)) ∧
      getNodeForwardConnectionCount defs l
        = Except.ok (t'.nodes (getNetworkNode l.toNat c n)).forwardConnCount := by
    intro n t t' hQ hstep
    obtain ⟨hT, hL, hC, -⟩ := hQ
    apply initNetworkNode_spec abi defs t t' l c n v d (hT.layerDefs.trans hdefs)
      (by rw [hL]; exact hld) hd (by rw [hL]; exact hwp) (by rw [hC]; exact hnc)
      (by rw [hL, hC]; exact hprev)
      (by rw [createFilterColumnIds_congr s t _ _ _ hT.layerDefs hL]; exact hv) hstep
  have key := foldlM_establish _ _ (forRange_nodup d.nodeMap.depth)
    (fun t => SameTop s t ∧ t.layers = s.layers ∧ t.columns = s.columns ∧
      ∀ r, ¬ (r.layer = l.toNat ∧ r.column = c) → t.nodes r = s.nodes r)
    (fun n t => NodeBuilt abi defs l c n (t.nodes ⟨l.toNat, c, n⟩) ∧
      getNodeForwardConnectionCount defs l
        = Except.ok (t.nodes ⟨l.toNat, c, n⟩).forwardConnCount)
    s s' ⟨SameTop.refl_top s, rfl, rfl, fun _ _ => rfl⟩
    (by
      intro n t t' _ hQ hstep
      obtain ⟨⟨nd, hnd⟩, -, -⟩ := hnode n t t' hQ hstep
      obtain ⟨hT, hL, hC, hN⟩ := hQ
      subst hnd
      refine ⟨hT.trans_top (SameTop.setNode_top _ _ _), hL, hC, ?_⟩
      intro r hr
      rw [setNode_nodes_ne, hN r hr]
      intro e
      apply hr
      rw [e]
      exact ⟨rfl, rfl⟩)
    (by
      intro n t t' _ hQ hstep
      exact (hnode n t t' hQ hstep).2)
    (by
      intro n n' t t' _ _ hne hQ hP hstep
      obtain ⟨⟨nd, hnd⟩, -, -⟩ := hnode n' t t' hQ hstep
      subst hnd
      rw [setNode_nodes_ne]
      · exact hP
      · intro e
        apply hne
        simpa [getNetworkNode] using e)
    h
  refine ⟨key.1, ?_⟩
  intro n hn0 hn
  exact key.2 n (mem_forRange.2 ⟨hn0, hn⟩)

theorem setColumn_columns (s : Network R) (L L' : Nat) (c c' : Int) (v : Column) :
    (s.setColumn L c v).columns L' c' = if L' = L ∧ c' = c then v else s.columns L' c' := by
  unfold Network.setColumn
  simp only [Function.update_apply]
  by_cases h1 : L' = L
  · subst h1
    by_cases h2 : c' = c
    · subst h2
      simp
    · simp [h2]
  · simp [h1]

/-- One step of the loop of `initNetworkColumns`, at the column `c` of the layer `l`. -/
theorem initNetworkColumns_step (abi : Abi) (defs : List LayerDefinition)
    (t t' : Network R) (l c : Int) (d : LayerDefinition) (columnSize maxConn : Int)
    (hdefs : t.layerDefs = defs) (hld : (t.layers l.toNat).layerDef = l)
    (hd : defAt defs l = Except.ok d)
    (hwp : (t.layers l.toNat).weightsPtr = layerWeightsPtr abi defs l)
    (hprev : ∀ dp, defAt defs (l - 1) = Except.ok dp →
      (t.layers (l - 1).toNat).layerDef = l - 1 ∧
      (t.layers (l - 1).toNat).columnCount = getColumnCount dp ∧
      ∀ c', 0 ≤ c' → c' < getColumnCount dp →
        (t.columns (l - 1).toNat c').nodeCount = dp.nodeMap.depth)
    (h : (do
      let s1 := t.setColumn l.toNat c
        { size := columnSize,
          nodeCount := (t.layerDefOf l.toNat).nodeMap.depth,
          maxConnCountPerNode := maxConn }
      let testColumnSize ← getColumnSize abi s1.layerDefs (s1.layers l.toNat).layerDef
      if c * testColumnSize ≠ c * columnSize then throw Fault.exit1
      initNetworkNodes abi s1 l c) = Except.ok t') :
    (SameTop t t' ∧ t'.layers = t.layers ∧
      (∀ L' c', ¬ (L' = l.toNat ∧ c' = c) → t'.columns L' c' = t.columns L' c') ∧
      ∀ r, ¬ (r.layer = l.toNat ∧ r.column = c) → t'.nodes r = t.nodes r) ∧
    (t'.columns l.toNat c).nodeCount = d.nodeMap.depth ∧
    ∀ n, 0 ≤ n → n < d.nodeMap.depth →
      NodeBuilt abi defs l c n (t'.nodes ⟨l.toNat, c, n⟩) ∧
      getNodeForwardConnectionCount defs l
        = Except.ok (t'.nodes ⟨l.toNat, c, n⟩).forwardConnCount := by
  simp only at h
  obtain ⟨tcs, -, h⟩ := bind_eq_ok.1 h
  have hdl : t.layerDefOf l.toNat = d := layerDefOf_eq hdefs hld hd
  rw [hdl] at h
  by_cases hchk : c * tcs ≠ c * columnSize
  · simp [hchk, bind, Except.bind, throw, throwThe, MonadExceptOf.throw] at h
  · simp only [hchk, if_false] at h
    have h' : initNetworkNodes abi
        (t.setColumn l.toNat c
          { size := columnSize, nodeCount := d.nodeMap.depth, maxConnCountPerNode := maxConn })
        l c = Except.ok t' := by
      simpa [bind, Except.bind, pure, Except.pure] using h
    have hl1 : ∀ dp, defAt defs (l - 1) = Except.ok dp → (l - 1).toNat ≠ l.toNat := by
      intro dp hdp
      have := (defAt_ok_iff.1 hdp).1
      omega
    obtain ⟨⟨hT, hL, hC, hN⟩, hB⟩ := initNetworkNodes_spec abi defs
      (t.setColumn l.toNat c
        { size := columnSize, nodeCount := d.nodeMap.depth, maxConnCountPerNode := maxConn })
      t' l c d hdefs hld hd hwp
      (by rw [setColumn_columns]; simp)
      (by
        intro dp hdp
        obtain ⟨h1, h2, h3⟩ := hprev dp hdp
        refine ⟨h1, h2, ?_⟩
        intro c' hc0 hc'
        rw [setColumn_columns, if_neg (by
          intro e
          exact hl1 dp hdp e.1)]
        exact h3 c' hc0 hc')
      h'
    refine ⟨⟨(SameTop.setColumn _ _ _ _).trans_top hT, hL, ?_, hN⟩, ?_, hB⟩
    · intro L' c' hne
      rw [hC, setColumn_columns, if_neg hne]
    · rw [hC, setColumn_columns]
      simp

/-- The loop of `initNetworkColumns` over the columns of the layer `l`. -/
theorem initNetworkColumns_spec (abi : Abi) (defs : List LayerDefinition) (s s' : Network R)
    (l : Int) (d : LayerDefinition)
    (hdefs : s.layerDefs = defs) (hld : (s.layers l.toNat).layerDef = l)
    (hd : defAt defs l = Except.ok d)
    (hwp : (s.layers l.toNat).weightsPtr = layerWeightsPtr abi defs l)
    (hcc : (s.layers l.toNat).columnCount = getColumnCount d)
    (hprev : ∀ dp, defAt defs (l - 1) = Except.ok dp →
      (s.layers (l - 1).toNat).layerDef = l - 1 ∧
      (s.layers (l - 1).toNat).columnCount = getColumnCount dp ∧
      ∀ c', 0 ≤ c' → c' < getColumnCount dp →
        (s.columns (l - 1).toNat c').nodeCount = dp.nodeMap.depth)
    (h : initNetworkColumns abi s l = Except.ok s') :
    (SameTop s s' ∧ s'.layers = s.layers ∧
      (∀ L', L' ≠ l.toNat → s'.columns L' = s.columns L') ∧
      ∀ r, r.layer ≠ l.toNat → s'.nodes r = s.nodes r) ∧
    ∀ c, 0 ≤ c → c < getColumnCount d →
      (s'.columns l.toNat c).nodeCount = d.nodeMap.depth ∧
      ∀ n, 0 ≤ n → n < d.nodeMap.depth →
        NodeBuilt abi defs l c n (s'.nodes ⟨l.toNat, c, n⟩) ∧
        getNodeForwardConnectionCount defs l
          = Except.ok (s'.nodes ⟨l.toNat, c, n⟩).forwardConnCount := by
  unfold initNetworkColumns at h
  simp only [getNetworkLayer] at h
  obtain ⟨b, -, h⟩ := bind_eq_ok.1 h
  obtain ⟨f, -, h⟩ := bind_eq_ok.1 h
  obtain ⟨columnSize, -, h⟩ := bind_eq_ok.1 h
  rw [hcc] at h
  have hl1 : ∀ dp, defAt defs (l - 1) = Except.ok dp → (l - 1).toNat ≠ l.toNat := by
    intro dp hdp
    have := (defAt_ok_iff.1 hdp).1
    omega
  have hstep : ∀ (c : Int) (t t' : Network R),
      (SameTop s t ∧ t.layers = s.layers ∧
        (∀ L', L' ≠ l.toNat → t.columns L' = s.columns L') ∧
        ∀ r, r.layer ≠ l.toNat → t.nodes r = s.nodes r) →
      (do
        let s1 := t.setColumn l.toNat c
          { size := columnSize,
            nodeCount := (t.layerDefOf l.toNat).nodeMap.depth,
            maxConnCountPerNode := b + f }
        let testColumnSize ← getColumnSize abi s1.layerDefs (s1.layers l.toNat).layerDef
        if c * testColumnSize ≠ c * columnSize then throw Fault.exit1
        initNetworkNodes abi s1 l c) = Except.ok t' →
      (SameTop t t' ∧ t'.layers = t.layers ∧
        (∀ L' c', ¬ (L' = l.toNat ∧ c' = c) → t'.columns L' c' = t.columns L' c') ∧
        ∀ r, ¬ (r.layer = l.toNat ∧ r.column = c) → t'.nodes r = t.nodes r) ∧
      (t'.columns l.toNat c).nodeCount = d.nodeMap.depth ∧
      ∀ n, 0 ≤ n → n < d.nodeMap.depth →
        NodeBuilt abi defs l c n (t'.nodes ⟨l.toNat, c, n⟩) ∧
        getNodeForwardConnectionCount defs l
          = Except.ok (t'.nodes ⟨l.toNat, c, n⟩).forwardConnCount := by
    intro c t t' hQ hrun
    obtain ⟨hT, hL, hC, -⟩ := hQ
    exact initNetworkColumns_step abi defs t t' l c d columnSize (b + f)
      (hT.layerDefs.trans hdefs) (by rw [hL]; exact hld) hd (by rw [hL]; exact hwp)
      (by
        intro dp hdp
        rw [hL, hC _ (hl1 dp hdp)]
        exact hprev dp hdp)
      hrun
  have key := foldlM_establish _ _ (forRange_nodup (getColumnCount d))
    (fun t => SameTop s t ∧ t.layers = s.layers ∧
      (∀ L', L' ≠ l.toNat → t.columns L' = s.columns L') ∧
      ∀ r, r.layer ≠ l.toNat → t.nodes r = s.nodes r)
    (fun c t => (t.columns l.toNat c).nodeCount = d.nodeMap.depth ∧
      ∀ n, 0 ≤ n → n < d.nodeMap.depth →
        NodeBuilt abi defs l c n (t.nodes ⟨l.toNat, c, n⟩) ∧
        getNodeForwardConnectionCount defs l
          = Except.ok (t.nodes ⟨l.toNat, c, n⟩).forwardConnCount)
    s s' ⟨SameTop.refl_top s, rfl, fun _ _ => rfl, fun _ _ => rfl⟩
    (by
      intro c t t' _ hQ hrun
      obtain ⟨⟨h1, h2, h3, h4⟩, -, -⟩ := hstep c t t' hQ hrun
      obtain ⟨hT, hL, hC, hN⟩ := hQ
      refine ⟨hT.trans_top h1, h2.trans hL, ?_, ?_⟩
      · intro L' hL'
        rw [← hC L' hL']
        funext c'
        exact h3 L' c' (fun e => hL' e.1)
      · intro r hr
        rw [h4 r (fun e => hr e.1), hN r hr])
    (by
      intro c t t' _ hQ hrun
      exact (hstep c t t' hQ hrun).2)
    (by
      intro c c' t t' _ _ hne hQ hP hrun
      obtain ⟨⟨-, -, h3, h4⟩, -, -⟩ := hstep c' t t' hQ hrun
      refine ⟨?_, ?_⟩
      · rw [h3 _ _ (fun e => hne e.2)]
        exact hP.1
      · intro n hn0 hn
        rw [h4 _ (fun e => hne e.2)]
        exact hP.2 n hn0 hn)
    h
  refine ⟨key.1, ?_⟩
  intro c hc0 hc
  exact key.2 c (mem_forRange.2 ⟨hc0, hc⟩)

theorem setLayer_layers (s : Network R) (L L' : Nat) (v : Layer) :
    (s.setLayer L v).layers L' = if L' = L then v else s.layers L' := by
  unfold Network.setLayer
  simp only [Function.update_apply]

/-- A layer that is built stays built when its header, its columns and its nodes are not
changed. -/
theorem LayerBuilt.frame {abi : Abi} {defs : List LayerDefinition} {l : Int}
    {s s' : Network R} (h : LayerBuilt abi defs l s)
    (h1 : s'.layers l.toNat = s.layers l.toNat)
    (h2 : s'.columns l.toNat = s.columns l.toNat)
    (h3 : ∀ r, r.layer = l.toNat → s'.nodes r = s.nodes r) : LayerBuilt abi defs l s' := by
  refine ⟨?_, ?_, h.weightsBefore, ?_, ?_, ?_⟩
  · rw [h1]; exact h.layerDef
  · rw [h1]; exact h.weightsPtr
  · rw [h1]; exact h.columnCount
  · rw [h2]; exact h.nodeCount
  · intro d c n hd hc0 hc hn0 hn
    rw [h3 _ rfl]
    exact h.nodes d c n hd hc0 hc hn0 hn

theorem ForwardCountSet.frame_count {defs : List LayerDefinition} {l : Int}
    {s s' : Network R} (h : ForwardCountSet defs l s)
    (h3 : ∀ r, r.layer = l.toNat → s'.nodes r = s.nodes r) : ForwardCountSet defs l s' := by
  intro d c n hd hc0 hc hn0 hn
  rw [h3 _ rfl]
  exact h d c n hd hc0 hc hn0 hn

/-- What `initNetworkLayer` does when it does not stop: it builds the layer `l` and changes
nothing outside it. -/
theorem initNetworkLayer_spec (abi : Abi) (defs : List LayerDefinition) (s s' : Network R)
    (l : Int) (hdefs : s.layerDefs = defs)
    (hprev : ∀ dp, defAt defs (l - 1) = Except.ok dp →
      (s.layers (l - 1).toNat).layerDef = l - 1 ∧
      (s.layers (l - 1).toNat).columnCount = getColumnCount dp ∧
      ∀ c', 0 ≤ c' → c' < getColumnCount dp →
        (s.columns (l - 1).toNat c').nodeCount = dp.nodeMap.depth)
    (h : initNetworkLayer abi s l defs = Except.ok s') :
    (SameTop s s' ∧
      (∀ L', L' ≠ l.toNat → s'.layers L' = s.layers L' ∧ s'.columns L' = s.columns L') ∧
      ∀ r, r.layer ≠ l.toNat → s'.nodes r = s.nodes r) ∧
    (∃ d, defAt defs l = Except.ok d) ∧ LayerBuilt abi defs l s' ∧
    ForwardCountSet defs l s' := by
  unfold initNetworkLayer at h
  simp only at h
  obtain ⟨sbptr1, -, h⟩ := bind_eq_ok.1 h
  obtain ⟨sbptr2, hsb2, h⟩ := bind_eq_ok.1 h
  obtain ⟨size, -, h⟩ := bind_eq_ok.1 h
  obtain ⟨d, hd, h⟩ := bind_eq_ok.1 h
  by_cases hchk : getNetworkLayerOffset (s.setLayer l.toNat
      { id := l, layerDef := l, weightsPtr := sbptr2 / abi.sizeofWeight, size := size,
        columnCount := getColumnCount d }) l ≠ sbptr1
  · simp [hchk, bind, Except.bind, throw, throwThe, MonadExceptOf.throw] at h
  · simp only [hchk, if_false] at h
    have h' : initNetworkColumns abi (s.setLayer l.toNat
        { id := l, layerDef := l, weightsPtr := sbptr2 / abi.sizeofWeight, size := size,
          columnCount := getColumnCount d }) l = Except.ok s' := by
      simpa [bind, Except.bind, pure, Except.pure] using h
    have hl1 : ∀ dp, defAt defs (l - 1) = Except.ok dp → (l - 1).toNat ≠ l.toNat := by
      intro dp hdp
      have := (defAt_ok_iff.1 hdp).1
      omega
    have hwp : sbptr2 / abi.sizeofWeight = layerWeightsPtr abi defs l := by
      unfold layerWeightsPtr
      rw [hsb2]
    obtain ⟨⟨hT, hL, hC, hN⟩, hB⟩ := initNetworkColumns_spec abi defs
      (s.setLayer l.toNat
        { id := l, layerDef := l, weightsPtr := sbptr2 / abi.sizeofWeight, size := size,
          columnCount := getColumnCount d })
      s' l d hdefs
      (by rw [setLayer_layers]; simp)
      hd
      (by rw [setLayer_layers]; simpa using hwp)
      (by rw [setLayer_layers]; simp)
      (by
        intro dp hdp
        rw [setLayer_layers, if_neg (hl1 dp hdp)]
        exact hprev dp hdp)
      h'
    refine ⟨⟨(SameTop.setLayer _ _ _).trans_top hT, ?_, hN⟩, ⟨d, hd⟩, ?_, ?_⟩
    · intro L' hL'
      refine ⟨?_, hC L' hL'⟩
      rw [hL, setLayer_layers, if_neg hL']
    · refine ⟨?_, ?_, ⟨sbptr2, hsb2⟩, ?_, ?_, ?_⟩
      · rw [hL, setLayer_layers]; simp
      · rw [hL, setLayer_layers]; simpa using hwp
      · intro d' hd'
        rw [hd] at hd'
        injection hd' with hd'
        subst hd'
        rw [hL, setLayer_layers]; simp
      · intro d' c hd' hc0 hc
        rw [hd] at hd'
        injection hd' with hd'
        subst hd'
        exact (hB c hc0 hc).1
      · intro d' c n hd' hc0 hc hn0 hn
        rw [hd] at hd'
        injection hd' with hd'
        subst hd'
        exact ((hB c hc0 hc).2 n hn0 hn).1
    · intro d' c n hd' hc0 hc hn0 hn
      rw [hd] at hd'
      injection hd' with hd'
      subst hd'
      exact ((hB c hc0 hc).2 n hn0 hn).2

/-- The first phase of `initNetwork`, when it does not stop: every layer is built. -/
theorem backwardPhase_spec (abi : Abi) (defs : List LayerDefinition) (nn0 p : Network R)
    (layerCount : Int) (hdefs : nn0.layerDefs = defs)
    (h : (forRange layerCount).foldlM (fun s l => initNetworkLayer abi s l defs) nn0
      = Except.ok p) :
    SameTop nn0 p ∧ ∀ l, 0 ≤ l → l < layerCount →
      (∃ d, defAt defs l = Except.ok d) ∧ LayerBuilt abi defs l p ∧
      ForwardCountSet defs l p := by
  have key := forRange_foldlM_inv _ layerCount
    (fun a t => SameTop nn0 t ∧ ∀ l, 0 ≤ l → l < a →
      (∃ d, defAt defs l = Except.ok d) ∧ LayerBuilt abi defs l t ∧
      ForwardCountSet defs l t)
    nn0 p ⟨SameTop.refl_top nn0, by intro l h0 h1; omega⟩
    (by
      intro a t t' ha0 ha hI hstep
      obtain ⟨hT, hB⟩ := hI
      obtain ⟨⟨h1, h2, h3⟩, h4, h5, h6⟩ := initNetworkLayer_spec abi defs t t' a
        (hT.layerDefs.trans hdefs)
        (by
          intro dp hdp
          have hpos := (defAt_ok_iff.1 hdp).1
          obtain ⟨-, hb, -⟩ := hB (a - 1) hpos (by omega)
          exact ⟨hb.layerDef, hb.columnCount dp hdp, fun c' hc0 hc => hb.nodeCount dp c' hdp hc0 hc⟩)
        hstep
      refine ⟨hT.trans_top h1, ?_⟩
      intro l hl0 hl
      by_cases hla : l = a
      · subst hla
        exact ⟨h4, h5, h6⟩
      · have hne : l.toNat ≠ a.toNat := by omega
        obtain ⟨hd, hb, hf⟩ := hB l hl0 (by omega)
        refine ⟨hd, hb.frame (h2 _ hne).1 (h2 _ hne).2 ?_, hf.frame_count ?_⟩
        · intro r hr
          exact h3 r (by rw [hr]; exact hne)
        · intro r hr
          exact h3 r (by rw [hr]; exact hne))
    h
  refine ⟨key.1, ?_⟩
  intro l hl0 hl
  exact key.2 l hl0 (by omega)

end BackwardWiring

/-! ## What the constructor builds -/

section Built

variable {R : Type} [LinearOrderedField R]

theorem getNodeBackwardConnectionCount_fc {defs : List LayerDefinition} {l : Int}
    {d dp : LayerDefinition} (hd : defAt defs l = Except.ok d)
    (hdp : defAt defs (l - 1) = Except.ok dp)
    (htype : d.layerType = LayerType.FULLY_CONNECTED ∨ d.layerType = LayerType.OUTPUT) :
    getNodeBackwardConnectionCount defs l = Except.ok (getLayerNodeCount dp) := by
  unfold getNodeBackwardConnectionCount
  rcases htype with h | h <;>
    simp [hd, hdp, h, bind, Except.bind, pure, Except.pure]

theorem getNodeBackwardConnectionCount_conv {defs : List LayerDefinition} {l : Int}
    {d dp : LayerDefinition} (hd : defAt defs l = Except.ok d)
    (hdp : defAt defs (l - 1) = Except.ok dp)
    (htype : d.layerType = LayerType.CONVOLUTIONAL) :
    getNodeBackwardConnectionCount defs l
      = Except.ok (d.filter * d.filter * dp.nodeMap.depth) := by
  unfold getNodeBackwardConnectionCount
  simp [hd, hdp, htype, bind, Except.bind, pure, Except.pure]

theorem getNodeBackwardConnectionCount_input {defs : List LayerDefinition} {l : Int}
    {d : LayerDefinition} (hd : defAt defs l = Except.ok d)
    (htype : d.layerType = LayerType.INPUT) :
    getNodeBackwardConnectionCount defs l = Except.ok 0 := by
  unfold getNodeBackwardConnectionCount
  simp [hd, htype, bind, Except.bind, pure, Except.pure]

/-- A slot of a convolutional node lies among its backward connections. -/
theorem conv_slot_lt {ff dpd t p : Int} (ht : t < dpd) (hp : p < ff)
    (hff : 0 ≤ ff) : t * ff + p < ff * dpd := by
  have h1 : (t + 1) * ff ≤ dpd * ff := Int.mul_le_mul_of_nonneg_right (by omega) hff
  have h2 : (t + 1) * ff = t * ff + ff := by ring
  have h3 : dpd * ff = ff * dpd := by ring
  omega

/-- A node that is built stays built when its size, the number of its backward
connections and its backward connections are not changed. -/
theorem NodeBuilt.of_backward {abi : Abi} {defs : List LayerDefinition} {l c n : Int}
    {nd nd' : Node R} (h : NodeBuilt abi defs l c n nd) (h1 : nd'.size = nd.size)
    (h2 : nd'.backwardConnCount = nd.backwardConnCount)
    (h3 : ∀ k, k < nd.backwardConnCount → nd'.connections k = nd.connections k) :
    NodeBuilt abi defs l c n nd' := by
  refine ⟨by rw [h1]; exact h.size, by rw [h2]; exact h.backwardConnCount, ?_, ?_⟩
  · intro d dp hd hdp htype hdep k hk0 hk
    have hb := (getNodeBackwardConnectionCount_fc hd hdp htype).symm.trans h.backwardConnCount
    injection hb with hb
    rw [h3 k (by rw [← hb]; exact hk), h2]
    exact h.fc d dp hd hdp htype hdep k hk0 hk
  · intro d dp hd hdp htype
    obtain ⟨vals, hv, hc⟩ := h.conv d dp hd hdp htype
    refine ⟨vals, hv, ?_⟩
    intro t p ht0 ht hp0 hp
    obtain ⟨col, hcol, hconn⟩ := hc t p ht0 ht hp0 hp
    refine ⟨col, hcol, ?_⟩
    have hb := (getNodeBackwardConnectionCount_conv hd hdp htype).symm.trans h.backwardConnCount
    injection hb with hb
    rw [h3 _ (by
      rw [← hb]
      exact conv_slot_lt ht hp (by nlinarith [mul_self_nonneg d.filter]))]
    exact hconn

/-- What `initNetwork` builds when it does not stop.

* Every layer is built: the headers and, in the nodes, the sizes, the numbers of backward
  connections and the backward connections.
* In the first and in the last layer `forwardConnCount` is the value of
  `getNodeForwardConnectionCount`.
* In the layers in between every node has one forward connection for each backward
  connection of the next layer that leads to it. -/
theorem initNetwork_spec (abi : Abi) (defs : List LayerDefinition) (nn0 nn : Network R)
    (layerCount : Int) (hdefs : nn0.layerDefs = defs) (hcount : nn0.layerCount = layerCount)
    (h : initNetwork abi nn0 layerCount defs = Except.ok nn) :
    (nn.layerCount = layerCount ∧ nn.layerDefs = defs ∧ nn.weights = nn0.weights) ∧
    (∀ l, 0 ≤ l → l < layerCount →
      (∃ d, defAt defs l = Except.ok d) ∧ LayerBuilt abi defs l nn) ∧
    (∀ l, 0 ≤ l → l < layerCount → (l = 0 ∨ l = layerCount - 1) →
      ForwardCountSet defs l nn) ∧
    (∀ l c n, 0 < l → l < layerCount - 1 → 0 ≤ c → c < (nn.layers l.toNat).columnCount →
      0 ≤ n → n < (nn.columns l.toNat c).nodeCount →
      ForwardBuilt nn (l + 1).toNat (getNetworkNode l.toNat c n)
        (nn.nodes (getNetworkNode l.toNat c n))) := by
  unfold initNetwork at h
  obtain ⟨p, h1, h2⟩ := bind_eq_ok.1 h
  obtain ⟨hT, hB⟩ := backwardPhase_spec abi defs nn0 p layerCount hdefs h1
  obtain ⟨hS, hE, hF⟩ := forwardPhase_spec p nn layerCount (hT.layerCount.trans hcount) h2
  refine ⟨⟨?_, ?_, ?_⟩, ?_, ?_, hF⟩
  · rw [hS.layerCount, hT.layerCount, hcount]
  · rw [hS.layerDefs, hT.layerDefs, hdefs]
  · rw [hS.weights, hT.weights]
  · intro l hl0 hl
    obtain ⟨hd, hb, -⟩ := hB l hl0 hl
    refine ⟨hd, ?_⟩
    refine ⟨?_, ?_, hb.weightsBefore, ?_, ?_, ?_⟩
    · rw [hS.layers]; exact hb.layerDef
    · rw [hS.layers]; exact hb.weightsPtr
    · rw [hS.layers]; exact hb.columnCount
    · rw [hS.columns]; exact hb.nodeCount
    · intro d c n hd' hc0 hc hn0 hn
      exact (hb.nodes d c n hd' hc0 hc hn0 hn).of_backward (hS.nodeSize _)
        (hS.backwardConnCount _) (hS.connections _)
  · intro l hl0 hl hends d c n hd hc0 hc hn0 hn
    obtain ⟨-, -, hf⟩ := hB l hl0 hl
    rw [hE ⟨l.toNat, c, n⟩ (by
      simp only
      rcases hends with h | h
      · left; omega
      · right; omega)]
    exact hf d c n hd hc0 hc hn0 hn

end Built

section Built2

variable {R : Type} [LinearOrderedField R]

/-- In a layer that is built, the nodes that the loops process are the nodes of the node
map of the layer definition. -/
theorem LayerBuilt.isNode_iff {abi : Abi} {defs : List LayerDefinition} {l : Int}
    {nn : Network R} (hb : LayerBuilt abi defs l nn) {d : LayerDefinition}
    (hd : defAt defs l = Except.ok d) (c n : Int) :
    nn.IsNode l.toNat c n ↔ 0 ≤ c ∧ c < getColumnCount d ∧ 0 ≤ n ∧ n < d.nodeMap.depth := by
  unfold Network.IsNode
  rw [hb.columnCount d hd]
  constructor
  · rintro ⟨h1, h2, h3, h4⟩
    rw [hb.nodeCount d 0 hd (le_refl 0) (by omega)] at h4
    exact ⟨h1, h2, h3, h4⟩
  · rintro ⟨h1, h2, h3, h4⟩
    rw [hb.nodeCount d 0 hd (le_refl 0) (by omega)]
    exact ⟨h1, h2, h3, h4⟩

/-- No layer definition lies before the first one: a first layer whose number of backward
connections can be computed is an input layer. -/
theorem layerType_first {defs : List LayerDefinition} {d : LayerDefinition} {b : Int}
    (hd : defAt defs 0 = Except.ok d)
    (hb : getNodeBackwardConnectionCount defs 0 = Except.ok b) :
    d.layerType = LayerType.INPUT := by
  have hprev : defAt defs (-1) = Except.error Fault.undefined := by
    unfold defAt
    simp
  unfold getNodeBackwardConnectionCount at hb
  cases ht : d.layerType <;>
    simp [hd, ht, hprev, bind, Except.bind, pure, Except.pure, throw, throwThe,
      MonadExceptOf.throw] at hb ⊢

/-- The nodes of an input or output layer have no forward connections. -/
theorem getNodeForwardConnectionCount_ends {defs : List LayerDefinition} {l : Int}
    {d : LayerDefinition} {v : Int} (hd : defAt defs l = Except.ok d)
    (ht : d.layerType = LayerType.INPUT ∨ d.layerType = LayerType.OUTPUT)
    (hv : getNodeForwardConnectionCount defs l = Except.ok v) : v = 0 := by
  unfold getNodeForwardConnectionCount at hv
  simp [hd, ht, bind, Except.bind, pure, Except.pure] at hv
  exact hv.symm

/-- No layer definition lies behind the last one: a last layer whose number of forward
connections can be computed has none. -/
theorem getNodeForwardConnectionCount_last {defs : List LayerDefinition} {l : Int}
    {v : Int} (hlen : (defs.length : Int) ≤ l + 1)
    (hv : getNodeForwardConnectionCount defs l = Except.ok v) : v = 0 := by
  have hnext : defAt defs (l + 1) = Except.error Fault.undefined := by
    unfold defAt
    split
    · have : defs[(l + 1).toNat]? = none := List.getElem?_eq_none (by omega)
      rw [this]
    · rfl
  unfold getNodeForwardConnectionCount at hv
  obtain ⟨d, hd, hv⟩ := bind_eq_ok.1 hv
  by_cases ht : d.layerType = LayerType.INPUT ∨ d.layerType = LayerType.OUTPUT
  · simp [ht, pure, Except.pure] at hv
    exact hv.symm
  · simp [ht, hnext, bind, Except.bind] at hv

/-- The list of the backward connections that lead to a node holds none of them twice. -/
theorem backwardLinksTo_nodup (nn : Network R) (A : NodeRef) (NL : Nat) :
    (backwardLinksTo nn A NL).Nodup := by
  unfold backwardLinksTo
  have hinner : ∀ B : NodeRef, (linksOfNode nn A B).Nodup := by
    intro B
    unfold linksOfNode linksOfNodeIn
    refine List.Nodup.map ?_ ((forRange_nodup _).filter _)
    intro a b hab
    exact (Prod.mk.inj hab).2
  rw [List.nodup_flatMap]
  refine ⟨?_, ?_⟩
  · intro o _
    rw [List.nodup_flatMap]
    refine ⟨fun n _ => hinner _, ?_⟩
    refine (forRange_nodup _).pairwise_of_forall_ne ?_
    intro a _ b _ hab x hx1 hx2
    have h1 := (mem_linksOfNodeIn.1 hx1).1
    have h2 := (mem_linksOfNodeIn.1 hx2).1
    rw [h1] at h2
    simp only [getNetworkNode, NodeRef.mk.injEq] at h2
    exact hab h2.2.2
  · refine (forRange_nodup _).pairwise_of_forall_ne ?_
    intro a _ b _ hab x hx1 hx2
    obtain ⟨n1, -, hn1⟩ := List.mem_flatMap.1 hx1
    obtain ⟨n2, -, hn2⟩ := List.mem_flatMap.1 hx2
    have h1 := (mem_linksOfNodeIn.1 hn1).1
    have h2 := (mem_linksOfNodeIn.1 hn2).1
    rw [h1] at h2
    simp only [getNetworkNode, NodeRef.mk.injEq] at h2
    exact hab h2.2.1

/-- Two backward connections with a target node of a node that is built refer to different
weights. -/
theorem NodeBuilt.weight_inj {abi : Abi} {defs : List LayerDefinition} {l c n : Int}
    {nd : Node R} (hb : NodeBuilt abi defs l c n nd) {d dp : LayerDefinition}
    (hd : defAt defs l = Except.ok d) (hdp : defAt defs (l - 1) = Except.ok dp)
    (hdep : 0 < dp.nodeMap.depth) {k k' : Int} (hk0 : 0 ≤ k) (hk : k < nd.backwardConnCount)
    (hk0' : 0 ≤ k') (hk' : k' < nd.backwardConnCount)
    (h1 : (nd.connections k).nodePtr ≠ none) (h2 : (nd.connections k').nodePtr ≠ none)
    (hw : (nd.connections k).weightPtr = (nd.connections k').weightPtr) : k = k' := by
  have hbc := hb.backwardConnCount
  cases ht : d.layerType with
  | EMPTY =>
    unfold getNodeBackwardConnectionCount at hbc
    simp [hd, ht, bind, Except.bind, throw, throwThe, MonadExceptOf.throw] at hbc
  | INPUT =>
    rw [getNodeBackwardConnectionCount_input hd ht] at hbc
    injection hbc with hbc
    omega
  | CONVOLUTIONAL =>
    rw [getNodeBackwardConnectionCount_conv hd hdp ht] at hbc
    injection hbc with hbc
    obtain ⟨vals, -, hv⟩ := hb.conv d dp hd hdp ht
    have hff0 : 0 ≤ d.filter * d.filter := mul_self_nonneg _
    have hff : 0 < d.filter * d.filter := by
      rcases lt_or_eq_of_le hff0 with h | h
      · exact h
      · rw [← h] at hbc
        simp at hbc
        omega
    have key : ∀ i, 0 ≤ i → i < nd.backwardConnCount → (nd.connections i).nodePtr ≠ none →
        (nd.connections i).weightPtr = WeightRef.block (layerWeightsPtr abi defs l
          + (n * (dp.nodeMap.depth * (d.filter * d.filter)) + i)) := by
      intro i hi0 hi hptr
      have hdecomp : i / (d.filter * d.filter) * (d.filter * d.filter)
          + i % (d.filter * d.filter) = i := Int.ediv_add_emod' i _
      have ht1 : i / (d.filter * d.filter) < dp.nodeMap.depth := by
        apply Int.ediv_lt_of_lt_mul hff
        rw [← hbc] at hi
        have : d.filter * d.filter * dp.nodeMap.depth
            = dp.nodeMap.depth * (d.filter * d.filter) := by ring
        omega
      obtain ⟨col, -, hconn⟩ := hv (i / (d.filter * d.filter)) (i % (d.filter * d.filter))
        (Int.ediv_nonneg hi0 hff0) ht1 (Int.emod_nonneg _ (ne_of_gt hff))
        (Int.emod_lt_of_pos _ hff)
      rw [hdecomp] at hconn
      rw [hconn] at hptr ⊢
      by_cases hcol : col ≠ OUT_OF_RANGE
      · simp only [hcol, if_true, ne_eq, not_false_eq_true]
        rw [add_assoc, hdecomp]
      · simp [hcol] at hptr
    rw [key k hk0 hk h1, key k' hk0' hk' h2] at hw
    injection hw with hw
    omega
  | FULLY_CONNECTED =>
    rw [getNodeBackwardConnectionCount_fc hd hdp (Or.inl ht)] at hbc
    injection hbc with hbc
    have e1 := hb.fc d dp hd hdp (Or.inl ht) hdep k hk0 (by rw [← hbc] at hk; exact hk)
    have e2 := hb.fc d dp hd hdp (Or.inl ht) hdep k' hk0' (by rw [← hbc] at hk'; exact hk')
    rw [e1, e2] at hw
    injection hw with hw
    omega
  | OUTPUT =>
    rw [getNodeBackwardConnectionCount_fc hd hdp (Or.inr ht)] at hbc
    injection hbc with hbc
    have e1 := hb.fc d dp hd hdp (Or.inr ht) hdep k hk0 (by rw [← hbc] at hk; exact hk)
    have e2 := hb.fc d dp hd hdp (Or.inr ht) hdep k' hk0' (by rw [← hbc] at hk'; exact hk')
    rw [e1, e2] at hw
    injection hw with hw
    omega

end Built2

section Slots

variable {R : Type} [LinearOrderedField R]

/-- The slot `(c * dep + n) * B + k` of the connection `k < B` of the node at column `c < cc`
and level `n < dep` lies below `cc * dep * B`. -/
theorem slot_range {c cc n dep k B : Int} (hc0 : 0 ≤ c) (hc : c < cc) (hn0 : 0 ≤ n)
    (hn : n < dep) (hk0 : 0 ≤ k) (hk : k < B) :
    0 ≤ (c * dep + n) * B + k ∧ (c * dep + n) * B + k < cc * dep * B := by
  have hg0 : 0 ≤ c * dep + n := by
    have := mul_nonneg hc0 (by omega : 0 ≤ dep)
    omega
  have hg : c * dep + n + 1 ≤ cc * dep := by
    have h1 : (c + 1) * dep ≤ cc * dep := Int.mul_le_mul_of_nonneg_right (by omega) (by omega)
    have h2 : (c + 1) * dep = c * dep + dep := by ring
    omega
  have h3 : (c * dep + n + 1) * B ≤ cc * dep * B :=
    Int.mul_le_mul_of_nonneg_right hg (by omega)
  have h4 : (c * dep + n + 1) * B = (c * dep + n) * B + B := by ring
  have h5 := mul_nonneg hg0 (by omega : 0 ≤ B)
  omega

/-- Every index below `cc * dep * B` is the slot of one connection of one node. -/
theorem slot_cover {dep B : Int} (cc e : Int) (hdep : 0 < dep) (hB : 0 < B) (he0 : 0 ≤ e)
    (he : e < cc * dep * B) :
    ∃ c n k, 0 ≤ c ∧ c < cc ∧ 0 ≤ n ∧ n < dep ∧ 0 ≤ k ∧ k < B ∧
      (c * dep + n) * B + k = e := by
  refine ⟨e / B / dep, e / B % dep, e % B, ?_, ?_, ?_, ?_, ?_, ?_, ?_⟩
  · exact Int.ediv_nonneg (Int.ediv_nonneg he0 hB.le) hdep.le
  · apply Int.ediv_lt_of_lt_mul hdep
    exact Int.ediv_lt_of_lt_mul hB he
  · exact Int.emod_nonneg _ (ne_of_gt hdep)
  · exact Int.emod_lt_of_pos _ hdep
  · exact Int.emod_nonneg _ (ne_of_gt hB)
  · exact Int.emod_lt_of_pos _ hB
  · rw [Int.ediv_add_emod', Int.ediv_add_emod']

theorem PositiveDims.at {defs : List LayerDefinition} {layerCount l : Int}
    (hpos : PositiveDims defs layerCount) {d : LayerDefinition} (hl : l < layerCount)
    (hd : defAt defs l = Except.ok d) :
    0 < d.nodeMap.width ∧ 0 < d.nodeMap.height ∧ 0 < d.nodeMap.depth := by
  obtain ⟨h0, hget⟩ := defAt_ok_iff.1 hd
  apply hpos
  apply List.getElem?_mem (n := l.toNat)
  rw [List.getElem?_take_of_lt (by omega)]
  exact hget

theorem weightRangeStart_succ (defs : List LayerDefinition) {l : Int} (hl : 0 ≤ l) :
    weightRangeStart defs (l + 1) = weightRangeStart defs l + weightCountOf defs l := by
  unfold weightRangeStart
  rw [forRange_succ hl, List.map_append, List.sum_append]
  simp

theorem weightCountOf_fc {defs : List LayerDefinition} {l : Int}
    {d dp : LayerDefinition} (hd : defAt defs l = Except.ok d)
    (hdp : defAt defs (l - 1) = Except.ok dp)
    (htype : d.layerType = LayerType.FULLY_CONNECTED ∨ d.layerType = LayerType.OUTPUT) :
    getLayerWeightCount defs l = Except.ok (getLayerNodeCount d * getLayerNodeCount dp) := by
  unfold getLayerWeightCount
  rcases htype with h | h <;>
    simp [hd, hdp, h, bind, Except.bind, pure, Except.pure]

/-- With positive dimensions no layer has a negative number of weights. -/
theorem weightCountOf_nonneg {defs : List LayerDefinition} {layerCount i : Int}
    (hpos : PositiveDims defs layerCount) (hi : i < layerCount) :
    0 ≤ weightCountOf defs i := by
  unfold weightCountOf
  cases hw : getLayerWeightCount defs i with
  | error e => simp
  | ok w =>
    simp only
    unfold getLayerWeightCount at hw
    obtain ⟨d, hd, hw⟩ := bind_eq_ok.1 hw
    have hdpos := hpos.at hi hd
    cases ht : d.layerType with
    | EMPTY => simp [ht, throw, throwThe, MonadExceptOf.throw] at hw
    | INPUT =>
      simp [ht, pure, Except.pure] at hw
      omega
    | CONVOLUTIONAL =>
      simp only [ht] at hw
      obtain ⟨dp, hdp, hw⟩ := bind_eq_ok.1 hw
      have hdppos := hpos.at (by omega : i - 1 < layerCount) hdp
      simp [pure, Except.pure] at hw
      rw [← hw]
      exact mul_nonneg (mul_nonneg (mul_self_nonneg _) hdpos.2.2.le) hdppos.2.2.le
    | FULLY_CONNECTED =>
      simp only [ht] at hw
      obtain ⟨dp, hdp, hw⟩ := bind_eq_ok.1 hw
      have hdppos := hpos.at (by omega : i - 1 < layerCount) hdp
      simp [pure, Except.pure] at hw
      rw [← hw]
      unfold getLayerNodeCount getLayerColumnCount
      have h1 := hdpos.1.le
      have h2 := hdpos.2.1.le
      have h3 := hdpos.2.2.le
      have h4 := hdppos.1.le
      have h5 := hdppos.2.1.le
      have h6 := hdppos.2.2.le
      positivity
    | OUTPUT =>
      simp only [ht] at hw
      obtain ⟨dp, hdp, hw⟩ := bind_eq_ok.1 hw
      have hdppos := hpos.at (by omega : i - 1 < layerCount) hdp
      simp [pure, Except.pure] at hw
      rw [← hw]
      unfold getLayerNodeCount getLayerColumnCount
      have h1 := hdpos.1.le
      have h2 := hdpos.2.1.le
      have h3 := hdpos.2.2.le
      have h4 := hdppos.1.le
      have h5 := hdppos.2.1.le
      have h6 := hdppos.2.2.le
      positivity

/-- With positive dimensions the ranges of the layers follow each other in the weight
block. -/
theorem weightRangeStart_mono {defs : List LayerDefinition} {layerCount : Int}
    (hpos : PositiveDims defs layerCount) {l : Int} (hl : 0 ≤ l) (m : Nat)
    (hm : l + m ≤ layerCount) : weightRangeStart defs l ≤ weightRangeStart defs (l + m) := by
  induction m with
  | zero => simp
  | succ m ih =>
    have h1 := ih (by push_cast at hm; omega)
    have h2 : l + ((m + 1 : Nat) : Int) = (l + m) + 1 := by push_cast; ring
    rw [h2, weightRangeStart_succ defs (by omega)]
    have := weightCountOf_nonneg hpos (by push_cast at hm; omega : l + (m : Int) < layerCount)
    omega

/-- The byte offset that the loop of `initNetworkLayer` over the layers before `l` adds up
is the size of a weight times the sum of the weight counts of these layers. -/
theorem weightsBefore_eq (abi : Abi) (defs : List LayerDefinition) (l sb : Int)
    (h : (forRange l).foldlM
      (fun sbptr2 l => do pure (sbptr2 + (← weightBlockStep abi defs l)))
      (0 : Int) = Except.ok sb) :
    sb = weightRangeStart defs (max l 0) * abi.sizeofWeight := by
  refine forRange_foldlM_inv _ l
    (fun a s => s = weightRangeStart defs a * abi.sizeofWeight) 0 sb ?_ ?_ h
  · simp [weightRangeStart, forRange_of_nonpos]
  · intro a t t' ha0 _ hI hstep
    obtain ⟨v, hv, hstep⟩ := bind_eq_ok.1 hstep
    unfold weightBlockStep at hv
    obtain ⟨w, hw, hv⟩ := bind_eq_ok.1 hv
    simp [pure, Except.pure] at hv hstep
    rw [weightRangeStart_succ defs ha0, ← hstep, ← hv, hI]
    have : weightCountOf defs a = w := by
      unfold weightCountOf
      rw [hw]
    rw [this]
    ring

theorem layerWeightsPtr_eq {abi : Abi} {defs : List LayerDefinition} {l : Int}
    {nn : Network R} (hb : LayerBuilt abi defs l nn) (hl : 0 ≤ l)
    (hsw : 0 < abi.sizeofWeight) : layerWeightsPtr abi defs l = weightRangeStart defs l := by
  obtain ⟨sb, hsb⟩ := hb.weightsBefore
  have := weightsBefore_eq abi defs l sb hsb
  unfold layerWeightsPtr
  rw [hsb]
  simp only
  rw [this, max_eq_left hl]
  exact Int.mul_ediv_cancel _ (ne_of_gt hsw)

/-- A fully connected or output layer whose number of backward connections per node can
be computed has a layer before it. -/
theorem prev_of_fc {defs : List LayerDefinition} {l b : Int} {d : LayerDefinition}
    (hd : defAt defs l = Except.ok d)
    (htype : d.layerType = LayerType.FULLY_CONNECTED ∨ d.layerType = LayerType.OUTPUT)
    (hb : getNodeBackwardConnectionCount defs l = Except.ok b) :
    ∃ dp, defAt defs (l - 1) = Except.ok dp := by
  unfold getNodeBackwardConnectionCount at hb
  cases hp : defAt defs (l - 1) with
  | ok dp => exact ⟨dp, rfl⟩
  | error e =>
    rcases htype with h | h <;>
      simp [hd, hp, h, bind, Except.bind] at hb

/-- The places of the weights of a fully connected or output layer of a network that
`initNetwork` has built. -/
theorem fullyConnectedLink_weight (abi : Abi) (defs : List LayerDefinition)
    (nn0 nn : Network R) (layerCount : Int) (hdefs : nn0.layerDefs = defs)
    (hcount : nn0.layerCount = layerCount)
    (h : initNetwork abi nn0 layerCount defs = Except.ok nn)
    (hsw : 0 < abi.sizeofWeight) (hpos : PositiveDims defs layerCount) (l : Int)
    (hl0 : 0 ≤ l) (hl : l < layerCount)
    (htype : (nn.layerDefOf (getNetworkLayer nn l)).layerType = LayerType.FULLY_CONNECTED
      ∨ (nn.layerDefOf (getNetworkLayer nn l)).layerType = LayerType.OUTPUT) :
    ∃ d dp, defAt defs l = Except.ok d ∧ defAt defs (l - 1) = Except.ok dp ∧
      (d.layerType = LayerType.FULLY_CONNECTED ∨ d.layerType = LayerType.OUTPUT) ∧
      weightCountOf defs l = getLayerNodeCount d * getLayerNodeCount dp ∧
      ∀ c n, (nn.IsNode (getNetworkLayer nn l) c n ↔
          0 ≤ c ∧ c < getColumnCount d ∧ 0 ≤ n ∧ n < d.nodeMap.depth) ∧
        (nn.IsNode (getNetworkLayer nn l) c n →
          (nn.nodes (getNetworkNode (getNetworkLayer nn l) c n)).backwardConnCount
            = getLayerNodeCount dp ∧
          ∀ k, 0 ≤ k → k < getLayerNodeCount dp →
            ((nn.nodes (getNetworkNode (getNetworkLayer nn l) c n)).connections k).weightPtr
              = WeightRef.block (weightRangeStart defs l
                + ((c * d.nodeMap.depth + n) * getLayerNodeCount dp + k))) := by
  obtain ⟨⟨-, hnd, -⟩, hL, -, -⟩ := initNetwork_spec abi defs nn0 nn layerCount hdefs hcount h
  obtain ⟨⟨d, hd⟩, hb⟩ := hL l hl0 hl
  have hdpos := hpos.at hl hd
  simp only [getNetworkLayer] at htype ⊢
  rw [layerDefOf_eq hnd hb.layerDef hd] at htype
  have hnode0 := hb.nodes d 0 0 hd (le_refl 0)
    (by unfold getColumnCount; nlinarith [hdpos.1, hdpos.2.1]) (le_refl 0) hdpos.2.2
  obtain ⟨dp, hdp⟩ := prev_of_fc hd htype hnode0.backwardConnCount
  have hdppos := hpos.at (by omega : l - 1 < layerCount) hdp
  refine ⟨d, dp, hd, hdp, htype, ?_, ?_⟩
  · unfold weightCountOf
    rw [weightCountOf_fc hd hdp htype]
  · intro c n
    refine ⟨hb.isNode_iff hd c n, ?_⟩
    intro hA
    have hA' := (hb.isNode_iff hd c n).1 hA
    have hnb := hb.nodes d c n hd hA'.1 hA'.2.1 hA'.2.2.1 hA'.2.2.2
    have hbc := (getNodeBackwardConnectionCount_fc hd hdp htype).symm.trans hnb.backwardConnCount
    injection hbc with hbc
    refine ⟨hbc.symm, ?_⟩
    intro k hk0 hk
    rw [show getNetworkNode l.toNat c n = ⟨l.toNat, c, n⟩ from rfl,
      hnb.fc d dp hd hdp htype hdppos.2.2 k hk0 hk, layerWeightsPtr_eq hb hl0 hsw, ← hbc]
    simp only
    congr 1
    ring

end Slots

section Built3

variable {R : Type} [LinearOrderedField R]

/-- A forward connection of a node of a hidden layer of a network that `initNetwork` has
built comes from a backward connection of a node of the next layer. -/
theorem forward_link (abi : Abi) (defs : List LayerDefinition)
    (nn0 nn : Network R) (layerCount : Int) (hdefs : nn0.layerDefs = defs)
    (hcount : nn0.layerCount = layerCount)
    (h : initNetwork abi nn0 layerCount defs = Except.ok nn)
    (l c n j : Int) (hl0 : 0 < l) (hl : l < layerCount - 1)
    (hA : nn.IsNode l.toNat c n) (hj0 : 0 ≤ j)
    (hj : j < (nn.nodes (getNetworkNode l.toNat c n)).forwardConnCount) :
    ∃ o n' k, nn.IsNode (l + 1).toNat o n' ∧
      0 ≤ k ∧ k < (nn.nodes (getNetworkNode (l + 1).toNat o n')).backwardConnCount ∧
      ((nn.nodes (getNetworkNode (l + 1).toNat o n')).connections k).nodePtr
        = some (getNetworkNode l.toNat c n) ∧
      (nn.nodes (getNetworkNode l.toNat c n)).connections
        ((nn.nodes (getNetworkNode l.toNat c n)).backwardConnCount + j)
        = ⟨some (getNetworkNode (l + 1).toNat o n'),
            ((nn.nodes (getNetworkNode (l + 1).toNat o n')).connections k).weightPtr⟩ := by
  obtain ⟨-, hL, -, hF⟩ := initNetwork_spec abi defs nn0 nn layerCount hdefs hcount h
  obtain ⟨⟨d, hd⟩, hb⟩ := hL l (by omega) (by omega)
  have hA' := (hb.isNode_iff hd c n).1 hA
  have hfb := hF l c n hl0 hl hA'.1 hA.2.1 hA'.2.2.1
    (by rw [hb.nodeCount d c hd hA'.1 hA'.2.1]; exact hA'.2.2.2)
  have hjl : j.toNat < (backwardLinksTo nn (getNetworkNode l.toNat c n) (l + 1).toNat).length := by
    have := hfb.count
    omega
  have hconn := hfb.conn j.toNat hjl
  rw [Int.toNat_of_nonneg hj0] at hconn
  have hmem := List.get_mem (backwardLinksTo nn (getNetworkNode l.toNat c n) (l + 1).toNat)
    j.toNat hjl
  obtain ⟨o, n', ho0, ho, hn0, hn, hx1, hk0, hk, hptr⟩ := mem_backwardLinksTo.1 hmem
  refine ⟨o, n', _, ⟨ho0, ho, hn0, hn⟩, hk0, ?_, ?_, ?_⟩
  · rw [← hx1]; exact hk
  · rw [← hx1]; exact hptr
  · rw [hconn, ← hx1]
    rfl

/-- No forward connection is counted in the first and in the last layer of a network that
`initNetwork` has built from an array of `layerCount` layer definitions. -/
theorem forwardConnCount_ends (abi : Abi) (defs : List LayerDefinition)
    (nn0 nn : Network R) (layerCount : Int) (hdefs : nn0.layerDefs = defs)
    (hcount : nn0.layerCount = layerCount) (hlen : (defs.length : Int) = layerCount)
    (h : initNetwork abi nn0 layerCount defs = Except.ok nn)
    (l c n : Int) (hl0 : 0 ≤ l) (hl : l < layerCount) (hends : l = 0 ∨ l = layerCount - 1)
    (hA : nn.IsNode l.toNat c n) :
    (nn.nodes (getNetworkNode l.toNat c n)).forwardConnCount = 0 := by
  obtain ⟨-, hL, hE, -⟩ := initNetwork_spec abi defs nn0 nn layerCount hdefs hcount h
  obtain ⟨⟨d, hd⟩, hb⟩ := hL l hl0 hl
  have hA' := (hb.isNode_iff hd c n).1 hA
  have hf := hE l hl0 hl hends d c n hd hA'.1 hA'.2.1 hA'.2.2.1 hA'.2.2.2
  rcases hends with h0 | h1
  · subst h0
    exact getNodeForwardConnectionCount_ends hd
      (Or.inl (layerType_first hd
        (hb.nodes d c n hd hA'.1 hA'.2.1 hA'.2.2.1 hA'.2.2.2).backwardConnCount)) hf
  · exact getNodeForwardConnectionCount_last (by omega) hf

/-- A backward connection with a target node of a node that is built leads to the layer
before and refers to a weight of the layer. -/
theorem NodeBuilt.link {abi : Abi} {defs : List LayerDefinition} {l c n layerCount : Int}
    {nd : Node R} (hb : NodeBuilt abi defs l c n nd) {d : LayerDefinition}
    (hd : defAt defs l = Except.ok d) (hpos : PositiveDims defs layerCount)
    (hl : l < layerCount) (hn0 : 0 ≤ n) (hn : n < d.nodeMap.depth) (hc0 : 0 ≤ c)
    (hc : c < getColumnCount d) {i : Int} (hi0 : 0 ≤ i)
    (hi : i < nd.backwardConnCount) {t : NodeRef}
    (ht : (nd.connections i).nodePtr = some t) :
    0 < l ∧ t.layer = (l - 1).toNat ∧
      ∃ e, (nd.connections i).weightPtr = WeightRef.block (layerWeightsPtr abi defs l + e) ∧
        0 ≤ e ∧ e < weightCountOf defs l := by
  have hbc := hb.backwardConnCount
  have hprev : ∀ dp, defAt defs (l - 1) = Except.ok dp → 0 < l := by
    intro dp hdp
    have := (defAt_ok_iff.1 hdp).1
    omega
  cases htp : d.layerType with
  | EMPTY =>
    unfold getNodeBackwardConnectionCount at hbc
    simp [hd, htp, bind, Except.bind, throw, throwThe, MonadExceptOf.throw] at hbc
  | INPUT =>
    rw [getNodeBackwardConnectionCount_input hd htp] at hbc
    injection hbc with hbc
    omega
  | CONVOLUTIONAL =>
    have hbc' := hbc
    unfold getNodeBackwardConnectionCount at hbc'
    cases hp : defAt defs (l - 1) with
    | error e => simp [hd, hp, htp, bind, Except.bind] at hbc'
    | ok dp =>
      have hl0 := hprev dp hp
      have hdppos := hpos.at (by omega : l - 1 < layerCount) hp
      rw [getNodeBackwardConnectionCount_conv hd hp htp] at hbc
      injection hbc with hbc
      obtain ⟨vals, -, hv⟩ := hb.conv d dp hd hp htp
      have hff0 : 0 ≤ d.filter * d.filter := mul_self_nonneg _
      have hff : 0 < d.filter * d.filter := by
        rcases lt_or_eq_of_le hff0 with h | h
        · exact h
        · rw [← h] at hbc
          simp at hbc
          omega
      have hdecomp : i / (d.filter * d.filter) * (d.filter * d.filter)
          + i % (d.filter * d.filter) = i := Int.ediv_add_emod' i _
      have hi' : i < dp.nodeMap.depth * (d.filter * d.filter) := by
        rw [← hbc] at hi
        have : d.filter * d.filter * dp.nodeMap.depth
            = dp.nodeMap.depth * (d.filter * d.filter) := by ring
        omega
      have ht1 : i / (d.filter * d.filter) < dp.nodeMap.depth :=
        Int.ediv_lt_of_lt_mul hff hi'
      obtain ⟨col, -, hconn⟩ := hv (i / (d.filter * d.filter)) (i % (d.filter * d.filter))
        (Int.ediv_nonneg hi0 hff0) ht1 (Int.emod_nonneg _ (ne_of_gt hff))
        (Int.emod_lt_of_pos _ hff)
      rw [hdecomp] at hconn
      rw [hconn] at ht ⊢
      by_cases hcol : col ≠ OUT_OF_RANGE
      · simp only [hcol, if_true, ne_eq, not_false_eq_true] at ht ⊢
        injection ht with ht
        refine ⟨hl0, by rw [← ht], _, rfl, ?_, ?_⟩
        · have := mul_nonneg hn0 (by omega : 0 ≤ dp.nodeMap.depth * (d.filter * d.filter))
          omega
        · have hwc : weightCountOf defs l
              = d.nodeMap.depth * (dp.nodeMap.depth * (d.filter * d.filter)) := by
            unfold weightCountOf getLayerWeightCount
            simp [hd, hp, htp, bind, Except.bind, pure, Except.pure]
            ring
          rw [hwc, add_assoc, hdecomp]
          have h1 : (n + 1) * (dp.nodeMap.depth * (d.filter * d.filter))
              ≤ d.nodeMap.depth * (dp.nodeMap.depth * (d.filter * d.filter)) :=
            Int.mul_le_mul_of_nonneg_right (by omega) (by omega)
          have h2 : (n + 1) * (dp.nodeMap.depth * (d.filter * d.filter))
              = n * (dp.nodeMap.depth * (d.filter * d.filter))
                + dp.nodeMap.depth * (d.filter * d.filter) := by ring
          omega
      · simp [hcol] at ht
  | FULLY_CONNECTED =>
    obtain ⟨dp, hp⟩ := prev_of_fc hd (Or.inl htp) hbc
    have hl0 := hprev dp hp
    have hdppos := hpos.at (by omega : l - 1 < layerCount) hp
    rw [getNodeBackwardConnectionCount_fc hd hp (Or.inl htp)] at hbc
    injection hbc with hbc
    have hi' : i < getLayerNodeCount dp := by rw [hbc]; exact hi
    have e1 := hb.fc d dp hd hp (Or.inl htp) hdppos.2.2 i hi0 hi'
    rw [e1] at ht ⊢
    injection ht with ht
    refine ⟨hl0, by rw [← ht], _, by rw [add_assoc], ?_⟩
    rw [← hbc]
    have hs := slot_range hc0 hc hn0 hn hi0 hi'
    have hwc : weightCountOf defs l = getLayerNodeCount d * getLayerNodeCount dp := by
      unfold weightCountOf
      rw [weightCountOf_fc hd hp (Or.inl htp)]
    rw [hwc, show getLayerNodeCount d = getColumnCount d * d.nodeMap.depth from rfl]
    exact hs
  | OUTPUT =>
    obtain ⟨dp, hp⟩ := prev_of_fc hd (Or.inr htp) hbc
    have hl0 := hprev dp hp
    have hdppos := hpos.at (by omega : l - 1 < layerCount) hp
    rw [getNodeBackwardConnectionCount_fc hd hp (Or.inr htp)] at hbc
    injection hbc with hbc
    have hi' : i < getLayerNodeCount dp := by rw [hbc]; exact hi
    have e1 := hb.fc d dp hd hp (Or.inr htp) hdppos.2.2 i hi0 hi'
    rw [e1] at ht ⊢
    injection ht with ht
    refine ⟨hl0, by rw [← ht], _, by rw [add_assoc], ?_⟩
    rw [← hbc]
    have hs := slot_range hc0 hc hn0 hn hi0 hi'
    have hwc : weightCountOf defs l = getLayerNodeCount d * getLayerNodeCount dp := by
      unfold weightCountOf
      rw [weightCountOf_fc hd hp (Or.inr htp)]
    rw [hwc, show getLayerNodeCount d = getColumnCount d * d.nodeMap.depth from rfl]
    exact hs

/-- A backward connection with a target node, in a network that `initNetwork` has built
from layer definitions with positive dimensions, leads to the layer before and refers to a
weight in the range of its layer. -/
theorem backward_link (abi : Abi) (defs : List LayerDefinition)
    (nn0 nn : Network R) (layerCount : Int) (hdefs : nn0.layerDefs = defs)
    (hcount : nn0.layerCount = layerCount)
    (h : initNetwork abi nn0 layerCount defs = Except.ok nn)
    (hsw : 0 < abi.sizeofWeight) (hpos : PositiveDims defs layerCount)
    (l c n i : Int) (t : NodeRef) (hl0 : 0 ≤ l) (hl : l < layerCount)
    (hA : nn.IsNode l.toNat c n) (hi0 : 0 ≤ i)
    (hi : i < (nn.nodes (getNetworkNode l.toNat c n)).backwardConnCount)
    (ht : ((nn.nodes (getNetworkNode l.toNat c n)).connections i).nodePtr = some t) :
    0 < l ∧ t.layer = (l - 1).toNat ∧
      ∃ e, ((nn.nodes (getNetworkNode l.toNat c n)).connections i).weightPtr
          = WeightRef.block e ∧
        weightRangeStart defs l ≤ e ∧ e < weightRangeStart defs (l + 1) := by
  obtain ⟨-, hL, -, -⟩ := initNetwork_spec abi defs nn0 nn layerCount hdefs hcount h
  obtain ⟨⟨d, hd⟩, hb⟩ := hL l hl0 hl
  have hA' := (hb.isNode_iff hd c n).1 hA
  have hnb := hb.nodes d c n hd hA'.1 hA'.2.1 hA'.2.2.1 hA'.2.2.2
  obtain ⟨h1, h2, e, h3, h4, h5⟩ := hnb.link hd hpos hl hA'.2.2.1 hA'.2.2.2 hA'.1 hA'.2.1
    hi0 hi ht
  refine ⟨h1, h2, _, h3, ?_, ?_⟩
  · rw [layerWeightsPtr_eq hb hl0 hsw]; omega
  · rw [layerWeightsPtr_eq hb hl0 hsw, weightRangeStart_succ defs hl0]; omega

/-- A network that `initNetwork` has built from layer definitions with positive dimensions
is wired as the forward and the backward pass expect: backward connections lead to the
layer before, forward connections of hidden layers lead to the layer after, and a forward
connection of a hidden layer shares no weight with a backward connection of the same or of
a lower layer. -/
theorem initNetwork_wired (abi : Abi) (defs : List LayerDefinition)
    (nn0 nn : Network R) (layerCount : Int) (hdefs : nn0.layerDefs = defs)
    (hcount : nn0.layerCount = layerCount)
    (h : initNetwork abi nn0 layerCount defs = Except.ok nn)
    (hsw : 0 < abi.sizeofWeight) (hpos : PositiveDims defs layerCount) :
    (∀ (l' : Nat) (c' n' i : Int) (t : NodeRef), 0 < l' → (l' : Int) < nn.layerCount →
      0 ≤ c' → c' < (nn.layers l').columnCount → 0 ≤ n' → n' < (nn.columns l' 0).nodeCount →
      0 ≤ i → i < (nn.nodes (getNetworkNode l' c' n')).backwardConnCount →
      ((nn.nodes (getNetworkNode l' c' n')).connections i).nodePtr = some t → t.layer < l') ∧
    (∀ (l' : Nat) (c' n' j : Int), 0 < l' → (l' : Int) < nn.layerCount - 1 →
      nn.IsNode l' c' n' → 0 ≤ j →
      j < (nn.nodes (getNetworkNode l' c' n')).forwardConnCount →
      ∃ t, ((nn.nodes (getNetworkNode l' c' n')).connections
        ((nn.nodes (getNetworkNode l' c' n')).backwardConnCount + j)).nodePtr = some t ∧
        l' < t.layer) ∧
    (∀ (l1 l2 : Nat) (c1 n1 i c2 n2 j : Int), 0 < l1 → l1 ≤ l2 →
      (l2 : Int) < nn.layerCount - 1 → nn.IsNode l1 c1 n1 → 0 ≤ i →
      i < (nn.nodes (getNetworkNode l1 c1 n1)).backwardConnCount →
      ((nn.nodes (getNetworkNode l1 c1 n1)).connections i).nodePtr ≠ none →
      nn.IsNode l2 c2 n2 → 0 ≤ j →
      j < (nn.nodes (getNetworkNode l2 c2 n2)).forwardConnCount →
      ((nn.nodes (getNetworkNode l1 c1 n1)).connections i).weightPtr
        ≠ ((nn.nodes (getNetworkNode l2 c2 n2)).connections
            ((nn.nodes (getNetworkNode l2 c2 n2)).backwardConnCount + j)).weightPtr) := by
  have hlc : nn.layerCount = layerCount :=
    (initNetwork_spec abi defs nn0 nn layerCount hdefs hcount h).1.1
  rw [hlc]
  have hback := backward_link abi defs nn0 nn layerCount hdefs hcount h hsw hpos
  have hforw := forward_link abi defs nn0 nn layerCount hdefs hcount h
  refine ⟨?_, ?_, ?_⟩
  · intro l' c' n' i t hl0 hl hc0 hc hn0 hn hi0 hi ht
    obtain ⟨h1, h2, -⟩ := hback (l' : Int) c' n' i t (by omega) hl
      (by simpa using ⟨hc0, hc, hn0, hn⟩) hi0 (by simpa using hi) (by simpa using ht)
    rw [h2]
    omega
  · intro l' c' n' j hl0 hl hA hj0 hj
    obtain ⟨o, n2, k, -, -, -, -, hconn⟩ := hforw (l' : Int) c' n' j (by omega) hl
      (by simpa using hA) hj0 (by simpa using hj)
    simp only [Int.toNat_ofNat] at hconn
    rw [hconn]
    refine ⟨_, rfl, ?_⟩
    simp only [getNetworkNode]
    omega
  · intro l1 l2 c1 n1 i c2 n2 j hl0 hl12 hl2 hA1 hi0 hi hptr hA2 hj0 hj
    obtain ⟨o, n3, k, hB, hk0, hk, hkptr, hconn⟩ := hforw (l2 : Int) c2 n2 j (by omega) hl2
      (by simpa using hA2) hj0 (by simpa using hj)
    simp only [Int.toNat_ofNat] at hconn hkptr
    rw [hconn]
    simp only
    obtain ⟨t, ht⟩ := Option.ne_none_iff_exists'.1 hptr
    obtain ⟨-, -, e1, hw1, hlo1, hhi1⟩ := hback (l1 : Int) c1 n1 i t (by omega) (by omega)
      (by simpa using hA1) hi0 (by simpa using hi) (by simpa using ht)
    obtain ⟨-, -, e2, hw2, hlo2, hhi2⟩ := hback ((l2 : Int) + 1) o n3 k _ (by omega) (by omega)
      hB hk0 hk hkptr
    simp only [Int.toNat_ofNat] at hw1
    rw [hw1, hw2]
    intro heq
    injection heq with heq
    have hmono := weightRangeStart_mono hpos (l := (l1 : Int) + 1) (by omega) (l2 - l1)
      (by omega)
    rw [show (l1 : Int) + 1 + ((l2 - l1 : Nat) : Int) = (l2 : Int) + 1 by omega] at hmono
    omega

end Built3

/-! ## The networks `fcNet` and `convNet` -/

theorem builtOr_eq {x : Except Fault (Network ℚ)} (h : x.isOk = true) :
    x = Except.ok (builtOr x) := by
  cases x with
  | ok v => rfl
  | error e => simp [Except.isOk, Except.toBool] at h

theorem fcNet_built : initNetwork lp64 fcNet0 3 fcDefs = Except.ok fcNet :=
  builtOr_eq (by decide!)

set_option maxRecDepth 100000 in
theorem convNet_built : initNetwork lp64 convNet0 3 convDefs = Except.ok convNet :=
  builtOr_eq (by decide!)

/-! ## Claims about the wiring -/

section Claims

variable {R : Type} [LinearOrderedField R]

/-- **C9.** In a network that `initNetwork` has built, a node of a fully connected or
output layer `l` at column `c` and level `n` has as many backward connections as the
previous layer has nodes, and its connection `k` leads to the node of the previous layer at
column `k / depth(prev)` and level `k % depth(prev)`, the node that `getNetworkNode` finds
there, and refers to the weight `(c * nodesPerColumn + n) * backwardConnCount + k` of the
weight block of the layer. -/
theorem fullyConnected_backward_connections (abi : Abi) (defs : List LayerDefinition)
    (nn0 nn : Network R) (layerCount : Int) (hdefs : nn0.layerDefs = defs)
    (hcount : nn0.layerCount = layerCount)
    (h : initNetwork abi nn0 layerCount defs = Except.ok nn)
    (l c n : Int) (d dp : LayerDefinition) (hl0 : 0 ≤ l) (hl : l < layerCount)
    (hd : defAt defs l = Except.ok d) (hdp : defAt defs (l - 1) = Except.ok dp)
    (htype : d.layerType = LayerType.FULLY_CONNECTED ∨ d.layerType = LayerType.OUTPUT)
    (hdep : 0 ≤ dp.nodeMap.depth)
    (hc0 : 0 ≤ c) (hc : c < (nn.layers (getNetworkLayer nn l)).columnCount)
    (hn0 : 0 ≤ n) (hn : n < (nn.columns (getNetworkLayer nn l) c).nodeCount) :
    (nn.nodes (getNetworkNode (getNetworkLayer nn l) c n)).backwardConnCount
        = getLayerNodeCount dp ∧
      ∀ k, 0 ≤ k →
        k < (nn.nodes (getNetworkNode (getNetworkLayer nn l) c n)).backwardConnCount →
        (nn.nodes (getNetworkNode (getNetworkLayer nn l) c n)).connections k
          = ⟨some (getNetworkNode (getNetworkLayer nn (l - 1))
                (k / dp.nodeMap.depth) (k % dp.nodeMap.depth)),
              WeightRef.block ((nn.layers (getNetworkLayer nn l)).weightsPtr
                + ((c * (nn.columns (getNetworkLayer nn l) c).nodeCount + n)
                    * (nn.nodes (getNetworkNode (getNetworkLayer nn l) c n)).backwardConnCount
                  + k))⟩ := by
  obtain ⟨-, hL, -, -⟩ := initNetwork_spec abi defs nn0 nn layerCount hdefs hcount h
  obtain ⟨-, hb⟩ := hL l hl0 hl
  simp only [getNetworkLayer, getNetworkNode] at hc hn ⊢
  rw [hb.columnCount d hd] at hc
  rw [hb.nodeCount d c hd hc0 hc] at hn ⊢
  have hnb := hb.nodes d c n hd hc0 hc hn0 hn
  have hbc := (getNodeBackwardConnectionCount_fc hd hdp htype).symm.trans hnb.backwardConnCount
  injection hbc with hbc
  refine ⟨hbc.symm, ?_⟩
  intro k hk0 hk
  have hdep' : 0 < dp.nodeMap.depth := by
    rcases lt_or_eq_of_le hdep with h1 | h1
    · exact h1
    · rw [← hbc] at hk
      unfold getLayerNodeCount at hk
      rw [← h1] at hk
      simp at hk
      omega
  rw [hnb.fc d dp hd hdp htype hdep' k hk0 (by rw [← hbc] at hk; exact hk), hb.weightsPtr]
  congr 2
  ring

/-- **C8.** In a network that `initNetwork` has built, two backward connections with a
target node of two nodes of a convolutional layer at the same level `n`, in the columns `c1`
and `c2`, for the same target level `t` and the same position `p` inside the filter, refer to
the same weight: the weight `n * (depth(prev) * filter²) + t * filter² + p` of the weight
block of the layer, whatever the column. -/
theorem convolutional_weight_sharing (abi : Abi) (defs : List LayerDefinition)
    (nn0 nn : Network R) (layerCount : Int) (hdefs : nn0.layerDefs = defs)
    (hcount : nn0.layerCount = layerCount)
    (h : initNetwork abi nn0 layerCount defs = Except.ok nn)
    (l c1 c2 n t p : Int) (d dp : LayerDefinition) (hl0 : 0 ≤ l) (hl : l < layerCount)
    (hd : defAt defs l = Except.ok d) (hdp : defAt defs (l - 1) = Except.ok dp)
    (htype : d.layerType = LayerType.CONVOLUTIONAL)
    (hc10 : 0 ≤ c1) (hc1 : c1 < (nn.layers (getNetworkLayer nn l)).columnCount)
    (hc20 : 0 ≤ c2) (hc2 : c2 < (nn.layers (getNetworkLayer nn l)).columnCount)
    (hn0 : 0 ≤ n) (hn1 : n < (nn.columns (getNetworkLayer nn l) c1).nodeCount)
    (hn2 : n < (nn.columns (getNetworkLayer nn l) c2).nodeCount)
    (ht0 : 0 ≤ t) (ht : t < dp.nodeMap.depth) (hp0 : 0 ≤ p) (hp : p < d.filter * d.filter)
    (h1 : ((nn.nodes (getNetworkNode (getNetworkLayer nn l) c1 n)).connections
      (t * (d.filter * d.filter) + p)).nodePtr ≠ none)
    (h2 : ((nn.nodes (getNetworkNode (getNetworkLayer nn l) c2 n)).connections
      (t * (d.filter * d.filter) + p)).nodePtr ≠ none) :
    ((nn.nodes (getNetworkNode (getNetworkLayer nn l) c1 n)).connections
        (t * (d.filter * d.filter) + p)).weightPtr
      = ((nn.nodes (getNetworkNode (getNetworkLayer nn l) c2 n)).connections
        (t * (d.filter * d.filter) + p)).weightPtr ∧
    ((nn.nodes (getNetworkNode (getNetworkLayer nn l) c1 n)).connections
        (t * (d.filter * d.filter) + p)).weightPtr
      = WeightRef.block ((nn.layers (getNetworkLayer nn l)).weightsPtr
          + (n * (dp.nodeMap.depth * (d.filter * d.filter)) + t * (d.filter * d.filter) + p)) ∧
    (∃ col1 col2,
      ((nn.nodes (getNetworkNode (getNetworkLayer nn l) c1 n)).connections
          (t * (d.filter * d.filter) + p)).nodePtr
        = some (getNetworkNode (getNetworkLayer nn (l - 1)) col1 t) ∧
      ((nn.nodes (getNetworkNode (getNetworkLayer nn l) c2 n)).connections
          (t * (d.filter * d.filter) + p)).nodePtr
        = some (getNetworkNode (getNetworkLayer nn (l - 1)) col2 t)) ∧
    t * (d.filter * d.filter) + p
      < (nn.nodes (getNetworkNode (getNetworkLayer nn l) c1 n)).backwardConnCount ∧
    t * (d.filter * d.filter) + p
      < (nn.nodes (getNetworkNode (getNetworkLayer nn l) c2 n)).backwardConnCount := by
  obtain ⟨-, hL, -, -⟩ := initNetwork_spec abi defs nn0 nn layerCount hdefs hcount h
  obtain ⟨-, hb⟩ := hL l hl0 hl
  simp only [getNetworkLayer, getNetworkNode] at hc1 hc2 hn1 hn2 h1 h2 ⊢
  rw [hb.columnCount d hd] at hc1 hc2
  rw [hb.nodeCount d c1 hd hc10 hc1] at hn1
  rw [hb.nodeCount d c2 hd hc20 hc2] at hn2
  have hnb1 := hb.nodes d c1 n hd hc10 hc1 hn0 hn1
  have hnb2 := hb.nodes d c2 n hd hc20 hc2 hn0 hn2
  obtain ⟨vals1, -, hv1⟩ := hnb1.conv d dp hd hdp htype
  obtain ⟨vals2, -, hv2⟩ := hnb2.conv d dp hd hdp htype
  obtain ⟨col1, -, hconn1⟩ := hv1 t p ht0 ht hp0 hp
  obtain ⟨col2, -, hconn2⟩ := hv2 t p ht0 ht hp0 hp
  have hbc1 := (getNodeBackwardConnectionCount_conv hd hdp htype).symm.trans
    hnb1.backwardConnCount
  have hbc2 := (getNodeBackwardConnectionCount_conv hd hdp htype).symm.trans
    hnb2.backwardConnCount
  injection hbc1 with hbc1
  injection hbc2 with hbc2
  rw [hconn1] at h1 ⊢
  rw [hconn2] at h2 ⊢
  by_cases hcol1 : col1 ≠ OUT_OF_RANGE
  · by_cases hcol2 : col2 ≠ OUT_OF_RANGE
    · simp only [hcol1, hcol2, if_true, hb.weightsPtr, ne_eq, not_false_eq_true, true_and]
      refine ⟨⟨col1, col2, rfl, rfl⟩, ?_, ?_⟩
      · rw [← hbc1]
        exact conv_slot_lt ht hp (by omega)
      · rw [← hbc2]
        exact conv_slot_lt ht hp (by omega)
    · simp [hcol2] at h2
  · simp [hcol1] at h1

end Claims

section Claims2

variable {R : Type} [LinearOrderedField R]

/-- **C6.** In a network that `initNetwork` has built from an array of `layerCount` layer
definitions, every forward connection of a node `A` (the slots `backwardConnCount + j` with
`j < forwardConnCount`) leads to a node `B` of the layer that follows the layer of `A`, and
`B` has a backward connection that leads to `A` and refers to the same weight. -/
theorem forward_connection_has_backward (abi : Abi) (defs : List LayerDefinition)
    (nn0 nn : Network R) (layerCount : Int) (hdefs : nn0.layerDefs = defs)
    (hcount : nn0.layerCount = layerCount) (hlen : (defs.length : Int) = layerCount)
    (h : initNetwork abi nn0 layerCount defs = Except.ok nn)
    (l c n j : Int) (hl0 : 0 ≤ l) (hl : l < layerCount)
    (hA : nn.IsNode (getNetworkLayer nn l) c n) (hj0 : 0 ≤ j)
    (hj : j < (nn.nodes (getNetworkNode (getNetworkLayer nn l) c n)).forwardConnCount) :
    ∃ o n' k, l + 1 < layerCount ∧ nn.IsNode (getNetworkLayer nn (l + 1)) o n' ∧
      0 ≤ k ∧ k < (nn.nodes (getNetworkNode (getNetworkLayer nn (l + 1)) o n')).backwardConnCount ∧
      ((nn.nodes (getNetworkNode (getNetworkLayer nn l) c n)).connections
        ((nn.nodes (getNetworkNode (getNetworkLayer nn l) c n)).backwardConnCount + j)).nodePtr
        = some (getNetworkNode (getNetworkLayer nn (l + 1)) o n') ∧
      (nn.nodes (getNetworkNode (getNetworkLayer nn (l + 1)) o n')).connections k
        = ⟨some (getNetworkNode (getNetworkLayer nn l) c n),
            ((nn.nodes (getNetworkNode (getNetworkLayer nn l) c n)).connections
              ((nn.nodes (getNetworkNode (getNetworkLayer nn l) c n)).backwardConnCount
                + j)).weightPtr⟩ := by
  simp only [getNetworkLayer] at hA hj ⊢
  by_cases hends : l = 0 ∨ l = layerCount - 1
  · have := forwardConnCount_ends abi defs nn0 nn layerCount hdefs hcount hlen h l c n hl0 hl
      hends hA
    omega
  · obtain ⟨o, n', k, hB, hk0, hk, hptr, hconn⟩ := forward_link abi defs nn0 nn layerCount hdefs
      hcount h l c n j (by omega) (by omega) hA hj0 hj
    refine ⟨o, n', k, by omega, hB, hk0, hk, by rw [hconn], ?_⟩
    rw [hconn]
    simp only
    rw [← hptr]

/-- **C7.** In a network that `initNetwork` has built (so that it did not stop for a node
with more forward connections than its maximum), let `A` be a node of a hidden layer and
let the backward connection `k` of a node `B` of the next layer lead to `A` and refer to the
weight `W`. Then exactly one forward connection of `A` leads to `B` and refers to `W`, and
`forwardConnCount` of `A` is the number of the backward connections of the next layer that
lead to `A`: the length of the list `backwardLinksTo`, which holds each of them once. -/
theorem backward_connection_has_one_forward (abi : Abi) (defs : List LayerDefinition)
    (nn0 nn : Network R) (layerCount : Int) (hdefs : nn0.layerDefs = defs)
    (hcount : nn0.layerCount = layerCount)
    (h : initNetwork abi nn0 layerCount defs = Except.ok nn)
    (l c n o n' k : Int) (hl0 : 0 < l) (hl : l < layerCount - 1)
    (hA : nn.IsNode (getNetworkLayer nn l) c n)
    (hB : nn.IsNode (getNetworkLayer nn (l + 1)) o n') (hk0 : 0 ≤ k)
    (hk : k < (nn.nodes (getNetworkNode (getNetworkLayer nn (l + 1)) o n')).backwardConnCount)
    (hconn : ((nn.nodes (getNetworkNode (getNetworkLayer nn (l + 1)) o n')).connections k).nodePtr
      = some (getNetworkNode (getNetworkLayer nn l) c n)) :
    (∃! j, 0 ≤ j ∧ j < (nn.nodes (getNetworkNode (getNetworkLayer nn l) c n)).forwardConnCount ∧
      (nn.nodes (getNetworkNode (getNetworkLayer nn l) c n)).connections
        ((nn.nodes (getNetworkNode (getNetworkLayer nn l) c n)).backwardConnCount + j)
        = ⟨some (getNetworkNode (getNetworkLayer nn (l + 1)) o n'),
            ((nn.nodes (getNetworkNode (getNetworkLayer nn (l + 1)) o n')).connections
              k).weightPtr⟩) ∧
    (nn.nodes (getNetworkNode (getNetworkLayer nn l) c n)).forwardConnCount
      = ((backwardLinksTo nn (getNetworkNode (getNetworkLayer nn l) c n)
          (getNetworkLayer nn (l + 1))).length : Int) ∧
    (backwardLinksTo nn (getNetworkNode (getNetworkLayer nn l) c n)
      (getNetworkLayer nn (l + 1))).Nodup ∧
    ∀ x, x ∈ backwardLinksTo nn (getNetworkNode (getNetworkLayer nn l) c n)
        (getNetworkLayer nn (l + 1)) ↔
      ∃ o n', nn.IsNode (getNetworkLayer nn (l + 1)) o n' ∧
        x.1 = getNetworkNode (getNetworkLayer nn (l + 1)) o n' ∧ 0 ≤ x.2 ∧
        x.2 < (nn.nodes x.1).backwardConnCount ∧
        ((nn.nodes x.1).connections x.2).nodePtr
          = some (getNetworkNode (getNetworkLayer nn l) c n) := by
  obtain ⟨-, hL, -, hF⟩ := initNetwork_spec abi defs nn0 nn layerCount hdefs hcount h
  obtain ⟨⟨d, hd⟩, hb⟩ := hL l (by omega) (by omega)
  obtain ⟨⟨d', hd'⟩, hb'⟩ := hL (l + 1) (by omega) (by omega)
  simp only [getNetworkLayer] at hA hB hk hconn ⊢
  have hA' := (hb.isNode_iff hd c n).1 hA
  have hB' := (hb'.isNode_iff hd' o n').1 hB
  have hfb := hF l c n (by omega) (by omega) hA'.1 hA.2.1 hA'.2.2.1
    (by rw [hb.nodeCount d c hd hA'.1 hA'.2.1]; exact hA'.2.2.2)
  have hnbB := hb'.nodes d' o n' hd' hB'.1 hB'.2.1 hB'.2.2.1 hB'.2.2.2
  have hdp : defAt defs (l + 1 - 1) = Except.ok d := by
    rw [add_sub_cancel_right]; exact hd
  have hdep : 0 < d.nodeMap.depth := by omega
  have hmem : ((getNetworkNode (l + 1).toNat o n', k) : NodeRef × Int)
      ∈ backwardLinksTo nn (getNetworkNode l.toNat c n) (l + 1).toNat :=
    mem_backwardLinksTo.2 ⟨o, n', hB.1, hB.2.1, hB.2.2.1, hB.2.2.2, rfl, hk0, hk, hconn⟩
  refine ⟨?_, hfb.count, backwardLinksTo_nodup _ _ _, ?_⟩
  · obtain ⟨i, hi, hget⟩ := List.getElem_of_mem hmem
    refine ⟨(i : Int), ⟨by omega, by rw [hfb.count]; exact_mod_cast hi, ?_⟩, ?_⟩
    · have := hfb.conn i hi
      rw [this, List.get_eq_getElem, hget]
      rfl
    · rintro j' ⟨hj0, hj, hcj⟩
      have hjl : j'.toNat
          < (backwardLinksTo nn (getNetworkNode l.toNat c n) (l + 1).toNat).length := by
        have := hfb.count
        omega
      have hc2 := hfb.conn j'.toNat hjl
      rw [Int.toNat_of_nonneg hj0, hcj] at hc2
      have hmem2 := List.get_mem (backwardLinksTo nn (getNetworkNode l.toNat c n) (l + 1).toNat)
        j'.toNat hjl
      obtain ⟨-, -, -, -, -, -, -, hx0, hx, hxptr⟩ := mem_backwardLinksTo.1 hmem2
      unfold forwardOf at hc2
      injection hc2 with hc2a hc2b
      injection hc2a with hc2a
      rw [← hc2a] at hx hxptr hc2b
      have hkk := hnbB.weight_inj hd' hdp hdep hk0 hk hx0 hx
        (fun hnone => Option.some_ne_none _ (hconn.symm.trans hnone))
        (fun hnone => Option.some_ne_none _ (hxptr.symm.trans hnone)) hc2b
      have hxeq : (backwardLinksTo nn (getNetworkNode l.toNat c n) (l + 1).toNat).get
          ⟨j'.toNat, hjl⟩ = (getNetworkNode (l + 1).toNat o n', k) := by
        apply Prod.ext
        · exact hc2a.symm
        · exact hkk.symm
      have := (List.Nodup.get_inj_iff (backwardLinksTo_nodup nn _ _)).1
        (hxeq.trans (by rw [List.get_eq_getElem]; exact hget.symm) :
          (backwardLinksTo nn (getNetworkNode l.toNat c n) (l + 1).toNat).get ⟨j'.toNat, hjl⟩
            = (backwardLinksTo nn (getNetworkNode l.toNat c n) (l + 1).toNat).get ⟨i, hi⟩)
      have := Fin.mk.inj this
      omega
  · intro x
    rw [mem_backwardLinksTo]
    constructor
    · rintro ⟨o, n', h1, h2, h3, h4, h5, h6, h7, h8⟩
      exact ⟨o, n', ⟨h1, h2, h3, h4⟩, h5, h6, h7, h8⟩
    · rintro ⟨o, n', ⟨h1, h2, h3, h4⟩, h5, h6, h7, h8⟩
      exact ⟨o, n', h1, h2, h3, h4, h5, h6, h7, h8⟩

end Claims2

section Claims3

variable {R : Type} [LinearOrderedField R]

/-- **C10.** In a network that `initNetwork` has built from layer definitions with positive
dimensions, the weights that the backward connections of the nodes of the fully connected
and output layers refer to

* are different for different triples of layer, node and connection,
* lie in the range of the layer `l` in the weight block, from the sum of the weight counts
  of the layers before `l` up to, and without, the sum of the weight counts of the layers
  up to `l`, and
* are all the weights of that range. -/
theorem fullyConnected_weight_slots (abi : Abi) (defs : List LayerDefinition)
    (nn0 nn : Network R) (layerCount : Int) (hdefs : nn0.layerDefs = defs)
    (hcount : nn0.layerCount = layerCount)
    (h : initNetwork abi nn0 layerCount defs = Except.ok nn)
    (hsw : 0 < abi.sizeofWeight) (hpos : PositiveDims defs layerCount) :
    (∀ l c n k l' c' n' k', nn.IsFullyConnectedLink l c n k →
      nn.IsFullyConnectedLink l' c' n' k' →
      ((nn.nodes (getNetworkNode (getNetworkLayer nn l) c n)).connections k).weightPtr
        = ((nn.nodes (getNetworkNode (getNetworkLayer nn l') c' n')).connections k').weightPtr →
      l = l' ∧ c = c' ∧ n = n' ∧ k = k') ∧
    (∀ l c n k, nn.IsFullyConnectedLink l c n k →
      ∃ i, ((nn.nodes (getNetworkNode (getNetworkLayer nn l) c n)).connections k).weightPtr
          = WeightRef.block i ∧
        weightRangeStart defs l ≤ i ∧ i < weightRangeStart defs (l + 1)) ∧
    (∀ l i, 0 ≤ l → l < layerCount →
      ((nn.layerDefOf (getNetworkLayer nn l)).layerType = LayerType.FULLY_CONNECTED
        ∨ (nn.layerDefOf (getNetworkLayer nn l)).layerType = LayerType.OUTPUT) →
      weightRangeStart defs l ≤ i → i < weightRangeStart defs (l + 1) →
      ∃ c n k, nn.IsFullyConnectedLink l c n k ∧
        ((nn.nodes (getNetworkNode (getNetworkLayer nn l) c n)).connections k).weightPtr
          = WeightRef.block i) ∧
    ∀ l, 0 ≤ l → l < layerCount →
      weightRangeStart defs (l + 1) = weightRangeStart defs l + weightCountOf defs l ∧
      getLayerWeightCount defs l = Except.ok (weightCountOf defs l) := by
  have hlc : nn.layerCount = layerCount :=
    (initNetwork_spec abi defs nn0 nn layerCount hdefs hcount h).1.1
  have key := fullyConnectedLink_weight abi defs nn0 nn layerCount hdefs hcount h hsw hpos
  -- the place of the weight of a connection, and its range
  have hrange : ∀ l c n k, nn.IsFullyConnectedLink l c n k →
      ∃ d dp e, defAt defs l = Except.ok d ∧ defAt defs (l - 1) = Except.ok dp ∧
        0 ≤ c ∧ c < getColumnCount d ∧ 0 ≤ n ∧ n < d.nodeMap.depth ∧ 0 ≤ k ∧
        k < getLayerNodeCount dp ∧ e = (c * d.nodeMap.depth + n) * getLayerNodeCount dp + k ∧
        ((nn.nodes (getNetworkNode (getNetworkLayer nn l) c n)).connections k).weightPtr
          = WeightRef.block (weightRangeStart defs l + e) ∧
        0 ≤ e ∧ weightRangeStart defs l + e < weightRangeStart defs (l + 1) := by
    rintro l c n k ⟨hl0, hl, htype, hA, hk0, hk⟩
    rw [hlc] at hl
    obtain ⟨d, dp, hd, hdp, -, hwc, hnodes⟩ := key l hl0 hl htype
    obtain ⟨hiff, hconn⟩ := hnodes c n
    obtain ⟨hbc, hw⟩ := hconn hA
    have hA' := hiff.1 hA
    rw [hbc] at hk
    have hs := slot_range hA'.1 hA'.2.1 hA'.2.2.1 hA'.2.2.2 hk0 hk
    refine ⟨d, dp, _, hd, hdp, hA'.1, hA'.2.1, hA'.2.2.1, hA'.2.2.2, hk0, hk, rfl,
      hw k hk0 hk, hs.1, ?_⟩
    rw [weightRangeStart_succ defs hl0, hwc]
    have := hs.2
    unfold getLayerNodeCount getLayerColumnCount at this ⊢
    unfold getColumnCount at this
    omega
  refine ⟨?_, ?_, ?_, ?_⟩
  · intro l c n k l' c' n' k' h1 h2 hw
    obtain ⟨d, dp, e, hd, hdp, hc0, hc, hn0, hn, hk0, hk, he, hw1, he0, hlt⟩ :=
      hrange l c n k h1
    obtain ⟨d', dp', e', hd', hdp', hc0', hc', hn0', hn', hk0', hk', he', hw2, he0', hlt'⟩ :=
      hrange l' c' n' k' h2
    rw [hw1, hw2] at hw
    injection hw with hw
    have hl1 := h1.1
    have hl2 := h1.2.1
    have hl1' := h2.1
    have hl2' := h2.2.1
    rw [hlc] at hl2 hl2'
    have hll : l = l' := by
      rcases lt_trichotomy l l' with hlt3 | heq | hgt3
      · exfalso
        have := weightRangeStart_mono hpos (l := l + 1) (by omega) (l' - (l + 1)).toNat
          (by omega)
        rw [show l + 1 + ((l' - (l + 1)).toNat : Int) = l' by omega] at this
        omega
      · exact heq
      · exfalso
        have := weightRangeStart_mono hpos (l := l' + 1) (by omega) (l - (l' + 1)).toNat
          (by omega)
        rw [show l' + 1 + ((l - (l' + 1)).toNat : Int) = l by omega] at this
        omega
    subst hll
    rw [hd] at hd'
    injection hd' with hd'
    subst hd'
    rw [hdp] at hdp'
    injection hdp' with hdp'
    subst hdp'
    have hee : e = e' := by omega
    rw [he, he'] at hee
    obtain ⟨hg, hkk⟩ := slot_inj hk0 hk hk0' hk' hee
    obtain ⟨hcc, hnn⟩ := slot_inj hn0 hn hn0' hn' hg
    exact ⟨rfl, hcc, hnn, hkk⟩
  · intro l c n k h1
    obtain ⟨d, dp, e, -, -, -, -, -, -, -, -, -, hw1, he0, hlt⟩ := hrange l c n k h1
    exact ⟨_, hw1, by omega, hlt⟩
  · intro l i hl0 hl htype hi0 hi
    obtain ⟨d, dp, hd, hdp, -, hwc, hnodes⟩ := key l hl0 hl htype
    have hdpos := hpos.at hl hd
    have hdppos := hpos.at (by omega : l - 1 < layerCount) hdp
    rw [weightRangeStart_succ defs hl0, hwc] at hi
    have hB : 0 < getLayerNodeCount dp := by
      unfold getLayerNodeCount getLayerColumnCount
      exact mul_pos (mul_pos hdppos.1 hdppos.2.1) hdppos.2.2
    obtain ⟨c, n, k, hc0, hc, hn0, hn, hk0, hk, he⟩ :=
      slot_cover (getColumnCount d) (i - weightRangeStart defs l) hdpos.2.2 hB
        (by omega)
        (by
          rw [show getLayerNodeCount d = getColumnCount d * d.nodeMap.depth from rfl] at hi
          omega)
    obtain ⟨hiff, hconn⟩ := hnodes c n
    have hA := hiff.2 ⟨hc0, hc, hn0, hn⟩
    obtain ⟨hbc, hw⟩ := hconn hA
    refine ⟨c, n, k, ⟨hl0, by rw [hlc]; exact hl, htype, hA, hk0, by rw [hbc]; exact hk⟩, ?_⟩
    rw [hw k hk0 hk, he]
    congr 1
    omega
  · intro l hl0 hl
    refine ⟨weightRangeStart_succ defs hl0, ?_⟩
    obtain ⟨-, hL, -, -⟩ := initNetwork_spec abi defs nn0 nn layerCount hdefs hcount h
    obtain ⟨⟨d, hd⟩, hb⟩ := hL l hl0 hl
    have hdpos := hpos.at hl hd
    have hnode0 := hb.nodes d 0 0 hd (le_refl 0)
      (by unfold getColumnCount; nlinarith [hdpos.1, hdpos.2.1]) (le_refl 0) hdpos.2.2
    have hbc := hnode0.backwardConnCount
    unfold weightCountOf
    unfold getNodeBackwardConnectionCount at hbc
    unfold getLayerWeightCount
    cases ht : d.layerType with
    | EMPTY => simp [hd, ht, bind, Except.bind, throw, throwThe, MonadExceptOf.throw] at hbc
    | INPUT => simp [hd, ht, bind, Except.bind, pure, Except.pure]
    | CONVOLUTIONAL =>
      cases hp : defAt defs (l - 1) with
      | ok dp => simp [hd, hp, ht, bind, Except.bind, pure, Except.pure]
      | error e => simp [hd, hp, ht, bind, Except.bind] at hbc
    | FULLY_CONNECTED =>
      cases hp : defAt defs (l - 1) with
      | ok dp => simp [hd, hp, ht, bind, Except.bind, pure, Except.pure]
      | error e => simp [hd, hp, ht, bind, Except.bind] at hbc
    | OUTPUT =>
      cases hp : defAt defs (l - 1) with
      | ok dp => simp [hd, hp, ht, bind, Except.bind, pure, Except.pure]
      | error e => simp [hd, hp, ht, bind, Except.bind] at hbc

end Claims3

/-! ## Instances of the statements with hypotheses -/

/-- C2 at the node at column 0 of the hidden layer of the network `fcNet`. -/
theorem feedForwardNetwork_output_witness :
    ((feedForwardNetwork libmQ fcNet).nodes (getNetworkNode 1 0 0)).output
      = activationValue libmQ (fcNet.layerDefOf 1).activationType
          (weightedInput (feedForwardNetwork libmQ fcNet) (getNetworkNode 1 0 0)) ∧
    SameUpToOutputs fcNet (feedForwardNetwork libmQ fcNet) :=
  feedForwardNetwork_output libmQ fcNet 1 0 0
    (initNetwork_wired lp64 fcDefs fcNet0 fcNet 3 rfl rfl fcNet_built (by decide)
      (by decide)).1
    (by decide) (by decide!) (by decide) (by decide!) (by decide) (by decide!)

/-- C4 at the node at column 1 of the output layer of the network `negativeOutputs`, for
the label 0. -/
theorem backPropagateOutputLayer_errorSum_witness :
    ((backPropagateOutputLayer libmQ negativeOutputs 0).nodes
        (getNetworkNode (getNetworkLayer negativeOutputs (negativeOutputs.layerCount - 1))
          1 0)).errorSum
      = ((if (1 : Int) = 0 then (1 : ℚ) else 0)
          - (negativeOutputs.nodes (getNetworkNode
              (getNetworkLayer negativeOutputs (negativeOutputs.layerCount - 1)) 1 0)).output)
        * getDerivative libmQ
            (negativeOutputs.nodes (getNetworkNode
              (getNetworkLayer negativeOutputs (negativeOutputs.layerCount - 1)) 1 0)).output
            (negativeOutputs.layerDefOf
              (getNetworkLayer negativeOutputs (negativeOutputs.layerCount - 1))).activationType :=
  (backPropagateOutputLayer_errorSum libmQ negativeOutputs 0 1 0 (by decide) (by decide!)
    (by decide) (by decide!)).1

/-- C5 at the network `fcNet` and the label 0. -/
theorem backPropagateNetwork_hidden_errorSum_witness :
    ∃ nn', backPropagateNetwork libmQ fcNet 0 = Except.ok nn' ∧
      (∀ (l : Nat) (c n : Int), 0 < l → (l : Int) < fcNet.layerCount - 1 →
        fcNet.IsNode l c n →
        (nn'.nodes (getNetworkNode l c n)).errorSum
          = getDerivative libmQ (nn'.nodes (getNetworkNode l c n)).output
              (fcNet.layerDefOf l).activationType
            * forwardErrorSum nn' (getNetworkNode l c n)) ∧
      (∀ o n : Int, fcNet.IsNode (getNetworkLayer fcNet (fcNet.layerCount - 1)) o n →
        (nn'.nodes
            (getNetworkNode (getNetworkLayer fcNet (fcNet.layerCount - 1)) o n)).errorSum
          = ((if o = 0 then (1 : ℚ) else 0)
              - (fcNet.nodes
                  (getNetworkNode (getNetworkLayer fcNet (fcNet.layerCount - 1)) o n)).output)
            * getDerivative libmQ
                (fcNet.nodes
                  (getNetworkNode (getNetworkLayer fcNet (fcNet.layerCount - 1)) o n)).output
                (fcNet.layerDefOf
                  (getNetworkLayer fcNet (fcNet.layerCount - 1))).activationType) ∧
      ∀ w, nn'.readWeight w
        = fcNet.readWeight w
          + ((trainedNodes fcNet).map (fun p => nodeWeightDelta nn' p w)).sum :=
  have hw := initNetwork_wired lp64 fcDefs fcNet0 fcNet 3 rfl rfl fcNet_built (by decide)
    (by decide)
  (backPropagateNetwork_hidden_errorSum libmQ fcNet 0 hw.2.1 hw.2.2 (by decide!)).imp
    (fun _ h => ⟨h.1, h.2.1, h.2.2.1, h.2.2.2.1⟩)

/-- C6 at the first forward connection of the node at column 0 of the hidden layer of the
network `fcNet`. -/
theorem forward_connection_has_backward_witness :
    ∃ o n' k, (1 : Int) + 1 < 3 ∧ fcNet.IsNode (getNetworkLayer fcNet (1 + 1)) o n' ∧
      0 ≤ k ∧ k < (fcNet.nodes (getNetworkNode (getNetworkLayer fcNet (1 + 1)) o n')).backwardConnCount ∧
      ((fcNet.nodes (getNetworkNode (getNetworkLayer fcNet 1) 0 0)).connections
        ((fcNet.nodes (getNetworkNode (getNetworkLayer fcNet 1) 0 0)).backwardConnCount + 0)).nodePtr
        = some (getNetworkNode (getNetworkLayer fcNet (1 + 1)) o n') ∧
      (fcNet.nodes (getNetworkNode (getNetworkLayer fcNet (1 + 1)) o n')).connections k
        = ⟨some (getNetworkNode (getNetworkLayer fcNet 1) 0 0),
            ((fcNet.nodes (getNetworkNode (getNetworkLayer fcNet 1) 0 0)).connections
              ((fcNet.nodes (getNetworkNode (getNetworkLayer fcNet 1) 0 0)).backwardConnCount
                + 0)).weightPtr⟩ :=
  forward_connection_has_backward lp64 fcDefs fcNet0 fcNet 3 rfl rfl (by decide) fcNet_built
    1 0 0 0 (by decide) (by decide) ⟨by decide, by decide!, by decide, by decide!⟩
    (by decide) (by decide!)

/-- C7 at the node at column 0 of the hidden layer of the network `fcNet` and the first
backward connection of the node at column 0 of its output layer. -/
theorem backward_connection_has_one_forward_witness :
    ∃! j, 0 ≤ j ∧ j < (fcNet.nodes (getNetworkNode (getNetworkLayer fcNet 1) 0 0)).forwardConnCount ∧
      (fcNet.nodes (getNetworkNode (getNetworkLayer fcNet 1) 0 0)).connections
        ((fcNet.nodes (getNetworkNode (getNetworkLayer fcNet 1) 0 0)).backwardConnCount + j)
        = ⟨some (getNetworkNode (getNetworkLayer fcNet (1 + 1)) 0 0),
            ((fcNet.nodes (getNetworkNode (getNetworkLayer fcNet (1 + 1)) 0 0)).connections
              0).weightPtr⟩ :=
  (backward_connection_has_one_forward lp64 fcDefs fcNet0 fcNet 3 rfl rfl fcNet_built
    1 0 0 0 0 0 (by decide) (by decide) ⟨by decide, by decide!, by decide, by decide!⟩
    ⟨by decide, by decide!, by decide, by decide!⟩ (by decide) (by decide!) (by decide!)).1

/-- C8 at the nodes at the columns 0 and 1 of the convolutional layer of the network
`convNet`, for the first position of the filter. -/
theorem convolutional_weight_sharing_witness :
    ((convNet.nodes (getNetworkNode (getNetworkLayer convNet 1) 0 0)).connections
        (0 * (convHidden.filter * convHidden.filter) + 0)).weightPtr
      = ((convNet.nodes (getNetworkNode (getNetworkLayer convNet 1) 1 0)).connections
        (0 * (convHidden.filter * convHidden.filter) + 0)).weightPtr :=
  (convolutional_weight_sharing lp64 convDefs convNet0 convNet 3 rfl rfl convNet_built
    1 0 1 0 0 0 convHidden convInput
    (by decide) (by decide) rfl rfl rfl (by decide) (by decide!) (by decide) (by decide!)
    (by decide) (by decide!) (by decide!) (by decide) (by decide) (by decide) (by decide)
    (by decide!) (by decide!)).1

/-- C9 at the node at column 1 of the hidden layer of the network `fcNet`. -/
theorem fullyConnected_backward_connections_witness :
    (fcNet.nodes (getNetworkNode (getNetworkLayer fcNet 1) 1 0)).backwardConnCount
      = getLayerNodeCount ⟨.INPUT, .SIGMOID, ⟨2, 1, 1⟩, 0⟩ :=
  (fullyConnected_backward_connections lp64 fcDefs fcNet0 fcNet 3 rfl rfl fcNet_built
    1 1 0 ⟨.FULLY_CONNECTED, .SIGMOID, ⟨2, 1, 1⟩, 0⟩ ⟨.INPUT, .SIGMOID, ⟨2, 1, 1⟩, 0⟩
    (by decide) (by decide) rfl rfl (Or.inl rfl) (by decide) (by decide) (by decide!)
    (by decide) (by decide!)).1

/-- C10 at the second backward connection of the node at column 0 of the hidden layer of
the network `fcNet`, the eight backward connections of which refer to the weights
`0, ..., 7`. -/
theorem fullyConnected_weight_slots_witness :
    ∃ i, ((fcNet.nodes (getNetworkNode (getNetworkLayer fcNet 1) 0 0)).connections 1).weightPtr
        = WeightRef.block i ∧
      weightRangeStart fcDefs 1 ≤ i ∧ i < weightRangeStart fcDefs (1 + 1) :=
  (fullyConnected_weight_slots lp64 fcDefs fcNet0 fcNet 3 rfl rfl fcNet_built (by decide)
    (by decide)).2.1 1 0 0 1
    ⟨by decide, by decide!, Or.inl (by decide!),
      ⟨by decide, by decide!, by decide, by decide!⟩, by decide, by decide!⟩

/-! ## Claims about the construction -/

section Claims11

variable {R : Type} [LinearOrderedField R]

/-- **C11.** In a network that `initNetwork` has built, for a node at level `n` of a column
`c` of a convolutional layer, `calcFilterColumnIds` returns for the column the ids of the
columns in the filter window, and for every target level `t` below the depth of the previous
layer and every position `p` below `filter²` the backward connection `t * filter² + p` of the
node

* leads to the node at level `t` of the column with the id at position `p` and refers to the
  weight `n * depth(prev) * filter² + t * filter² + p` of the weight block of the layer when
  that id is in range, and
* has no target and refers to `nn->nullWeight` when that id is `OUT_OF_RANGE`. -/
theorem convolutional_backward_connections (abi : Abi) (defs : List LayerDefinition)
    (nn0 nn : Network R) (layerCount : Int) (hdefs : nn0.layerDefs = defs)
    (hcount : nn0.layerCount = layerCount)
    (h : initNetwork abi nn0 layerCount defs = Except.ok nn)
    (l c n : Int) (d dp : LayerDefinition) (hl0 : 0 ≤ l) (hl : l < layerCount)
    (hd : defAt defs l = Except.ok d) (hdp : defAt defs (l - 1) = Except.ok dp)
    (htype : d.layerType = LayerType.CONVOLUTIONAL)
    (hc0 : 0 ≤ c) (hc : c < (nn.layers (getNetworkLayer nn l)).columnCount)
    (hn0 : 0 ≤ n) (hn : n < (nn.columns (getNetworkLayer nn l) c).nodeCount) :
    ∃ v, calcFilterColumnIds nn (getNetworkLayer nn l) c (getNetworkLayer nn (l - 1))
        ⟨d.filter * d.filter, []⟩ = Except.ok v ∧
      ∀ t p, 0 ≤ t → t < dp.nodeMap.depth → 0 ≤ p → p < d.filter * d.filter →
        ∃ col, v.vals[p.toNat]? = some col ∧
          (nn.nodes (getNetworkNode (getNetworkLayer nn l) c n)).connections
              (t * (d.filter * d.filter) + p)
            = if col ≠ OUT_OF_RANGE then
                ⟨some (getNetworkNode (getNetworkLayer nn (l - 1)) col t),
                  WeightRef.block ((nn.layers (getNetworkLayer nn l)).weightsPtr
                    + (n * (dp.nodeMap.depth * (d.filter * d.filter))
                      + t * (d.filter * d.filter) + p))⟩
              else ⟨none, WeightRef.nullWeight⟩ := by
  obtain ⟨⟨-, hnd, -⟩, hL, -, -⟩ := initNetwork_spec abi defs nn0 nn layerCount hdefs hcount h
  obtain ⟨-, hb⟩ := hL l hl0 hl
  have hl1 : 0 ≤ l - 1 := (defAt_ok_iff.1 hdp).1
  obtain ⟨-, hbp⟩ := hL (l - 1) hl1 (by omega)
  simp only [getNetworkLayer, getNetworkNode] at hc hn ⊢
  rw [hb.columnCount d hd] at hc
  rw [hb.nodeCount d c hd hc0 hc] at hn
  have hnb := hb.nodes d c n hd hc0 hc hn0 hn
  obtain ⟨vals, hvals, hconn⟩ := hnb.conv d dp hd hdp htype
  refine ⟨⟨d.filter * d.filter, vals⟩, ?_, ?_⟩
  · unfold calcFilterColumnIds
    simp only [layerDefOf_eq hnd hb.layerDef hd, layerDefOf_eq hnd hbp.layerDef hdp, hvals,
      bind, Except.bind, pure, Except.pure]
  · intro t p ht0 ht hp0 hp
    obtain ⟨col, h1, h2⟩ := hconn t p ht0 ht hp0 hp
    refine ⟨col, h1, ?_⟩
    rw [h2, hb.weightsPtr]

/-- The two sums over the layers: of the byte sizes of the weight blocks, which is taken
modulo `2 ^ 64`, and of the weight counts. -/
theorem weightSums (abi : Abi) (defs : List LayerDefinition) (ls : List Int) (a w B : Int)
    (h : ls.foldlM
      (fun size l => do pure ((size + (← getLayerWeightBlockSize abi defs l)) % 2 ^ 64)) a
      = Except.ok B) :
    ls.foldlM (fun wc l => do pure (wc + (← getLayerWeightCount defs l))) w
        = Except.ok (w + (ls.map (weightCountOf defs)).sum) ∧
      B % 2 ^ 64 = (a + (ls.map (weightCountOf defs)).sum * abi.sizeofWeight) % 2 ^ 64 := by
  induction ls generalizing a w with
  | nil =>
    simp only [List.foldlM_nil, pure, Except.pure, Except.ok.injEq] at h
    simp [pure, Except.pure, h]
  | cons x ls ih =>
    obtain ⟨t, h1, h2⟩ := (foldlM_cons_ok _ x ls _ B).1 h
    obtain ⟨v, hv, h1⟩ := bind_eq_ok.1 h1
    unfold getLayerWeightBlockSize at hv
    obtain ⟨wx, hwx, hv⟩ := bind_eq_ok.1 hv
    simp only [pure, Except.pure, Except.ok.injEq] at hv h1
    have hwc : weightCountOf defs x = wx := by
      unfold weightCountOf
      rw [hwx]
    obtain ⟨ih1, ih2⟩ := ih t (w + wx) h2
    constructor
    · rw [List.foldlM_cons, hwx]
      simp only [bind, Except.bind, pure, Except.pure] at ih1 ⊢
      rw [ih1, List.map_cons, List.sum_cons, hwc]
      congr 1
      ring
    · rw [ih2, ← h1, ← hv, List.map_cons, List.sum_cons, hwc]
      have e : a + (wx + (ls.map (weightCountOf defs)).sum) * abi.sizeofWeight
          = a + wx * abi.sizeofWeight
            + (ls.map (weightCountOf defs)).sum * abi.sizeofWeight := by ring
      rw [e, Int.add_emod, Int.emod_emod_of_dvd _ (dvd_refl _), Int.add_emod a,
        Int.emod_emod_of_dvd _ (dvd_refl _), ← Int.add_emod a, ← Int.add_emod]

/-- The value of `getNetworkWeightBlockSize` is the sum of the weight counts times the size
of a weight, modulo `2 ^ 64`. -/
theorem getNetworkWeightBlockSize_eq (abi : Abi) (defs : List LayerDefinition)
    (layerCount B : Int) (hB : getNetworkWeightBlockSize abi layerCount defs = Except.ok B) :
    (forRange layerCount).foldlM (fun wc l => do pure (wc + (← getLayerWeightCount defs l)))
        (0 : Int) = Except.ok (weightRangeStart defs layerCount) ∧
      B = (weightRangeStart defs layerCount * abi.sizeofWeight) % 2 ^ 64 := by
  unfold getNetworkWeightBlockSize at hB
  obtain ⟨h1, h2⟩ := weightSums abi defs (forRange layerCount) 0 0 B hB
  rw [zero_add] at h1 h2
  refine ⟨h1, ?_⟩
  have hrange : 0 ≤ B ∧ B < 2 ^ 64 := by
    refine forRange_foldlM_inv _ layerCount (fun _ s => 0 ≤ s ∧ s < 2 ^ 64) 0 B
      (by norm_num) ?_ hB
    intro a t t' _ _ _ hstep
    obtain ⟨v, -, hstep⟩ := bind_eq_ok.1 hstep
    simp only [pure, Except.pure, Except.ok.injEq] at hstep
    rw [← hstep]
    exact ⟨Int.emod_nonneg _ (by norm_num), Int.emod_lt_of_pos _ (by norm_num)⟩
  rw [Int.emod_eq_of_lt hrange.1 hrange.2] at h2
  exact h2

/-- **C20.** (amended) When the sizes of the weight blocks of the layers can be computed,
`getNetworkWeightBlockSize` is the sum `weightRangeStart defs layerCount` of
`getLayerWeightCount` over the layers times `sizeof(Weight)`, modulo `2 ^ 64`. When that sum
is not negative and the product is less than `2 ^ 64`, the size is the product itself, the
division by `sizeof(Weight)` leaves no remainder and gives the sum, `setNetworkDefaults`
does not stop at its test of the weight count, and `nn->weightCount` is the sum. When the
sum is negative or the product is `2 ^ 64` or more, `setNetworkDefaults` stops with
`exit(1)` at that test. -/
theorem weightCount_crosscheck (abi : Abi) (defs : List LayerDefinition) (layerCount : Int)
    (B : Int) (hsw : 0 < abi.sizeofWeight)
    (hB : getNetworkWeightBlockSize abi layerCount defs = Except.ok B) :
    (forRange layerCount).foldlM (fun wc l => do pure (wc + (← getLayerWeightCount defs l)))
        (0 : Int) = Except.ok (weightRangeStart defs layerCount) ∧
      B = (weightRangeStart defs layerCount * abi.sizeofWeight) % 2 ^ 64 ∧
      (0 ≤ weightRangeStart defs layerCount →
        weightRangeStart defs layerCount * abi.sizeofWeight < 2 ^ 64 →
        B = weightRangeStart defs layerCount * abi.sizeofWeight ∧
        B / abi.sizeofWeight = weightRangeStart defs layerCount ∧ B % abi.sizeofWeight = 0 ∧
        ∀ (nn : Network R) (netSize : Int),
          ∃ nn', setNetworkDefaults abi nn layerCount defs netSize = Except.ok nn' ∧
            nn'.weightCount = weightRangeStart defs layerCount) ∧
      ((weightRangeStart defs layerCount < 0 ∨
          2 ^ 64 ≤ weightRangeStart defs layerCount * abi.sizeofWeight) →
        ∀ (nn : Network R) (netSize : Int),
          setNetworkDefaults abi nn layerCount defs netSize = Except.error Fault.exit1) := by
  obtain ⟨h1, h2⟩ := getNetworkWeightBlockSize_eq abi defs layerCount B hB
  have hunfold : ∀ (nn : Network R) (netSize : Int),
      setNetworkDefaults abi nn layerCount defs netSize
        = if weightRangeStart defs layerCount * abi.sizeofWeight ≠ B
          then Except.error Fault.exit1
          else Except.ok
            { nn with
              size := netSize, layerCount := layerCount, weightsPtr := netSize - B,
              nullWeight := 0, learningRate := 1 / 1000,
              weightCount := weightRangeStart defs layerCount } := by
    intro nn netSize
    have hB2 := hB
    have h12 := h1
    unfold setNetworkDefaults
    simp only [bind, Except.bind, pure, Except.pure] at hB2 h12 ⊢
    simp only [hB2, h12]
  refine ⟨h1, h2, ?_, ?_⟩
  · intro h0 hlt
    have h2' : B = weightRangeStart defs layerCount * abi.sizeofWeight := by
      rw [h2]
      exact Int.emod_eq_of_lt (mul_nonneg h0 (le_of_lt hsw)) hlt
    refine ⟨h2', ?_, ?_, ?_⟩
    · rw [h2']
      exact Int.mul_ediv_cancel _ (ne_of_gt hsw)
    · rw [h2']
      exact Int.mul_emod_left _ _
    · intro nn netSize
      rw [hunfold, if_neg (by simp [h2'])]
      exact ⟨_, rfl, rfl⟩
  · intro hbad nn netSize
    rw [hunfold, if_pos]
    intro heq
    have hr0 : 0 ≤ B := by
      rw [h2]
      exact Int.emod_nonneg _ (by norm_num)
    have hr1 : B < 2 ^ 64 := by
      rw [h2]
      exact Int.emod_lt_of_pos _ (by norm_num)
    rw [← heq] at hr0 hr1
    rcases hbad with hneg | hbig
    · have := mul_neg_of_neg_of_pos hneg hsw
      omega
    · omega

/-- The claim C20 fails at definitions with a negative width, which
`isValidNetworkDefinition` accepts. At `negativeDefs`, after `setLayerDefinitionDefaults`,
the sizes can be computed, the sum of the weight counts is -60, the size of the weight block
is `2 ^ 64 - 480`, the quotient of that size by the size 8 of a weight is not -60, and
`setNetworkDefaults` stops with `exit(1)` at the test of the weight count. At
`negativeOutputDefs` the sum of the weight counts is -2, the size of the weight block is
`2 ^ 64 - 16`, the size of the network is 136 modulo `2 ^ 64`, and `setNetworkDefaults` and
with it the construction of the network stop with `exit(1)` at that test. -/
theorem weightCount_crosscheck_fires :
    (isValidNetworkDefinition 2 negativeDefs = Except.ok true ∧
      setLayerDefinitionDefaults 2 negativeDefs = Except.ok negativeDefaulted ∧
      (∃ size, getNetworkSize lp64 2 negativeDefaulted = Except.ok size) ∧
      (forRange 2).foldlM
        (fun wc l => do pure (wc + (← getLayerWeightCount negativeDefaulted l))) (0 : Int)
        = Except.ok (-60) ∧
      getNetworkWeightBlockSize lp64 2 negativeDefaulted = Except.ok (2 ^ 64 - 480) ∧
      ((2 : Int) ^ 64 - 480) / lp64.sizeofWeight ≠ -60 ∧
      ∀ (nn : Network ℚ) (netSize : Int),
        setNetworkDefaults lp64 nn 2 negativeDefaulted netSize = Except.error Fault.exit1) ∧
    (isValidNetworkDefinition 2 negativeOutputDefs = Except.ok true ∧
      setLayerDefinitionDefaults 2 negativeOutputDefs = Except.ok negativeOutputDefaulted ∧
      getNetworkSize lp64 2 negativeOutputDefaulted = Except.ok (2 ^ 64 + 136) ∧
      (forRange 2).foldlM
        (fun wc l => do pure (wc + (← getLayerWeightCount negativeOutputDefaulted l)))
        (0 : Int) = Except.ok (-2) ∧
      getNetworkWeightBlockSize lp64 2 negativeOutputDefaulted = Except.ok (2 ^ 64 - 16) ∧
      ((2 : Int) ^ 64 - 16) / lp64.sizeofWeight ≠ -2 ∧
      (∀ (nn : Network ℚ) (netSize : Int),
        setNetworkDefaults lp64 nn 2 negativeOutputDefaulted netSize
          = Except.error Fault.exit1) ∧
      ∀ mem : Network ℚ,
        createNetworkStructure lp64 mem 2 negativeOutputDefaulted
          = Except.error Fault.exit1) := by
  have hset : ∀ (nn : Network ℚ) (netSize : Int),
      setNetworkDefaults lp64 nn 2 negativeOutputDefaulted netSize
        = Except.error Fault.exit1 :=
    fun nn netSize => rfl
  have hsize : getNetworkSize lp64 2 negativeOutputDefaulted = Except.ok (2 ^ 64 + 136) :=
    rfl
  refine ⟨⟨rfl, rfl, ⟨_, rfl⟩, rfl, rfl, by decide, fun nn netSize => rfl⟩,
    rfl, rfl, hsize, rfl, rfl, by decide, hset, ?_⟩
  intro mem
  unfold createNetworkStructure
  rw [hsize]
  simp only [bind, Except.bind]
  rw [hset]

/-- **C17.** In a network that `initNetwork` has built from definitions whose input layer
has the depth 1, for a vector `v` that holds `v.count` values, `feedInput` stops with
`exit(1)` when `v.count` is not the number of nodes `width * height * depth` of the input
layer, and returns without a fault when it is. -/
theorem feedInput_fails_iff (abi : Abi) (defs : List LayerDefinition)
    (nn0 nn : Network R) (layerCount : Int) (hdefs : nn0.layerDefs = defs)
    (hcount : nn0.layerCount = layerCount)
    (h : initNetwork abi nn0 layerCount defs = Except.ok nn)
    (d : LayerDefinition) (hlc : 0 < layerCount) (hd : defAt defs 0 = Except.ok d)
    (hdepth : d.nodeMap.depth = 1) (v : Vector R) (hv : v.count ≤ (v.vals.length : Int)) :
    (v.count ≠ getLayerNodeCount d → feedInput nn v = Except.error Fault.exit1) ∧
      (v.count = getLayerNodeCount d → ∃ nn', feedInput nn v = Except.ok nn') ∧
      (feedInput nn v = Except.error Fault.exit1 ↔ v.count ≠ getLayerNodeCount d) ∧
      ((∃ e, feedInput nn v = Except.error e) ↔ v.count ≠ getLayerNodeCount d) := by
  obtain ⟨-, hL, -, -⟩ := initNetwork_spec abi defs nn0 nn layerCount hdefs hcount h
  obtain ⟨-, hb⟩ := hL 0 (le_refl 0) hlc
  have hcc : (nn.layers 0).columnCount = getLayerNodeCount d := by
    have := hb.columnCount d hd
    simp only [Int.toNat_zero] at this
    rw [this]
    unfold getLayerNodeCount getLayerColumnCount getColumnCount
    rw [hdepth, mul_one]
  have hfail : v.count ≠ getLayerNodeCount d → feedInput nn v = Except.error Fault.exit1 := by
    intro hne
    unfold feedInput
    simp only [hcc]
    rw [if_pos hne]
    rfl
  have hok : v.count = getLayerNodeCount d → ∃ nn', feedInput nn v = Except.ok nn' := by
    intro heq
    unfold feedInput
    simp only [hcc]
    rw [if_neg (by simp [heq])]
    obtain ⟨s', hs', -⟩ := foldlM_ok_of_inv
      (fun (s : Network R) (i : Int) =>
        match v.vals[i.toNat]? with
        | some x =>
          (pure (s.setNode (getNetworkNode 0 i 0)
            { s.nodes (getNetworkNode 0 i 0) with output := x }) : Except Fault (Network R))
        | none => throw Fault.undefined)
      (forRange v.count) (fun _ => True) nn trivial
      (by
        intro a t ha _
        have ha' := mem_forRange.1 ha
        have hlt : a.toNat < v.vals.length := by omega
        dsimp only
        rw [List.getElem?_eq_getElem hlt]
        exact ⟨_, rfl, trivial⟩)
    exact ⟨s', hs'⟩
  refine ⟨hfail, hok, ?_, ?_⟩
  · constructor
    · intro he hne
      obtain ⟨nn', hnn'⟩ := hok hne
      rw [hnn'] at he
      cases he
    · exact hfail
  · constructor
    · rintro ⟨e, he⟩ hne
      obtain ⟨nn', hnn'⟩ := hok hne
      rw [hnn'] at he
      cases he
    · intro hne
      exact ⟨_, hfail hne⟩

end Claims11

/-! ## The filter window -/

section Window

variable {R : Type} [LinearOrderedField R]

/-- A loop that appends one value per step. -/
theorem foldlM_append_values {α β : Type} (g : α → β) (l : List α) (vals : List β) :
    l.foldlM (fun vals x => (pure (vals ++ [g x]) : Except Fault (List β))) vals
      = Except.ok (vals ++ l.map g) := by
  induction l generalizing vals with
  | nil => simp [pure, Except.pure]
  | cons a l ih =>
    rw [List.foldlM_cons]
    simp only [pure, Except.pure, bind, Except.bind] at ih ⊢
    rw [ih]
    simp

/-- A loop that appends a list of values per step. -/
theorem foldlM_append_lists {α β : Type} (g : α → List β) (l : List α) (vals : List β) :
    l.foldlM (fun vals x => (Except.ok (vals ++ g x) : Except Fault (List β))) vals
      = Except.ok (vals ++ l.flatMap g) := by
  induction l generalizing vals with
  | nil => simp [pure, Except.pure]
  | cons a l ih =>
    rw [List.foldlM_cons]
    simp only [bind, Except.bind] at ih ⊢
    rw [ih]
    simp [List.flatMap_cons]

/-- The value at the place `y * m + x` of `n` rows of `m` values each. -/
theorem getElem?_rows {β : Type} (h : Nat → Nat → β) (n m x y : Nat) (hx : x < m)
    (hy : y < n) :
    ((List.range n).flatMap (fun y => (List.range m).map (h y)))[y * m + x]?
      = some (h y x) := by
  induction n with
  | zero => omega
  | succ n ih =>
    have hlen : ((List.range n).flatMap (fun y => (List.range m).map (h y))).length
        = n * m := by
      clear ih hy
      induction n with
      | zero => simp
      | succ k ihk =>
        rw [List.range_succ, List.flatMap_append, List.length_append, ihk]
        simp
        ring
    rw [List.range_succ, List.flatMap_append]
    by_cases hyn : y < n
    · have hlt : y * m + x < n * m := by
        have : (y + 1) * m ≤ n * m := Nat.mul_le_mul_right m hyn
        have h2 : (y + 1) * m = y * m + m := by ring
        omega
      rw [List.getElem?_append_left (by rw [hlen]; exact hlt)]
      exact ih hyn
    · have hyeq : y = n := by omega
      subst hyeq
      rw [List.getElem?_append_right (by rw [hlen]; omega), hlen]
      simp [hx]

/-- The test of `calcFilterColumnIds` for a column id outside the node map, for a window
that starts at a column and a row that are not negative. -/
theorem outOfRange_iff {tw a b : Int} (th : Int) (htw : 0 < tw) (ha : 0 ≤ a) (hb : 0 ≤ b) :
    ((a * tw + b).tdiv tw > a ∨ a * tw + b ≥ tw * th) ↔ (tw ≤ b ∨ th ≤ a) := by
  have hnn : 0 ≤ a * tw + b := by
    have := mul_nonneg ha htw.le
    omega
  have hdiv : (a * tw + b) / tw = a + b / tw := by
    rw [add_comm, Int.add_mul_ediv_right _ _ (ne_of_gt htw)]
    ring
  rw [Int.tdiv_eq_ediv hnn htw.le, hdiv]
  constructor
  · rintro (h1 | h2)
    · left
      by_contra hlt
      have : b / tw = 0 := Int.ediv_eq_zero_of_lt hb (by omega)
      omega
    · by_cases hbt : tw ≤ b
      · left; exact hbt
      · right
        by_contra hlt
        have h3 : (a + 1) * tw ≤ th * tw := Int.mul_le_mul_of_nonneg_right (by omega) htw.le
        have h4 : (a + 1) * tw = a * tw + tw := by ring
        have h5 : th * tw = tw * th := by ring
        omega
  · rintro (h1 | h2)
    · left
      have : 1 ≤ b / tw := by
        rw [Int.le_ediv_iff_mul_le htw]
        omega
      omega
    · right
      have h3 : th * tw ≤ a * tw := Int.mul_le_mul_of_nonneg_right h2 htw.le
      have h5 : th * tw = tw * th := by ring
      omega

/-- The stride is not negative when the filter is not wider than the previous layer. -/
theorem ceilQuot_nonneg {a b : Int} (ha : 0 ≤ a) (hb : 0 < b) : 0 ≤ ceilQuot a b := by
  unfold ceilQuot
  have h1 : Int.fdiv (-a) b = (-a) / b := Int.fdiv_eq_ediv _ hb.le
  rw [h1]
  have h2 : (-a) / b ≤ 0 := by
    have := Int.ediv_le_ediv hb (by omega : -a ≤ 0)
    simpa using this
  omega

/-- What `filterWindow` returns: the rows of the window one after the other. -/
theorem filterWindow_eq (sw tw th f c : Int) (hsw : sw - 1 ≠ 0) (hsw0 : sw ≠ 0)
    (htw : tw ≠ 0) :
    filterWindow sw tw th f c []
      = Except.ok ((forRange f).flatMap (fun y => (forRange f).map (fun x =>
          if (((floorQuot c sw * ceilQuot (tw - f) (sw - 1) + y) * tw
                + (c.tmod sw * ceilQuot (tw - f) (sw - 1) + x)).tdiv tw
              > floorQuot c sw * ceilQuot (tw - f) (sw - 1) + y)
            ∨ ((floorQuot c sw * ceilQuot (tw - f) (sw - 1) + y) * tw
                + (c.tmod sw * ceilQuot (tw - f) (sw - 1) + x) ≥ tw * th)
          then OUT_OF_RANGE
          else (floorQuot c sw * ceilQuot (tw - f) (sw - 1) + y) * tw
                + (c.tmod sw * ceilQuot (tw - f) (sw - 1) + x)))) := by
  unfold filterWindow calcStride
  rw [if_neg hsw]
  simp only [pure, Except.pure, bind, Except.bind, if_neg hsw0, if_neg htw]
  have inner := fun (y : Int) (vals : List Int) => foldlM_append_values
    (fun x =>
      if (((floorQuot c sw * ceilQuot (tw - f) (sw - 1) + y) * tw
            + (c.tmod sw * ceilQuot (tw - f) (sw - 1) + x)).tdiv tw
          > floorQuot c sw * ceilQuot (tw - f) (sw - 1) + y)
        ∨ ((floorQuot c sw * ceilQuot (tw - f) (sw - 1) + y) * tw
            + (c.tmod sw * ceilQuot (tw - f) (sw - 1) + x) ≥ tw * th)
      then OUT_OF_RANGE
      else (floorQuot c sw * ceilQuot (tw - f) (sw - 1) + y) * tw
            + (c.tmod sw * ceilQuot (tw - f) (sw - 1) + x))
    (forRange f) vals
  simp only [pure, Except.pure] at inner
  simp only [inner]
  have outer := foldlM_append_lists
    (fun y => (forRange f).map (fun x =>
      if (((floorQuot c sw * ceilQuot (tw - f) (sw - 1) + y) * tw
            + (c.tmod sw * ceilQuot (tw - f) (sw - 1) + x)).tdiv tw
          > floorQuot c sw * ceilQuot (tw - f) (sw - 1) + y)
        ∨ ((floorQuot c sw * ceilQuot (tw - f) (sw - 1) + y) * tw
            + (c.tmod sw * ceilQuot (tw - f) (sw - 1) + x) ≥ tw * th)
      then OUT_OF_RANGE
      else (floorQuot c sw * ceilQuot (tw - f) (sw - 1) + y) * tw
            + (c.tmod sw * ceilQuot (tw - f) (sw - 1) + x)))
    (forRange f) []
  rw [outer]
  simp

end Window

section Claims12

variable {R : Type} [LinearOrderedField R]

/-- The values that `filterWindow` returns, by their places. -/
theorem filterWindow_get (sw tw th f c : Int) (hsw : 2 ≤ sw) (hf : f ≤ tw) (htw : 0 < tw)
    (hc : 0 ≤ c) :
    ∃ vals, filterWindow sw tw th f c [] = Except.ok vals ∧
      0 ≤ ceilQuot (tw - f) (sw - 1) ∧
      (∀ col ∈ vals, ∃ x y, 0 ≤ x ∧ x < f ∧ 0 ≤ y ∧ y < f ∧
        col = if tw ≤ c % sw * ceilQuot (tw - f) (sw - 1) + x
              ∨ th ≤ c / sw * ceilQuot (tw - f) (sw - 1) + y then OUT_OF_RANGE
            else (c / sw * ceilQuot (tw - f) (sw - 1) + y) * tw
              + (c % sw * ceilQuot (tw - f) (sw - 1) + x)) ∧
      ∀ x y, 0 ≤ x → x < f → 0 ≤ y → y < f →
        vals[(y * f + x).toNat]?
          = some (if tw ≤ c % sw * ceilQuot (tw - f) (sw - 1) + x
              ∨ th ≤ c / sw * ceilQuot (tw - f) (sw - 1) + y then OUT_OF_RANGE
            else (c / sw * ceilQuot (tw - f) (sw - 1) + y) * tw
              + (c % sw * ceilQuot (tw - f) (sw - 1) + x)) := by
  have hs : 0 ≤ ceilQuot (tw - f) (sw - 1) := ceilQuot_nonneg (by omega) (by omega)
  have hmod : c.tmod sw = c % sw := Int.tmod_eq_emod hc (by omega)
  have hdiv : floorQuot c sw = c / sw := Int.fdiv_eq_ediv _ (by omega)
  have hX : 0 ≤ c % sw * ceilQuot (tw - f) (sw - 1) :=
    mul_nonneg (Int.emod_nonneg _ (by omega)) hs
  have hY : 0 ≤ c / sw * ceilQuot (tw - f) (sw - 1) :=
    mul_nonneg (Int.ediv_nonneg hc (by omega)) hs
  have hg : ∀ x y : Int, 0 ≤ x → 0 ≤ y →
      (if (((floorQuot c sw * ceilQuot (tw - f) (sw - 1) + y) * tw
            + (c.tmod sw * ceilQuot (tw - f) (sw - 1) + x)).tdiv tw
          > floorQuot c sw * ceilQuot (tw - f) (sw - 1) + y)
        ∨ ((floorQuot c sw * ceilQuot (tw - f) (sw - 1) + y) * tw
            + (c.tmod sw * ceilQuot (tw - f) (sw - 1) + x) ≥ tw * th)
      then OUT_OF_RANGE
      else (floorQuot c sw * ceilQuot (tw - f) (sw - 1) + y) * tw
            + (c.tmod sw * ceilQuot (tw - f) (sw - 1) + x))
      = if tw ≤ c % sw * ceilQuot (tw - f) (sw - 1) + x
            ∨ th ≤ c / sw * ceilQuot (tw - f) (sw - 1) + y then OUT_OF_RANGE
          else (c / sw * ceilQuot (tw - f) (sw - 1) + y) * tw
            + (c % sw * ceilQuot (tw - f) (sw - 1) + x) := by
    intro x y hx hy
    rw [hmod, hdiv]
    have := outOfRange_iff th htw
      (by omega : 0 ≤ c / sw * ceilQuot (tw - f) (sw - 1) + y)
      (by omega : 0 ≤ c % sw * ceilQuot (tw - f) (sw - 1) + x)
    simp only [this]
  refine ⟨_, filterWindow_eq sw tw th f c (by omega) (by omega) (by omega), hs, ?_, ?_⟩
  · intro col hcol
    obtain ⟨y, hy, hcol⟩ := List.mem_flatMap.1 hcol
    obtain ⟨x, hx, hcol⟩ := List.mem_map.1 hcol
    have hx' := mem_forRange.1 hx
    have hy' := mem_forRange.1 hy
    exact ⟨x, y, hx'.1, hx'.2, hy'.1, hy'.2, by rw [← hcol, hg x y hx'.1 hy'.1]⟩
  · intro x y hx0 hx hy0 hy
    unfold forRange
    rw [List.flatMap_map]
    have hidx : (y * f + x).toNat = y.toNat * f.toNat + x.toNat := by
      have h1 : 0 ≤ y * f := mul_nonneg hy0 (by omega)
      have h2 : ((y.toNat * f.toNat + x.toNat : Nat) : Int) = y * f + x := by
        push_cast
        rw [Int.toNat_of_nonneg hy0, Int.toNat_of_nonneg hx0,
          Int.toNat_of_nonneg (by omega : 0 ≤ f)]
      omega
    rw [hidx]
    have := getElem?_rows
      (fun (y x : Nat) =>
        if (((floorQuot c sw * ceilQuot (tw - f) (sw - 1) + (y : Int)) * tw
              + (c.tmod sw * ceilQuot (tw - f) (sw - 1) + (x : Int))).tdiv tw
            > floorQuot c sw * ceilQuot (tw - f) (sw - 1) + (y : Int))
          ∨ ((floorQuot c sw * ceilQuot (tw - f) (sw - 1) + (y : Int)) * tw
              + (c.tmod sw * ceilQuot (tw - f) (sw - 1) + (x : Int)) ≥ tw * th)
        then OUT_OF_RANGE
        else (floorQuot c sw * ceilQuot (tw - f) (sw - 1) + (y : Int)) * tw
              + (c.tmod sw * ceilQuot (tw - f) (sw - 1) + (x : Int)))
      f.toNat f.toNat x.toNat y.toNat (by omega) (by omega)
    simp only [Function.comp_def, List.map_map]
    refine this.trans ?_
    simp only [Int.toNat_of_nonneg hy0, Int.toNat_of_nonneg hx0]
    exact congrArg some (hg x y hx0 hy0)

/-- **C12.** For a column `c ≥ 0` of a convolutional layer of a width `sw ≥ 2` over a
previous layer of the width `tw > 0` and the height `th`, with a filter not wider than `tw`,
with `s = calcStride(tw, filter, sw)`, `startX = (c mod sw) * s` and
`startY = (c div sw) * s`: `calcFilterColumnIds` stores at the index `y * filter + x`

* `OUT_OF_RANGE` if `startX + x ≥ tw` or `startY + y ≥ th`, and
* the column id `(startY + y) * tw + (startX + x)`, which is not `OUT_OF_RANGE`,
  otherwise. -/
theorem calcFilterColumnIds_window (nn : Network R) (srcLayer tgtLayer : Nat)
    (c count : Int)
    (hsw : 2 ≤ (nn.layerDefOf srcLayer).nodeMap.width)
    (hf : (nn.layerDefOf srcLayer).filter ≤ (nn.layerDefOf tgtLayer).nodeMap.width)
    (htw : 0 < (nn.layerDefOf tgtLayer).nodeMap.width) (hc : 0 ≤ c) :
    ∃ s v,
      calcStride (nn.layerDefOf tgtLayer).nodeMap.width (nn.layerDefOf srcLayer).filter
        (nn.layerDefOf srcLayer).nodeMap.width = Except.ok s ∧
      calcFilterColumnIds nn srcLayer c tgtLayer ⟨count, []⟩ = Except.ok v ∧
      ∀ x y, 0 ≤ x → x < (nn.layerDefOf srcLayer).filter → 0 ≤ y →
        y < (nn.layerDefOf srcLayer).filter →
        v.vals[(y * (nn.layerDefOf srcLayer).filter + x).toNat]?
          = some (if (nn.layerDefOf tgtLayer).nodeMap.width
                  ≤ c % (nn.layerDefOf srcLayer).nodeMap.width * s + x
                ∨ (nn.layerDefOf tgtLayer).nodeMap.height
                  ≤ c / (nn.layerDefOf srcLayer).nodeMap.width * s + y
              then OUT_OF_RANGE
              else (c / (nn.layerDefOf srcLayer).nodeMap.width * s + y)
                  * (nn.layerDefOf tgtLayer).nodeMap.width
                + (c % (nn.layerDefOf srcLayer).nodeMap.width * s + x)) ∧
        (v.vals[(y * (nn.layerDefOf srcLayer).filter + x).toNat]? = some OUT_OF_RANGE ↔
          ((nn.layerDefOf tgtLayer).nodeMap.width
              ≤ c % (nn.layerDefOf srcLayer).nodeMap.width * s + x
            ∨ (nn.layerDefOf tgtLayer).nodeMap.height
              ≤ c / (nn.layerDefOf srcLayer).nodeMap.width * s + y)) := by
  obtain ⟨vals, hvals, hs, -, hget⟩ := filterWindow_get
    (nn.layerDefOf srcLayer).nodeMap.width (nn.layerDefOf tgtLayer).nodeMap.width
    (nn.layerDefOf tgtLayer).nodeMap.height (nn.layerDefOf srcLayer).filter c hsw hf htw hc
  refine ⟨ceilQuot ((nn.layerDefOf tgtLayer).nodeMap.width - (nn.layerDefOf srcLayer).filter)
    ((nn.layerDefOf srcLayer).nodeMap.width - 1), ⟨count, vals⟩, ?_, ?_, ?_⟩
  · unfold calcStride
    rw [if_neg (by omega)]
    rfl
  · unfold calcFilterColumnIds
    simp only [hvals, bind, Except.bind, pure, Except.pure]
  · intro x y hx0 hx hy0 hy
    have h1 := hget x y hx0 hx hy0 hy
    refine ⟨h1, ?_⟩
    simp only at h1 ⊢
    rw [h1]
    have hX : 0 ≤ c % (nn.layerDefOf srcLayer).nodeMap.width
        * ceilQuot ((nn.layerDefOf tgtLayer).nodeMap.width - (nn.layerDefOf srcLayer).filter)
          ((nn.layerDefOf srcLayer).nodeMap.width - 1) :=
      mul_nonneg (Int.emod_nonneg _ (by omega)) hs
    have hY : 0 ≤ c / (nn.layerDefOf srcLayer).nodeMap.width
        * ceilQuot ((nn.layerDefOf tgtLayer).nodeMap.width - (nn.layerDefOf srcLayer).filter)
          ((nn.layerDefOf srcLayer).nodeMap.width - 1) :=
      mul_nonneg (Int.ediv_nonneg hc (by omega)) hs
    constructor
    · intro h
      by_contra hcon
      rw [if_neg hcon] at h
      injection h with h
      have := mul_nonneg (by omega : 0 ≤ c / (nn.layerDefOf srcLayer).nodeMap.width
        * ceilQuot ((nn.layerDefOf tgtLayer).nodeMap.width - (nn.layerDefOf srcLayer).filter)
          ((nn.layerDefOf srcLayer).nodeMap.width - 1) + y) htw.le
      unfold OUT_OF_RANGE at h
      omega
    · intro h
      rw [if_pos h]

/-- The stride is the exact quotient when the divisor divides. -/
theorem ceilQuot_of_dvd {a b : Int} (h : b ∣ a) : b * ceilQuot a b = a := by
  unfold ceilQuot
  obtain ⟨k, rfl⟩ := h
  by_cases hb : b = 0
  · subst hb; simp
  · have : (-(b * k)).fdiv b = -k := by
      rw [show -(b * k) = b * (-k) by ring]
      exact Int.mul_fdiv_cancel_left _ hb
    rw [this]
    ring

/-- **C13.** In a network that `initNetwork` has built, let the layer `l` be a
convolutional layer of a width `sw ≥ 2` and a height `sh` over a previous layer of the
width `tw` and the height `th`, with a filter `0 < f < tw` and the stride
`s = calcStride(tw, f, sw)`. If the last window does not pass the edge,
`(sw - 1) * s + f ≤ tw` and `(sh - 1) * s + f ≤ th`, or if the maps are square and
`sw - 1` divides `tw - f`, then `calcFilterColumnIds` stores no `OUT_OF_RANGE` for any
column of the layer, and every backward connection of every node of the layer has a target
node. -/
theorem convolutional_window_in_range (abi : Abi) (defs : List LayerDefinition)
    (nn0 nn : Network R) (layerCount : Int) (hdefs : nn0.layerDefs = defs)
    (hcount : nn0.layerCount = layerCount)
    (h : initNetwork abi nn0 layerCount defs = Except.ok nn)
    (l : Int) (d dp : LayerDefinition) (hl0 : 0 ≤ l) (hl : l < layerCount)
    (hd : defAt defs l = Except.ok d) (hdp : defAt defs (l - 1) = Except.ok dp)
    (htype : d.layerType = LayerType.CONVOLUTIONAL)
    (hsw : 2 ≤ d.nodeMap.width) (hf0 : 0 < d.filter) (hf : d.filter < dp.nodeMap.width)
    (hedge : ((d.nodeMap.width - 1) * ceilQuot (dp.nodeMap.width - d.filter)
          (d.nodeMap.width - 1) + d.filter ≤ dp.nodeMap.width ∧
        (d.nodeMap.height - 1) * ceilQuot (dp.nodeMap.width - d.filter)
          (d.nodeMap.width - 1) + d.filter ≤ dp.nodeMap.height) ∨
      (d.nodeMap.width = d.nodeMap.height ∧ dp.nodeMap.width = dp.nodeMap.height ∧
        (d.nodeMap.width - 1) ∣ (dp.nodeMap.width - d.filter))) :
    calcStride dp.nodeMap.width d.filter d.nodeMap.width
        = Except.ok (ceilQuot (dp.nodeMap.width - d.filter) (d.nodeMap.width - 1)) ∧
    (∀ c, 0 ≤ c → c < (nn.layers (getNetworkLayer nn l)).columnCount →
      ∃ v, calcFilterColumnIds nn (getNetworkLayer nn l) c (getNetworkLayer nn (l - 1))
          ⟨d.filter * d.filter, []⟩ = Except.ok v ∧
        OUT_OF_RANGE ∉ v.vals) ∧
    ∀ c n i, 0 ≤ c → c < (nn.layers (getNetworkLayer nn l)).columnCount → 0 ≤ n →
      n < (nn.columns (getNetworkLayer nn l) c).nodeCount → 0 ≤ i →
      i < (nn.nodes (getNetworkNode (getNetworkLayer nn l) c n)).backwardConnCount →
      ((nn.nodes (getNetworkNode (getNetworkLayer nn l) c n)).connections i).nodePtr
        ≠ none := by
  obtain ⟨⟨-, hnd, -⟩, hL, -, -⟩ := initNetwork_spec abi defs nn0 nn layerCount hdefs hcount h
  obtain ⟨-, hb⟩ := hL l hl0 hl
  have hl1 : 0 ≤ l - 1 := (defAt_ok_iff.1 hdp).1
  obtain ⟨-, hbp⟩ := hL (l - 1) hl1 (by omega)
  have hs : 0 ≤ ceilQuot (dp.nodeMap.width - d.filter) (d.nodeMap.width - 1) :=
    ceilQuot_nonneg (by omega) (by omega)
  -- the last window does not pass the edge
  have hlast : (d.nodeMap.width - 1) * ceilQuot (dp.nodeMap.width - d.filter)
        (d.nodeMap.width - 1) + d.filter ≤ dp.nodeMap.width ∧
      (d.nodeMap.height - 1) * ceilQuot (dp.nodeMap.width - d.filter)
        (d.nodeMap.width - 1) + d.filter ≤ dp.nodeMap.height := by
    rcases hedge with h1 | ⟨h1, h2, h3⟩
    · exact h1
    · have := ceilQuot_of_dvd h3
      rw [← h1, ← h2]
      omega
  -- no entry of a window is out of range
  have hwin : ∀ c, 0 ≤ c → c < getColumnCount d →
      ∃ vals, filterWindow d.nodeMap.width dp.nodeMap.width dp.nodeMap.height d.filter c []
          = Except.ok vals ∧ OUT_OF_RANGE ∉ vals := by
    intro c hc0 hc
    obtain ⟨vals, hvals, -, hmem, -⟩ := filterWindow_get d.nodeMap.width dp.nodeMap.width
      dp.nodeMap.height d.filter c hsw hf.le (by omega) hc0
    refine ⟨vals, hvals, ?_⟩
    intro hout
    obtain ⟨x, y, hx0, hx, hy0, hy, hcol⟩ := hmem _ hout
    have hX : c % d.nodeMap.width * ceilQuot (dp.nodeMap.width - d.filter)
        (d.nodeMap.width - 1)
        ≤ (d.nodeMap.width - 1) * ceilQuot (dp.nodeMap.width - d.filter)
          (d.nodeMap.width - 1) :=
      Int.mul_le_mul_of_nonneg_right
        (by have := Int.emod_lt_of_pos c (by omega : 0 < d.nodeMap.width); omega) hs
    have hdivlt : c / d.nodeMap.width < d.nodeMap.height := by
      apply Int.ediv_lt_of_lt_mul (by omega)
      unfold getColumnCount at hc
      rw [mul_comm]
      exact hc
    have hY : c / d.nodeMap.width * ceilQuot (dp.nodeMap.width - d.filter)
        (d.nodeMap.width - 1)
        ≤ (d.nodeMap.height - 1) * ceilQuot (dp.nodeMap.width - d.filter)
          (d.nodeMap.width - 1) :=
      Int.mul_le_mul_of_nonneg_right (by omega) hs
    have hX0 : 0 ≤ c % d.nodeMap.width * ceilQuot (dp.nodeMap.width - d.filter)
        (d.nodeMap.width - 1) := mul_nonneg (Int.emod_nonneg _ (by omega)) hs
    have hY0 : 0 ≤ c / d.nodeMap.width * ceilQuot (dp.nodeMap.width - d.filter)
        (d.nodeMap.width - 1) := mul_nonneg (Int.ediv_nonneg hc0 (by omega)) hs
    rw [if_neg (by omega)] at hcol
    have := mul_nonneg (by omega : 0 ≤ c / d.nodeMap.width
      * ceilQuot (dp.nodeMap.width - d.filter) (d.nodeMap.width - 1) + y)
      (by omega : 0 ≤ dp.nodeMap.width)
    unfold OUT_OF_RANGE at hcol
    omega
  simp only [getNetworkLayer, getNetworkNode]
  rw [hb.columnCount d hd]
  refine ⟨?_, ?_, ?_⟩
  · unfold calcStride
    rw [if_neg (by omega)]
    rfl
  · intro c hc0 hc
    obtain ⟨vals, hvals, hout⟩ := hwin c hc0 hc
    refine ⟨⟨d.filter * d.filter, vals⟩, ?_, hout⟩
    unfold calcFilterColumnIds
    simp only [layerDefOf_eq hnd hb.layerDef hd, layerDefOf_eq hnd hbp.layerDef hdp, hvals,
      bind, Except.bind, pure, Except.pure]
  · intro c n i hc0 hc hn0 hn hi0 hi
    rw [hb.nodeCount d c hd hc0 hc] at hn
    have hnb := hb.nodes d c n hd hc0 hc hn0 hn
    obtain ⟨vals, hvals, hconn⟩ := hnb.conv d dp hd hdp htype
    obtain ⟨vals', hvals', hout⟩ := hwin c hc0 hc
    rw [hvals] at hvals'
    injection hvals' with hvals'
    subst hvals'
    have hbc := (getNodeBackwardConnectionCount_conv hd hdp htype).symm.trans
      hnb.backwardConnCount
    injection hbc with hbc
    have hff : 0 < d.filter * d.filter := mul_pos hf0 hf0
    have hdecomp : i / (d.filter * d.filter) * (d.filter * d.filter)
        + i % (d.filter * d.filter) = i := Int.ediv_add_emod' i _
    have ht1 : i / (d.filter * d.filter) < dp.nodeMap.depth := by
      apply Int.ediv_lt_of_lt_mul hff
      rw [← hbc] at hi
      have : d.filter * d.filter * dp.nodeMap.depth
          = dp.nodeMap.depth * (d.filter * d.filter) := by ring
      omega
    obtain ⟨col, hcol, hc2⟩ := hconn (i / (d.filter * d.filter)) (i % (d.filter * d.filter))
      (Int.ediv_nonneg hi0 hff.le) ht1 (Int.emod_nonneg _ (ne_of_gt hff))
      (Int.emod_lt_of_pos _ hff)
    rw [hdecomp] at hc2
    rw [hc2]
    have hne : col ≠ OUT_OF_RANGE := by
      intro e
      apply hout
      rw [← e]
      exact List.getElem?_mem hcol
    rw [if_pos hne]
    simp

end Claims12

/-! ## The capacity test of the forward connections -/

section MemoryAtExit

variable {R : Type} [LinearOrderedField R]

theorem foldlM_mapError {σ α ε ε' : Type} (f : σ → α → Except ε σ) (g : ε → ε')
    (l : List α) (s : σ) :
    l.foldlM (fun s a => (f s a).mapError g) s = (l.foldlM f s).mapError g := by
  induction l generalizing s with
  | nil => rfl
  | cons a l ih =>
    rw [List.foldlM_cons, List.foldlM_cons]
    cases h : f s a with
    | error e => rfl
    | ok t =>
      simp only [Except.mapError, bind, Except.bind]
      exact ih t

/-- The run of `initNetworkForwardConnectionsAnyNode` is the run that keeps the memory,
with the memory at `exit(1)` forgotten. -/
theorem initNetworkForwardConnectionsAnyNode_memory (nn : Network R) (A : NodeRef)
    (NL : Nat) :
    initNetworkForwardConnectionsAnyNode nn A NL
      = (initNetworkForwardConnectionsAnyNodeMemory nn A NL).mapError
          (fun _ => Fault.exit1) := by
  unfold initNetworkForwardConnectionsAnyNode initNetworkForwardConnectionsAnyNodeMemory
  simp only
  have hc : ∀ (B : NodeRef),
      (fun (st : Network R × Int) (c : Int) =>
        if ((st.1.nodes B).connections c).nodePtr = some A then
          if st.2 + 1 > (nn.nodes A).forwardConnCount then
            (throw Fault.exit1 : Except Fault (Network R × Int))
          else pure (st.1.setNode A
            ((st.1.nodes A).setConnection ((nn.nodes A).backwardConnCount + st.2)
              ⟨some B, ((st.1.nodes B).connections c).weightPtr⟩), st.2 + 1)
        else pure st)
      = fun st c =>
        (if ((st.1.nodes B).connections c).nodePtr = some A then
          if st.2 + 1 > (nn.nodes A).forwardConnCount then
            (throw (st.1.setNode A
              ((st.1.nodes A).setConnection ((nn.nodes A).backwardConnCount + st.2)
                ⟨some B, ((st.1.nodes B).connections c).weightPtr⟩)) :
              Except (Network R) (Network R × Int))
          else pure (st.1.setNode A
            ((st.1.nodes A).setConnection ((nn.nodes A).backwardConnCount + st.2)
              ⟨some B, ((st.1.nodes B).connections c).weightPtr⟩), st.2 + 1)
        else pure st).mapError (fun _ => Fault.exit1) := by
    intro B
    funext st c
    split
    · split <;> rfl
    · rfl
  simp only [hc, foldlM_mapError]
  cases (forRange (nn.layers NL).columnCount).foldlM
    (fun (st : Network R × Int) o =>
      (forRange (st.1.columns NL 0).nodeCount).foldlM
        (fun (st : Network R × Int) n =>
          (forRange (st.1.nodes (getNetworkNode NL o n)).backwardConnCount).foldlM
            (fun (st : Network R × Int) c =>
              if ((st.1.nodes (getNetworkNode NL o n)).connections c).nodePtr = some A then
                if st.2 + 1 > (nn.nodes A).forwardConnCount then
                  (throw (st.1.setNode A
                    ((st.1.nodes A).setConnection ((nn.nodes A).backwardConnCount + st.2)
                      ⟨some (getNetworkNode NL o n),
                        ((st.1.nodes (getNetworkNode NL o n)).connections c).weightPtr⟩)) :
                    Except (Network R) (Network R × Int))
                else pure (st.1.setNode A
                  ((st.1.nodes A).setConnection ((nn.nodes A).backwardConnCount + st.2)
                    ⟨some (getNetworkNode NL o n),
                      ((st.1.nodes (getNetworkNode NL o n)).connections c).weightPtr⟩),
                  st.2 + 1)
              else pure st) st) st)
    (nn, 0) <;> rfl

/-- A loop that collects the segments `seg a` of a list as long as the list holds at most
`K` elements: it ends with the state `F` of the whole list, or stops with the fault `E` of
its first `K + 1` elements. -/
theorem foldlM_collect {σ α ε X : Type} (F : List X → σ) (E : List X → ε) (K : Int)
    (seg : α → List X) (f : σ → α → Except ε σ) (l : List α)
    (hstep : ∀ a ∈ l, ∀ M : List X, (M.length : Int) ≤ K →
      f (F M) a = if ((M ++ seg a).length : Int) ≤ K then Except.ok (F (M ++ seg a))
        else Except.error (E ((M ++ seg a).take (K + 1).toNat)))
    (M : List X) (hM : (M.length : Int) ≤ K) :
    l.foldlM f (F M)
      = if ((M ++ l.flatMap seg).length : Int) ≤ K then Except.ok (F (M ++ l.flatMap seg))
        else Except.error (E ((M ++ l.flatMap seg).take (K + 1).toNat)) := by
  induction l generalizing M with
  | nil =>
    simp only [List.flatMap_nil, List.append_nil, List.foldlM_nil]
    rw [if_pos hM]
    rfl
  | cons a l ih =>
    rw [List.foldlM_cons, hstep a (List.mem_cons_self _ _) M hM, List.flatMap_cons,
      ← List.append_assoc]
    by_cases hlen : ((M ++ seg a).length : Int) ≤ K
    · rw [if_pos hlen]
      exact ih (fun b hb => hstep b (List.mem_cons_of_mem _ hb)) _ hlen
    · rw [if_neg hlen, if_neg (by
        rw [List.length_append]
        push_cast
        omega)]
      have hk : ((M ++ seg a) ++ l.flatMap seg).take (K + 1).toNat
          = (M ++ seg a).take (K + 1).toNat :=
        List.take_append_of_le_length (by omega)
      rw [hk]
      rfl

/-- The innermost loop of `initNetworkForwardConnectionsAnyNodeMemory`, over the
connections of a node `B` other than `A`. -/
theorem scanMemory_conns (s : Network R) (A B : NodeRef) (hAB : B ≠ A) (maxF : Int)
    (lc : List Int) (M : List (NodeRef × Int)) (hM : (M.length : Int) ≤ maxF) :
    lc.foldlM
      (fun (st : Network R × Int) c =>
        if ((st.1.nodes B).connections c).nodePtr = some A then
          if st.2 + 1 > maxF then
            (throw (st.1.setNode A
              ((st.1.nodes A).setConnection ((s.nodes A).backwardConnCount + st.2)
                ⟨some B, ((st.1.nodes B).connections c).weightPtr⟩)) :
              Except (Network R) (Network R × Int))
          else pure (st.1.setNode A
            ((st.1.nodes A).setConnection ((s.nodes A).backwardConnCount + st.2)
              ⟨some B, ((st.1.nodes B).connections c).weightPtr⟩), st.2 + 1)
        else pure st)
      (forwardScanState s A M)
      = if ((M ++ linksOfNodeIn s A B lc).length : Int) ≤ maxF then
          Except.ok (forwardScanState s A (M ++ linksOfNodeIn s A B lc))
        else Except.error
          (forwardScanState s A ((M ++ linksOfNodeIn s A B lc).take (maxF + 1).toNat)).1 := by
  have hflat : lc.flatMap
      (fun c => if ((s.nodes B).connections c).nodePtr = some A then [(B, c)] else [])
      = linksOfNodeIn s A B lc := by
    unfold linksOfNodeIn
    induction lc with
    | nil => rfl
    | cons c lc ih =>
      rw [List.flatMap_cons, ih]
      by_cases hm : ((s.nodes B).connections c).nodePtr = some A
      · simp [hm]
      · simp [hm]
  rw [← hflat]
  apply foldlM_collect (forwardScanState s A) (fun L => (forwardScanState s A L).1) maxF
  · intro c _ M hM
    have hB : (forwardScanState s A M).1.nodes B = s.nodes B := by
      simp only [forwardScanState]
      exact setNode_nodes_ne _ _ hAB
    simp only [hB]
    have hwrite : (forwardScanState s A M).1.setNode A
        (((forwardScanState s A M).1.nodes A).setConnection
          ((s.nodes A).backwardConnCount + (forwardScanState s A M).2)
          ⟨some B, ((s.nodes B).connections c).weightPtr⟩)
        = (forwardScanState s A (M ++ [(B, c)])).1 := by
      simp only [forwardScanState, setNode_nodes_same, setNode_setNode, List.map_append,
        List.map_cons, List.map_nil]
      congr 1
      have := withForward_snoc (s.nodes A) (M.map (forwardOf s)) (forwardOf s (B, c))
      rw [List.length_map] at this
      exact this
    by_cases hm : ((s.nodes B).connections c).nodePtr = some A
    · rw [if_pos hm, if_pos hm, hwrite]
      have h2 : (forwardScanState s A M).2 = (M.length : Int) := rfl
      rw [h2]
      by_cases hmax : (M.length : Int) + 1 > maxF
      · rw [if_pos hmax, if_neg (by rw [List.length_append]; simp; omega)]
        have : (maxF + 1).toNat = (M ++ [(B, c)]).length := by
          rw [List.length_append]; simp; omega
        rw [this, List.take_length]
        rfl
      · rw [if_neg hmax, if_pos (by rw [List.length_append]; simp; omega)]
        simp only [pure, Except.pure, forwardScanState, List.length_append, List.length_cons,
          List.length_nil]
        congr 2
    · rw [if_neg hm, if_neg hm, List.append_nil, if_pos hM]
      rfl
  · exact hM

/-- The loops of `initNetworkForwardConnectionsAnyNodeMemory` over the columns and the
nodes of a layer other than the layer of `A`. -/
theorem scanMemory_columns (s : Network R) (A : NodeRef) (NL : Nat) (hA : A.layer ≠ NL)
    (maxF : Int) (lo : List Int) (M : List (NodeRef × Int)) (hM : (M.length : Int) ≤ maxF) :
    lo.foldlM
      (fun (st : Network R × Int) o =>
        (forRange (st.1.columns NL 0).nodeCount).foldlM
          (fun (st : Network R × Int) n =>
            (forRange (st.1.nodes (getNetworkNode NL o n)).backwardConnCount).foldlM
              (fun (st : Network R × Int) c =>
                if ((st.1.nodes (getNetworkNode NL o n)).connections c).nodePtr = some A then
                  if st.2 + 1 > maxF then
                    (throw (st.1.setNode A
                      ((st.1.nodes A).setConnection ((s.nodes A).backwardConnCount + st.2)
                        ⟨some (getNetworkNode NL o n),
                          ((st.1.nodes (getNetworkNode NL o n)).connections c).weightPtr⟩)) :
                      Except (Network R) (Network R × Int))
                  else pure (st.1.setNode A
                    ((st.1.nodes A).setConnection ((s.nodes A).backwardConnCount + st.2)
                      ⟨some (getNetworkNode NL o n),
                        ((st.1.nodes (getNetworkNode NL o n)).connections c).weightPtr⟩),
                    st.2 + 1)
                else pure st) st) st)
      (forwardScanState s A M)
      = if ((M ++ lo.flatMap (fun o => (forRange (s.columns NL 0).nodeCount).flatMap
            (fun n => linksOfNode s A (getNetworkNode NL o n)))).length : Int) ≤ maxF then
          Except.ok (forwardScanState s A
            (M ++ lo.flatMap (fun o => (forRange (s.columns NL 0).nodeCount).flatMap
              (fun n => linksOfNode s A (getNetworkNode NL o n)))))
        else Except.error
          (forwardScanState s A ((M ++ lo.flatMap (fun o =>
            (forRange (s.columns NL 0).nodeCount).flatMap
              (fun n => linksOfNode s A (getNetworkNode NL o n)))).take (maxF + 1).toNat)).1 := by
  apply foldlM_collect (forwardScanState s A) (fun L => (forwardScanState s A L).1) maxF
  · intro o _ M hM
    have hcol : (forwardScanState s A M).1.columns = s.columns := rfl
    rw [hcol]
    apply foldlM_collect (forwardScanState s A) (fun L => (forwardScanState s A L).1) maxF
    · intro n _ M hM
      have hne : getNetworkNode NL o n ≠ A := by
        intro e; apply hA; rw [← e]; rfl
      have hB : (forwardScanState s A M).1.nodes (getNetworkNode NL o n)
          = s.nodes (getNetworkNode NL o n) := by
        simp only [forwardScanState]
        exact setNode_nodes_ne _ _ hne
      rw [hB]
      exact scanMemory_conns s A (getNetworkNode NL o n) hne maxF _ M hM
    · exact hM
  · exact hM

/-- What a run of `initNetworkForwardConnectionsAnyNode` on a node `A` with a maximum
`forwardConnCount ≥ 0` does, for a next layer other than the layer of `A`. When the backward
connections of the next layer that lead to `A` are not more than the maximum the run
returns, with one forward connection for each of them. When they are more, the run stops
with `exit(1)`, and the memory it leaves behind holds a forward connection for each of the
first `maximum + 1` of them. -/
theorem initNetworkForwardConnectionsAnyNodeMemory_eq (s : Network R) (A : NodeRef)
    (NL : Nat) (hA : A.layer ≠ NL) (hmax : 0 ≤ (s.nodes A).forwardConnCount) :
    initNetworkForwardConnectionsAnyNodeMemory s A NL
      = if ((backwardLinksTo s A NL).length : Int) ≤ (s.nodes A).forwardConnCount then
          Except.ok (s.setNode A
            { (s.nodes A).withForward ((backwardLinksTo s A NL).map (forwardOf s)) with
              forwardConnCount := ((backwardLinksTo s A NL).length : Int) })
        else Except.error (s.setNode A ((s.nodes A).withForward
          (((backwardLinksTo s A NL).take ((s.nodes A).forwardConnCount + 1).toNat).map
            (forwardOf s)))) := by
  unfold initNetworkForwardConnectionsAnyNodeMemory
  simp only
  have h0 : ((s, 0) : Network R × Int) = forwardScanState s A [] := by
    simp [forwardScanState, withForward_nil, setNode_self]
  rw [h0, scanMemory_columns s A NL hA _ _ [] (by simpa using hmax)]
  simp only [List.nil_append]
  unfold backwardLinksTo
  split
  · simp only [bind, Except.bind, pure, Except.pure, forwardScanState, setNode_nodes_same,
      setNode_setNode]
  · rfl

theorem initNetworkForwardConnectionsAnyNode_run (s : Network R) (A : NodeRef)
    (NL : Nat) (hA : A.layer ≠ NL) (hmax : 0 ≤ (s.nodes A).forwardConnCount) :
    initNetworkForwardConnectionsAnyNode s A NL
      = if ((backwardLinksTo s A NL).length : Int) ≤ (s.nodes A).forwardConnCount then
          Except.ok (s.setNode A
            { (s.nodes A).withForward ((backwardLinksTo s A NL).map (forwardOf s)) with
              forwardConnCount := ((backwardLinksTo s A NL).length : Int) })
        else Except.error Fault.exit1 := by
  rw [initNetworkForwardConnectionsAnyNode_memory,
    initNetworkForwardConnectionsAnyNodeMemory_eq s A NL hA hmax]
  split <;> rfl

end MemoryAtExit

section Claims15

variable {R : Type} [LinearOrderedField R]

/-- **C15.** A run in which `initNetworkForwardConnectionsAnyNode` writes behind the
connections of a node before it stops. In the network of `abortDefs` after the first loop
of `initNetwork` the node at column 0 of the layer 1 has two backward connections, the
maximum 0 of forward connections and a size with room for two connections. Two backward
connections of the layer 2 lead to it. The run stops with `exit(1)`, and in the memory it
leaves behind the slot `backwardConnCount + 0` of the node, which was empty, holds a
connection to the node at column 0 of the layer 2. -/
theorem forwardConnection_written_before_exit :
    (abortPhase1.nodes ⟨1, 0, 0⟩).forwardConnCount = 0 ∧
    (abortPhase1.nodes ⟨1, 0, 0⟩).backwardConnCount = 2 ∧
    (abortPhase1.nodes ⟨1, 0, 0⟩).size = lp64.sizeofNode + 2 * lp64.sizeofConnection ∧
    (backwardLinksTo abortPhase1 ⟨1, 0, 0⟩ 2).length = 2 ∧
    initNetworkForwardConnectionsAnyNode abortPhase1 ⟨1, 0, 0⟩ 2
      = Except.error Fault.exit1 ∧
    (initNetwork lp64 abortNet0 3 abortDefs).isOk = false ∧
    ∃ s, initNetworkForwardConnectionsAnyNodeMemory abortPhase1 ⟨1, 0, 0⟩ 2
        = Except.error s ∧
      (s.nodes ⟨1, 0, 0⟩).connections ((abortPhase1.nodes ⟨1, 0, 0⟩).backwardConnCount + 0)
        = ⟨some ⟨2, 0, 0⟩, WeightRef.block 4⟩ ∧
      (abortPhase1.nodes ⟨1, 0, 0⟩).connections
          ((abortPhase1.nodes ⟨1, 0, 0⟩).backwardConnCount + 0)
        = ⟨none, WeightRef.nullWeight⟩ := by
  have hm := initNetworkForwardConnectionsAnyNodeMemory_eq abortPhase1 ⟨1, 0, 0⟩ 2
    (by decide) (by decide!)
  have hr := initNetworkForwardConnectionsAnyNode_run abortPhase1 ⟨1, 0, 0⟩ 2
    (by decide) (by decide!)
  rw [if_neg (by decide!)] at hm hr
  exact ⟨by decide!, by decide!, by decide!, by decide!, hr, by decide!, _, hm, by decide!,
    by decide!⟩

/-- The counterexample to C16. In the network that the constructor builds from `poolDefs`
the node in the corner of the layer 1 has the size of a node with `2 + 4` connections,
for 2 backward connections and the maximum of 4 forward connections, but its
`forwardConnCount` is 1: the second loop of `initNetwork` has replaced the maximum by the
number of the forward connections that it found. -/
theorem nodeSize_counterexample :
    createNetworkStructure lp64 zeroMemory 4 poolDefs = Except.ok poolNet ∧
    getNodeForwardConnectionCount poolDefs 1 = Except.ok 4 ∧
    (poolNet.nodes (getNetworkNode 1 0 0)).backwardConnCount = 2 ∧
    (poolNet.nodes (getNetworkNode 1 0 0)).forwardConnCount = 1 ∧
    (poolNet.nodes (getNetworkNode 1 0 0)).size
      = lp64.sizeofNode + (2 + 4) * lp64.sizeofConnection ∧
    (poolNet.nodes (getNetworkNode 1 0 0)).size
      ≠ lp64.sizeofNode
        + ((poolNet.nodes (getNetworkNode 1 0 0)).backwardConnCount
          + (poolNet.nodes (getNetworkNode 1 0 0)).forwardConnCount) * lp64.sizeofConnection :=
  ⟨builtOr_eq (by decide!), rfl, by decide!, by decide!, by decide!, by decide!⟩

end Claims15

section Claims16

variable {R : Type} [LinearOrderedField R]

/-- One call of `initNetworkForwardConnectionsAnyNode` that returns does not raise the
`forwardConnCount` of a node above its value `≥ 0` in the state `p`. -/
theorem forwardNode_count (p u u' : Network R) (A : NodeRef) (NL : Nat) (hA : A.layer ≠ NL)
    (hJ : ∀ r, 0 ≤ (p.nodes r).forwardConnCount →
      0 ≤ (u.nodes r).forwardConnCount ∧
        (u.nodes r).forwardConnCount ≤ (p.nodes r).forwardConnCount)
    (h : initNetworkForwardConnectionsAnyNode u A NL = Except.ok u') :
    ∀ r, 0 ≤ (p.nodes r).forwardConnCount →
      0 ≤ (u'.nodes r).forwardConnCount ∧
        (u'.nodes r).forwardConnCount ≤ (p.nodes r).forwardConnCount := by
  have heq := initNetworkForwardConnectionsAnyNode_eq u u' A NL hA h
  intro r hr
  by_cases hrA : r = A
  · subst hrA
    obtain ⟨h0, h1⟩ := hJ r hr
    rw [initNetworkForwardConnectionsAnyNode_run u r NL hA h0] at h
    by_cases hcond : ((backwardLinksTo u r NL).length : Int) ≤ (u.nodes r).forwardConnCount
    · rw [heq, setNode_nodes_same]
      simp only
      omega
    · rw [if_neg hcond] at h
      cases h
  · rw [heq, setNode_nodes_ne _ _ hrA]
    exact hJ r hr

/-- The second loop of `initNetwork`, when it does not stop, leaves every
`forwardConnCount ≥ 0` between 0 and its value after the first loop. -/
theorem forwardPhase_count (p nn : Network R) (layerCount : Int)
    (h : (forRange layerCount).foldlM (fun s l => initNetworkForwardConnections s l) p
      = Except.ok nn) :
    ∀ r, 0 ≤ (p.nodes r).forwardConnCount →
      0 ≤ (nn.nodes r).forwardConnCount ∧
        (nn.nodes r).forwardConnCount ≤ (p.nodes r).forwardConnCount := by
  refine foldlM_inv _
    (fun t => ∀ r, 0 ≤ (p.nodes r).forwardConnCount →
      0 ≤ (t.nodes r).forwardConnCount ∧
        (t.nodes r).forwardConnCount ≤ (p.nodes r).forwardConnCount)
    (forRange layerCount) p nn (fun r hr => ⟨hr, le_refl _⟩) ?_ h
  intro l t t' hl hJ hstep
  have hl0 := (mem_forRange.1 hl).1
  unfold initNetworkForwardConnections at hstep
  by_cases hskip : l = 0 ∨ l = t.layerCount - 1
  · rw [if_pos hskip] at hstep
    simp only [pure, Except.pure, Except.ok.injEq] at hstep
    rw [← hstep]
    exact hJ
  · rw [if_neg hskip] at hstep
    simp only [getNetworkLayer] at hstep
    refine foldlM_inv _
      (fun t => ∀ r, 0 ≤ (p.nodes r).forwardConnCount →
        0 ≤ (t.nodes r).forwardConnCount ∧
          (t.nodes r).forwardConnCount ≤ (p.nodes r).forwardConnCount)
      _ t t' hJ ?_ hstep
    intro c u u' _ hJu hcol
    refine foldlM_inv _
      (fun t => ∀ r, 0 ≤ (p.nodes r).forwardConnCount →
        0 ≤ (t.nodes r).forwardConnCount ∧
          (t.nodes r).forwardConnCount ≤ (p.nodes r).forwardConnCount)
      _ u u' hJu ?_ hcol
    intro n v v' _ hJv hnode
    exact forwardNode_count p v v' _ _ (by simp only [getNetworkNode]; omega) hJv hnode

/-- The amended C16. In a network that `initNetwork` has built from an array of
`layerCount` layer definitions with positive dimensions, for every node of every layer: `size` is
`sizeof(Node) + (backwardConnCount + maximum) * sizeof(Connection)` where the maximum is
the value of `getNodeForwardConnectionCount` for the layer; `size` and `backwardConnCount`
are those that the first loop of `initNetwork` has stored, when it also stored the maximum
in `forwardConnCount`; and `forwardConnCount` is at least 0 and at most the maximum. -/
theorem nodeSize_invariant (abi : Abi) (defs : List LayerDefinition)
    (nn0 p nn : Network R) (layerCount : Int) (hdefs : nn0.layerDefs = defs)
    (hcount : nn0.layerCount = layerCount) (hlen : (defs.length : Int) = layerCount)
    (h1 : (forRange layerCount).foldlM (fun s l => initNetworkLayer abi s l defs) nn0
      = Except.ok p)
    (h2 : (forRange layerCount).foldlM (fun s l => initNetworkForwardConnections s l) p
      = Except.ok nn)
    (hpos : PositiveDims defs layerCount)
    (l c n : Int) (hl0 : 0 ≤ l) (hl : l < layerCount)
    (hA : nn.IsNode (getNetworkLayer nn l) c n) :
    initNetwork abi nn0 layerCount defs = Except.ok nn ∧
    ∃ maxForward, getNodeForwardConnectionCount defs l = Except.ok maxForward ∧
      (nn.nodes (getNetworkNode (getNetworkLayer nn l) c n)).size
        = abi.sizeofNode
          + ((nn.nodes (getNetworkNode (getNetworkLayer nn l) c n)).backwardConnCount
            + maxForward) * abi.sizeofConnection ∧
      (nn.nodes (getNetworkNode (getNetworkLayer nn l) c n)).size
        = (p.nodes (getNetworkNode (getNetworkLayer nn l) c n)).size ∧
      (nn.nodes (getNetworkNode (getNetworkLayer nn l) c n)).backwardConnCount
        = (p.nodes (getNetworkNode (getNetworkLayer nn l) c n)).backwardConnCount ∧
      (p.nodes (getNetworkNode (getNetworkLayer nn l) c n)).forwardConnCount = maxForward ∧
      0 ≤ (nn.nodes (getNetworkNode (getNetworkLayer nn l) c n)).forwardConnCount ∧
      (nn.nodes (getNetworkNode (getNetworkLayer nn l) c n)).forwardConnCount
        ≤ maxForward := by
  have hinit : initNetwork abi nn0 layerCount defs = Except.ok nn := by
    unfold initNetwork
    exact bind_eq_ok.2 ⟨p, h1, h2⟩
  refine ⟨hinit, ?_⟩
  obtain ⟨hT, hB⟩ := backwardPhase_spec abi defs nn0 p layerCount hdefs h1
  obtain ⟨hS, -, -⟩ := forwardPhase_spec p nn layerCount (hT.layerCount.trans hcount) h2
  obtain ⟨⟨d, hd⟩, hb, hf⟩ := hB l hl0 hl
  simp only [getNetworkLayer, getNetworkNode] at hA ⊢
  have hA' : 0 ≤ c ∧ c < getColumnCount d ∧ 0 ≤ n ∧ n < d.nodeMap.depth := by
    apply (hb.isNode_iff hd c n).1
    unfold Network.IsNode at hA ⊢
    rw [← hS.layers, ← hS.columns]
    exact hA
  have hnb := hb.nodes d c n hd hA'.1 hA'.2.1 hA'.2.2.1 hA'.2.2.2
  have hfc := hf d c n hd hA'.1 hA'.2.1 hA'.2.2.1 hA'.2.2.2
  have hsize := hnb.size
  unfold getNodeSize at hsize
  obtain ⟨b, hb1, hsize⟩ := bind_eq_ok.1 hsize
  obtain ⟨F, hF, hsize⟩ := bind_eq_ok.1 hsize
  simp only [pure, Except.pure, Except.ok.injEq] at hsize
  have hbb := hb1.symm.trans hnb.backwardConnCount
  injection hbb with hbb
  have hFF := hF.symm.trans hfc
  injection hFF with hFF
  -- the maximum is not negative
  have hF0 : 0 ≤ F := by
    unfold getNodeForwardConnectionCount at hF
    simp only [hd, bind, Except.bind] at hF
    by_cases hty : d.layerType = LayerType.INPUT ∨ d.layerType = LayerType.OUTPUT
    · rw [if_pos hty] at hF
      simp only [pure, Except.pure, Except.ok.injEq] at hF
      omega
    · rw [if_neg hty] at hF
      cases hnx : defAt defs (l + 1) with
      | error e => simp [hnx] at hF
      | ok dn =>
        have hl1 : l + 1 < layerCount := by
          obtain ⟨-, hget⟩ := defAt_ok_iff.1 hnx
          have hlt := (List.getElem?_eq_some_iff.1 hget).1
          omega
        have hdn := hpos.at hl1 hnx
        simp only [hnx] at hF
        cases htn : dn.layerType <;>
          simp [htn, pure, Except.pure, throw, throwThe, MonadExceptOf.throw] at hF
        · rw [← hF]
          have := pow_two_nonneg dn.filter
          exact mul_nonneg this hdn.2.2.le
        · rw [← hF]
          unfold getLayerNodeCount getLayerColumnCount
          exact (mul_pos (mul_pos hdn.1 hdn.2.1) hdn.2.2).le
        · rw [← hF]
          unfold getLayerNodeCount getLayerColumnCount
          exact (mul_pos (mul_pos hdn.1 hdn.2.1) hdn.2.2).le
  have hcnt := forwardPhase_count p nn layerCount h2 ⟨l.toNat, c, n⟩ (by rw [← hFF]; exact hF0)
  refine ⟨F, hF, ?_, hS.nodeSize _, hS.backwardConnCount _, hFF.symm, hcnt.1, ?_⟩
  · rw [hS.nodeSize, hS.backwardConnCount, ← hsize, hbb]
  · rw [hFF]; exact hcnt.2

end Claims16

/-! ## Instances of the statements about the construction -/

theorem fcPhase1_built :
    (forRange 3).foldlM (fun s l => initNetworkLayer lp64 s l fcDefs) fcNet0
      = Except.ok fcPhase1 :=
  builtOr_eq (by decide!)

/-- The second loop of `initNetwork` starts in the state that the first loop returns. -/
theorem initNetwork_phases {R : Type} [LinearOrderedField R] (abi : Abi)
    (defs : List LayerDefinition) (nn0 p nn : Network R) (layerCount : Int)
    (h : initNetwork abi nn0 layerCount defs = Except.ok nn)
    (h1 : (forRange layerCount).foldlM (fun s l => initNetworkLayer abi s l defs) nn0
      = Except.ok p) :
    (forRange layerCount).foldlM (fun s l => initNetworkForwardConnections s l) p
      = Except.ok nn := by
  unfold initNetwork at h
  obtain ⟨p', h1', h2⟩ := bind_eq_ok.1 h
  have e := h1.symm.trans h1'
  injection e with e
  rw [e]
  exact h2

theorem fcNet_forward :
    (forRange 3).foldlM (fun s l => initNetworkForwardConnections s l) fcPhase1
      = Except.ok fcNet :=
  initNetwork_phases lp64 fcDefs fcNet0 fcPhase1 fcNet 3 fcNet_built fcPhase1_built

/-- C11 at the node at column 0 of the convolutional layer of the network `convNet`. -/
theorem convolutional_backward_connections_witness :
    ∃ v, calcFilterColumnIds convNet (getNetworkLayer convNet 1) 0
        (getNetworkLayer convNet (1 - 1)) ⟨convHidden.filter * convHidden.filter, []⟩
        = Except.ok v ∧
      ∀ t p, 0 ≤ t → t < convInput.nodeMap.depth → 0 ≤ p →
        p < convHidden.filter * convHidden.filter →
        ∃ col, v.vals[p.toNat]? = some col ∧
          (convNet.nodes (getNetworkNode (getNetworkLayer convNet 1) 0 0)).connections
              (t * (convHidden.filter * convHidden.filter) + p)
            = if col ≠ OUT_OF_RANGE then
                ⟨some (getNetworkNode (getNetworkLayer convNet (1 - 1)) col t),
                  WeightRef.block ((convNet.layers (getNetworkLayer convNet 1)).weightsPtr
                    + (0 * (convInput.nodeMap.depth * (convHidden.filter * convHidden.filter))
                      + t * (convHidden.filter * convHidden.filter) + p))⟩
              else ⟨none, WeightRef.nullWeight⟩ :=
  convolutional_backward_connections lp64 convDefs convNet0 convNet 3 rfl rfl convNet_built
    1 0 0 convHidden convInput (by decide) (by decide) rfl rfl rfl (by decide) (by decide!)
    (by decide) (by decide!)

/-- C12 at the last column of the first row of the 13 × 13 layer of `windowNet`:
the stride is 2 and the window starts at the column 24 of the 28 columns. -/
theorem calcFilterColumnIds_window_witness :
    ∃ s v,
      calcStride (windowNet.layerDefOf 0).nodeMap.width (windowNet.layerDefOf 1).filter
        (windowNet.layerDefOf 1).nodeMap.width = Except.ok s ∧
      calcFilterColumnIds windowNet 1 12 0 ⟨25, []⟩ = Except.ok v ∧
      ∀ x y, 0 ≤ x → x < (windowNet.layerDefOf 1).filter → 0 ≤ y →
        y < (windowNet.layerDefOf 1).filter →
        v.vals[(y * (windowNet.layerDefOf 1).filter + x).toNat]?
          = some (if (windowNet.layerDefOf 0).nodeMap.width
                  ≤ 12 % (windowNet.layerDefOf 1).nodeMap.width * s + x
                ∨ (windowNet.layerDefOf 0).nodeMap.height
                  ≤ 12 / (windowNet.layerDefOf 1).nodeMap.width * s + y
              then OUT_OF_RANGE
              else (12 / (windowNet.layerDefOf 1).nodeMap.width * s + y)
                  * (windowNet.layerDefOf 0).nodeMap.width
                + (12 % (windowNet.layerDefOf 1).nodeMap.width * s + x)) ∧
        (v.vals[(y * (windowNet.layerDefOf 1).filter + x).toNat]? = some OUT_OF_RANGE ↔
          ((windowNet.layerDefOf 0).nodeMap.width
              ≤ 12 % (windowNet.layerDefOf 1).nodeMap.width * s + x
            ∨ (windowNet.layerDefOf 0).nodeMap.height
              ≤ 12 / (windowNet.layerDefOf 1).nodeMap.width * s + y)) :=
  calcFilterColumnIds_window windowNet 1 0 12 25 (by decide) (by decide) (by decide)
    (by decide)

/-- C13 at the last column of the convolutional layer of the network `convNet`: 3 × 3
nodes, 2 × 2 columns, filter 2, stride 1. -/
theorem convolutional_window_in_range_witness :
    ∃ v, calcFilterColumnIds convNet (getNetworkLayer convNet 1) 3
        (getNetworkLayer convNet (1 - 1)) ⟨convHidden.filter * convHidden.filter, []⟩
        = Except.ok v ∧
      OUT_OF_RANGE ∉ v.vals :=
  (convolutional_window_in_range lp64 convDefs convNet0 convNet 3 rfl rfl convNet_built
    1 convHidden convInput (by decide) (by decide) rfl rfl rfl (by decide) (by decide)
    (by decide) (Or.inl (by decide))).2.1 3 (by decide) (by decide!)

/-- The amended C16 at the node at column 0 of the hidden layer of the network `fcNet`. -/
theorem nodeSize_invariant_witness :
    ∃ maxForward, getNodeForwardConnectionCount fcDefs 1 = Except.ok maxForward ∧
      (fcNet.nodes (getNetworkNode (getNetworkLayer fcNet 1) 0 0)).size
        = lp64.sizeofNode
          + ((fcNet.nodes (getNetworkNode (getNetworkLayer fcNet 1) 0 0)).backwardConnCount
            + maxForward) * lp64.sizeofConnection ∧
      (fcNet.nodes (getNetworkNode (getNetworkLayer fcNet 1) 0 0)).size
        = (fcPhase1.nodes (getNetworkNode (getNetworkLayer fcNet 1) 0 0)).size ∧
      (fcNet.nodes (getNetworkNode (getNetworkLayer fcNet 1) 0 0)).backwardConnCount
        = (fcPhase1.nodes (getNetworkNode (getNetworkLayer fcNet 1) 0 0)).backwardConnCount ∧
      (fcPhase1.nodes (getNetworkNode (getNetworkLayer fcNet 1) 0 0)).forwardConnCount
        = maxForward ∧
      0 ≤ (fcNet.nodes (getNetworkNode (getNetworkLayer fcNet 1) 0 0)).forwardConnCount ∧
      (fcNet.nodes (getNetworkNode (getNetworkLayer fcNet 1) 0 0)).forwardConnCount
        ≤ maxForward :=
  (nodeSize_invariant lp64 fcDefs fcNet0 fcPhase1 fcNet 3 rfl rfl (by decide) fcPhase1_built
    fcNet_forward (by decide) 1 0 0 (by decide) (by decide)
    ⟨by decide, by decide!, by decide, by decide!⟩).2

/-- C17 at the network `fcNet` and a vector of two values. -/
theorem feedInput_fails_iff_witness :
    ∃ nn', feedInput fcNet (⟨2, [1, 0]⟩ : Vector ℚ) = Except.ok nn' :=
  (feedInput_fails_iff lp64 fcDefs fcNet0 fcNet 3 rfl rfl fcNet_built
    ⟨.INPUT, .SIGMOID, ⟨2, 1, 1⟩, 0⟩ (by decide) rfl rfl ⟨2, [1, 0]⟩ (by decide)).2.1
    (by decide)

/-- C20 at the layer definitions `fcDefs`: 8 weights of 8 bytes. -/
theorem weightCount_crosscheck_witness :
    (64 : Int) = weightRangeStart fcDefs 3 * lp64.sizeofWeight ∧
      (64 : Int) / lp64.sizeofWeight = weightRangeStart fcDefs 3 ∧
      (64 : Int) % lp64.sizeofWeight = 0 ∧
      ∀ (nn : Network ℚ) (netSize : Int),
        ∃ nn', setNetworkDefaults lp64 nn 3 fcDefs netSize = Except.ok nn' ∧
          nn'.weightCount = weightRangeStart fcDefs 3 :=
  (weightCount_crosscheck lp64 fcDefs 3 64 (by decide) rfl).2.2.1 (by decide) (by decide)

/-! ## Repeated forward passes -/

section Idempotent

variable {R : Type} [LinearOrderedField R]

/-- Two states of a network that differ at most in outputs and have the same outputs are
the same state. -/
theorem eq_of_sameUpToOutputs {a b : Network R} (h : SameUpToOutputs a b)
    (ho : ∀ r, (b.nodes r).output = (a.nodes r).output) : b = a := by
  have hnodes : b.nodes = a.nodes := by
    funext r
    have h1 := h.wiring.nodeSize r
    have h2 := h.bias r
    have h3 := ho r
    have h4 := h.errorSum r
    have h5 := h.wiring.backwardConnCount r
    have h6 := h.wiring.forwardConnCount r
    have h7 := h.wiring.connections r
    cases hb : b.nodes r
    cases ha : a.nodes r
    rw [hb, ha] at h1 h2 h3 h4 h5 h6 h7
    simp only at h1 h2 h3 h4 h5 h6 h7
    simp only [Node.mk.injEq]
    exact ⟨h1, h2, h3, h4, h5, h6, h7⟩
  have h1 := h.wiring.size
  have h2 := h.wiring.learningRate
  have h3 := h.wiring.weightCount
  have h4 := h.wiring.weightsPtr
  have h5 := h.nullWeight
  have h6 := h.wiring.layerCount
  have h7 := h.wiring.layerDefs
  have h8 := h.wiring.layers
  have h9 := h.wiring.columns
  have h10 := h.weights
  cases a
  cases b
  simp only at h1 h2 h3 h4 h5 h6 h7 h8 h9 h10 hnodes
  simp only [Network.mk.injEq]
  exact ⟨h1, h2, h3, h4, h5, h6, h7, h8, h9, hnodes, h10⟩

/-- One layer of the forward pass changes no node outside the nodes of the layer that the
loops visit. -/
theorem calcNetworkLayer_frame (m : Libm R) (s : Network R) (L : Nat)
    (hw : ∀ c n i t, 0 ≤ c → c < (s.layers L).columnCount → 0 ≤ n →
      n < (s.columns L 0).nodeCount → 0 ≤ i →
      i < (s.nodes (getNetworkNode L c n)).backwardConnCount →
      ((s.nodes (getNetworkNode L c n)).connections i).nodePtr = some t → t.layer ≠ L)
    (r : NodeRef)
    (hr : ∀ c n, 0 ≤ c → c < (s.layers L).columnCount → 0 ≤ n →
      n < (s.columns L 0).nodeCount → r ≠ getNetworkNode L c n) :
    (calcNetworkLayer m s L).nodes r = s.nodes r := by
  unfold calcNetworkLayer
  refine (foldl_inv _ (fun t => SameUpToOutputs s t ∧ t.nodes r = s.nodes r)
    (forRange (s.layers L).columnCount) s ⟨SameUpToOutputs.refl_outputs s, rfl⟩ ?_).2
  intro c t hcm hQ
  have hc' := mem_forRange.1 hcm
  have hcols : (t.columns L 0).nodeCount = (s.columns L 0).nodeCount := by
    rw [hQ.1.wiring.columns]
  refine foldl_inv _ (fun t => SameUpToOutputs s t ∧ t.nodes r = s.nodes r) _ t hQ ?_
  intro n u hnm hu
  have hn' := mem_forRange.1 hnm
  rw [hcols] at hn'
  simp only
  rw [calcNetworkLayer_node]
  · refine ⟨hu.1.trans_outputs (SameUpToOutputs.setOutput _ _ _), ?_⟩
    rw [setNode_nodes_ne _ _ (hr c n hc'.1 hc'.2 hn'.1 hn'.2)]
    exact hu.2
  · intro i hi0 hi hc2
    rw [hu.1.wiring.backwardConnCount] at hi
    rw [hu.1.wiring.connections] at hc2
    exact hw c n i _ hc'.1 hc'.2 hn'.1 hn'.2 hi0 hi hc2 rfl

/-- The forward pass in a network in which the backward connections of the nodes of every
layer after the first one lead to nodes of lower layers: only outputs change, and the output
of every node of such a layer is the activation of its weighted input in the state after the
pass. -/
theorem feedForwardNetwork_spec (m : Libm R) (nn : Network R)
    (hwired : ∀ (l' : Nat) (c' n' i : Int) (t : NodeRef), 0 < l' → (l' : Int) < nn.layerCount →
      0 ≤ c' → c' < (nn.layers l').columnCount → 0 ≤ n' → n' < (nn.columns l' 0).nodeCount →
      0 ≤ i → i < (nn.nodes (getNetworkNode l' c' n')).backwardConnCount →
      ((nn.nodes (getNetworkNode l' c' n')).connections i).nodePtr = some t → t.layer < l') :
    SameUpToOutputs nn (feedForwardNetwork m nn) ∧
      ∀ a ∈ forwardLayerIds nn.layerCount, ∀ c n, 0 ≤ c →
        c < (nn.layers a.toNat).columnCount → 0 ≤ n → n < (nn.columns a.toNat 0).nodeCount →
        ((feedForwardNetwork m nn).nodes (getNetworkNode a.toNat c n)).output
          = activationValue m (nn.layerDefOf a.toNat).activationType
              (weightedInput (feedForwardNetwork m nn) (getNetworkNode a.toNat c n)) := by
  have key := foldl_prefix_inv
    (fun s l => calcNetworkLayer m s (getNetworkLayer s l))
    (fun pre t => SameUpToOutputs nn t ∧ ∀ a ∈ pre, ∀ c n, 0 ≤ c →
      c < (nn.layers a.toNat).columnCount → 0 ≤ n → n < (nn.columns a.toNat 0).nodeCount →
      (t.nodes (getNetworkNode a.toNat c n)).output
        = activationValue m (nn.layerDefOf a.toNat).activationType
            (weightedInput t (getNetworkNode a.toNat c n)))
    (forwardLayerIds nn.layerCount) nn
    ⟨SameUpToOutputs.refl_outputs nn, fun a ha => by simp at ha⟩
    (by
      intro pre a post t hsplit hI
      obtain ⟨hS, hP⟩ := hI
      have ha : a ∈ forwardLayerIds nn.layerCount := by rw [hsplit]; simp
      have ha' := mem_forwardLayerIds.1 ha
      have hlt := forwardLayerIds_split hsplit
      have hanat : ((a.toNat : Nat) : Int) = a := by omega
      have hapos : 0 < a.toNat := by omega
      -- the targets of the nodes of a layer `b` lie below `b`, in `nn` and in `t`
      have htgt : ∀ (u : Network R), SameUpToOutputs nn u → ∀ (b : Nat) (c n i : Int)
          (x : NodeRef), 0 < b → (b : Int) < nn.layerCount → 0 ≤ c →
          c < (u.layers b).columnCount → 0 ≤ n → n < (u.columns b 0).nodeCount → 0 ≤ i →
          i < (u.nodes (getNetworkNode b c n)).backwardConnCount →
          ((u.nodes (getNetworkNode b c n)).connections i).nodePtr = some x →
          x.layer < b := by
        intro u hu b c n i x hb0 hb hc0 hc hn0 hn hi0 hi hx
        rw [hu.wiring.layers] at hc
        rw [hu.wiring.columns] at hn
        rw [hu.wiring.backwardConnCount] at hi
        rw [hu.wiring.connections] at hx
        exact hwired b c n i x hb0 hb hc0 hc hn0 hn hi0 hi hx
      obtain ⟨h1, h2, h3⟩ := calcNetworkLayer_spec m t a.toNat
        (by
          intro c n i x hc0 hc hn0 hn hi0 hi hx
          have := htgt t hS a.toNat c n i x hapos (by omega) hc0 hc hn0 hn hi0 hi hx
          omega)
      have hS' : SameUpToOutputs nn (calcNetworkLayer m t a.toNat) := hS.trans_outputs h1
      -- the weighted input of a node at or below layer `a` is not changed by the step
      have hwi : ∀ (b : Nat) (c n : Int), 0 < b → b ≤ a.toNat → 0 ≤ c →
          c < (nn.layers b).columnCount → 0 ≤ n → n < (nn.columns b 0).nodeCount →
          weightedInput (calcNetworkLayer m t a.toNat) (getNetworkNode b c n)
            = weightedInput t (getNetworkNode b c n) := by
        intro b c n hb0 hb hc0 hc hn0 hn
        apply weightedInput_congr
        · exact h1.bias _
        · exact h1.wiring.backwardConnCount _
        · exact h1.wiring.connections _
        · exact h1.readWeight
        · intro i x hi0 hi hx
          apply h2
          have := htgt t hS b c n i x hb0 (by omega) hc0
            (by rw [hS.wiring.layers]; exact hc) hn0
            (by rw [hS.wiring.columns]; exact hn) hi0 hi hx
          omega
      refine ⟨hS', ?_⟩
      intro b hb c n hc0 hc hn0 hn
      rcases List.mem_append.1 hb with hb1 | hb1
      · have hba := hlt b hb1
        have hbm : b ∈ forwardLayerIds nn.layerCount := by rw [hsplit]; simp [hb1]
        have hb' := mem_forwardLayerIds.1 hbm
        simp only [getNetworkLayer]
        rw [h2 _ (by simp only [getNetworkNode]; omega), hP b hb1 c n hc0 hc hn0 hn,
          hwi b.toNat c n (by omega) (by omega) hc0 hc hn0 hn]
      · simp at hb1
        subst hb1
        simp only [getNetworkLayer]
        rw [h3 c n hc0 (by rw [hS.wiring.layers]; exact hc) hn0
          (by rw [hS.wiring.columns]; exact hn),
          hwi b.toNat c n hapos (le_refl _) hc0 hc hn0 hn, hS.wiring.layerDefOf])
  exact key

/-- **C18.** In a network in which the backward connections of the nodes of every layer
after the first one lead to nodes of lower layers, as in every network that the constructor
has built, whatever its weights, biases and outputs are, `feedForwardNetwork` run twice
leaves the same state as `feedForwardNetwork` run once. -/
theorem feedForwardNetwork_idempotent (m : Libm R) (nn : Network R)
    (hwired : ∀ (l' : Nat) (c' n' i : Int) (t : NodeRef), 0 < l' → (l' : Int) < nn.layerCount →
      0 ≤ c' → c' < (nn.layers l').columnCount → 0 ≤ n' → n' < (nn.columns l' 0).nodeCount →
      0 ≤ i → i < (nn.nodes (getNetworkNode l' c' n')).backwardConnCount →
      ((nn.nodes (getNetworkNode l' c' n')).connections i).nodePtr = some t → t.layer < l') :
    feedForwardNetwork m (feedForwardNetwork m nn) = feedForwardNetwork m nn := by
  obtain ⟨hS, hfix⟩ := feedForwardNetwork_spec m nn hwired
  have hlayer : ∀ a ∈ forwardLayerIds (feedForwardNetwork m nn).layerCount,
      calcNetworkLayer m (feedForwardNetwork m nn) a.toNat = feedForwardNetwork m nn := by
    intro a ha
    rw [hS.wiring.layerCount] at ha
    have ha' := mem_forwardLayerIds.1 ha
    have hw : ∀ c n i t, 0 ≤ c →
        c < ((feedForwardNetwork m nn).layers a.toNat).columnCount → 0 ≤ n →
        n < ((feedForwardNetwork m nn).columns a.toNat 0).nodeCount → 0 ≤ i →
        i < ((feedForwardNetwork m nn).nodes (getNetworkNode a.toNat c n)).backwardConnCount →
        (((feedForwardNetwork m nn).nodes (getNetworkNode a.toNat c n)).connections i).nodePtr
          = some t → t.layer ≠ a.toNat := by
      intro c n i t hc0 hc hn0 hn hi0 hi ht
      rw [hS.wiring.layers] at hc
      rw [hS.wiring.columns] at hn
      rw [hS.wiring.backwardConnCount] at hi
      rw [hS.wiring.connections] at ht
      have := hwired a.toNat c n i t (by omega) (by omega) hc0 hc hn0 hn hi0 hi ht
      omega
    obtain ⟨h1, h2, h3⟩ := calcNetworkLayer_spec m (feedForwardNetwork m nn) a.toNat hw
    apply eq_of_sameUpToOutputs h1
    intro r
    by_cases hrl : r.layer ≠ a.toNat
    · exact h2 r hrl
    · have hrl' : r.layer = a.toNat := not_not.1 hrl
      by_cases hin : 0 ≤ r.column
          ∧ r.column < ((feedForwardNetwork m nn).layers a.toNat).columnCount
          ∧ 0 ≤ r.node ∧ r.node < ((feedForwardNetwork m nn).columns a.toNat 0).nodeCount
      · have hr : r = getNetworkNode a.toNat r.column r.node := by
          cases r
          simp only [getNetworkNode] at hrl' ⊢
          rw [hrl']
        rw [hr, h3 r.column r.node hin.1 hin.2.1 hin.2.2.1 hin.2.2.2, hS.wiring.layerDefOf]
        rw [hS.wiring.layers] at hin
        rw [hS.wiring.columns] at hin
        exact (hfix a ha r.column r.node hin.1 hin.2.1 hin.2.2.1 hin.2.2.2).symm
      · rw [calcNetworkLayer_frame m _ a.toNat hw r]
        intro c n hc0 hc hn0 hn hr
        apply hin
        rw [hr]
        exact ⟨hc0, hc, hn0, hn⟩
  show (forwardLayerIds (feedForwardNetwork m nn).layerCount).foldl
    (fun s l => calcNetworkLayer m s (getNetworkLayer s l)) (feedForwardNetwork m nn)
    = feedForwardNetwork m nn
  refine foldl_inv _ (fun t => t = feedForwardNetwork m nn) _ _ rfl ?_
  intro a t ha ht
  rw [ht]
  exact hlayer a ha

end Idempotent

/-! ## One step of training -/

section Training

variable {R : Type} [LinearOrderedField R]

/-- The bias after the body of the loops of `backPropagateOutputLayer`: the bias of the
node grows by `learningRate * errorSum`, and no other node changes. -/
theorem backPropagateOutputNode_bias (m : Libm R) (s : Network R) (ol : Nat)
    (label o n : Int) :
    ((backPropagateOutputNode m s ol label o n).nodes (getNetworkNode ol o n)).bias
      = (s.nodes (getNetworkNode ol o n)).bias
        + s.learningRate
          * (((if o = label then (1 : R) else 0) - (s.nodes (getNetworkNode ol o n)).output)
            * getDerivative m (s.nodes (getNetworkNode ol o n)).output
                (s.layerDefOf ol).activationType) ∧
    ∀ r, r ≠ getNetworkNode ol o n →
      (backPropagateOutputNode m s ol label o n).nodes r = s.nodes r := by
  constructor
  · unfold backPropagateOutputNode
    simp only
    obtain ⟨-, -, -, -, h5, -⟩ := updateNodeWeights_fields
      (s.setNode (getNetworkNode ol o n)
        { s.nodes (getNetworkNode ol o n) with
          errorSum := (((if o = label then 1 else 0 : Int) : R)
            - (s.nodes (getNetworkNode ol o n)).output)
            * getDerivative m (s.nodes (getNetworkNode ol o n)).output
                (s.layerDefOf ol).activationType })
      (getNetworkNode ol o n)
      (s.setNode (getNetworkNode ol o n)
        { s.nodes (getNetworkNode ol o n) with
          errorSum := (((if o = label then 1 else 0 : Int) : R)
            - (s.nodes (getNetworkNode ol o n)).output)
            * getDerivative m (s.nodes (getNetworkNode ol o n)).output
                (s.layerDefOf ol).activationType }).learningRate
    rw [h5, setNode_nodes_same]
    simp only [setNode_learningRate]
    congr 3
    split <;> simp
  · intro r hne
    unfold backPropagateOutputNode
    simp only
    rw [updateNodeWeights_nodes_ne _ _ _ _ hne, setNode_nodes_ne _ _ hne]

/-- The output of a node with the activation `SIGMOID` lies between 0 and 1 when the
exponential function is positive. -/
theorem sigmoid_bounds (m : Libm R) (hexp : ∀ x, 0 < m.exp x) (x : R) :
    0 < activationValue m ActFctType.SIGMOID x ∧ activationValue m ActFctType.SIGMOID x < 1 := by
  unfold activationValue
  simp only
  have h := hexp (-x)
  have hpos : 0 < 1 + m.exp (-x) := by linarith
  constructor
  · exact div_pos one_pos hpos
  · rw [div_lt_one hpos]
    linarith

/-- What `feedInput` does for a vector with as many values as the input layer has columns:
it returns, and changes outputs only. -/
theorem feedInput_spec (nn : Network R) (v : Vector R)
    (hcount : v.count = (nn.layers 0).columnCount) (hv : v.count ≤ (v.vals.length : Int)) :
    ∃ nn', feedInput nn v = Except.ok nn' ∧ SameUpToOutputs nn nn' := by
  unfold feedInput
  simp only
  rw [if_neg (by simp [hcount])]
  refine foldlM_ok_of_inv _ (forRange v.count) (fun t => SameUpToOutputs nn t) nn
    (SameUpToOutputs.refl_outputs nn) ?_
  intro a t ha hQ
  have ha' := mem_forRange.1 ha
  have hlt : a.toNat < v.vals.length := by omega
  dsimp only
  rw [List.getElem?_eq_getElem hlt]
  exact ⟨_, rfl, hQ.trans_outputs (SameUpToOutputs.setOutput _ _ _)⟩

end Training

section Training2

variable {R : Type} [LinearOrderedField R]

/-- The conditions on the wiring that the passes need are conditions on the structure
only. -/
theorem wired_congr {a b : Network R} (h : SameWiring a b) :
    ((∀ (l' : Nat) (c' n' i : Int) (t : NodeRef), 0 < l' → (l' : Int) < a.layerCount →
        0 ≤ c' → c' < (a.layers l').columnCount → 0 ≤ n' → n' < (a.columns l' 0).nodeCount →
        0 ≤ i → i < (a.nodes (getNetworkNode l' c' n')).backwardConnCount →
        ((a.nodes (getNetworkNode l' c' n')).connections i).nodePtr = some t → t.layer < l') →
      (∀ (l' : Nat) (c' n' i : Int) (t : NodeRef), 0 < l' → (l' : Int) < b.layerCount →
        0 ≤ c' → c' < (b.layers l').columnCount → 0 ≤ n' → n' < (b.columns l' 0).nodeCount →
        0 ≤ i → i < (b.nodes (getNetworkNode l' c' n')).backwardConnCount →
        ((b.nodes (getNetworkNode l' c' n')).connections i).nodePtr = some t →
        t.layer < l')) ∧
    ((∀ (l' : Nat) (c' n' j : Int), 0 < l' → (l' : Int) < a.layerCount - 1 →
        a.IsNode l' c' n' → 0 ≤ j →
        j < (a.nodes (getNetworkNode l' c' n')).forwardConnCount →
        ∃ t, ((a.nodes (getNetworkNode l' c' n')).connections
          ((a.nodes (getNetworkNode l' c' n')).backwardConnCount + j)).nodePtr = some t ∧
          l' < t.layer) →
      (∀ (l' : Nat) (c' n' j : Int), 0 < l' → (l' : Int) < b.layerCount - 1 →
        b.IsNode l' c' n' → 0 ≤ j →
        j < (b.nodes (getNetworkNode l' c' n')).forwardConnCount →
        ∃ t, ((b.nodes (getNetworkNode l' c' n')).connections
          ((b.nodes (getNetworkNode l' c' n')).backwardConnCount + j)).nodePtr = some t ∧
          l' < t.layer)) ∧
    ((∀ (l1 l2 : Nat) (c1 n1 i c2 n2 j : Int), 0 < l1 → l1 ≤ l2 →
        (l2 : Int) < a.layerCount - 1 → a.IsNode l1 c1 n1 → 0 ≤ i →
        i < (a.nodes (getNetworkNode l1 c1 n1)).backwardConnCount →
        ((a.nodes (getNetworkNode l1 c1 n1)).connections i).nodePtr ≠ none →
        a.IsNode l2 c2 n2 → 0 ≤ j →
        j < (a.nodes (getNetworkNode l2 c2 n2)).forwardConnCount →
        ((a.nodes (getNetworkNode l1 c1 n1)).connections i).weightPtr
          ≠ ((a.nodes (getNetworkNode l2 c2 n2)).connections
              ((a.nodes (getNetworkNode l2 c2 n2)).backwardConnCount + j)).weightPtr) →
      (∀ (l1 l2 : Nat) (c1 n1 i c2 n2 j : Int), 0 < l1 → l1 ≤ l2 →
        (l2 : Int) < b.layerCount - 1 → b.IsNode l1 c1 n1 → 0 ≤ i →
        i < (b.nodes (getNetworkNode l1 c1 n1)).backwardConnCount →
        ((b.nodes (getNetworkNode l1 c1 n1)).connections i).nodePtr ≠ none →
        b.IsNode l2 c2 n2 → 0 ≤ j →
        j < (b.nodes (getNetworkNode l2 c2 n2)).forwardConnCount →
        ((b.nodes (getNetworkNode l1 c1 n1)).connections i).weightPtr
          ≠ ((b.nodes (getNetworkNode l2 c2 n2)).connections
              ((b.nodes (getNetworkNode l2 c2 n2)).backwardConnCount + j)).weightPtr)) := by
  have hnode : ∀ l c n, b.IsNode l c n ↔ a.IsNode l c n := by
    intro l c n
    unfold Network.IsNode
    rw [h.layers, h.columns]
  refine ⟨?_, ?_, ?_⟩
  · intro ha
    simp only [h.layerCount, h.layers, h.columns, h.backwardConnCount, h.connections]
    exact ha
  · intro ha
    simp only [h.layerCount, hnode, h.backwardConnCount, h.forwardConnCount, h.connections]
    exact ha
  · intro ha
    simp only [h.layerCount, hnode, h.backwardConnCount, h.forwardConnCount, h.connections]
    exact ha

end Training2

section Training3

variable {R : Type} [LinearOrderedField R]

/-- **C19.** For the network of the three layers `fcDefs` (input 2 × 1, fully connected with
2 nodes and sigmoid, output with 2 nodes and sigmoid) in any state `nn` with the wiring of
the constructed network, that is with arbitrary weights and biases, and with a positive
learning rate, over an ordered field with a positive exponential function: `feedInput` of
`[1, 0]` returns, after `feedForwardNetwork` both outputs of the output layer lie strictly
between 0 and 1, the following `backPropagateNetwork` with label 0 returns, and it leaves
the bias of the output node 0 strictly greater and the bias of the output node 1 strictly
smaller than before. -/
theorem training_step_moves_output_biases (m : Libm R) (hexp : ∀ x, 0 < m.exp x)
    (abi : Abi) (nn0 nnB nn : Network R) (hdefs : nn0.layerDefs = fcDefs)
    (hcount : nn0.layerCount = 3) (h : initNetwork abi nn0 3 fcDefs = Except.ok nnB)
    (hsw : 0 < abi.sizeofWeight) (hstate : SameWiring nnB nn) (hlr : 0 < nn.learningRate) :
    ∃ nn1 nn3, feedInput nn ⟨2, [1, 0]⟩ = Except.ok nn1 ∧
      (0 < ((feedForwardNetwork m nn1).nodes (getNetworkNode 2 0 0)).output ∧
        ((feedForwardNetwork m nn1).nodes (getNetworkNode 2 0 0)).output < 1) ∧
      (0 < ((feedForwardNetwork m nn1).nodes (getNetworkNode 2 1 0)).output ∧
        ((feedForwardNetwork m nn1).nodes (getNetworkNode 2 1 0)).output < 1) ∧
      backPropagateNetwork m (feedForwardNetwork m nn1) 0 = Except.ok nn3 ∧
      ((feedForwardNetwork m nn1).nodes (getNetworkNode 2 0 0)).bias
        < (nn3.nodes (getNetworkNode 2 0 0)).bias ∧
      (nn3.nodes (getNetworkNode 2 1 0)).bias
        < ((feedForwardNetwork m nn1).nodes (getNetworkNode 2 1 0)).bias := by
  obtain ⟨⟨hlc, hld, -⟩, hL, -, -⟩ := initNetwork_spec abi fcDefs nn0 nnB 3 hdefs hcount h
  have hW := initNetwork_wired abi fcDefs nn0 nnB 3 hdefs hcount h hsw (by decide)
  have hb0 := (hL 0 (by norm_num) (by norm_num)).2
  have hb1 := (hL 1 (by norm_num) (by norm_num)).2
  have hb2 := (hL 2 (by norm_num) (by norm_num)).2
  -- the shape of the constructed network
  have hcc0 : (nnB.layers 0).columnCount = 2 := hb0.columnCount _ rfl
  have hcc2 : (nnB.layers 2).columnCount = 2 := hb2.columnCount _ rfl
  have hnc2 : (nnB.columns 2 0).nodeCount = 1 :=
    hb2.nodeCount _ 0 rfl (le_refl _) (by decide)
  have hdef2 : nnB.layerDefOf 2 = ⟨.OUTPUT, .SIGMOID, ⟨2, 1, 1⟩, 0⟩ :=
    layerDefOf_eq hld hb2.layerDef rfl
  -- feedInput
  obtain ⟨nn1, hfeed, hS1⟩ := feedInput_spec nn ⟨2, [1, 0]⟩
    (by rw [hstate.layers, hcc0]) (by simp)
  have hw1 : SameWiring nnB nn1 := hstate.trans hS1.wiring
  -- feedForwardNetwork
  obtain ⟨hS2, hfix⟩ := feedForwardNetwork_spec m nn1 ((wired_congr hw1).1 hW.1)
  have hw2 : SameWiring nnB (feedForwardNetwork m nn1) := hw1.trans hS2.wiring
  have hout : ∀ o, 0 ≤ o → o < 2 →
      0 < ((feedForwardNetwork m nn1).nodes (getNetworkNode 2 o 0)).output ∧
      ((feedForwardNetwork m nn1).nodes (getNetworkNode 2 o 0)).output < 1 := by
    intro o ho0 ho
    have hk1 : o < (nn1.layers 2).columnCount := by rw [hw1.layers, hcc2]; exact ho
    have hk2 : (0 : Int) < (nn1.columns 2 0).nodeCount := by
      rw [hw1.columns, hnc2]; norm_num
    have h2 := hfix 2
      (mem_forwardLayerIds.2 ⟨by norm_num, by rw [hw1.layerCount, hlc]; norm_num⟩)
      o 0 ho0 hk1 (le_refl _) hk2
    have hd : nn1.layerDefOf (2 : Int).toNat = ⟨.OUTPUT, .SIGMOID, ⟨2, 1, 1⟩, 0⟩ :=
      (hw1.layerDefOf 2).trans hdef2
    rw [hd] at h2
    have h3 : ((feedForwardNetwork m nn1).nodes (getNetworkNode 2 o 0)).output
        = activationValue m ActFctType.SIGMOID
            (weightedInput (feedForwardNetwork m nn1) (getNetworkNode 2 o 0)) := h2
    rw [h3]
    exact sigmoid_bounds m hexp _
  -- the pass over the output layer
  generalize hnn2 : feedForwardNetwork m nn1 = nn2 at hw2 hout
  have hlc2 : nn2.layerCount = 3 := hw2.layerCount.trans hlc
  have hdef : nn2.layerDefOf 2 = ⟨.OUTPUT, .SIGMOID, ⟨2, 1, 1⟩, 0⟩ :=
    (hw2.layerDefOf 2).trans hdef2
  have hlr2 : 0 < nn2.learningRate := by
    rw [hw2.learningRate, ← hstate.learningRate]
    exact hlr
  have hs0 : backPropagateOutputLayer m nn2 0
      = backPropagateOutputNode m (backPropagateOutputNode m nn2 2 0 0 0) 2 0 1 0 := by
    unfold backPropagateOutputLayer
    simp only [getNetworkLayer, hlc2]
    have e1 : ((3 : Int) - 1).toNat = 2 := rfl
    rw [e1, hw2.layers, hcc2]
    have e2 : forRange 2 = [0, 1] := rfl
    rw [e2]
    simp only [List.foldl_cons, List.foldl_nil]
    have hc1 : (nn2.columns 2 0).nodeCount = 1 := by rw [hw2.columns, hnc2]
    have hc2 : ((backPropagateOutputNode m nn2 2 0 0 0).columns 2 0).nodeCount = 1 := by
      rw [(backPropagateOutputNode_fields m nn2 2 0 0 0).1.columns, hc1]
    have e3 : forRange 1 = [0] := rfl
    rw [hc1, e3]
    simp only [List.foldl_cons, List.foldl_nil]
    rw [hc2, e3]
    simp only [List.foldl_cons, List.foldl_nil]
  generalize hu1 : backPropagateOutputNode m nn2 2 0 0 0 = u1 at hs0
  obtain ⟨hb00, hb0o⟩ := backPropagateOutputNode_bias m nn2 2 0 0 0
  obtain ⟨hfw, hfo, -, -⟩ := backPropagateOutputNode_fields m nn2 2 0 0 0
  rw [hu1] at hb00 hb0o hfw hfo
  obtain ⟨hb11, hb1o⟩ := backPropagateOutputNode_bias m u1 2 0 1 0
  have hne01 : getNetworkNode 2 0 0 ≠ getNetworkNode 2 1 0 := by
    simp [getNetworkNode]
  have hne10 : getNetworkNode 2 1 0 ≠ getNetworkNode 2 0 0 := by
    simp [getNetworkNode]
  -- the pass over the hidden layer
  have hw0 : SameWiring nnB (backPropagateOutputLayer m nn2 0) :=
    hw2.trans (backPropagateOutputLayer_frame m nn2 0).1
  obtain ⟨-, hF, hWt⟩ := wired_congr hw0
  have hF0 := hF hW.2.1
  have hWt0 := hWt hW.2.2
  have hlc0 : (backPropagateOutputLayer m nn2 0).layerCount = 3 := hw0.layerCount.trans hlc
  obtain ⟨nn3, hbp, hinv, -⟩ := backPropagateLayer_spec m (backPropagateOutputLayer m nn2 0) 1
    (by
      intro c n j hA hj0 hj
      obtain ⟨t, ht, hlt⟩ := hF0 1 c n j (by norm_num) (by rw [hlc0]; norm_num) hA hj0 hj
      exact ⟨t, ht, by omega⟩)
    (by
      intro c n j c' n' i hA hj0 hj hA' hi0 hi hnone
      exact hWt0 1 1 c' n' i c n j (by norm_num) (le_refl _) (by rw [hlc0]; norm_num)
        hA' hi0 hi hnone hA hj0 hj)
  have hbpn : backPropagateNetwork m nn2 0 = Except.ok nn3 := by
    unfold backPropagateNetwork
    rw [hlc2]
    have e4 : backwardLayerIds 3 = [1] := rfl
    rw [e4]
    simp only [List.foldlM_cons, List.foldlM_nil]
    have hbp2 : backPropagateLayer m (backPropagateOutputLayer m nn2 0) 1 = Except.ok nn3 :=
      hbp
    rw [hbp2]
    rfl
  have hn0 : nn3.nodes (getNetworkNode 2 0 0)
      = (backPropagateOutputLayer m nn2 0).nodes (getNetworkNode 2 0 0) :=
    hinv.others _ (by simp [getNetworkNode])
  have hn1 : nn3.nodes (getNetworkNode 2 1 0)
      = (backPropagateOutputLayer m nn2 0).nodes (getNetworkNode 2 1 0) :=
    hinv.others _ (by simp [getNetworkNode])
  obtain ⟨ha0, ha1⟩ := hout 0 (le_refl _) (by norm_num)
  obtain ⟨hc0, hc1⟩ := hout 1 (by norm_num) (by norm_num)
  suffices hmain : (nn2.nodes (getNetworkNode 2 0 0)).bias
        < (nn3.nodes (getNetworkNode 2 0 0)).bias ∧
      (nn3.nodes (getNetworkNode 2 1 0)).bias < (nn2.nodes (getNetworkNode 2 1 0)).bias by
    subst hnn2
    exact ⟨nn1, nn3, hfeed, ⟨ha0, ha1⟩, ⟨hc0, hc1⟩, hbpn, hmain.1, hmain.2⟩
  refine ⟨?_, ?_⟩
  · rw [hn0, hs0, hb1o _ hne01, hb00, hdef]
    simp only [getDerivative, if_true]
    have : 0 < nn2.learningRate * ((1 - (nn2.nodes (getNetworkNode 2 0 0)).output)
        * ((nn2.nodes (getNetworkNode 2 0 0)).output
          * (1 - (nn2.nodes (getNetworkNode 2 0 0)).output))) :=
      mul_pos hlr2 (mul_pos (by linarith) (mul_pos ha0 (by linarith)))
    linarith
  · rw [hn1, hs0, hb11, hb0o _ hne10, hfw.learningRate, hfw.layerDefOf, hdef]
    simp only [getDerivative]
    rw [if_neg (by norm_num)]
    have : 0 < nn2.learningRate * ((nn2.nodes (getNetworkNode 2 1 0)).output
        * ((nn2.nodes (getNetworkNode 2 1 0)).output
          * (1 - (nn2.nodes (getNetworkNode 2 1 0)).output))) :=
      mul_pos hlr2 (mul_pos hc0 (mul_pos hc0 (by linarith)))
    linarith

end Training3

theorem trainNet_built : initNetwork lp64 trainNet0 3 fcDefs = Except.ok trainNet :=
  builtOr_eq (by decide!)

theorem trainNet_learningRate : trainNet.learningRate = 1 := by decide!

/-- C18 at the network `fcNet`. -/
theorem feedForwardNetwork_idempotent_witness :
    feedForwardNetwork libmQ (feedForwardNetwork libmQ fcNet) = feedForwardNetwork libmQ fcNet :=
  feedForwardNetwork_idempotent libmQ fcNet
    (initNetwork_wired lp64 fcDefs fcNet0 fcNet 3 rfl rfl fcNet_built (by decide)
      (by decide)).1

/-- C19 at the network `trainNet`, with the learning rate 1. -/
theorem training_step_moves_output_biases_witness :
    ∃ nn1 nn3, feedInput trainNet ⟨2, [1, 0]⟩ = Except.ok nn1 ∧
      (0 < ((feedForwardNetwork libmPositive nn1).nodes (getNetworkNode 2 0 0)).output ∧
        ((feedForwardNetwork libmPositive nn1).nodes (getNetworkNode 2 0 0)).output < 1) ∧
      (0 < ((feedForwardNetwork libmPositive nn1).nodes (getNetworkNode 2 1 0)).output ∧
        ((feedForwardNetwork libmPositive nn1).nodes (getNetworkNode 2 1 0)).output < 1) ∧
      backPropagateNetwork libmPositive (feedForwardNetwork libmPositive nn1) 0
        = Except.ok nn3 ∧
      ((feedForwardNetwork libmPositive nn1).nodes (getNetworkNode 2 0 0)).bias
        < (nn3.nodes (getNetworkNode 2 0 0)).bias ∧
      (nn3.nodes (getNetworkNode 2 1 0)).bias
        < ((feedForwardNetwork libmPositive nn1).nodes (getNetworkNode 2 1 0)).bias :=
  training_step_moves_output_biases libmPositive (fun _ => one_pos) lp64 trainNet0 trainNet
    trainNet rfl rfl trainNet_built (by decide) (SameWiring.refl trainNet)
    (trainNet_learningRate.symm ▸ one_pos)

/-! ## The capacity for forward connections -/

section Capacity

variable {R : Type} [LinearOrderedField R]

theorem ceilQuot_pos {a b : Int} (ha : 0 < a) (hb : 0 < b) : 0 < ceilQuot a b := by
  unfold ceilQuot
  have h1 : Int.fdiv (-a) b = (-a) / b := Int.fdiv_eq_ediv _ hb.le
  rw [h1]
  have h2 : (-a) / b < 0 := Int.ediv_neg' (by omega) hb
  omega

/-- A list without duplicates that a function maps one-to-one into a finite set is not
longer than the set is large. -/
theorem length_le_card_of_injOn {α β : Type} [DecidableEq β] (l : List α) (hl : l.Nodup)
    (g : α → β) (S : Finset β) (hmem : ∀ x ∈ l, g x ∈ S)
    (hinj : ∀ x ∈ l, ∀ y ∈ l, g x = g y → x = y) : l.length ≤ S.card := by
  have h1 : (l.map g).Nodup := List.Nodup.map_on hinj hl
  have h2 : (l.map g).toFinset.card = l.length := by
    rw [List.toFinset_card_of_nodup h1, List.length_map]
  rw [← h2]
  apply Finset.card_le_card
  intro y hy
  obtain ⟨x, hx, rfl⟩ := List.mem_map.1 (List.mem_toFinset.1 hy)
  exact hmem x hx

/-- The number of the pairs `(a, b)` with `0 ≤ a < m` and `0 ≤ b < k`. -/
theorem card_box {m k : Int} (hm : 0 ≤ m) (hk : 0 ≤ k) :
    (((Finset.Ico (0 : Int) m) ×ˢ (Finset.Ico (0 : Int) k)).card : Int) = m * k := by
  rw [Finset.card_product, Int.card_Ico, Int.card_Ico]
  push_cast
  rw [sub_zero, sub_zero, Int.toNat_of_nonneg hm, Int.toNat_of_nonneg hk]

/-- Two filter windows that hold the same column at the same position start at the same
column: with a positive stride the start of the window determines the column of the
convolutional layer. -/
theorem window_start_inj {s tw sw o o' X Y : Int} (hs : 0 < s) (hsw : 0 < sw)
    (hX : 0 ≤ X)
    (h1 : o % sw * s + X < tw) (h2 : o' % sw * s + X < tw)
    (heq : (o / sw * s + Y) * tw + (o % sw * s + X)
      = (o' / sw * s + Y) * tw + (o' % sw * s + X)) : o = o' := by
  have hm : 0 ≤ o % sw := Int.emod_nonneg _ (ne_of_gt hsw)
  have hm' : 0 ≤ o' % sw := Int.emod_nonneg _ (ne_of_gt hsw)
  have hb : 0 ≤ o % sw * s + X := by
    have := mul_nonneg hm hs.le
    omega
  have hb' : 0 ≤ o' % sw * s + X := by
    have := mul_nonneg hm' hs.le
    omega
  have htw : 0 < tw := by omega
  have e1 : ((o / sw * s + Y) * tw + (o % sw * s + X)) % tw = o % sw * s + X := by
    rw [add_comm, Int.add_mul_emod_self, Int.emod_eq_of_lt hb h1]
  have e2 : ((o' / sw * s + Y) * tw + (o' % sw * s + X)) % tw = o' % sw * s + X := by
    rw [add_comm, Int.add_mul_emod_self, Int.emod_eq_of_lt hb' h2]
  have hbb : o % sw * s + X = o' % sw * s + X := by rw [← e1, ← e2, heq]
  have hmod : o % sw = o' % sw := by
    have : o % sw * s = o' % sw * s := by omega
    exact mul_right_cancel₀ (ne_of_gt hs) this
  have haa : (o / sw * s + Y) * tw = (o' / sw * s + Y) * tw := by omega
  have ha2 : o / sw * s + Y = o' / sw * s + Y := mul_right_cancel₀ (ne_of_gt htw) haa
  have hdiv : o / sw = o' / sw := by
    have : o / sw * s = o' / sw * s := by omega
    exact mul_right_cancel₀ (ne_of_gt hs) this
  have d1 := Int.ediv_add_emod o sw
  have d2 := Int.ediv_add_emod o' sw
  rw [hdiv, hmod] at d1
  omega

end Capacity

section Capacity2

variable {R : Type} [LinearOrderedField R]

/-- The backward connections of a fully connected or output layer `l + 1` that lead to one
node of the layer `l` are at most as many as the layer `l + 1` has nodes. -/
theorem links_le_fc (abi : Abi) (defs : List LayerDefinition) (p : Network R) (l : Int)
    (d dp : LayerDefinition) (hd : defAt defs (l + 1) = Except.ok d)
    (hdp : defAt defs l = Except.ok dp)
    (htype : d.layerType = LayerType.FULLY_CONNECTED ∨ d.layerType = LayerType.OUTPUT)
    (hdepth : 0 < dp.nodeMap.depth) (hdd : 0 ≤ d.nodeMap.depth)
    (hcc : 0 ≤ getColumnCount d)
    (hb : LayerBuilt abi defs (l + 1) p) (A : NodeRef) :
    ((backwardLinksTo p A (l + 1).toNat).length : Int) ≤ getLayerNodeCount d := by
  have hdp' : defAt defs (l + 1 - 1) = Except.ok dp := by
    rw [show l + 1 - 1 = l by ring]; exact hdp
  -- what a link is
  have hlink : ∀ x ∈ backwardLinksTo p A (l + 1).toNat,
      x.1.layer = (l + 1).toNat ∧ 0 ≤ x.1.column ∧ x.1.column < getColumnCount d ∧
      0 ≤ x.1.node ∧ x.1.node < d.nodeMap.depth ∧
      x.2 = dp.nodeMap.depth * A.column + A.node := by
    intro x hx
    obtain ⟨o, n, ho0, ho, hn0, hn, hx1, hk0, hk, hptr⟩ := mem_backwardLinksTo.1 hx
    rw [hb.columnCount d hd] at ho
    rw [hb.nodeCount d 0 hd (le_refl _) (by omega)] at hn
    have hnb := hb.nodes d o n hd ho0 ho hn0 hn
    have hx1' : x.1 = ⟨(l + 1).toNat, o, n⟩ := hx1
    rw [hx1'] at hk hptr
    have hbc := hnb.backwardConnCount
    rw [getNodeBackwardConnectionCount_fc hd hdp' htype] at hbc
    injection hbc with hbc
    rw [← hbc] at hk
    have hconn := hnb.fc d dp hd hdp' htype hdepth x.2 hk0
      (by rw [show getLayerNodeCount dp = getColumnCount dp * dp.nodeMap.depth from rfl] at hk
          exact hk)
    rw [hconn] at hptr
    simp only [Option.some.injEq] at hptr
    have hc : x.2 / dp.nodeMap.depth = A.column := by rw [← hptr]
    have hn' : x.2 % dp.nodeMap.depth = A.node := by rw [← hptr]
    have := Int.ediv_add_emod x.2 dp.nodeMap.depth
    rw [hx1']
    refine ⟨rfl, ho0, ho, hn0, hn, ?_⟩
    rw [← hc, ← hn']
    exact this.symm
  have hlen := length_le_card_of_injOn (backwardLinksTo p A (l + 1).toNat)
    (backwardLinksTo_nodup p A _) (fun x => (x.1.column, x.1.node))
    ((Finset.Ico (0 : Int) (getColumnCount d)) ×ˢ (Finset.Ico (0 : Int) d.nodeMap.depth))
    (by
      intro x hx
      obtain ⟨-, h1, h2, h3, h4, -⟩ := hlink x hx
      simp only [Finset.mem_product, Finset.mem_Ico]
      exact ⟨⟨h1, h2⟩, h3, h4⟩)
    (by
      intro x hx y hy hxy
      obtain ⟨hx1, -, -, -, -, hx2⟩ := hlink x hx
      obtain ⟨hy1, -, -, -, -, hy2⟩ := hlink y hy
      simp only [Prod.mk.injEq] at hxy
      apply Prod.ext
      · cases hx' : x.1
        cases hy' : y.1
        rw [hx'] at hx1 hxy
        rw [hy'] at hy1 hxy
        simp only at hx1 hy1 hxy
        rw [hx1, hy1, hxy.1, hxy.2]
      · rw [hx2, hy2])
  have hcard := card_box hcc hdd
  rw [show getLayerNodeCount d = getColumnCount d * d.nodeMap.depth from rfl, ← hcard]
  exact_mod_cast hlen

/-- The backward connections of a convolutional layer `l + 1` that lead to one node of the
layer `l` are at most `filter² * depth` many, when the layer is at least 2 columns wide
and its filter is narrower than the layer `l`: every position of the filter and every
level of the convolutional layer account for at most one of them. -/
theorem links_le_conv (abi : Abi) (defs : List LayerDefinition) (p : Network R) (l : Int)
    (d dp : LayerDefinition) (hd : defAt defs (l + 1) = Except.ok d)
    (hdp : defAt defs l = Except.ok dp) (htype : d.layerType = LayerType.CONVOLUTIONAL)
    (hdd : 0 ≤ d.nodeMap.depth) (hw : 2 ≤ d.nodeMap.width) (hf0 : 0 < d.filter)
    (hf : d.filter < dp.nodeMap.width) (hb : LayerBuilt abi defs (l + 1) p) (A : NodeRef) :
    ((backwardLinksTo p A (l + 1).toNat).length : Int)
      ≤ d.filter ^ 2 * d.nodeMap.depth := by
  have hdp' : defAt defs (l + 1 - 1) = Except.ok dp := by
    rw [show l + 1 - 1 = l by ring]; exact hdp
  have hff : 0 < d.filter * d.filter := mul_pos hf0 hf0
  have hs : 0 < ceilQuot (dp.nodeMap.width - d.filter) (d.nodeMap.width - 1) :=
    ceilQuot_pos (by omega) (by omega)
  generalize hsdef : ceilQuot (dp.nodeMap.width - d.filter) (d.nodeMap.width - 1) = s at hs
  -- what a link is
  have hlink : ∀ x ∈ backwardLinksTo p A (l + 1).toNat,
      x.1.layer = (l + 1).toNat ∧ 0 ≤ x.1.column ∧
      0 ≤ x.1.node ∧ x.1.node < d.nodeMap.depth ∧
      0 ≤ x.2 % (d.filter * d.filter) ∧ x.2 % (d.filter * d.filter) < d.filter * d.filter ∧
      x.2 = A.node * (d.filter * d.filter) + x.2 % (d.filter * d.filter) ∧
      x.1.column % d.nodeMap.width * s + x.2 % (d.filter * d.filter) % d.filter
        < dp.nodeMap.width ∧
      A.column = (x.1.column / d.nodeMap.width * s
          + x.2 % (d.filter * d.filter) / d.filter) * dp.nodeMap.width
        + (x.1.column % d.nodeMap.width * s
          + x.2 % (d.filter * d.filter) % d.filter) := by
    intro x hx
    obtain ⟨o, n, ho0, ho, hn0, hn, hx1, hk0, hk, hptr⟩ := mem_backwardLinksTo.1 hx
    rw [hb.columnCount d hd] at ho
    rw [hb.nodeCount d 0 hd (le_refl _) (by omega)] at hn
    have hnb := hb.nodes d o n hd ho0 ho hn0 hn
    have hx1' : x.1 = ⟨(l + 1).toNat, o, n⟩ := hx1
    rw [hx1'] at hk hptr
    have hbc := hnb.backwardConnCount
    rw [getNodeBackwardConnectionCount_conv hd hdp' htype] at hbc
    injection hbc with hbc
    rw [← hbc] at hk
    obtain ⟨vals, hvals, hconn⟩ := hnb.conv d dp hd hdp' htype
    have hpos0 : 0 ≤ x.2 % (d.filter * d.filter) := Int.emod_nonneg _ (ne_of_gt hff)
    have hpos1 : x.2 % (d.filter * d.filter) < d.filter * d.filter :=
      Int.emod_lt_of_pos _ hff
    have ht0 : 0 ≤ x.2 / (d.filter * d.filter) := Int.ediv_nonneg hk0 hff.le
    have ht1 : x.2 / (d.filter * d.filter) < dp.nodeMap.depth :=
      Int.ediv_lt_of_lt_mul hff (by rw [mul_comm]; exact hk)
    have hsplit : x.2 / (d.filter * d.filter) * (d.filter * d.filter)
        + x.2 % (d.filter * d.filter) = x.2 := Int.ediv_add_emod' _ _
    obtain ⟨col, hcol, hc⟩ := hconn _ _ ht0 ht1 hpos0 hpos1
    rw [hsplit] at hc
    rw [hc] at hptr
    by_cases hoor : col ≠ OUT_OF_RANGE
    · rw [if_pos hoor] at hptr
      simp only [Option.some.injEq] at hptr
      have hAc : col = A.column := by rw [← hptr]
      have hAn : x.2 / (d.filter * d.filter) = A.node := by rw [← hptr]
      obtain ⟨vals', hvals', -, -, hget⟩ := filterWindow_get d.nodeMap.width
        dp.nodeMap.width dp.nodeMap.height d.filter o hw hf.le (by omega) ho0
      rw [hvals] at hvals'
      injection hvals' with hvv
      subst hvv
      have hx0 : 0 ≤ x.2 % (d.filter * d.filter) % d.filter :=
        Int.emod_nonneg _ (ne_of_gt hf0)
      have hx1b : x.2 % (d.filter * d.filter) % d.filter < d.filter :=
        Int.emod_lt_of_pos _ hf0
      have hy0 : 0 ≤ x.2 % (d.filter * d.filter) / d.filter := Int.ediv_nonneg hpos0 hf0.le
      have hy1 : x.2 % (d.filter * d.filter) / d.filter < d.filter :=
        Int.ediv_lt_of_lt_mul hf0 hpos1
      have hg := hget _ _ hx0 hx1b hy0 hy1
      rw [Int.ediv_add_emod' _ _, hcol, hsdef] at hg
      simp only [Option.some.injEq] at hg
      by_cases hout : dp.nodeMap.width
            ≤ o % d.nodeMap.width * s + x.2 % (d.filter * d.filter) % d.filter
          ∨ dp.nodeMap.height
            ≤ o / d.nodeMap.width * s + x.2 % (d.filter * d.filter) / d.filter
      · rw [if_pos hout] at hg
        exact absurd hg hoor
      · rw [if_neg hout] at hg
        rw [hx1']
        refine ⟨rfl, ho0, hn0, hn, hpos0, hpos1, ?_, ?_, ?_⟩
        · rw [← hAn]; exact hsplit.symm
        · simp only
          omega
        · rw [← hAc, hg]
    · rw [if_neg hoor] at hptr
      simp at hptr
  have hlen := length_le_card_of_injOn (backwardLinksTo p A (l + 1).toNat)
    (backwardLinksTo_nodup p A _) (fun x => (x.2 % (d.filter * d.filter), x.1.node))
    ((Finset.Ico (0 : Int) (d.filter * d.filter)) ×ˢ (Finset.Ico (0 : Int) d.nodeMap.depth))
    (by
      intro x hx
      obtain ⟨-, -, h3, h4, h5, h6, -⟩ := hlink x hx
      simp only [Finset.mem_product, Finset.mem_Ico]
      exact ⟨⟨h5, h6⟩, h3, h4⟩)
    (by
      intro x hx y hy hxy
      obtain ⟨hx1, hxc, -, -, hxp, -, hx2, hxw, hxA⟩ := hlink x hx
      obtain ⟨hy1, hyc, -, -, -, -, hy2, hyw, hyA⟩ := hlink y hy
      simp only [Prod.mk.injEq] at hxy
      rw [← hxy.1] at hy2 hyw hyA
      have hcol : x.1.column = y.1.column :=
        window_start_inj hs (by omega) (Int.emod_nonneg _ (ne_of_gt hf0)) hxw hyw
          (hxA.symm.trans hyA)
      apply Prod.ext
      · cases hx' : x.1
        cases hy' : y.1
        rw [hx'] at hx1 hxy hcol
        rw [hy'] at hy1 hxy hcol
        simp only at hx1 hy1 hxy hcol
        rw [hx1, hy1, hxy.2, hcol]
      · rw [hx2, hy2])
  have hcard := card_box hff.le hdd
  rw [show d.filter ^ 2 = d.filter * d.filter by ring, ← hcard]
  exact_mod_cast hlen

end Capacity2

section Capacity3

variable {R : Type} [LinearOrderedField R]

/-- After the first loop of `initNetwork`, the backward connections of the next layer that
lead to a node of a layer in between are not more than `getNodeForwardConnectionCount`
gives for the layer. -/
theorem links_le_maximum (abi : Abi) (defs : List LayerDefinition) (nn0 p : Network R)
    (layerCount : Int) (hdefs : nn0.layerDefs = defs)
    (h1 : (forRange layerCount).foldlM (fun s l => initNetworkLayer abi s l defs) nn0
      = Except.ok p)
    (hpos : PositiveDims defs layerCount)
    (hhidden : ∀ l d, 0 < l → l < layerCount - 1 → defAt defs l = Except.ok d →
      d.layerType = LayerType.FULLY_CONNECTED ∨ d.layerType = LayerType.CONVOLUTIONAL)
    (hconv : ∀ l d dp, 0 < l → l < layerCount → defAt defs l = Except.ok d →
      defAt defs (l - 1) = Except.ok dp → d.layerType = LayerType.CONVOLUTIONAL →
      2 ≤ d.nodeMap.width ∧ 0 < d.filter ∧ d.filter < dp.nodeMap.width)
    (l : Int) (hl0 : 0 < l) (hl : l < layerCount - 1) (A : NodeRef) :
    ∃ F, getNodeForwardConnectionCount defs l = Except.ok F ∧
      ((backwardLinksTo p A (l + 1).toNat).length : Int) ≤ F := by
  obtain ⟨-, hB⟩ := backwardPhase_spec abi defs nn0 p layerCount hdefs h1
  obtain ⟨⟨dp, hdp⟩, hbl, hfc⟩ := hB l (by omega) (by omega)
  obtain ⟨⟨d, hd⟩, hbn, -⟩ := hB (l + 1) (by omega) (by omega)
  obtain ⟨hpw, hph, hpd⟩ := hpos.at (by omega) hdp
  obtain ⟨hdw, hdh, hdd⟩ := hpos.at (by omega) hd
  have hcc : 0 < getColumnCount d := mul_pos hdw hdh
  have hccp : 0 < getColumnCount dp := mul_pos hpw hph
  have hset := hfc dp 0 0 hdp (le_refl _) hccp (le_refl _) hpd
  have htp := hhidden l dp hl0 hl hdp
  have hnot : ¬ (dp.layerType = LayerType.INPUT ∨ dp.layerType = LayerType.OUTPUT) := by
    rcases htp with h | h <;> rw [h] <;> simp
  unfold getNodeForwardConnectionCount at hset ⊢
  simp only [hdp, hd, bind, Except.bind, if_neg hnot] at hset ⊢
  cases ht : d.layerType
  · rw [ht] at hset
    simp [throw, throwThe, MonadExceptOf.throw] at hset
  · rw [ht] at hset
    simp [throw, throwThe, MonadExceptOf.throw] at hset
  · obtain ⟨h2, h3, h4⟩ := hconv (l + 1) d dp (by omega) (by omega) hd
      (by rw [show l + 1 - 1 = l by ring]; exact hdp) ht
    exact ⟨_, rfl, links_le_conv abi defs p l d dp hd hdp ht hdd.le h2 h3 h4 hbn A⟩
  · exact ⟨_, rfl, links_le_fc abi defs p l d dp hd hdp (Or.inl ht) hpd hdd.le hcc.le hbn A⟩
  · exact ⟨_, rfl, links_le_fc abi defs p l d dp hd hdp (Or.inr ht) hpd hdd.le hcc.le hbn A⟩

end Capacity3

section Capacity4

variable {R : Type} [LinearOrderedField R]

/-- A call of `initNetworkForwardConnectionsAnyNode` for a node with capacity returns, and
the nodes have capacity afterwards. -/
theorem forwardNode_returns (p u : Network R) (l c n : Int) (hl0 : 0 < l)
    (hl : l < p.layerCount - 1) (hc0 : 0 ≤ c) (hc : c < (p.layers l.toNat).columnCount)
    (hn0 : 0 ≤ n) (hn : n < (p.columns l.toNat c).nodeCount)
    (hpu : BackwardSame p u) (hcap : HasCapacity p u) :
    ∃ u', initNetworkForwardConnectionsAnyNode u (getNetworkNode l.toNat c n) (l + 1).toNat
        = Except.ok u' ∧ BackwardSame p u' ∧ HasCapacity p u' := by
  have hA : (getNetworkNode l.toNat c n).layer ≠ (l + 1).toNat := by
    simp only [getNetworkNode]
    omega
  have hlinks := (hpu.links (getNetworkNode l.toNat c n) (l + 1).toNat).1
  have hcapA := hcap l c n hl0 hl hc0 hc hn0 hn
  have hmax : 0 ≤ (u.nodes (getNetworkNode l.toNat c n)).forwardConnCount :=
    le_trans (Int.ofNat_nonneg _) hcapA
  rw [initNetworkForwardConnectionsAnyNode_run u _ _ hA hmax, hlinks, if_pos hcapA]
  refine ⟨_, rfl, hpu.trans_backward (BackwardSame.withForward u _ _ _), ?_⟩
  intro l' c' n' hl0' hl' hc0' hc' hn0' hn'
  by_cases e : getNetworkNode l'.toNat c' n' = getNetworkNode l.toNat c n
  · rw [e, setNode_nodes_same]
    simp only [getNetworkNode, NodeRef.mk.injEq] at e
    have hll : l' = l := by omega
    rw [hll]
  · rw [setNode_nodes_ne _ _ e]
    exact hcap l' c' n' hl0' hl' hc0' hc' hn0' hn'

/-- The second loop of `initNetwork` returns when every node of a layer in between has
capacity for its forward connections. -/
theorem forwardPhase_returns (p : Network R) (layerCount : Int)
    (hcount : p.layerCount = layerCount) (hcap : HasCapacity p p) :
    ∃ nn, (forRange layerCount).foldlM (fun s l => initNetworkForwardConnections s l) p
      = Except.ok nn := by
  obtain ⟨nn, h, -⟩ := foldlM_ok_of_inv
    (fun s l => initNetworkForwardConnections s l) (forRange layerCount)
    (fun t => BackwardSame p t ∧ HasCapacity p t) p
    ⟨BackwardSame.refl_backward p, hcap⟩
    (by
      intro l t hl hQ
      have hl' := mem_forRange.1 hl
      unfold initNetworkForwardConnections
      dsimp only
      rw [hQ.1.layerCount, hcount]
      by_cases hskip : l = 0 ∨ l = layerCount - 1
      · rw [if_pos hskip]
        exact ⟨t, rfl, hQ⟩
      · rw [if_neg hskip]
        simp only [getNetworkLayer]
        refine foldlM_ok_of_inv _ _ (fun t => BackwardSame p t ∧ HasCapacity p t) t hQ ?_
        intro c u hc hQu
        have hc' := mem_forRange.1 hc
        rw [hQ.1.layers] at hc'
        dsimp only
        refine foldlM_ok_of_inv _ _ (fun t => BackwardSame p t ∧ HasCapacity p t) u hQu ?_
        intro n v hn hQv
        have hn' := mem_forRange.1 hn
        rw [hQu.1.columns] at hn'
        exact forwardNode_returns p v l c n (by omega) (by rw [hcount]; omega) hc'.1 hc'.2
          hn'.1 hn'.2 hQv.1 hQv.2)
  exact ⟨nn, h⟩

end Capacity4

section Capacity5

variable {R : Type} [LinearOrderedField R]

/-- **C14.** For an array of layer definitions with positive dimensions in which every
layer in between is fully connected or convolutional and every convolutional layer is at
least 2 columns wide with a positive filter narrower than the layer before: when the first
loop of `initNetwork` has returned the state `p`, the second loop returns as well, so
`initNetwork` returns and `initNetworkForwardConnectionsAnyNode` never stops the program;
and for every node of a layer in between, the number of the forward connections that
`initNetworkForwardConnectionsAnyNode` finds, which becomes the `forwardConnCount` of the
node, is not more than the value `F` of `getNodeForwardConnectionCount` for the layer,
which is the maximum that the node holds when the function is called. -/
theorem forward_connections_within_maximum (abi : Abi) (defs : List LayerDefinition)
    (nn0 p : Network R) (layerCount : Int) (hdefs : nn0.layerDefs = defs)
    (hcount : nn0.layerCount = layerCount)
    (h1 : (forRange layerCount).foldlM (fun s l => initNetworkLayer abi s l defs) nn0
      = Except.ok p)
    (hpos : PositiveDims defs layerCount) (hfits : WiringFits defs layerCount) :
    ∃ nn, initNetwork abi nn0 layerCount defs = Except.ok nn ∧
      ∀ l c n, 0 < l → l < layerCount - 1 → nn.IsNode l.toNat c n →
        ∃ F, getNodeForwardConnectionCount defs l = Except.ok F ∧
          (p.nodes (getNetworkNode l.toNat c n)).forwardConnCount = F ∧
          ((backwardLinksTo p (getNetworkNode l.toNat c n) (l + 1).toNat).length : Int) ≤ F ∧
          (nn.nodes (getNetworkNode l.toNat c n)).forwardConnCount
            = ((backwardLinksTo p (getNetworkNode l.toNat c n) (l + 1).toNat).length : Int) := by
  have hhidden : ∀ l d, 0 < l → l < layerCount - 1 → defAt defs l = Except.ok d →
      d.layerType = LayerType.FULLY_CONNECTED ∨ d.layerType = LayerType.CONVOLUTIONAL := by
    intro l d hl0 hl hd
    exact hfits.1 l (mem_forRange.2 ⟨hl0.le, hl⟩) hl0 d (defAt_ok_iff.1 hd).2
  have hconv : ∀ l d dp, 0 < l → l < layerCount → defAt defs l = Except.ok d →
      defAt defs (l - 1) = Except.ok dp → d.layerType = LayerType.CONVOLUTIONAL →
      2 ≤ d.nodeMap.width ∧ 0 < d.filter ∧ d.filter < dp.nodeMap.width := by
    intro l d dp hl0 hl hd hdp ht
    exact hfits.2 l (mem_forRange.2 ⟨hl0.le, hl⟩) hl0 d (defAt_ok_iff.1 hd).2 dp
      (defAt_ok_iff.1 hdp).2 ht
  obtain ⟨hT, hB⟩ := backwardPhase_spec abi defs nn0 p layerCount hdefs h1
  have hpc : p.layerCount = layerCount := hT.layerCount.trans hcount
  -- what the first loop leaves in the nodes of the layers in between
  have hmax : ∀ l c n, 0 < l → l < layerCount - 1 → 0 ≤ c →
      c < (p.layers l.toNat).columnCount → 0 ≤ n → n < (p.columns l.toNat c).nodeCount →
      ∃ F, getNodeForwardConnectionCount defs l = Except.ok F ∧
        (p.nodes (getNetworkNode l.toNat c n)).forwardConnCount = F ∧
        ((backwardLinksTo p (getNetworkNode l.toNat c n) (l + 1).toNat).length : Int)
          ≤ F := by
    intro l c n hl0 hl hc0 hc hn0 hn
    obtain ⟨F, hF, hle⟩ := links_le_maximum abi defs nn0 p layerCount hdefs h1 hpos hhidden
      hconv l hl0 hl (getNetworkNode l.toNat c n)
    obtain ⟨⟨d, hd⟩, hbl, hfc⟩ := hB l (by omega) (by omega)
    rw [hbl.columnCount d hd] at hc
    rw [hbl.nodeCount d c hd hc0 hc] at hn
    have hset := hfc d c n hd hc0 hc hn0 hn
    rw [hF] at hset
    injection hset with hset
    exact ⟨F, hF, hset.symm, hle⟩
  have hcap : HasCapacity p p := by
    intro l c n hl0 hl hc0 hc hn0 hn
    obtain ⟨F, -, h2, h3⟩ := hmax l c n hl0 (by rw [← hpc]; exact hl) hc0 hc hn0 hn
    rw [h2]
    exact h3
  obtain ⟨nn, h2⟩ := forwardPhase_returns p layerCount hpc hcap
  have hinit : initNetwork abi nn0 layerCount defs = Except.ok nn := by
    unfold initNetwork
    rw [h1]
    exact h2
  refine ⟨nn, hinit, ?_⟩
  intro l c n hl0 hl hA
  obtain ⟨hS, -, hFB⟩ := forwardPhase_spec p nn layerCount hpc h2
  obtain ⟨⟨d, hd⟩, hbl, -⟩ := hB l (by omega) (by omega)
  have hAp : p.IsNode l.toNat c n := by
    unfold Network.IsNode at hA ⊢
    rw [hS.layers, hS.columns] at hA
    exact hA
  obtain ⟨hc0, hc, hn0, hn⟩ := (hbl.isNode_iff hd c n).1 hAp
  have hc' : c < (p.layers l.toNat).columnCount := by rw [hbl.columnCount d hd]; exact hc
  have hn' : n < (p.columns l.toNat c).nodeCount := by
    rw [hbl.nodeCount d c hd hc0 hc]; exact hn
  obtain ⟨F, hF, h3, h4⟩ := hmax l c n hl0 hl hc0 hc' hn0 hn'
  refine ⟨F, hF, h3, h4, ?_⟩
  have hfb := hFB l c n hl0 hl hc0 (by rw [hS.layers]; exact hc') hn0
    (by rw [hS.columns]; exact hn')
  rw [hfb.count, (hS.links _ _).1]

theorem poolPhase1_built :
    (forRange 4).foldlM (fun s l => initNetworkLayer lp64 s l poolDefs) poolNet0
      = Except.ok poolPhase1 :=
  builtOr_eq (by decide!)

/-- C14 at the layer definitions `poolDefs`, whose layer 1 is fully connected and stands
before a convolutional layer, and whose layer 2 is convolutional and stands before the
output layer. -/
theorem forward_connections_within_maximum_witness :
    ∃ nn, initNetwork lp64 poolNet0 4 poolDefs = Except.ok nn ∧
      ∀ l c n, 0 < l → l < (4 : Int) - 1 → nn.IsNode l.toNat c n →
        ∃ F, getNodeForwardConnectionCount poolDefs l = Except.ok F ∧
          (poolPhase1.nodes (getNetworkNode l.toNat c n)).forwardConnCount = F ∧
          ((backwardLinksTo poolPhase1 (getNetworkNode l.toNat c n) (l + 1).toNat).length
            : Int) ≤ F ∧
          (nn.nodes (getNetworkNode l.toNat c n)).forwardConnCount
            = ((backwardLinksTo poolPhase1 (getNetworkNode l.toNat c n)
                (l + 1).toNat).length : Int) :=
  forward_connections_within_maximum lp64 poolDefs poolNet0 poolPhase1 4 rfl rfl
    poolPhase1_built (by decide) (by decide)

end Capacity5

/-! ## Claims about the layer geometry -/

section Geometry

/-- **C21.** The value of `getNodeBackwardConnectionCount` for a layer definition `d` at the
index `l` of the array: 0 for an input layer; for a fully connected or output layer
`width * height * depth` of the definition before it; for a convolutional layer
`filter² * depth` with the filter of `d` and the depth of the definition before it. -/
theorem getNodeBackwardConnectionCount_value (defs : List LayerDefinition) (l : Int)
    (d : LayerDefinition) (hd : defAt defs l = Except.ok d) :
    (d.layerType = LayerType.INPUT →
      getNodeBackwardConnectionCount defs l = Except.ok 0) ∧
    (∀ dp, defAt defs (l - 1) = Except.ok dp →
      (d.layerType = LayerType.FULLY_CONNECTED ∨ d.layerType = LayerType.OUTPUT →
        getNodeBackwardConnectionCount defs l
          = Except.ok (dp.nodeMap.width * dp.nodeMap.height * dp.nodeMap.depth)) ∧
      (d.layerType = LayerType.CONVOLUTIONAL →
        getNodeBackwardConnectionCount defs l
          = Except.ok (d.filter ^ 2 * dp.nodeMap.depth))) := by
  refine ⟨fun ht => getNodeBackwardConnectionCount_input hd ht, ?_⟩
  intro dp hdp
  refine ⟨fun ht => getNodeBackwardConnectionCount_fc hd hdp ht, fun ht => ?_⟩
  rw [getNodeBackwardConnectionCount_conv hd hdp ht, pow_two]

/-- C21 at the convolutional layer of `convDefs`: 2² connections to the one level of the
input layer. -/
theorem getNodeBackwardConnectionCount_value_witness :
    getNodeBackwardConnectionCount convDefs 1
      = Except.ok (convHidden.filter ^ 2 * convInput.nodeMap.depth) :=
  ((getNodeBackwardConnectionCount_value convDefs 1 convHidden rfl).2 convInput rfl).2 rfl

/-- **C22.** The value of `getNodeForwardConnectionCount` for a layer definition `d` at the
index `l` of the array: 0 for an input or output layer; for every other layer the value
depends on the definition `dn` behind it: `width * height * depth` of `dn` when `dn` is
fully connected or an output layer, and `filter² * depth` of `dn` when `dn` is
convolutional. -/
theorem getNodeForwardConnectionCount_value (defs : List LayerDefinition) (l : Int)
    (d : LayerDefinition) (hd : defAt defs l = Except.ok d) :
    (d.layerType = LayerType.INPUT ∨ d.layerType = LayerType.OUTPUT →
      getNodeForwardConnectionCount defs l = Except.ok 0) ∧
    (∀ dn, defAt defs (l + 1) = Except.ok dn →
      d.layerType ≠ LayerType.INPUT → d.layerType ≠ LayerType.OUTPUT →
      (dn.layerType = LayerType.FULLY_CONNECTED ∨ dn.layerType = LayerType.OUTPUT →
        getNodeForwardConnectionCount defs l
          = Except.ok (dn.nodeMap.width * dn.nodeMap.height * dn.nodeMap.depth)) ∧
      (dn.layerType = LayerType.CONVOLUTIONAL →
        getNodeForwardConnectionCount defs l
          = Except.ok (dn.filter ^ 2 * dn.nodeMap.depth))) := by
  refine ⟨?_, ?_⟩
  · intro ht
    unfold getNodeForwardConnectionCount
    simp only [hd, bind, Except.bind, if_pos ht]
    rfl
  · intro dn hdn h1 h2
    have hnot : ¬ (d.layerType = LayerType.INPUT ∨ d.layerType = LayerType.OUTPUT) := by
      rintro (h | h)
      · exact h1 h
      · exact h2 h
    unfold getNodeForwardConnectionCount
    simp only [hd, hdn, bind, Except.bind, if_neg hnot]
    refine ⟨?_, ?_⟩
    · rintro (ht | ht) <;> rw [ht] <;> rfl
    · intro ht
      rw [ht]
      rfl

/-- C22 at the fully connected layer of `poolDefs`, which stands before a convolutional
layer with a filter of 2 × 2 and one level. -/
theorem getNodeForwardConnectionCount_value_witness :
    getNodeForwardConnectionCount poolDefs 1 = Except.ok (2 ^ 2 * 1) :=
  ((getNodeForwardConnectionCount_value poolDefs 1
    ⟨.FULLY_CONNECTED, .SIGMOID, ⟨3, 3, 1⟩, 0⟩ rfl).2
    ⟨.CONVOLUTIONAL, .SIGMOID, ⟨2, 2, 1⟩, 2⟩ rfl (by decide) (by decide)).2 rfl

/-- Reading the array of layer definitions after one definition was replaced. -/
theorem defAt_set (defs : List LayerDefinition) (l i : Int) (d d' : LayerDefinition)
    (hd : defAt defs l = Except.ok d) :
    defAt (defs.set l.toNat d') i
      = if 0 ≤ i ∧ i = l then Except.ok d' else defAt defs i := by
  obtain ⟨hl0, hget⟩ := defAt_ok_iff.1 hd
  have hlt : l.toNat < defs.length := by
    by_contra hge
    rw [List.getElem?_eq_none (by omega)] at hget
    exact absurd hget (by simp)
  unfold defAt
  by_cases hi : 0 ≤ i
  · rw [if_pos hi, if_pos hi]
    by_cases hil : i = l
    · subst hil
      rw [if_pos ⟨hi, rfl⟩, List.getElem?_set_self hlt]
    · rw [if_neg (fun h => hil h.2), List.getElem?_set_ne (by omega)]
  · rw [if_neg hi, if_neg hi, if_neg (fun h => hi h.1)]

/-- **C23.** The value of `getLayerWeightCount` for a layer definition `d` at the index `l`
of the array: 0 for an input layer; for a fully connected or output layer the number of
nodes of `d` times the number of nodes of the definition before it; for a convolutional
layer `filter² * depth(d) * depth(prev)`, which remains the value when the width and the
height of `d` are replaced by any other values. -/
theorem getLayerWeightCount_value (defs : List LayerDefinition) (l : Int)
    (d : LayerDefinition) (hd : defAt defs l = Except.ok d) :
    (d.layerType = LayerType.INPUT → getLayerWeightCount defs l = Except.ok 0) ∧
    (∀ dp, defAt defs (l - 1) = Except.ok dp →
      (d.layerType = LayerType.FULLY_CONNECTED ∨ d.layerType = LayerType.OUTPUT →
        getLayerWeightCount defs l
          = Except.ok ((d.nodeMap.width * d.nodeMap.height * d.nodeMap.depth)
              * (dp.nodeMap.width * dp.nodeMap.height * dp.nodeMap.depth))) ∧
      (d.layerType = LayerType.CONVOLUTIONAL →
        getLayerWeightCount defs l
          = Except.ok (d.filter ^ 2 * d.nodeMap.depth * dp.nodeMap.depth) ∧
        ∀ w h : Int,
          getLayerWeightCount
              (defs.set l.toNat { d with nodeMap := ⟨w, h, d.nodeMap.depth⟩ }) l
            = Except.ok (d.filter ^ 2 * d.nodeMap.depth * dp.nodeMap.depth))) := by
  refine ⟨?_, ?_⟩
  · intro ht
    unfold getLayerWeightCount
    simp only [hd, bind, Except.bind, ht]
    rfl
  · intro dp hdp
    refine ⟨fun ht => weightCountOf_fc hd hdp ht, fun ht => ⟨?_, ?_⟩⟩
    · unfold getLayerWeightCount
      simp only [hd, hdp, bind, Except.bind, ht, pow_two]
      rfl
    · intro w h
      have ht' : ({ d with nodeMap := ⟨w, h, d.nodeMap.depth⟩ } : LayerDefinition).layerType
          = LayerType.CONVOLUTIONAL := ht
      have hf : ({ d with nodeMap := ⟨w, h, d.nodeMap.depth⟩ } : LayerDefinition).filter
          = d.filter := rfl
      have hdep : ({ d with nodeMap := ⟨w, h, d.nodeMap.depth⟩ }
          : LayerDefinition).nodeMap.depth = d.nodeMap.depth := rfl
      generalize ({ d with nodeMap := ⟨w, h, d.nodeMap.depth⟩ } : LayerDefinition) = d'
        at ht' hf hdep ⊢
      have h1 := defAt_set defs l l d d' hd
      have h2 := defAt_set defs l (l - 1) d d' hd
      rw [if_pos ⟨(defAt_ok_iff.1 hd).1, rfl⟩] at h1
      rw [if_neg (by omega), hdp] at h2
      unfold getLayerWeightCount
      simp only [h1, h2, bind, Except.bind, ht', hf, hdep, pow_two]
      rfl

/-- C23 at the convolutional layer of `convDefs`: 2² weights for the one level of the layer
and the one level of the input layer. -/
theorem getLayerWeightCount_value_witness :
    getLayerWeightCount convDefs 1
      = Except.ok (convHidden.filter ^ 2 * convHidden.nodeMap.depth
          * convInput.nodeMap.depth) :=
  (((getLayerWeightCount_value convDefs 1 convHidden rfl).2 convInput rfl).2 rfl).1

end Geometry

/-! ## Claims about the validation -/

section Validation

/-- The checks of one layer definition leave `isValid` true exactly for an accepted
layer. -/
theorem checkLayerDefinition_spec (defs : List LayerDefinition) (i : Int)
    (d : LayerDefinition) (hd : defAt defs i = Except.ok d)
    (hprev : d.layerType = LayerType.CONVOLUTIONAL → ∃ dp, defAt defs (i - 1) = Except.ok dp) :
    ∃ b, checkLayerDefinition defs i true = Except.ok b ∧
      (b = true ↔ AcceptedLayer defs i d) := by
  unfold checkLayerDefinition AcceptedLayer
  simp only [hd, bind, Except.bind, pure, Except.pure]
  by_cases hconv : d.layerType = LayerType.CONVOLUTIONAL
  · obtain ⟨dp, hdp⟩ := hprev hconv
    simp only [hconv, hdp, if_true]
    refine ⟨_, rfl, ?_⟩
    cases ha : d.activationType <;>
      simp [MAX_CONVOLUTIONAL_FILTER] <;> constructor <;> intro h <;> omega
  · simp only [hconv, if_false]
    refine ⟨_, rfl, ?_⟩
    cases ht : d.layerType <;> cases ha : d.activationType <;> simp_all <;> omega

/-- The rule for a counting loop that can stop with a fault: when every iteration returns
and carries the invariant from `a` to `a + 1`, the loop returns, with the invariant. -/
theorem forRange_foldlM_ok {σ ε : Type} (f : σ → Int → Except ε σ) (n : Int)
    (Inv : Int → σ → Prop) (s : σ) (h0 : Inv 0 s)
    (hstep : ∀ a t, 0 ≤ a → a < n → Inv a t → ∃ t', f t a = Except.ok t' ∧ Inv (a + 1) t') :
    ∃ s', (forRange n).foldlM f s = Except.ok s' ∧ Inv (max n 0) s' := by
  have h := foldlM_prefix_ok f (fun pre t => Inv (pre.length : Int) t) (forRange n) s
    (by simpa using h0)
    (by
      intro pre a post t hl hI
      have hlen := forRange_split_length hl
      obtain ⟨-, ha0, ha⟩ := forRange_split hl
      simp only [List.length_append, List.length_cons, List.length_nil] at hI ⊢
      rw [hlen] at hI
      have : ((pre.length + (0 + 1) : Nat) : Int) = a + 1 := by omega
      rw [this]
      exact hstep a t ha0 ha hI)
  simp only [forRange_length] at h
  exact h

theorem defAt_ok_of_lt (defs : List LayerDefinition) (i : Int) (h0 : 0 ≤ i)
    (hi : i < defs.length) : ∃ d, defAt defs i = Except.ok d := by
  have hlt : i.toNat < defs.length := by omega
  exact ⟨defs[i.toNat], defAt_ok_iff.2 ⟨h0, List.getElem?_eq_getElem hlt⟩⟩

/-- **C24.** For an array that holds `layerCount ≥ 1` layer definitions,
`isValidNetworkDefinition` returns, and it returns `true` if and only if the first layer
is an input layer, the last layer is an output layer, and every one of the `layerCount`
layers is accepted: it has a known kind, not all its dimensions are 0, its depth is 0
unless it is convolutional, a convolutional layer has a height, a depth and a filter other
than 0 and a filter smaller than the width and the height of the layer before it and not
greater than `MAX_CONVOLUTIONAL_FILTER`, and a layer other than an input layer has a known
activation. A layer that is not accepted makes the result `false` wherever it stands. -/
theorem isValidNetworkDefinition_iff (layerCount : Int) (defs : List LayerDefinition)
    (h0 : 0 < layerCount) (hlen : layerCount ≤ defs.length) :
    ∃ b, isValidNetworkDefinition layerCount defs = Except.ok b ∧
      (b = true ↔ AcceptedDefinition layerCount defs) := by
  obtain ⟨first, hfirst⟩ := defAt_ok_of_lt defs 0 (le_refl _) (by omega)
  obtain ⟨last, hlast⟩ := defAt_ok_of_lt defs (layerCount - 1) (by omega) (by omega)
  have hloop := forRange_foldlM_ok
    (fun (st : Option Bool × Bool) i =>
      match st.1 with
      | some _ => (pure st : Except Fault (Option Bool × Bool))
      | none =>
        if !st.2 then pure (some st.2, st.2)
        else do
          let isValid ← checkLayerDefinition defs i st.2
          pure (none, isValid))
    layerCount
    (fun a st =>
      (st.1 = none → (st.2 = true ↔
        (first.layerType = LayerType.INPUT ∧ last.layerType = LayerType.OUTPUT ∧
          ∀ i d, 0 ≤ i → i < a → defAt defs i = Except.ok d → AcceptedLayer defs i d))) ∧
      (∀ r, st.1 = some r → r = false ∧
        ¬ (first.layerType = LayerType.INPUT ∧ last.layerType = LayerType.OUTPUT ∧
          ∀ i d, 0 ≤ i → i < a → defAt defs i = Except.ok d → AcceptedLayer defs i d)))
    (none, if last.layerType ≠ LayerType.OUTPUT then false
      else (if first.layerType ≠ LayerType.INPUT then false else true))
    (by
      refine ⟨fun _ => ?_, fun r hr => by simp at hr⟩
      by_cases hF : first.layerType = LayerType.INPUT <;>
        by_cases hG : last.layerType = LayerType.OUTPUT <;> simp [hF, hG]
      intro i d hi0 hi
      omega)
    (by
      intro a st ha0 ha hI
      obtain ⟨st1, st2⟩ := st
      cases st1 with
      | some r =>
        refine ⟨(some r, st2), rfl, fun h => by simp at h, ?_⟩
        intro r' hr'
        obtain ⟨h1, h2⟩ := hI.2 r' hr'
        refine ⟨h1, fun hP => h2 ⟨hP.1, hP.2.1, ?_⟩⟩
        intro i d hi0 hi hd
        exact hP.2.2 i d hi0 (by omega) hd
      | none =>
        have hI1 := hI.1 rfl
        simp only at hI1
        cases st2 with
        | false =>
          refine ⟨(some false, false), rfl, fun h => by simp at h, ?_⟩
          intro r' hr'
          simp only [Option.some.injEq] at hr'
          refine ⟨hr'.symm, fun hP => ?_⟩
          have := hI1.2 ⟨hP.1, hP.2.1, fun i d hi0 hi hd => hP.2.2 i d hi0 (by omega) hd⟩
          exact absurd this (by simp)
        | true =>
          have hP := hI1.1 rfl
          obtain ⟨d, hd⟩ := defAt_ok_of_lt defs a ha0 (by omega)
          have hprev : d.layerType = LayerType.CONVOLUTIONAL →
              ∃ dp, defAt defs (a - 1) = Except.ok dp := by
            intro hconv
            by_cases ha1 : a = 0
            · subst ha1
              rw [hfirst] at hd
              injection hd with hd
              rw [← hd, hP.1] at hconv
              exact absurd hconv (by simp)
            · exact defAt_ok_of_lt defs (a - 1) (by omega) (by omega)
          obtain ⟨b, hb, hbiff⟩ := checkLayerDefinition_spec defs a d hd hprev
          refine ⟨(none, b), ?_, fun _ => ?_, fun r hr => by simp at hr⟩
          · simp only [Bool.not_true, Bool.false_eq_true, if_false, hb, bind, Except.bind]
            rfl
          · simp only
            rw [hbiff]
            constructor
            · intro hacc
              refine ⟨hP.1, hP.2.1, ?_⟩
              intro i d' hi0 hi hd'
              by_cases hia : i = a
              · subst hia
                rw [hd] at hd'
                injection hd' with hd'
                rw [← hd']
                exact hacc
              · exact hP.2.2 i d' hi0 (by omega) hd'
            · intro hP'
              exact hP'.2.2 a d ha0 (by omega) hd)
  obtain ⟨st, hrun, hI⟩ := hloop
  rw [max_eq_left h0.le] at hI
  have hAcc : AcceptedDefinition layerCount defs ↔
      (first.layerType = LayerType.INPUT ∧ last.layerType = LayerType.OUTPUT ∧
        ∀ i d, 0 ≤ i → i < layerCount → defAt defs i = Except.ok d →
          AcceptedLayer defs i d) := by
    unfold AcceptedDefinition
    constructor
    · intro h
      exact ⟨h.1 first hfirst, h.2.1 last hlast, h.2.2⟩
    · intro h
      refine ⟨?_, ?_, h.2.2⟩
      · intro d hd
        rw [hfirst] at hd
        injection hd with hd
        rw [← hd]
        exact h.1
      · intro d hd
        rw [hlast] at hd
        injection hd with hd
        rw [← hd]
        exact h.2.1
  unfold isValidNetworkDefinition
  simp only [hfirst, hlast, bind, Except.bind]
  have hrun' : (forRange layerCount).foldlM
      (fun (st : Option Bool × Bool) i =>
        match st.1 with
        | some _ => (pure st : Except Fault (Option Bool × Bool))
        | none =>
          if !st.2 then pure (some st.2, st.2)
          else do
            let isValid ← checkLayerDefinition defs i st.2
            pure (none, isValid))
      (none, if last.layerType ≠ LayerType.OUTPUT then false
        else (if first.layerType ≠ LayerType.INPUT then false else true))
      = Except.ok st := hrun
  simp only [bind, Except.bind] at hrun'
  rw [hrun']
  obtain ⟨st1, st2⟩ := st
  cases st1 with
  | some r =>
    obtain ⟨h1, h2⟩ := hI.2 r rfl
    refine ⟨r, rfl, ?_⟩
    rw [hAcc, h1]
    constructor
    · intro h
      exact absurd h (by simp)
    · intro h
      exact absurd h h2
  | none =>
    refine ⟨st2, rfl, ?_⟩
    rw [hAcc]
    exact hI.1 rfl

/-- C24 at the definitions of the convolutional network of `main.c`. -/
theorem isValidNetworkDefinition_iff_witness :
    ∃ b, isValidNetworkDefinition 4 rawDefs = Except.ok b ∧
      (b = true ↔ AcceptedDefinition 4 rawDefs) :=
  isValidNetworkDefinition_iff 4 rawDefs (by decide) (by decide)

theorem isValidNetworkDefinition_rawDefs :
    isValidNetworkDefinition 4 rawDefs = Except.ok true := rfl

end Validation

section Defaults

/-- What the body of the loop of `setLayerDefinitionDefaults` makes of a layer
definition. -/
theorem setLayerDefinitionDefault_fields (d : LayerDefinition) :
    (setLayerDefinitionDefault d).nodeMap.width
      = (if d.nodeMap.width = 0 then 1 else d.nodeMap.width) ∧
    (setLayerDefinitionDefault d).nodeMap.height
      = (if d.nodeMap.height = 0 then 1 else d.nodeMap.height) ∧
    (setLayerDefinitionDefault d).nodeMap.depth
      = (if d.nodeMap.depth = 0 then 1 else d.nodeMap.depth) ∧
    (setLayerDefinitionDefault d).filter
      = (if d.layerType = LayerType.CONVOLUTIONAL then d.filter else 0) ∧
    (setLayerDefinitionDefault d).layerType = d.layerType ∧
    (setLayerDefinitionDefault d).activationType = d.activationType := by
  unfold setLayerDefinitionDefault
  by_cases hw : d.nodeMap.width = 0 <;> by_cases hh : d.nodeMap.height = 0 <;>
    by_cases hdp : d.nodeMap.depth = 0 <;>
    by_cases ht : d.layerType = LayerType.CONVOLUTIONAL <;>
    simp [hw, hh, hdp, ht]

theorem setLayerDefinitionDefault_idem (d : LayerDefinition) :
    setLayerDefinitionDefault (setLayerDefinitionDefault d) = setLayerDefinitionDefault d := by
  obtain ⟨h1, h2, h3, h4, h5, h6⟩ := setLayerDefinitionDefault_fields d
  obtain ⟨k1, k2, k3, k4, k5, k6⟩ :=
    setLayerDefinitionDefault_fields (setLayerDefinitionDefault d)
  have e : ∀ a b : LayerDefinition, a.layerType = b.layerType →
      a.activationType = b.activationType → a.nodeMap.width = b.nodeMap.width →
      a.nodeMap.height = b.nodeMap.height → a.nodeMap.depth = b.nodeMap.depth →
      a.filter = b.filter → a = b := by
    intro a b e1 e2 e3 e4 e5 e6
    cases a with
    | mk t1 a1 m1 f1 =>
      cases b with
      | mk t2 a2 m2 f2 =>
        cases m1
        cases m2
        simp only at e1 e2 e3 e4 e5 e6
        subst e1 e2 e3 e4 e5 e6
        rfl
  apply e
  · rw [k5]
  · rw [k6]
  · rw [k1, h1]
    split_ifs <;> simp_all
  · rw [k2, h2]
    split_ifs <;> simp_all
  · rw [k3, h3]
    split_ifs <;> simp_all
  · rw [k4, h4, h5]
    split_ifs <;> simp_all

/-- The array in which the first `k` definitions were replaced by their defaults. -/
theorem getElem?_defaulted (defs : List LayerDefinition) (k j : Nat)
    (hk : k ≤ defs.length) :
    ((defs.take k).map setLayerDefinitionDefault ++ defs.drop k)[j]?
      = if j < k then (defs[j]?).map setLayerDefinitionDefault else defs[j]? := by
  have hlen : ((defs.take k).map setLayerDefinitionDefault).length = k := by
    rw [List.length_map, List.length_take]
    omega
  by_cases hj : j < k
  · rw [if_pos hj, List.getElem?_append_left (by omega), List.getElem?_map,
      List.getElem?_take_of_lt hj]
  · rw [if_neg hj, List.getElem?_append_right (by omega), hlen, List.getElem?_drop]
    congr 1
    omega

/-- The loop of `setLayerDefinitionDefaults` after `k` iterations. -/
theorem setLayerDefinitionDefaults_prefix (defs : List LayerDefinition) (k : Nat)
    (hk : k ≤ defs.length) :
    ((List.range k).map Int.ofNat).foldlM
      (fun defs l => do
        let d ← defAt defs l
        pure (defs.set l.toNat (setLayerDefinitionDefault d))) defs
      = Except.ok ((defs.take k).map setLayerDefinitionDefault ++ defs.drop k) := by
  induction k with
  | zero => simp [pure, Except.pure]
  | succ k ih =>
    rw [List.range_succ, List.map_append, List.foldlM_append, ih (by omega)]
    simp only [List.map_cons, List.map_nil, List.foldlM_cons, List.foldlM_nil, bind,
      Except.bind]
    have hlt : k < defs.length := by omega
    have hto : (Int.ofNat k).toNat = k := rfl
    have hget : defAt ((defs.take k).map setLayerDefinitionDefault ++ defs.drop k)
        (Int.ofNat k) = Except.ok defs[k] := by
      apply defAt_ok_iff.2
      refine ⟨Int.ofNat_nonneg k, ?_⟩
      rw [hto, getElem?_defaulted defs k k (by omega), if_neg (lt_irrefl k),
        List.getElem?_eq_getElem hlt]
    rw [hget]
    simp only [pure, Except.pure, hto]
    congr 1
    apply List.ext_getElem?
    intro j
    rw [List.getElem?_set, getElem?_defaulted defs k j (by omega),
      getElem?_defaulted defs (k + 1) j hk]
    have hlen : ((defs.take k).map setLayerDefinitionDefault ++ defs.drop k).length
        = defs.length := by
      rw [List.length_append, List.length_map, List.length_take, List.length_drop]
      omega
    by_cases hkj : k = j
    · subst hkj
      rw [if_pos rfl, if_pos (by omega), if_pos (by omega), List.getElem?_eq_getElem hlt]
      rfl
    · rw [if_neg hkj]
      by_cases hj : j < k
      · rw [if_pos hj, if_pos (by omega)]
      · rw [if_neg hj, if_neg (by omega)]

/-- **C25.** For an array that holds at least `layerCount` layer definitions,
`setLayerDefinitionDefaults` returns an array of the same length in which every one of the
first `layerCount` definitions has the width, height and depth of the given one, with 1 in
the place of 0, the filter of the given one when it is convolutional and the filter 0
otherwise, and the kind and the activation of the given one; the definitions behind them
are the given ones; and `setLayerDefinitionDefaults` returns this array when it is called
for it once more. -/
theorem setLayerDefinitionDefaults_spec (layerCount : Int) (defs : List LayerDefinition)
    (hlen : layerCount ≤ defs.length) :
    ∃ defs', setLayerDefinitionDefaults layerCount defs = Except.ok defs' ∧
      defs'.length = defs.length ∧
      (∀ i d, 0 ≤ i → i < layerCount → defAt defs i = Except.ok d →
        ∃ d', defAt defs' i = Except.ok d' ∧
          d'.nodeMap.width = (if d.nodeMap.width = 0 then 1 else d.nodeMap.width) ∧
          d'.nodeMap.height = (if d.nodeMap.height = 0 then 1 else d.nodeMap.height) ∧
          d'.nodeMap.depth = (if d.nodeMap.depth = 0 then 1 else d.nodeMap.depth) ∧
          d'.filter = (if d.layerType = LayerType.CONVOLUTIONAL then d.filter else 0) ∧
          d'.layerType = d.layerType ∧ d'.activationType = d.activationType) ∧
      (∀ i, layerCount ≤ i → defAt defs' i = defAt defs i) ∧
      setLayerDefinitionDefaults layerCount defs' = Except.ok defs' := by
  have hk : layerCount.toNat ≤ defs.length := by omega
  have hlen' : ((defs.take layerCount.toNat).map setLayerDefinitionDefault
      ++ defs.drop layerCount.toNat).length = defs.length := by
    rw [List.length_append, List.length_map, List.length_take, List.length_drop]
    omega
  refine ⟨(defs.take layerCount.toNat).map setLayerDefinitionDefault
    ++ defs.drop layerCount.toNat,
    setLayerDefinitionDefaults_prefix defs layerCount.toNat hk, hlen', ?_, ?_, ?_⟩
  · intro i d hi0 hi hd
    obtain ⟨-, hget⟩ := defAt_ok_iff.1 hd
    refine ⟨setLayerDefinitionDefault d, ?_, setLayerDefinitionDefault_fields d⟩
    apply defAt_ok_iff.2
    refine ⟨hi0, ?_⟩
    rw [getElem?_defaulted defs _ _ hk, if_pos (by omega), hget]
    rfl
  · intro i hi
    unfold defAt
    by_cases hi0 : 0 ≤ i
    · rw [if_pos hi0, if_pos hi0, getElem?_defaulted defs _ _ hk, if_neg (by omega)]
    · rw [if_neg hi0, if_neg hi0]
  · have h2 := setLayerDefinitionDefaults_prefix
      ((defs.take layerCount.toNat).map setLayerDefinitionDefault
        ++ defs.drop layerCount.toNat) layerCount.toNat (by rw [hlen']; exact hk)
    unfold setLayerDefinitionDefaults forRange
    rw [h2]
    congr 1
    apply List.ext_getElem?
    intro j
    rw [getElem?_defaulted _ _ _ (by rw [hlen']; exact hk), getElem?_defaulted defs _ _ hk]
    by_cases hj : j < layerCount.toNat
    · rw [if_pos hj, if_pos hj]
      cases defs[j]? with
      | none => rfl
      | some d =>
        simp only [Option.map_some']
        rw [setLayerDefinitionDefault_idem]
    · rw [if_neg hj, if_neg hj]

/-- C25 at the definitions of the convolutional network of `main.c`. -/
theorem setLayerDefinitionDefaults_spec_witness :
    ∃ defs', setLayerDefinitionDefaults 4 rawDefs = Except.ok defs' ∧
      defs'.length = rawDefs.length ∧
      (∀ i d, 0 ≤ i → i < (4 : Int) → defAt rawDefs i = Except.ok d →
        ∃ d', defAt defs' i = Except.ok d' ∧
          d'.nodeMap.width = (if d.nodeMap.width = 0 then 1 else d.nodeMap.width) ∧
          d'.nodeMap.height = (if d.nodeMap.height = 0 then 1 else d.nodeMap.height) ∧
          d'.nodeMap.depth = (if d.nodeMap.depth = 0 then 1 else d.nodeMap.depth) ∧
          d'.filter = (if d.layerType = LayerType.CONVOLUTIONAL then d.filter else 0) ∧
          d'.layerType = d.layerType ∧ d'.activationType = d.activationType) ∧
      (∀ i, (4 : Int) ≤ i → defAt defs' i = defAt rawDefs i) ∧
      setLayerDefinitionDefaults 4 defs' = Except.ok defs' :=
  setLayerDefinitionDefaults_spec 4 rawDefs (by decide)

/-- **C29.** A sequence with a negative width that `isValidNetworkDefinition` accepts: for
the input layer of the width -3 and the height 2 before an output layer of the width 10 the
function returns `true`; `setLayerDefinitionDefaults` leaves the width -3, and the number
of the nodes of the layer is -6. -/
theorem isValidNetworkDefinition_accepts_negative :
    isValidNetworkDefinition 2 negativeDefs = Except.ok true ∧
    setLayerDefinitionDefaults 2 negativeDefs
      = Except.ok [⟨.INPUT, .SIGMOID, ⟨-3, 2, 1⟩, 0⟩, ⟨.OUTPUT, .SIGMOID, ⟨10, 1, 1⟩, 0⟩] ∧
    getLayerNodeCount ⟨.INPUT, .SIGMOID, ⟨-3, 2, 1⟩, 0⟩ = -6 :=
  ⟨rfl, rfl, rfl⟩

/-- The part of C29 that holds: when no dimension of a layer definition is negative,
the dimensions are at least 1 after `setLayerDefinitionDefaults`, and so is the number of
the nodes. -/
theorem setLayerDefinitionDefault_positive (d : LayerDefinition)
    (hw : 0 ≤ d.nodeMap.width) (hh : 0 ≤ d.nodeMap.height) (hd : 0 ≤ d.nodeMap.depth) :
    1 ≤ (setLayerDefinitionDefault d).nodeMap.width ∧
    1 ≤ (setLayerDefinitionDefault d).nodeMap.height ∧
    1 ≤ (setLayerDefinitionDefault d).nodeMap.depth ∧
    1 ≤ getLayerNodeCount (setLayerDefinitionDefault d) := by
  obtain ⟨h1, h2, h3, -⟩ := setLayerDefinitionDefault_fields d
  have e1 : 1 ≤ (setLayerDefinitionDefault d).nodeMap.width := by
    rw [h1]; split_ifs <;> omega
  have e2 : 1 ≤ (setLayerDefinitionDefault d).nodeMap.height := by
    rw [h2]; split_ifs <;> omega
  have e3 : 1 ≤ (setLayerDefinitionDefault d).nodeMap.depth := by
    rw [h3]; split_ifs <;> omega
  refine ⟨e1, e2, e3, ?_⟩
  unfold getLayerNodeCount getLayerColumnCount
  have := mul_pos (mul_pos (by omega : 0 < (setLayerDefinitionDefault d).nodeMap.width)
    (by omega : 0 < (setLayerDefinitionDefault d).nodeMap.height))
    (by omega : 0 < (setLayerDefinitionDefault d).nodeMap.depth)
  omega

end Defaults

section UnknownKind

variable {R : Type} [LinearOrderedField R]

/-- A loop stops with a fault when the step at one of its elements always does. -/
theorem foldlM_error_of_mem {σ α ε : Type} (f : σ → α → Except ε σ) (l : List α) (a : α)
    (ha : a ∈ l) (hf : ∀ t, ∃ e, f t a = Except.error e) (s : σ) :
    ∃ e, l.foldlM f s = Except.error e := by
  induction l generalizing s with
  | nil => simp at ha
  | cons x l ih =>
    rw [List.foldlM_cons]
    cases hx : f s x with
    | error e => exact ⟨e, rfl⟩
    | ok t =>
      rcases List.mem_cons.1 ha with h | h
      · subst h
        obtain ⟨e, he⟩ := hf s
        rw [he] at hx
        exact absurd hx (by simp)
      · exact ih h t

/-- A loop stops with the fault `e0` when the step at one of its elements always does and
the steps before it can stop with no other fault. -/
theorem foldlM_error_at {σ α ε : Type} (f : σ → α → Except ε σ) (pre post : List α) (a : α)
    (e0 : ε) (hpre : ∀ x ∈ pre, ∀ t e, f t x = Except.error e → e = e0)
    (ha : ∀ t, f t a = Except.error e0) (s : σ) :
    (pre ++ a :: post).foldlM f s = Except.error e0 := by
  induction pre generalizing s with
  | nil =>
    rw [List.nil_append, List.foldlM_cons, ha s]
    rfl
  | cons x pre ih =>
    rw [List.cons_append, List.foldlM_cons]
    cases hx : f s x with
    | error e =>
      rw [hpre x (List.mem_cons_self _ _) s e hx]
      rfl
    | ok t =>
      exact ih (fun y hy => hpre y (List.mem_cons_of_mem _ hy)) t

/-- The size of a layer of no known kind: `getNodeBackwardConnectionCount` stops the
program. -/
theorem getLayerSize_empty (abi : Abi) (defs : List LayerDefinition) (i : Int)
    (d : LayerDefinition) (hd : defAt defs i = Except.ok d)
    (ht : d.layerType = LayerType.EMPTY) :
    getLayerSize abi defs i = Except.error Fault.exit1 := by
  unfold getLayerSize getColumnSize getNodeSize getNodeBackwardConnectionCount
  simp only [hd, ht, bind, Except.bind]

/-- The computation of the size of a layer that has a layer behind it and, unless it is an
input layer or of no known kind, a layer before it, reads inside the array: it returns or
it stops with `exit(1)`. -/
theorem getLayerSize_fault (abi : Abi) (defs : List LayerDefinition) (j : Int)
    (hj0 : 0 ≤ j) (hj : j + 1 < defs.length)
    (hfirst : j = 0 → ∀ d, defAt defs 0 = Except.ok d →
      d.layerType = LayerType.INPUT ∨ d.layerType = LayerType.EMPTY) :
    ∀ e, getLayerSize abi defs j = Except.error e → e = Fault.exit1 := by
  obtain ⟨d, hd⟩ : ∃ d, defAt defs j = Except.ok d := by
    have hlt : j.toNat < defs.length := by omega
    exact ⟨defs[j.toNat], defAt_ok_iff.2 ⟨hj0, List.getElem?_eq_getElem hlt⟩⟩
  obtain ⟨dn, hdn⟩ : ∃ d, defAt defs (j + 1) = Except.ok d := by
    have hlt : (j + 1).toNat < defs.length := by omega
    exact ⟨defs[(j + 1).toNat], defAt_ok_iff.2 ⟨by omega, List.getElem?_eq_getElem hlt⟩⟩
  have hprev : d.layerType ≠ LayerType.INPUT → d.layerType ≠ LayerType.EMPTY →
      ∃ dp, defAt defs (j - 1) = Except.ok dp := by
    intro h1 h2
    by_cases hj1 : j = 0
    · subst hj1
      rcases hfirst rfl d hd with h | h
      · exact absurd h h1
      · exact absurd h h2
    · have hlt : (j - 1).toNat < defs.length := by omega
      exact ⟨defs[(j - 1).toNat], defAt_ok_iff.2 ⟨by omega, List.getElem?_eq_getElem hlt⟩⟩
  intro e he
  unfold getLayerSize getColumnSize getNodeSize getNodeBackwardConnectionCount
    getNodeForwardConnectionCount at he
  cases ht : d.layerType with
  | EMPTY =>
    simp [hd, ht, bind, Except.bind, throw, throwThe, MonadExceptOf.throw] at he
    exact he.symm
  | INPUT =>
    simp [hd, ht, bind, Except.bind, pure, Except.pure] at he
  | CONVOLUTIONAL =>
    obtain ⟨dp, hdp⟩ := hprev (by rw [ht]; simp) (by rw [ht]; simp)
    cases htn : dn.layerType <;>
      simp [hd, hdn, hdp, ht, htn, bind, Except.bind, pure, Except.pure, throw, throwThe,
        MonadExceptOf.throw] at he <;> exact he.symm
  | FULLY_CONNECTED =>
    obtain ⟨dp, hdp⟩ := hprev (by rw [ht]; simp) (by rw [ht]; simp)
    cases htn : dn.layerType <;>
      simp [hd, hdn, hdp, ht, htn, bind, Except.bind, pure, Except.pure, throw, throwThe,
        MonadExceptOf.throw] at he <;> exact he.symm
  | OUTPUT =>
    obtain ⟨dp, hdp⟩ := hprev (by rw [ht]; simp) (by rw [ht]; simp)
    simp [hd, hdp, ht, bind, Except.bind, pure, Except.pure] at he

/-- **C26.** When one of the `layerCount` layer definitions has no known kind,
`getNetworkSize` does not return, and `createNetwork` stops with the fault of
`getNetworkSize`, whatever the memory is that `malloc` would return: no step behind the
computation of the size is reached. When the array holds `layerCount` definitions and the
first one is an input layer or of no known kind, so that no definition before the array is
read, the fault is `exit(1)`. -/
theorem createNetwork_unknown_kind (abi : Abi) (defs : List LayerDefinition)
    (layerCount i : Int) (d : LayerDefinition) (hi0 : 0 ≤ i) (hi : i < layerCount)
    (hd : defAt defs i = Except.ok d) (ht : d.layerType = LayerType.EMPTY) :
    (∃ e, getNetworkSize abi layerCount defs = Except.error e ∧
      ∀ mem : Network R, createNetworkStructure abi mem layerCount defs = Except.error e) ∧
    (layerCount ≤ defs.length →
      (∀ d0, defAt defs 0 = Except.ok d0 →
        d0.layerType = LayerType.INPUT ∨ d0.layerType = LayerType.EMPTY) →
      getNetworkSize abi layerCount defs = Except.error Fault.exit1 ∧
      ∀ mem : Network R,
        createNetworkStructure abi mem layerCount defs = Except.error Fault.exit1) := by
  have hmem : i ∈ forRange layerCount := mem_forRange.2 ⟨hi0, hi⟩
  have hstep : ∀ t : Int, (do pure (t + (← getLayerSize abi defs i)) : Except Fault Int)
      = Except.error Fault.exit1 := by
    intro t
    rw [getLayerSize_empty abi defs i d hd ht]
    rfl
  have hcreate : ∀ e, getNetworkSize abi layerCount defs = Except.error e →
      ∀ mem : Network R, createNetworkStructure abi mem layerCount defs = Except.error e := by
    intro e he mem
    unfold createNetworkStructure
    rw [he]
    rfl
  constructor
  · obtain ⟨e, he⟩ := foldlM_error_of_mem
      (fun size i => (do pure (size + (← getLayerSize abi defs i)) : Except Fault Int))
      (forRange layerCount) i hmem (fun t => ⟨_, hstep t⟩) abi.sizeofNetwork
    have hsize : getNetworkSize abi layerCount defs = Except.error e := by
      unfold getNetworkSize
      rw [he]
      rfl
    exact ⟨e, hsize, hcreate e hsize⟩
  · intro hlen hfirst
    obtain ⟨pre, post, hsplit⟩ := List.append_of_mem hmem
    obtain ⟨hpre, -, -⟩ := forRange_split hsplit
    have he := foldlM_error_at
      (fun size i => (do pure (size + (← getLayerSize abi defs i)) : Except Fault Int))
      pre post i Fault.exit1
      (by
        intro x hx t e hxe
        rw [hpre] at hx
        have hx' := mem_forRange.1 hx
        dsimp only at hxe
        cases hL : getLayerSize abi defs x with
        | ok v =>
          rw [hL] at hxe
          simp [bind, Except.bind, pure, Except.pure] at hxe
        | error e' =>
          rw [hL] at hxe
          simp only [bind, Except.bind] at hxe
          injection hxe with hxe
          rw [← hxe]
          exact getLayerSize_fault abi defs x hx'.1 (by omega)
            (fun h0 => by subst h0; exact hfirst) e' hL)
      hstep abi.sizeofNetwork
    have hsize : getNetworkSize abi layerCount defs = Except.error Fault.exit1 := by
      unfold getNetworkSize
      rw [hsplit, he]
      rfl
    exact ⟨hsize, hcreate _ hsize⟩

/-- C26 at an array with a layer of no known kind between an input and an output layer. -/
theorem createNetwork_unknown_kind_witness :
    getNetworkSize lp64 3 emptyKindDefs = Except.error Fault.exit1 ∧
      ∀ mem : Network ℚ,
        createNetworkStructure lp64 mem 3 emptyKindDefs = Except.error Fault.exit1 :=
  (createNetwork_unknown_kind lp64 emptyKindDefs 3 1 ⟨.EMPTY, .SIGMOID, ⟨2, 1, 1⟩, 0⟩
    (by decide) (by decide) rfl rfl).2 (by decide)
    (fun d0 h0 => Or.inl (by cases h0; rfl))

end UnknownKind

/-! ## A forward pass over an input of zeros -/

section ZeroInput

variable {R : Type} [LinearOrderedField R]

/-- After `feedInput` the node at level 0 of the column `i` of the input layer holds the
value `i` of the vector. -/
theorem feedInput_outputs (nn nn1 : Network R) (v : Vector R)
    (h : feedInput nn v = Except.ok nn1) :
    ∀ i, 0 ≤ i → i < v.count →
      v.vals[i.toNat]? = some (nn1.nodes (getNetworkNode 0 i 0)).output := by
  unfold feedInput at h
  simp only at h
  by_cases hc : v.count ≠ (nn.layers 0).columnCount
  · rw [if_pos hc] at h
    exact absurd h (by simp [throw, throwThe, MonadExceptOf.throw])
  · rw [if_neg hc] at h
    have key := foldlM_establish _ _ (forRange_nodup v.count) (fun _ => True)
      (fun i (t : Network R) => v.vals[i.toNat]? = some (t.nodes (getNetworkNode 0 i 0)).output)
      nn nn1 trivial (fun _ _ _ _ _ _ => trivial)
      (by
        intro a t t' _ _ hstep
        cases hx : v.vals[a.toNat]? with
        | none =>
          rw [hx] at hstep
          exact absurd hstep (by simp [throw, throwThe, MonadExceptOf.throw])
        | some x =>
          rw [hx] at hstep
          simp only [pure, Except.pure, Except.ok.injEq] at hstep
          rw [← hstep, setNode_nodes_same])
      (by
        intro a b t t' _ _ hne _ hP hstep
        cases hx : v.vals[b.toNat]? with
        | none =>
          rw [hx] at hstep
          exact absurd hstep (by simp [throw, throwThe, MonadExceptOf.throw])
        | some x =>
          rw [hx] at hstep
          simp only [pure, Except.pure, Except.ok.injEq] at hstep
          rw [← hstep, setNode_nodes_ne _ _ (by
            intro e
            apply hne
            simpa [getNetworkNode] using e)]
          exact hP)
      h
    intro i hi0 hi
    exact key.2 i (mem_forRange.2 ⟨hi0, hi⟩)

/-- The forward pass leaves the outputs of the input layer as they are. -/
theorem feedForwardNetwork_input (m : Libm R) (nn : Network R)
    (hwired : ∀ (l' : Nat) (c' n' i : Int) (t : NodeRef), 0 < l' → (l' : Int) < nn.layerCount →
      0 ≤ c' → c' < (nn.layers l').columnCount → 0 ≤ n' → n' < (nn.columns l' 0).nodeCount →
      0 ≤ i → i < (nn.nodes (getNetworkNode l' c' n')).backwardConnCount →
      ((nn.nodes (getNetworkNode l' c' n')).connections i).nodePtr = some t → t.layer < l')
    (r : NodeRef) (hr : r.layer = 0) :
    ((feedForwardNetwork m nn).nodes r).output = (nn.nodes r).output := by
  unfold feedForwardNetwork
  refine (foldl_inv _
    (fun t => SameUpToOutputs nn t ∧ (t.nodes r).output = (nn.nodes r).output)
    (forwardLayerIds nn.layerCount) nn ⟨SameUpToOutputs.refl_outputs nn, rfl⟩ ?_).2
  intro a t ha hQ
  have ha' := mem_forwardLayerIds.1 ha
  have hw := (wired_congr hQ.1.wiring).1 hwired
  obtain ⟨h1, h2, -⟩ := calcNetworkLayer_spec m t a.toNat
    (by
      intro c n i x hc0 hc hn0 hn hi0 hi hx
      have := hw a.toNat c n i x (by omega)
        (by rw [hQ.1.wiring.layerCount]; omega) hc0 hc hn0 hn hi0 hi hx
      omega)
  refine ⟨hQ.1.trans_outputs h1, ?_⟩
  simp only [getNetworkLayer]
  rw [h2 r (by omega)]
  exact hQ.2

/-- The classification depends on the number of the layers, on the number of the columns
of the last layer and on the outputs of the nodes at level 0 of its columns only. -/
theorem getNetworkClassification_congr (a b : Network R)
    (hcc : (a.layers (a.layerCount - 1).toNat).columnCount
      = (b.layers (b.layerCount - 1).toNat).columnCount)
    (hout : ∀ i, 0 ≤ i → i < (a.layers (a.layerCount - 1).toNat).columnCount →
      (a.nodes (getNetworkNode (a.layerCount - 1).toNat i 0)).output
        = (b.nodes (getNetworkNode (b.layerCount - 1).toNat i 0)).output) :
    getNetworkClassification a = getNetworkClassification b := by
  unfold getNetworkClassification
  simp only [getNetworkLayer]
  rw [← hcc]
  congr 1
  apply List.foldl_ext
  intro acc i hi
  have hi' := mem_forRange.1 hi
  rw [hout i hi'.1 hi'.2]

end ZeroInput

section ZeroInput2

variable {R : Type} [LinearOrderedField R]

/-- A network of an input layer with one level and an output layer with the activation
`NONE`, fed with zeros: after the forward pass every output node holds its bias. -/
theorem zeroFed_outputs (m : Libm R) (abi : Abi) (d0 d1 : LayerDefinition)
    (nn : Network R) (v : Vector R) (hnet : TwoLayerIdentity abi d0 d1 nn)
    (hcount : v.count = getColumnCount d0) (hlen : v.count ≤ (v.vals.length : Int))
    (hzero : ∀ x ∈ v.vals, x = 0) :
    ∃ nn1, feedInput nn v = Except.ok nn1 ∧
      (feedForwardNetwork m nn1).layerCount = 2 ∧
      ((feedForwardNetwork m nn1).layers 1).columnCount = getColumnCount d1 ∧
      ∀ c n, 0 ≤ c → c < getColumnCount d1 → 0 ≤ n → n < d1.nodeMap.depth →
        ((feedForwardNetwork m nn1).nodes (getNetworkNode 1 c n)).output
          = (nn.nodes (getNetworkNode 1 c n)).bias := by
  obtain ⟨nn0, nnB, hdefs, hcnt, hinit, hsw⟩ := hnet.built
  obtain ⟨⟨hlc, hld, -⟩, hL, -, -⟩ := initNetwork_spec abi [d0, d1] nn0 nnB 2 hdefs hcnt hinit
  have hd0 : defAt [d0, d1] 0 = Except.ok d0 := rfl
  have hd1 : defAt [d0, d1] 1 = Except.ok d1 := rfl
  have hb0 := (hL 0 (by norm_num) (by norm_num)).2
  have hb1 := (hL 1 (by norm_num) (by norm_num)).2
  obtain ⟨hw0, hh0, -⟩ := hnet.positive.at (by norm_num : (0 : Int) < 2) hd0
  obtain ⟨hw1, hh1, hdp1⟩ := hnet.positive.at (by norm_num : (1 : Int) < 2) hd1
  have hcc0pos : 0 < getColumnCount d0 := mul_pos hw0 hh0
  have hcc1pos : 0 < getColumnCount d1 := mul_pos hw1 hh1
  have hcc0 : (nnB.layers 0).columnCount = getColumnCount d0 := hb0.columnCount d0 hd0
  have hcc1 : (nnB.layers 1).columnCount = getColumnCount d1 := hb1.columnCount d1 hd1
  have hnc1 : (nnB.columns 1 0).nodeCount = d1.nodeMap.depth :=
    hb1.nodeCount d1 0 hd1 (le_refl _) hcc1pos
  have hdef1 : nnB.layerDefOf 1 = d1 := layerDefOf_eq hld hb1.layerDef hd1
  -- the backward connections of the output nodes
  have hconn : ∀ c n, 0 ≤ c → c < getColumnCount d1 → 0 ≤ n → n < d1.nodeMap.depth →
      (nnB.nodes (getNetworkNode 1 c n)).backwardConnCount = getColumnCount d0 ∧
      ∀ i, 0 ≤ i → i < getColumnCount d0 →
        ((nnB.nodes (getNetworkNode 1 c n)).connections i).nodePtr
          = some (getNetworkNode 0 i 0) := by
    intro c n hc0 hc hn0 hn
    have hnb := hb1.nodes d1 c n hd1 hc0 hc hn0 hn
    have hbc := hnb.backwardConnCount
    rw [getNodeBackwardConnectionCount_fc hd1 (show defAt [d0, d1] (1 - 1) = Except.ok d0
      from rfl) (Or.inr hnet.output)] at hbc
    injection hbc with hbc
    have hnode : getLayerNodeCount d0 = getColumnCount d0 := by
      rw [show getLayerNodeCount d0 = getColumnCount d0 * d0.nodeMap.depth from rfl,
        hnet.inputDepth, mul_one]
    refine ⟨?_, ?_⟩
    · exact hbc.symm.trans hnode
    · intro i hi0 hi
      have := hnb.fc d1 d0 hd1 rfl (Or.inr hnet.output) (by rw [hnet.inputDepth]; norm_num)
        i hi0 (by rw [hnet.inputDepth, mul_one]; exact hi)
      have e : (nnB.nodes (getNetworkNode 1 c n)).connections i
          = (nnB.nodes ⟨(1 : Int).toNat, c, n⟩).connections i := rfl
      rw [e, this, hnet.inputDepth]
      simp [getNetworkNode]
  have hwiredB : ∀ (l' : Nat) (c' n' i : Int) (t : NodeRef), 0 < l' →
      (l' : Int) < nnB.layerCount →
      0 ≤ c' → c' < (nnB.layers l').columnCount → 0 ≤ n' →
      n' < (nnB.columns l' 0).nodeCount →
      0 ≤ i → i < (nnB.nodes (getNetworkNode l' c' n')).backwardConnCount →
      ((nnB.nodes (getNetworkNode l' c' n')).connections i).nodePtr = some t →
      t.layer < l' := by
    intro l' c' n' i t hl0 hl hc0 hc hn0 hn hi0 hi ht
    rw [hlc] at hl
    obtain rfl : l' = 1 := by omega
    rw [hcc1] at hc
    rw [hnc1] at hn
    obtain ⟨h1, h2⟩ := hconn c' n' hc0 hc hn0 hn
    rw [h1] at hi
    rw [h2 i hi0 hi] at ht
    simp only [Option.some.injEq] at ht
    rw [← ht]
    simp [getNetworkNode]
  -- feedInput
  obtain ⟨nn1, hfeed, hS1⟩ := feedInput_spec nn v
    (by rw [hsw.layers, hcc0]; exact hcount) hlen
  have hfed := feedInput_outputs nn nn1 v hfeed
  have hw1' : SameWiring nnB nn1 := hsw.trans hS1.wiring
  have hwired1 := (wired_congr hw1').1 hwiredB
  -- feedForwardNetwork
  obtain ⟨hS2, hfix⟩ := feedForwardNetwork_spec m nn1 hwired1
  have hw2 : SameWiring nnB (feedForwardNetwork m nn1) := hw1'.trans hS2.wiring
  refine ⟨nn1, hfeed, hw2.layerCount.trans hlc, ?_, ?_⟩
  · rw [hw2.layers, hcc1]
  · intro c n hc0 hc hn0 hn
    have hk1 : c < (nn1.layers 1).columnCount := by rw [hw1'.layers, hcc1]; exact hc
    have hk2 : n < (nn1.columns 1 0).nodeCount := by rw [hw1'.columns, hnc1]; exact hn
    have h2 := hfix 1
      (mem_forwardLayerIds.2 ⟨by norm_num, by rw [hw1'.layerCount, hlc]; norm_num⟩)
      c n hc0 hk1 hn0 hk2
    have hact : (nn1.layerDefOf (1 : Int).toNat).activationType = ActFctType.NONE := by
      have e : nn1.layerDefOf (1 : Int).toNat = nn1.layerDefOf 1 := rfl
      rw [e, hw1'.layerDefOf 1, hdef1]
      exact hnet.identity
    rw [hact] at h2
    have h3 : ((feedForwardNetwork m nn1).nodes (getNetworkNode 1 c n)).output
        = weightedInput (feedForwardNetwork m nn1) (getNetworkNode 1 c n) := h2
    rw [h3]
    obtain ⟨hbc, hptr⟩ := hconn c n hc0 hc hn0 hn
    have hbias : ((feedForwardNetwork m nn1).nodes (getNetworkNode 1 c n)).bias
        = (nn.nodes (getNetworkNode 1 c n)).bias :=
      (hS2.bias _).trans (hS1.bias _)
    unfold weightedInput
    rw [hw2.backwardConnCount, hbc, hbias]
    refine foldl_inv _ (fun acc => acc = (nn.nodes (getNetworkNode 1 c n)).bias) _ _ rfl ?_
    intro i acc hi hacc
    have hi' := mem_forRange.1 hi
    rw [hw2.connections, hptr i hi'.1 hi'.2]
    simp only
    have hout : ((feedForwardNetwork m nn1).nodes (getNetworkNode 0 i 0)).output = 0 := by
      rw [feedForwardNetwork_input m nn1 hwired1 _ rfl]
      have hv := hfed i hi'.1 (by rw [hcount]; exact hi'.2)
      exact hzero _ (List.getElem?_mem hv)
    rw [hout, zero_mul, add_zero]
    exact hacc

end ZeroInput2

section ZeroInput3

variable {R : Type} [LinearOrderedField R]

/-- **C28.** Two networks of two layers each, an input layer with one level and an output
layer with the activation `NONE`, in states with arbitrary weights and biases, are fed
with vectors of zeros and run forward. In each of them every output node then holds its
bias; and when the output layers have the same number of columns and the nodes at level 0
of their columns have the same biases, `getNetworkClassification` returns the same index
for both, whatever their weights and their input layers are. -/
theorem zero_input_classification (m m' : Libm R) (abi abi' : Abi)
    (d0 d1 e0 e1 : LayerDefinition) (nn nn' : Network R) (v v' : Vector R)
    (hnet : TwoLayerIdentity abi d0 d1 nn) (hcount : v.count = getColumnCount d0)
    (hlen : v.count ≤ (v.vals.length : Int)) (hzero : ∀ x ∈ v.vals, x = 0)
    (hnet' : TwoLayerIdentity abi' e0 e1 nn') (hcount' : v'.count = getColumnCount e0)
    (hlen' : v'.count ≤ (v'.vals.length : Int)) (hzero' : ∀ x ∈ v'.vals, x = 0)
    (hcols : getColumnCount e1 = getColumnCount d1)
    (hbias : ∀ c, 0 ≤ c → c < getColumnCount d1 →
      (nn'.nodes (getNetworkNode 1 c 0)).bias = (nn.nodes (getNetworkNode 1 c 0)).bias) :
    ∃ nn1 nn1', feedInput nn v = Except.ok nn1 ∧ feedInput nn' v' = Except.ok nn1' ∧
      (∀ c n, 0 ≤ c → c < getColumnCount d1 → 0 ≤ n → n < d1.nodeMap.depth →
        ((feedForwardNetwork m nn1).nodes (getNetworkNode 1 c n)).output
          = (nn.nodes (getNetworkNode 1 c n)).bias) ∧
      (∀ c n, 0 ≤ c → c < getColumnCount e1 → 0 ≤ n → n < e1.nodeMap.depth →
        ((feedForwardNetwork m' nn1').nodes (getNetworkNode 1 c n)).output
          = (nn'.nodes (getNetworkNode 1 c n)).bias) ∧
      getNetworkClassification (feedForwardNetwork m nn1)
        = getNetworkClassification (feedForwardNetwork m' nn1') := by
  obtain ⟨nn1, hfeed, hlc, hcc, hout⟩ := zeroFed_outputs m abi d0 d1 nn v hnet hcount hlen hzero
  obtain ⟨nn1', hfeed', hlc', hcc', hout'⟩ :=
    zeroFed_outputs m' abi' e0 e1 nn' v' hnet' hcount' hlen' hzero'
  refine ⟨nn1, nn1', hfeed, hfeed', hout, hout', ?_⟩
  have hd1 : 0 < d1.nodeMap.depth :=
    (hnet.positive.at (by norm_num : (1 : Int) < 2) (show defAt [d0, d1] 1 = Except.ok d1
      from rfl)).2.2
  have he1 : 0 < e1.nodeMap.depth :=
    (hnet'.positive.at (by norm_num : (1 : Int) < 2) (show defAt [e0, e1] 1 = Except.ok e1
      from rfl)).2.2
  have e : ((2 : Int) - 1).toNat = 1 := rfl
  apply getNetworkClassification_congr
  · rw [hlc, hlc', e, hcc, hcc', hcols]
  · intro i hi0 hi
    rw [hlc, e, hcc] at hi
    rw [hlc, hlc', e, hout i 0 hi0 hi (le_refl _) hd1,
      hout' i 0 hi0 (by rw [hcols]; exact hi) (le_refl _) he1, hbias i hi0 hi]

theorem identityNet_built :
    initNetwork lp64 identityNet0 2 identityDefs = Except.ok identityNet :=
  builtOr_eq (by decide!)

theorem identityNet_twoLayer : TwoLayerIdentity lp64 identityInput identityOutput identityNet :=
  ⟨rfl, rfl, rfl, rfl, by decide,
    ⟨identityNet0, identityNet, rfl, rfl, identityNet_built, SameWiring.refl identityNet⟩⟩

/-- Replacing all the weights leaves the wiring as it is. -/
theorem SameWiring.setWeights (nn : Network R) (w : Int → R) :
    SameWiring nn { nn with weights := w } :=
  ⟨rfl, rfl, rfl, rfl, rfl, rfl, rfl, rfl, fun _ => rfl, fun _ => rfl, fun _ => rfl,
    fun _ => rfl⟩

theorem heavyNet_twoLayer : TwoLayerIdentity lp64 identityInput identityOutput heavyNet :=
  ⟨rfl, rfl, rfl, rfl, by decide,
    ⟨identityNet0, identityNet, rfl, rfl, identityNet_built,
      SameWiring.setWeights identityNet (fun _ => 5)⟩⟩

/-- C28 at the network `identityNet` and the same network with other weights. -/
theorem zero_input_classification_witness :
    ∃ nn1 nn1', feedInput identityNet ⟨2, [0, 0]⟩ = Except.ok nn1 ∧
      feedInput heavyNet ⟨2, [0, 0]⟩ = Except.ok nn1' ∧
      (∀ c n, 0 ≤ c → c < getColumnCount identityOutput → 0 ≤ n →
        n < identityOutput.nodeMap.depth →
        ((feedForwardNetwork libmQ nn1).nodes (getNetworkNode 1 c n)).output
          = (identityNet.nodes (getNetworkNode 1 c n)).bias) ∧
      (∀ c n, 0 ≤ c → c < getColumnCount identityOutput → 0 ≤ n →
        n < identityOutput.nodeMap.depth →
        ((feedForwardNetwork libmQ nn1').nodes (getNetworkNode 1 c n)).output
          = (heavyNet.nodes (getNetworkNode 1 c n)).bias) ∧
      getNetworkClassification (feedForwardNetwork libmQ nn1)
        = getNetworkClassification (feedForwardNetwork libmQ nn1') :=
  zero_input_classification libmQ libmQ lp64 lp64 identityInput identityOutput
    identityInput identityOutput identityNet heavyNet ⟨2, [0, 0]⟩ ⟨2, [0, 0]⟩
    identityNet_twoLayer rfl (by decide) (by simp)
    heavyNet_twoLayer rfl (by decide) (by simp) rfl (fun _ _ _ => rfl)

end ZeroInput3

/-! ## The self-checks of the construction -/

section SelfChecks

variable {R : Type} [LinearOrderedField R]

/-- Two loops return the same when their steps agree on the states that satisfy an
invariant of the first loop. -/
theorem foldlM_congr_inv {σ α ε : Type} (f g : σ → α → Except ε σ) (l : List α)
    (Q : σ → Prop) (s : σ) (hQ0 : Q s)
    (hfg : ∀ a t, a ∈ l → Q t → f t a = g t a)
    (hQ : ∀ a t t', a ∈ l → Q t → f t a = Except.ok t' → Q t') :
    l.foldlM f s = l.foldlM g s := by
  induction l generalizing s with
  | nil => rfl
  | cons x l ih =>
    rw [List.foldlM_cons, List.foldlM_cons, ← hfg x s (List.mem_cons_self _ _) hQ0]
    cases hx : f s x with
    | error e => rfl
    | ok t =>
      simp only [bind, Except.bind]
      exact ih t (hQ x s t (List.mem_cons_self _ _) hQ0 hx)
        (fun a u ha hu => hfg a u (List.mem_cons_of_mem _ ha) hu)
        (fun a u u' ha hu hf => hQ a u u' (List.mem_cons_of_mem _ ha) hu hf)

/-- Two counting loops return the same when their steps agree on the states that satisfy
an invariant of the counter and the state of the first loop. -/
theorem forRange_foldlM_congr {σ ε : Type} (f g : σ → Int → Except ε σ) (n : Int)
    (Inv : Int → σ → Prop) (s : σ) (h0 : Inv 0 s)
    (hfg : ∀ a t, 0 ≤ a → a < n → Inv a t → f t a = g t a)
    (hstep : ∀ a t t', 0 ≤ a → a < n → Inv a t → f t a = Except.ok t' → Inv (a + 1) t') :
    (forRange n).foldlM f s = (forRange n).foldlM g s := by
  have key : ∀ (post pre : List Int) (t : σ), forRange n = pre ++ post →
      Inv (pre.length : Int) t → post.foldlM f t = post.foldlM g t := by
    intro post
    induction post with
    | nil => intro pre t _ _; rfl
    | cons a post ih =>
      intro pre t hl hI
      have hlen := forRange_split_length hl
      obtain ⟨-, ha0, ha⟩ := forRange_split hl
      rw [hlen] at hI
      rw [List.foldlM_cons, List.foldlM_cons, ← hfg a t ha0 ha hI]
      cases hx : f t a with
      | error e => rfl
      | ok t' =>
        simp only [bind, Except.bind]
        refine ih (pre ++ [a]) t' (by rw [hl]; simp) ?_
        have := hstep a t t' ha0 ha hI hx
        simp only [List.length_append, List.length_cons, List.length_nil]
        have e : ((pre.length + (0 + 1) : Nat) : Int) = a + 1 := by omega
        rw [e]
        exact this
  exact key (forRange n) [] s rfl (by simpa using h0)

/-- The body of the loop of `initNetworkNodes` writes to its node only. -/
theorem initNetworkNode_frame (abi : Abi) (s s' : Network R) (L PL : Nat) (c n : Int)
    (v : Vector Int) (h : initNetworkNode abi s L PL c v n = Except.ok s') :
    ∃ nd, s' = s.setNode (getNetworkNode L c n) nd := by
  unfold initNetworkNode at h
  obtain ⟨s1, h1, h⟩ := bind_eq_ok.1 h
  obtain ⟨sz, b, f, g, -, -, -, hs1⟩ := setNetworkNodeDefaults_spec abi s s1 _ _ _ h1
  obtain ⟨s2, h2, h⟩ := bind_eq_ok.1 h
  generalize getNetworkNode L c n = A at *
  have hs2 : ∃ nd, s2 = s.setNode A nd := by
    by_cases hfc : (s1.layerDefOf L).layerType = LayerType.FULLY_CONNECTED
        ∨ (s1.layerDefOf L).layerType = LayerType.OUTPUT
    · rw [if_pos hfc] at h2
      obtain ⟨b2, -, h2⟩ := bind_eq_ok.1 h2
      simp only [pure, Except.pure, Except.ok.injEq] at h2
      obtain ⟨g', hg'⟩ := initNetworkBackwardConnectionsFCNode_frame s1 A PL
        ((s1.layers L).weightsPtr + (c * (s1.columns L c).nodeCount + n) * b2)
      rw [hg', hs1, setNode_setConnections] at h2
      exact ⟨_, h2.symm⟩
    · rw [if_neg hfc] at h2
      simp only [pure, Except.pure, Except.ok.injEq] at h2
      exact ⟨_, h2.symm.trans hs1⟩
  obtain ⟨nd, hnd⟩ := hs2
  by_cases hconv : (s2.layerDefOf L).layerType = LayerType.CONVOLUTIONAL
  · rw [if_pos hconv] at h
    obtain ⟨g', hg', -⟩ := initNetworkBackwardConnectionsConvNode_spec s2 s' A n _ PL v h
    rw [hg', hnd, setNode_setConnections]
    exact ⟨_, rfl⟩
  · rw [if_neg hconv] at h
    simp only [pure, Except.pure, Except.ok.injEq] at h
    exact ⟨nd, h.symm.trans hnd⟩

/-- The function `initNetworkNodes` writes to nodes only. -/
theorem initNetworkNodes_frame (abi : Abi) (s s' : Network R) (l c : Int)
    (h : initNetworkNodes abi s l c = Except.ok s') :
    SameTop s s' ∧ s'.layers = s.layers ∧ s'.columns = s.columns := by
  unfold initNetworkNodes at h
  obtain ⟨_, -, h⟩ := bind_eq_ok.1 h
  obtain ⟨v, -, h⟩ := bind_eq_ok.1 h
  refine foldlM_inv _ (fun t => SameTop s t ∧ t.layers = s.layers ∧ t.columns = s.columns)
    _ s s' ⟨SameTop.refl_top s, rfl, rfl⟩ ?_ h
  intro n t t' _ hQ hstep
  obtain ⟨nd, hnd⟩ := initNetworkNode_frame abi t t' _ _ c n v hstep
  rw [hnd]
  exact ⟨hQ.1.trans_top (SameTop.setNode_top t _ nd), hQ.2.1, hQ.2.2⟩

/-- The test of the column pointer in `initNetworkColumns` never fails: the function is
the function without the test. -/
theorem initNetworkColumns_unchecked (abi : Abi) (nn : Network R) (l : Int) :
    initNetworkColumns abi nn l = initNetworkColumnsUnchecked abi nn l := by
  unfold initNetworkColumns initNetworkColumnsUnchecked
  simp only [getNetworkLayer]
  cases hb : getNodeBackwardConnectionCount nn.layerDefs (nn.layers l.toNat).layerDef with
  | error e => rfl
  | ok b =>
    cases hf : getNodeForwardConnectionCount nn.layerDefs (nn.layers l.toNat).layerDef with
    | error e => rfl
    | ok f =>
      cases hcs : getColumnSize abi nn.layerDefs (nn.layers l.toNat).layerDef with
      | error e => rfl
      | ok cs =>
        simp only [bind, Except.bind]
        refine foldlM_congr_inv _ _ _
          (fun t => t.layerDefs = nn.layerDefs ∧ t.layers = nn.layers) nn ⟨rfl, rfl⟩ ?_ ?_
        · intro c t _ hQ
          have e : getColumnSize abi
              (t.setColumn l.toNat c
                { size := cs, nodeCount := (t.layerDefOf l.toNat).nodeMap.depth,
                  maxConnCountPerNode := b + f }).layerDefs
              ((t.setColumn l.toNat c
                { size := cs, nodeCount := (t.layerDefOf l.toNat).nodeMap.depth,
                  maxConnCountPerNode := b + f }).layers l.toNat).layerDef
              = Except.ok cs := by
            have e1 : (t.setColumn l.toNat c
                { size := cs, nodeCount := (t.layerDefOf l.toNat).nodeMap.depth,
                  maxConnCountPerNode := b + f }).layerDefs = t.layerDefs := rfl
            have e2 : (t.setColumn l.toNat c
                { size := cs, nodeCount := (t.layerDefOf l.toNat).nodeMap.depth,
                  maxConnCountPerNode := b + f }).layers = t.layers := rfl
            rw [e1, e2, hQ.1, hQ.2, hcs]
          simp only [e, ne_eq, not_true_eq_false, if_false]
          rfl
        · intro c t t' _ hQ hstep
          obtain ⟨tc, -, hstep⟩ := bind_eq_ok.1 hstep
          by_cases hchk : c * tc ≠ c * cs
          · simp [hchk, bind, Except.bind, throw, throwThe, MonadExceptOf.throw] at hstep
          · simp only [hchk, if_false] at hstep
            have hstep' : initNetworkNodes abi (t.setColumn l.toNat c
                { size := cs, nodeCount := (t.layerDefOf l.toNat).nodeMap.depth,
                  maxConnCountPerNode := b + f }) l c = Except.ok t' := by
              simpa [bind, Except.bind] using hstep
            obtain ⟨hT, hL, -⟩ := initNetworkNodes_frame abi _ t' l c hstep'
            exact ⟨hT.layerDefs.trans hQ.1, hL.trans hQ.2⟩

end SelfChecks

section SelfChecks2

variable {R : Type} [LinearOrderedField R]

/-- The function `initNetworkColumns` leaves the headers of the network and of the layers
as they are. -/
theorem initNetworkColumns_frame (abi : Abi) (s s' : Network R) (l : Int)
    (h : initNetworkColumns abi s l = Except.ok s') :
    SameTop s s' ∧ s'.layers = s.layers := by
  rw [initNetworkColumns_unchecked] at h
  unfold initNetworkColumnsUnchecked at h
  obtain ⟨b, -, h⟩ := bind_eq_ok.1 h
  obtain ⟨f, -, h⟩ := bind_eq_ok.1 h
  obtain ⟨cs, -, h⟩ := bind_eq_ok.1 h
  refine foldlM_inv _ (fun t => SameTop s t ∧ t.layers = s.layers) _ s s'
    ⟨SameTop.refl_top s, rfl⟩ ?_ h
  intro c t t' _ hQ hstep
  obtain ⟨hT, hL, -⟩ := initNetworkNodes_frame abi _ t' l c hstep
  exact ⟨(hQ.1.trans_top (SameTop.setColumn t _ c _)).trans_top hT, hL.trans hQ.2⟩

/-- The walk of `getNetworkLayer` over layers that hold the sizes that `getLayerSize`
gives arrives where the sum of these sizes leads. -/
theorem getNetworkLayerOffset_eq (abi : Abi) (defs : List LayerDefinition) (t : Network R)
    (l : Int)
    (hsize : ∀ j, 0 ≤ j → j < l → getLayerSize abi defs j = Except.ok (t.layers j.toNat).size) :
    (forRange l).foldlM (fun sbptr1 i => do pure (sbptr1 + (← getLayerSize abi defs i)))
      (0 : Int) = Except.ok (getNetworkLayerOffset t l) := by
  unfold getNetworkLayerOffset
  generalize (0 : Int) = a
  have key : ∀ (ls : List Int) (a : Int), (∀ j ∈ ls, 0 ≤ j ∧ j < l) →
      ls.foldlM (fun sbptr1 i => do pure (sbptr1 + (← getLayerSize abi defs i))) a
        = Except.ok (ls.foldl (fun sbptr i => sbptr + (t.layers i.toNat).size) a) := by
    intro ls
    induction ls with
    | nil => intro a _; rfl
    | cons x ls ih =>
      intro a hmem
      have hx := hmem x (List.mem_cons_self _ _)
      rw [List.foldlM_cons, List.foldl_cons, hsize x hx.1 hx.2]
      simp only [bind, Except.bind, pure, Except.pure]
      exact ih _ (fun j hj => hmem j (List.mem_cons_of_mem _ hj))
  exact key (forRange l) a (fun j hj => mem_forRange.1 hj)

/-- What `initNetworkLayer` leaves in the headers of the layers: the layer `l` holds the
size that `getLayerSize` gives for it, and the other layers are as before. -/
theorem initNetworkLayer_size (abi : Abi) (defs : List LayerDefinition) (s s' : Network R)
    (l : Int) (h : initNetworkLayer abi s l defs = Except.ok s') :
    SameTop s s' ∧ getLayerSize abi defs l = Except.ok (s'.layers l.toNat).size ∧
      (s'.layers l.toNat).layerDef = l ∧
      ∀ L', L' ≠ l.toNat → s'.layers L' = s.layers L' := by
  unfold initNetworkLayer at h
  simp only at h
  obtain ⟨sbptr1, -, h⟩ := bind_eq_ok.1 h
  obtain ⟨sbptr2, -, h⟩ := bind_eq_ok.1 h
  obtain ⟨size, hsz, h⟩ := bind_eq_ok.1 h
  obtain ⟨d, hd, h⟩ := bind_eq_ok.1 h
  by_cases hchk : getNetworkLayerOffset (s.setLayer l.toNat
      { id := l, layerDef := l, weightsPtr := sbptr2 / abi.sizeofWeight, size := size,
        columnCount := getColumnCount d }) l ≠ sbptr1
  · simp [hchk, bind, Except.bind, throw, throwThe, MonadExceptOf.throw] at h
  · simp only [hchk, if_false] at h
    have h' : initNetworkColumns abi (s.setLayer l.toNat
        { id := l, layerDef := l, weightsPtr := sbptr2 / abi.sizeofWeight, size := size,
          columnCount := getColumnCount d }) l = Except.ok s' := by
      simpa [bind, Except.bind] using h
    obtain ⟨hT, hL⟩ := initNetworkColumns_frame abi _ s' l h'
    refine ⟨(SameTop.setLayer s _ _).trans_top hT, ?_, ?_, ?_⟩
    · rw [hL, setLayer_layers, if_pos rfl]
      exact hsz
    · rw [hL, setLayer_layers, if_pos rfl]
    · intro L' hne
      rw [hL, setLayer_layers, if_neg hne]

/-- The sizes that the first loop of `initNetwork` has stored after `l` iterations. -/
theorem backwardPhase_sizes (abi : Abi) (defs : List LayerDefinition) (nn0 t : Network R)
    (l : Int)
    (h : (forRange l).foldlM (fun s i => initNetworkLayer abi s i defs) nn0 = Except.ok t) :
    SameTop nn0 t ∧ ∀ j, 0 ≤ j → j < l →
      getLayerSize abi defs j = Except.ok (t.layers j.toNat).size ∧
      (t.layers j.toNat).layerDef = j := by
  have key := forRange_foldlM_inv _ l
    (fun a u => SameTop nn0 u ∧ ∀ j, 0 ≤ j → j < a →
      getLayerSize abi defs j = Except.ok (u.layers j.toNat).size ∧
      (u.layers j.toNat).layerDef = j)
    nn0 t ⟨SameTop.refl_top nn0, by intro j h0 h1; omega⟩
    (by
      intro a u u' ha0 _ hI hstep
      obtain ⟨hT, hsz, hld, hfr⟩ := initNetworkLayer_size abi defs u u' a hstep
      refine ⟨hI.1.trans_top hT, ?_⟩
      intro j hj0 hj
      by_cases hja : j = a
      · subst hja
        exact ⟨hsz, hld⟩
      · rw [hfr j.toNat (by omega)]
        exact hI.2 j hj0 (by omega))
    h
  refine ⟨key.1, ?_⟩
  intro j hj0 hj
  exact key.2 j hj0 (by omega)

/-- In a state whose layers before `l` hold the sizes that `getLayerSize` gives, the test
of the layer pointer in `initNetworkLayer` does not fail: the function is the function
without the tests. -/
theorem initNetworkLayer_unchecked (abi : Abi) (defs : List LayerDefinition) (t : Network R)
    (l : Int)
    (hsize : ∀ j, 0 ≤ j → j < l → getLayerSize abi defs j = Except.ok (t.layers j.toNat).size) :
    initNetworkLayer abi t l defs = initNetworkLayerUnchecked abi t l defs := by
  unfold initNetworkLayer initNetworkLayerUnchecked
  simp only
  cases h1 : (forRange l).foldlM
      (fun sbptr1 i => do pure (sbptr1 + (← getLayerSize abi defs i))) (0 : Int) with
  | error e => rfl
  | ok sbptr1 =>
    cases h2 : (forRange l).foldlM
        (fun sbptr2 i => do pure (sbptr2 + (← weightBlockStep abi defs i)))
        (0 : Int) with
    | error e => rfl
    | ok sbptr2 =>
      cases h3 : getLayerSize abi defs l with
      | error e => rfl
      | ok size =>
        cases h4 : defAt defs l with
        | error e => rfl
        | ok d =>
          simp only [bind, Except.bind]
          have hoff := getNetworkLayerOffset_eq abi defs (t.setLayer l.toNat
            { id := l, layerDef := l, weightsPtr := sbptr2 / abi.sizeofWeight, size := size,
              columnCount := getColumnCount d }) l
            (by
              intro j hj0 hj
              rw [setLayer_layers, if_neg (by omega)]
              exact hsize j hj0 hj)
          rw [h1] at hoff
          injection hoff with hoff
          rw [if_neg (by rw [← hoff]; simp)]
          exact initNetworkColumns_unchecked abi _ l

end SelfChecks2

section SelfChecks3

variable {R : Type} [LinearOrderedField R]

/-- **C30.** In every run of the first loop of `initNetwork`, from any memory whose layers
point into the array `defs`: after the iterations for the layers before `l` have returned
the state `t`, the walk of `getNetworkLayer` to a layer `i ≤ l` arrives at the sum of the
sizes that `getLayerSize` gives for the layers before `i`, and `getLayerColumn` for a
column `c` of a layer `i < l` arrives at `c` times the size that `getColumnSize` gives for
the layer. Hence the tests of the layer pointer and of the column pointer never stop the
program: the loop returns what the loop over `initNetworkLayer` without the two tests
returns, be it a state or a fault. -/
theorem initNetwork_selfchecks (abi : Abi) (defs : List LayerDefinition) (nn0 : Network R)
    (layerCount : Int) (hdefs : nn0.layerDefs = defs) :
    ((forRange layerCount).foldlM (fun s l => initNetworkLayer abi s l defs) nn0
      = (forRange layerCount).foldlM (fun s l => initNetworkLayerUnchecked abi s l defs)
          nn0) ∧
    ∀ l t,
      (forRange l).foldlM (fun s i => initNetworkLayer abi s i defs) nn0 = Except.ok t →
      (∀ i, i ≤ l →
        (forRange i).foldlM (fun sbptr1 j => do pure (sbptr1 + (← getLayerSize abi defs j)))
          (0 : Int) = Except.ok (getNetworkLayerOffset t i)) ∧
      (∀ i c, 0 ≤ i → i < l →
        ∃ cs, getColumnSize abi defs i = Except.ok cs ∧
          getLayerColumnOffset abi t i.toNat c = Except.ok (c * cs)) := by
  constructor
  · refine forRange_foldlM_congr _ _ layerCount
      (fun a t => ∀ j, 0 ≤ j → j < a →
        getLayerSize abi defs j = Except.ok (t.layers j.toNat).size) nn0
      (by intro j h0 h1; omega) ?_ ?_
    · intro a t _ _ hI
      exact initNetworkLayer_unchecked abi defs t a hI
    · intro a t t' _ _ hI hstep
      obtain ⟨-, hsz, -, hfr⟩ := initNetworkLayer_size abi defs t t' a hstep
      intro j hj0 hj
      by_cases hja : j = a
      · subst hja
        exact hsz
      · rw [hfr j.toNat (by omega)]
        exact hI j hj0 (by omega)
  · intro l t hrun
    obtain ⟨hT, hS⟩ := backwardPhase_sizes abi defs nn0 t l hrun
    constructor
    · intro i hi
      exact getNetworkLayerOffset_eq abi defs t i
        (fun j hj0 hj => (hS j hj0 (by omega)).1)
    · intro i c hi0 hi
      obtain ⟨hsz, hld⟩ := hS i hi0 hi
      unfold getLayerSize at hsz
      obtain ⟨cs, hcs, -⟩ := bind_eq_ok.1 hsz
      refine ⟨cs, hcs, ?_⟩
      unfold getLayerColumnOffset
      rw [hT.layerDefs, hdefs, hld, hcs]
      rfl

/-- C30 at the layer definitions `fcDefs`. -/
theorem initNetwork_selfchecks_witness :
    (forRange 3).foldlM (fun s l => initNetworkLayer lp64 s l fcDefs) fcNet0
      = (forRange 3).foldlM (fun s l => initNetworkLayerUnchecked lp64 s l fcDefs) fcNet0 :=
  (initNetwork_selfchecks lp64 fcDefs fcNet0 3 rfl).1

end SelfChecks3

/-! ## The position of the weight block -/

section WeightBlock

variable {R : Type} [LinearOrderedField R]

/-- What `setNetworkDefaults` stores in the header of the network when it returns. -/
theorem setNetworkDefaults_result (abi : Abi) (nn nn' : Network R) (layerCount : Int)
    (defs : List LayerDefinition) (netSize : Int)
    (h : setNetworkDefaults abi nn layerCount defs netSize = Except.ok nn') :
    ∃ B, getNetworkWeightBlockSize abi layerCount defs = Except.ok B ∧
      nn'.size = netSize ∧ nn'.weightsPtr = netSize - B ∧ nn'.layerCount = layerCount ∧
      nn'.weightCount = weightRangeStart defs layerCount ∧
      nn'.weightCount * abi.sizeofWeight = B ∧ nn'.layerDefs = nn.layerDefs := by
  unfold setNetworkDefaults at h
  obtain ⟨B, hB, h⟩ := bind_eq_ok.1 h
  obtain ⟨wc, hwc, h⟩ := bind_eq_ok.1 h
  obtain ⟨h1, -⟩ := getNetworkWeightBlockSize_eq abi defs layerCount B hB
  simp only at hwc
  rw [h1] at hwc
  injection hwc with hwc
  by_cases hchk : wc * abi.sizeofWeight ≠ B
  · simp [hchk, bind, Except.bind, throw, throwThe, MonadExceptOf.throw] at h
  · simp only [hchk, if_false, pure, Except.pure, bind, Except.bind, Except.ok.injEq] at h
    refine ⟨B, hB, ?_, ?_, ?_, ?_, ?_, ?_⟩ <;> rw [← h]
    · exact hwc.symm
    · simp only
      exact not_not.1 hchk

/-- The second loop of `initNetwork` leaves the header of the network as it is. -/
theorem forwardPhase_top (p nn : Network R) (layerCount : Int)
    (h : (forRange layerCount).foldlM (fun s l => initNetworkForwardConnections s l) p
      = Except.ok nn) : SameTop p nn := by
  refine foldlM_inv _ (fun t => SameTop p t) (forRange layerCount) p nn
    (SameTop.refl_top p) ?_ h
  intro l t t' hl hQ hstep
  have hl0 := (mem_forRange.1 hl).1
  unfold initNetworkForwardConnections at hstep
  by_cases hskip : l = 0 ∨ l = t.layerCount - 1
  · rw [if_pos hskip] at hstep
    simp only [pure, Except.pure, Except.ok.injEq] at hstep
    rw [← hstep]
    exact hQ
  · rw [if_neg hskip] at hstep
    simp only [getNetworkLayer] at hstep
    refine foldlM_inv _ (fun t => SameTop p t) _ t t' hQ ?_ hstep
    intro c u u' _ hQu hcol
    refine foldlM_inv _ (fun t => SameTop p t) _ u u' hQu ?_ hcol
    intro n v v' _ hQv hnode
    have heq := initNetworkForwardConnectionsAnyNode_eq v v' _ _
      (by simp only [getNetworkNode]; omega) hnode
    rw [heq]
    exact hQv.trans_top (SameTop.setNode_top v _ _)

/-- The sum of the sizes of the layers, added to a start value. -/
theorem layerSizes_from (abi : Abi) (defs : List LayerDefinition) (ls : List Int)
    (a b S : Int)
    (h : ls.foldlM (fun size i => do pure (size + (← getLayerSize abi defs i))) a
      = Except.ok S) :
    ls.foldlM (fun size i => do pure (size + (← getLayerSize abi defs i))) (b + a)
      = Except.ok (b + S) := by
  induction ls generalizing a with
  | nil =>
    simp only [List.foldlM_nil, pure, Except.pure, Except.ok.injEq] at h
    rw [h]
    rfl
  | cons x ls ih =>
    obtain ⟨t, h1, h2⟩ := (foldlM_cons_ok _ x ls _ S).1 h
    obtain ⟨v, hv, h1⟩ := bind_eq_ok.1 h1
    simp only [pure, Except.pure, Except.ok.injEq] at h1
    rw [List.foldlM_cons, hv]
    simp only [bind, Except.bind, pure, Except.pure]
    have := ih t h2
    rw [← h1] at this
    rw [add_assoc]
    exact this

/-- A layer for which the size of the weight block of the network can be computed has a
number of weights. -/
theorem getLayerWeightCount_ok (abi : Abi) (defs : List LayerDefinition)
    (layerCount B l : Int) (hB : getNetworkWeightBlockSize abi layerCount defs = Except.ok B)
    (hl0 : 0 ≤ l) (hl : l < layerCount) :
    getLayerWeightCount defs l = Except.ok (weightCountOf defs l) := by
  unfold getNetworkWeightBlockSize at hB
  obtain ⟨pre, post, hsplit⟩ := List.append_of_mem (mem_forRange.2 ⟨hl0, hl⟩)
  rw [hsplit] at hB
  obtain ⟨t, -, h2⟩ := (foldlM_append_ok _ pre (l :: post) _ B).1 hB
  obtain ⟨u, h3, -⟩ := (foldlM_cons_ok _ l post t B).1 h2
  obtain ⟨v, hv, -⟩ := bind_eq_ok.1 h3
  unfold getLayerWeightBlockSize at hv
  obtain ⟨w, hw, -⟩ := bind_eq_ok.1 hv
  unfold weightCountOf
  rw [hw]

end WeightBlock

section WeightBlock2

variable {R : Type} [LinearOrderedField R]

/-- **C27.** In a network `nn` that `createNetwork` has built, with a size of a weight
that is positive: the sum `layersEnd` of `sizeof(Network)` and of the sizes of all layers
is the byte offset `nn.weightsPtr` of the weight block, and it is where the walk of
`getNetworkLayer` over all layers ends; the weight block of `nn.weightCount` weights ends
at `nn.size`, which is the value of `getNetworkSize`; the weights of the layer `l` start
at the position `weightRangeStart defs l` of the block, the sum of the weight counts of the
layers before it, so that the range of each layer ends where the range of the next one
starts and the range of the last layer ends at `nn.weightCount`; and with positive
dimensions the ranges of two layers do not overlap. -/
theorem weightBlock_layout (abi : Abi) (defs : List LayerDefinition) (mem nn : Network R)
    (layerCount : Int) (hsw : 0 < abi.sizeofWeight)
    (h : createNetworkStructure abi mem layerCount defs = Except.ok nn) :
    ∃ layersEnd netSize,
      (forRange layerCount).foldlM
        (fun size i => do pure (size + (← getLayerSize abi defs i))) abi.sizeofNetwork
        = Except.ok layersEnd ∧
      getNetworkSize abi layerCount defs = Except.ok netSize ∧
      nn.weightsPtr = layersEnd ∧
      layersEnd = abi.sizeofNetwork + getNetworkLayerOffset nn layerCount ∧
      nn.size = netSize ∧
      nn.weightsPtr + nn.weightCount * abi.sizeofWeight = nn.size ∧
      nn.weightCount = weightRangeStart defs layerCount ∧
      (∀ l, 0 ≤ l → l < layerCount →
        (nn.layers l.toNat).weightsPtr = weightRangeStart defs l ∧
        getLayerWeightCount defs l = Except.ok (weightCountOf defs l) ∧
        weightRangeStart defs (l + 1) = weightRangeStart defs l + weightCountOf defs l) ∧
      (PositiveDims defs layerCount → ∀ l l', 0 ≤ l → l < l' → l' < layerCount →
        weightRangeStart defs (l + 1) ≤ weightRangeStart defs l') := by
  unfold createNetworkStructure at h
  obtain ⟨netSize, hsize, h⟩ := bind_eq_ok.1 h
  obtain ⟨nn1, hdef, hinit⟩ := bind_eq_ok.1 h
  obtain ⟨B, hB, h1, h2, h3, h4, h5, h6⟩ :=
    setNetworkDefaults_result abi _ nn1 layerCount defs netSize hdef
  have hdefs : nn1.layerDefs = defs := h6
  -- the two phases
  have hinit' := hinit
  unfold initNetwork at hinit'
  obtain ⟨p, hp1, hp2⟩ := bind_eq_ok.1 hinit'
  obtain ⟨hT1, hS⟩ := backwardPhase_sizes abi defs nn1 p layerCount hp1
  have hT2 := forwardPhase_top p nn layerCount hp2
  obtain ⟨hBS, -, -⟩ := forwardPhase_spec p nn layerCount (hT1.layerCount.trans h3) hp2
  obtain ⟨-, hL, -, -⟩ := initNetwork_spec abi defs nn1 nn layerCount hdefs h3 hinit
  -- the size of the network
  have hsize' := hsize
  unfold getNetworkSize at hsize'
  obtain ⟨layersEnd, hle, hsize'⟩ := bind_eq_ok.1 hsize'
  rw [hB] at hsize'
  simp only [bind, Except.bind, pure, Except.pure, Except.ok.injEq] at hsize'
  have hwp : nn.weightsPtr = layersEnd := by
    rw [hT2.weightsPtr, hT1.weightsPtr, h2, ← hsize']
    ring
  have hsz : nn.size = netSize := by rw [hT2.size, hT1.size, h1]
  have hwc : nn.weightCount = weightRangeStart defs layerCount := by
    rw [hT2.weightCount, hT1.weightCount, h4]
  have hoff := getNetworkLayerOffset_eq abi defs nn layerCount
    (by
      intro j hj0 hj
      rw [hBS.layers]
      exact (hS j hj0 hj).1)
  have hfrom := layerSizes_from abi defs (forRange layerCount) 0 abi.sizeofNetwork _ hoff
  rw [add_zero, hle] at hfrom
  injection hfrom with hfrom
  refine ⟨layersEnd, netSize, hle, hsize, hwp, hfrom, hsz, ?_, hwc, ?_, ?_⟩
  · rw [hwp, hsz, hT2.weightCount, hT1.weightCount, h5, ← hsize']
  · intro l hl0 hl
    obtain ⟨-, hb⟩ := hL l hl0 hl
    refine ⟨?_, getLayerWeightCount_ok abi defs layerCount B l hB hl0 hl,
      weightRangeStart_succ defs hl0⟩
    rw [hb.weightsPtr, layerWeightsPtr_eq hb hl0 hsw]
  · intro hpos l l' hl0 hll hl'
    have := weightRangeStart_mono hpos (by omega : 0 ≤ l + 1) (l' - (l + 1)).toNat
      (by omega)
    have e : l + 1 + ((l' - (l + 1)).toNat : Int) = l' := by omega
    rw [e] at this
    exact this

theorem poolNet_created :
    createNetworkStructure lp64 zeroMemory 4 poolDefs = Except.ok poolNet :=
  builtOr_eq (by decide!)

/-- C27 at the network of `poolDefs`. -/
theorem weightBlock_layout_witness :
    ∃ layersEnd netSize,
      (forRange 4).foldlM
        (fun size i => do pure (size + (← getLayerSize lp64 poolDefs i))) lp64.sizeofNetwork
        = Except.ok layersEnd ∧
      getNetworkSize lp64 4 poolDefs = Except.ok netSize ∧
      poolNet.weightsPtr = layersEnd ∧
      layersEnd = lp64.sizeofNetwork + getNetworkLayerOffset poolNet 4 ∧
      poolNet.size = netSize ∧
      poolNet.weightsPtr + poolNet.weightCount * lp64.sizeofWeight = poolNet.size ∧
      poolNet.weightCount = weightRangeStart poolDefs 4 ∧
      (∀ l, 0 ≤ l → l < (4 : Int) →
        (poolNet.layers l.toNat).weightsPtr = weightRangeStart poolDefs l ∧
        getLayerWeightCount poolDefs l = Except.ok (weightCountOf poolDefs l) ∧
        weightRangeStart poolDefs (l + 1)
          = weightRangeStart poolDefs l + weightCountOf poolDefs l) ∧
      (PositiveDims poolDefs 4 → ∀ l l', 0 ≤ l → l < l' → l' < (4 : Int) →
        weightRangeStart poolDefs (l + 1) ≤ weightRangeStart poolDefs l') :=
  weightBlock_layout lp64 poolDefs zeroMemory poolNet 4 (by decide) poolNet_created

end WeightBlock2

/-! ## The stride -/

/-- The value of `ceilQuot a b` for a positive divisor is the least integer whose product
with `b` is not less than `a`. -/
theorem ceilQuot_least {a b : Int} (hb : 0 < b) :
    a ≤ ceilQuot a b * b ∧ ∀ s, a ≤ s * b → ceilQuot a b ≤ s := by
  unfold ceilQuot
  have h1 : Int.fdiv (-a) b = (-a) / b := Int.fdiv_eq_ediv _ hb.le
  rw [h1]
  constructor
  · have h2 : (-a) / b * b ≤ -a := Int.ediv_mul_le _ hb.ne'
    have h3 : -((-a) / b) * b = -((-a) / b * b) := by ring
    rw [h3]
    omega
  · intro s hs
    have h2 : -s ≤ (-a) / b := by
      rw [Int.le_ediv_iff_mul_le hb]
      have : -s * b = -(s * b) := by ring
      rw [this]
      omega
    omega

/-- **C32.** For `srcWidth ≥ 2` and all `tgtWidth` and `filter`, among them those with
`0 ≤ filter ≤ tgtWidth`, the function `calcStride` returns the least integer `s` with
`s * (srcWidth - 1) ≥ tgtWidth - filter`, that is the ceiling of the quotient; `s ≥ 1` when
`filter < tgtWidth`; and `(srcWidth - 1) * s + filter ≥ tgtWidth`, so the last filter window
reaches the right edge of the previous layer. -/
theorem calcStride_least (tgtWidth filter srcWidth : Int) (hs : 2 ≤ srcWidth) :
    ∃ s, calcStride tgtWidth filter srcWidth = Except.ok s ∧
      tgtWidth - filter ≤ s * (srcWidth - 1) ∧
      (∀ s', tgtWidth - filter ≤ s' * (srcWidth - 1) → s ≤ s') ∧
      (filter < tgtWidth → 1 ≤ s) ∧
      tgtWidth ≤ (srcWidth - 1) * s + filter := by
  have hb : 0 < srcWidth - 1 := by omega
  obtain ⟨h1, h2⟩ := @ceilQuot_least (tgtWidth - filter) (srcWidth - 1) hb
  refine ⟨ceilQuot (tgtWidth - filter) (srcWidth - 1), ?_, h1, h2, ?_, ?_⟩
  · unfold calcStride
    rw [if_neg hb.ne']
    rfl
  · intro hlt
    have := @ceilQuot_pos (tgtWidth - filter) (srcWidth - 1) (by omega) hb
    omega
  · have h3 : (srcWidth - 1) * ceilQuot (tgtWidth - filter) (srcWidth - 1)
        = ceilQuot (tgtWidth - filter) (srcWidth - 1) * (srcWidth - 1) := by ring
    rw [h3]
    omega

/-- C32 for a previous layer of width 28, a filter of 5 and a layer of width 13: the
stride is 2. -/
theorem calcStride_least_witness :
    ∃ s, calcStride 28 5 13 = Except.ok s ∧
      (28 : Int) - 5 ≤ s * (13 - 1) ∧
      (∀ s', (28 : Int) - 5 ≤ s' * (13 - 1) → s ≤ s') ∧
      ((5 : Int) < 28 → 1 ≤ s) ∧
      (28 : Int) ≤ (13 - 1) * s + 5 :=
  calcStride_least 28 5 13 (by decide)

/-! ## Weight positions and connection slots -/

section Positions

variable {R : Type} [LinearOrderedField R]

/-- The connections that `initNetworkBackwardConnectionsConvNode` stores, in terms of
`connectionSlot` and `weightPosition`. -/
theorem initNetworkBackwardConnectionsConvNode_position (s s' : Network R) (A : NodeRef)
    (srcLevel W : Int) (TL : Nat) (v : Vector Int)
    (h : initNetworkBackwardConnectionsConvNode s A srcLevel W TL v = Except.ok s') :
    ∃ g, s' = s.setConnections A g ∧
      ∀ t p, 0 ≤ t → t < (s.layerDefOf TL).nodeMap.depth → 0 ≤ p → p < v.count →
        ∃ col, v.vals[p.toNat]? = some col ∧
          g (connectionSlot t v.count p)
            = if col ≠ OUT_OF_RANGE then
                ⟨some ⟨TL, col, t⟩,
                  WeightRef.block
                    (W + weightPosition srcLevel (s.layerDefOf TL).nodeMap.depth v.count t p)⟩
              else ⟨none, WeightRef.nullWeight⟩ :=
  initNetworkBackwardConnectionsConvNode_spec s s' A srcLevel W TL v h

end Positions

/-- Every index below `ff * pd` is the slot of one level and one position. -/
theorem connectionSlot_cover {ff pd k : Int} (hff : 0 ≤ ff) (hk0 : 0 ≤ k) (hk : k < ff * pd) :
    ∃ t p, 0 ≤ t ∧ t < pd ∧ 0 ≤ p ∧ p < ff ∧ connectionSlot t ff p = k := by
  have hff0 : 0 < ff := by
    rcases hff.lt_or_eq with h | h
    · exact h
    · rw [← h] at hk; simp at hk; omega
  refine ⟨k / ff, k % ff, Int.ediv_nonneg hk0 hff, ?_, Int.emod_nonneg _ hff0.ne',
    Int.emod_lt_of_pos _ hff0, ?_⟩
  · apply Int.ediv_lt_of_lt_mul hff0
    rw [mul_comm]
    exact hk
  · unfold connectionSlot
    rw [mul_comm]
    exact Int.ediv_add_emod k ff

/-- **C40.** Let the layer `l` be a convolutional layer with the depth `d` and the filter
`f` over a previous layer of the depth `pd`. Then `getLayerWeightCount` is `f² * d * pd`
and `getNodeBackwardConnectionCount` is `f² * pd`, and

* the weight position `srcLevel * pd * f² + tgtLevel * f² + p` of `srcLevel < d`,
  `tgtLevel < pd` and `p < f²` lies in `[0, getLayerWeightCount)`,
* two triples with the same weight position are equal,
* the connection slot `tgtLevel * f² + p` lies in `[0, backwardConnCount)`,
* two pairs with the same slot are equal, and
* every index in `[0, backwardConnCount)` is the slot of a pair. -/
theorem convolutional_weight_position (defs : List LayerDefinition) (l : Int)
    (d dp : LayerDefinition) (hd : defAt defs l = Except.ok d)
    (hdp : defAt defs (l - 1) = Except.ok dp)
    (htype : d.layerType = LayerType.CONVOLUTIONAL) :
    ∃ wc bcc, getLayerWeightCount defs l = Except.ok wc ∧
      wc = d.filter * d.filter * d.nodeMap.depth * dp.nodeMap.depth ∧
      getNodeBackwardConnectionCount defs l = Except.ok bcc ∧
      (∀ s t p, 0 ≤ s → s < d.nodeMap.depth → 0 ≤ t → t < dp.nodeMap.depth → 0 ≤ p →
        p < d.filter * d.filter →
        0 ≤ weightPosition s dp.nodeMap.depth (d.filter * d.filter) t p ∧
          weightPosition s dp.nodeMap.depth (d.filter * d.filter) t p < wc) ∧
      (∀ s t p s' t' p', 0 ≤ t → t < dp.nodeMap.depth → 0 ≤ p → p < d.filter * d.filter →
        0 ≤ t' → t' < dp.nodeMap.depth → 0 ≤ p' → p' < d.filter * d.filter →
        weightPosition s dp.nodeMap.depth (d.filter * d.filter) t p
          = weightPosition s' dp.nodeMap.depth (d.filter * d.filter) t' p' →
        s = s' ∧ t = t' ∧ p = p') ∧
      (∀ t p, 0 ≤ t → t < dp.nodeMap.depth → 0 ≤ p → p < d.filter * d.filter →
        0 ≤ connectionSlot t (d.filter * d.filter) p ∧
          connectionSlot t (d.filter * d.filter) p < bcc) ∧
      (∀ t p t' p', 0 ≤ p → p < d.filter * d.filter → 0 ≤ p' → p' < d.filter * d.filter →
        connectionSlot t (d.filter * d.filter) p = connectionSlot t' (d.filter * d.filter) p' →
        t = t' ∧ p = p') ∧
      (∀ k, 0 ≤ k → k < bcc →
        ∃ t p, 0 ≤ t ∧ t < dp.nodeMap.depth ∧ 0 ≤ p ∧ p < d.filter * d.filter ∧
          connectionSlot t (d.filter * d.filter) p = k) := by
  have hwc : getLayerWeightCount defs l
      = Except.ok (d.filter * d.filter * d.nodeMap.depth * dp.nodeMap.depth) := by
    unfold getLayerWeightCount
    simp [hd, hdp, htype, bind, Except.bind, pure, Except.pure]
  have hff : 0 ≤ d.filter * d.filter := mul_self_nonneg _
  refine ⟨_, _, hwc, rfl, getNodeBackwardConnectionCount_conv hd hdp htype, ?_, ?_, ?_, ?_, ?_⟩
  · intro s t p hs0 hs ht0 ht hp0 hp
    have h := @slot_range s d.nodeMap.depth t dp.nodeMap.depth p (d.filter * d.filter)
      hs0 hs ht0 ht hp0 hp
    have e1 : weightPosition s dp.nodeMap.depth (d.filter * d.filter) t p
        = (s * dp.nodeMap.depth + t) * (d.filter * d.filter) + p := by
      unfold weightPosition; ring
    have e2 : d.filter * d.filter * d.nodeMap.depth * dp.nodeMap.depth
        = d.nodeMap.depth * dp.nodeMap.depth * (d.filter * d.filter) := by ring
    rw [e1, e2]
    exact h
  · intro s t p s' t' p' ht0 ht hp0 hp ht0' ht' hp0' hp' h
    have e1 : ∀ s t p, weightPosition s dp.nodeMap.depth (d.filter * d.filter) t p
        = (s * dp.nodeMap.depth + t) * (d.filter * d.filter) + p := by
      intro s t p; unfold weightPosition; ring
    rw [e1, e1] at h
    obtain ⟨h1, h2⟩ := slot_inj hp0 hp hp0' hp' h
    obtain ⟨h3, h4⟩ := slot_inj ht0 ht ht0' ht' h1
    exact ⟨h3, h4, h2⟩
  · intro t p ht0 ht hp0 hp
    unfold connectionSlot
    constructor
    · have := mul_nonneg ht0 hff
      omega
    · exact conv_slot_lt ht hp hff
  · intro t p t' p' hp0 hp hp0' hp' h
    exact slot_inj hp0 hp hp0' hp' h
  · intro k hk0 hk
    exact connectionSlot_cover hff hk0 hk

/-- C40 for the convolutional layer of `convDefs`: depth 1 and filter 2 over an input
layer of depth 1. -/
theorem convolutional_weight_position_witness :
    ∃ wc bcc, getLayerWeightCount convDefs 1 = Except.ok wc ∧
      wc = convHidden.filter * convHidden.filter * convHidden.nodeMap.depth
        * convInput.nodeMap.depth ∧
      getNodeBackwardConnectionCount convDefs 1 = Except.ok bcc ∧
      (∀ s t p, 0 ≤ s → s < convHidden.nodeMap.depth → 0 ≤ t → t < convInput.nodeMap.depth →
        0 ≤ p → p < convHidden.filter * convHidden.filter →
        0 ≤ weightPosition s convInput.nodeMap.depth (convHidden.filter * convHidden.filter) t p ∧
          weightPosition s convInput.nodeMap.depth (convHidden.filter * convHidden.filter) t p
            < wc) ∧
      (∀ s t p s' t' p', 0 ≤ t → t < convInput.nodeMap.depth → 0 ≤ p →
        p < convHidden.filter * convHidden.filter →
        0 ≤ t' → t' < convInput.nodeMap.depth → 0 ≤ p' →
        p' < convHidden.filter * convHidden.filter →
        weightPosition s convInput.nodeMap.depth (convHidden.filter * convHidden.filter) t p
          = weightPosition s' convInput.nodeMap.depth (convHidden.filter * convHidden.filter)
              t' p' →
        s = s' ∧ t = t' ∧ p = p') ∧
      (∀ t p, 0 ≤ t → t < convInput.nodeMap.depth → 0 ≤ p →
        p < convHidden.filter * convHidden.filter →
        0 ≤ connectionSlot t (convHidden.filter * convHidden.filter) p ∧
          connectionSlot t (convHidden.filter * convHidden.filter) p < bcc) ∧
      (∀ t p t' p', 0 ≤ p → p < convHidden.filter * convHidden.filter → 0 ≤ p' →
        p' < convHidden.filter * convHidden.filter →
        connectionSlot t (convHidden.filter * convHidden.filter) p
          = connectionSlot t' (convHidden.filter * convHidden.filter) p' →
        t = t' ∧ p = p') ∧
      (∀ k, 0 ≤ k → k < bcc →
        ∃ t p, 0 ≤ t ∧ t < convInput.nodeMap.depth ∧ 0 ≤ p ∧
          p < convHidden.filter * convHidden.filter ∧
          connectionSlot t (convHidden.filter * convHidden.filter) p = k) :=
  convolutional_weight_position convDefs 1 convHidden convInput rfl rfl rfl

/-! ## What the passes leave unchanged -/

section Frames

variable {R : Type} [LinearOrderedField R]

/-- The number of the layers of a constructed network. -/
theorem Constructed.layerCount_eq {abi : Abi} {defs : List LayerDefinition}
    {layerCount : Int} {nn : Network R} (hc : Constructed abi defs layerCount nn) :
    nn.layerCount = layerCount := by
  obtain ⟨nn0, nnB, hdefs, hcount, h, hsame⟩ := hc
  rw [hsame.layerCount]
  exact (initNetwork_spec abi defs nn0 nnB layerCount hdefs hcount h).1.1

/-- The wiring of a constructed network with positive dimensions, in any of its states. -/
theorem Constructed.wired {abi : Abi} {defs : List LayerDefinition}
    {layerCount : Int} {nn : Network R} (hc : Constructed abi defs layerCount nn)
    (hsw : 0 < abi.sizeofWeight) (hpos : PositiveDims defs layerCount) :
    (∀ (l' : Nat) (c' n' i : Int) (t : NodeRef), 0 < l' → (l' : Int) < nn.layerCount →
      0 ≤ c' → c' < (nn.layers l').columnCount → 0 ≤ n' → n' < (nn.columns l' 0).nodeCount →
      0 ≤ i → i < (nn.nodes (getNetworkNode l' c' n')).backwardConnCount →
      ((nn.nodes (getNetworkNode l' c' n')).connections i).nodePtr = some t → t.layer < l') ∧
    (∀ (l' : Nat) (c' n' j : Int), 0 < l' → (l' : Int) < nn.layerCount - 1 →
      nn.IsNode l' c' n' → 0 ≤ j →
      j < (nn.nodes (getNetworkNode l' c' n')).forwardConnCount →
      ∃ t, ((nn.nodes (getNetworkNode l' c' n')).connections
        ((nn.nodes (getNetworkNode l' c' n')).backwardConnCount + j)).nodePtr = some t ∧
        l' < t.layer) ∧
    (∀ (l1 l2 : Nat) (c1 n1 i c2 n2 j : Int), 0 < l1 → l1 ≤ l2 →
      (l2 : Int) < nn.layerCount - 1 → nn.IsNode l1 c1 n1 → 0 ≤ i →
      i < (nn.nodes (getNetworkNode l1 c1 n1)).backwardConnCount →
      ((nn.nodes (getNetworkNode l1 c1 n1)).connections i).nodePtr ≠ none →
      nn.IsNode l2 c2 n2 → 0 ≤ j →
      j < (nn.nodes (getNetworkNode l2 c2 n2)).forwardConnCount →
      ((nn.nodes (getNetworkNode l1 c1 n1)).connections i).weightPtr
        ≠ ((nn.nodes (getNetworkNode l2 c2 n2)).connections
            ((nn.nodes (getNetworkNode l2 c2 n2)).backwardConnCount + j)).weightPtr) := by
  obtain ⟨nn0, nnB, hdefs, hcount, h, hsame⟩ := hc
  have hw := initNetwork_wired abi defs nn0 nnB layerCount hdefs hcount h hsw hpos
  have hcg := wired_congr hsame
  exact ⟨hcg.1 hw.1, hcg.2.1 hw.2.1, hcg.2.2 hw.2.2⟩

/-- The output layer of the backward pass changes no weight other than the weights that the
backward connections with a source node of the nodes of the output layer refer to. -/
theorem backPropagateOutputLayer_untouched (m : Libm R) (nn : Network R) (label : Int)
    (w : WeightRef)
    (h : ∀ c n i, nn.IsNode (getNetworkLayer nn (nn.layerCount - 1)) c n → 0 ≤ i →
      i < (nn.nodes (getNetworkNode (getNetworkLayer nn (nn.layerCount - 1)) c n)).backwardConnCount →
      ((nn.nodes (getNetworkNode (getNetworkLayer nn (nn.layerCount - 1)) c n)).connections
        i).nodePtr ≠ none →
      ((nn.nodes (getNetworkNode (getNetworkLayer nn (nn.layerCount - 1)) c n)).connections
        i).weightPtr ≠ w) :
    (backPropagateOutputLayer m nn label).readWeight w = nn.readWeight w := by
  unfold backPropagateOutputLayer
  simp only
  generalize getNetworkLayer nn (nn.layerCount - 1) = ol at h ⊢
  have hnode : ∀ (u : Network R) (o n : Int), nn.IsNode ol o n →
      (SameWiring nn u ∧ u.readWeight w = nn.readWeight w) →
      (SameWiring nn (backPropagateOutputNode m u ol label o n) ∧
        (backPropagateOutputNode m u ol label o n).readWeight w = nn.readWeight w) := by
    intro u o n hin hu
    obtain ⟨h1, -, -, -⟩ := backPropagateOutputNode_fields m u ol label o n
    refine ⟨hu.1.trans h1, ?_⟩
    unfold backPropagateOutputNode
    simp only
    rw [updateNodeWeights_readWeight_of_untouched, setNode_readWeight, hu.2]
    intro i hi0 hi hsrc
    simp only [setNode_nodes_same] at hi hsrc ⊢
    rw [hu.1.backwardConnCount] at hi
    rw [hu.1.connections] at hsrc ⊢
    exact h o n i hin hi0 hi hsrc
  refine (foldl_inv _ (fun u => SameWiring nn u ∧ u.readWeight w = nn.readWeight w) _ nn
    ⟨SameWiring.refl nn, rfl⟩ ?_).2
  intro o t ho ht
  have ho' := mem_forRange.1 ho
  apply foldl_inv _ (fun u => SameWiring nn u ∧ u.readWeight w = nn.readWeight w)
  · exact ht
  · intro n u hn hu
    have hn' := mem_forRange.1 hn
    rw [ht.1.columns] at hn'
    exact hnode u o n ⟨ho'.1, ho'.2, hn'.1, hn'.2⟩ hu

/-- The backward pass in a network in which every forward connection of a node of a hidden
layer has a target node in a higher layer and refers to a weight that no backward
connection with a source node of a node of the same or of a lower hidden layer refers to:
`backPropagateNetwork` returns; the structure and the outputs stay as they are; with more
than one layer the nodes of the first layer stay as they are; and a weight that no backward
connection with a source node of a node of the layers refers to stays as it is. -/
theorem backPropagateNetwork_returns (m : Libm R) (nn : Network R) (label : Int)
    (hfwd : ∀ (l' : Nat) (c' n' j : Int), 0 < l' → (l' : Int) < nn.layerCount - 1 →
      nn.IsNode l' c' n' → 0 ≤ j →
      j < (nn.nodes (getNetworkNode l' c' n')).forwardConnCount →
      ∃ t, ((nn.nodes (getNetworkNode l' c' n')).connections
        ((nn.nodes (getNetworkNode l' c' n')).backwardConnCount + j)).nodePtr = some t ∧
        l' < t.layer)
    (hweights : ∀ (l1 l2 : Nat) (c1 n1 i c2 n2 j : Int), 0 < l1 → l1 ≤ l2 →
      (l2 : Int) < nn.layerCount - 1 → nn.IsNode l1 c1 n1 → 0 ≤ i →
      i < (nn.nodes (getNetworkNode l1 c1 n1)).backwardConnCount →
      ((nn.nodes (getNetworkNode l1 c1 n1)).connections i).nodePtr ≠ none →
      nn.IsNode l2 c2 n2 → 0 ≤ j →
      j < (nn.nodes (getNetworkNode l2 c2 n2)).forwardConnCount →
      ((nn.nodes (getNetworkNode l1 c1 n1)).connections i).weightPtr
        ≠ ((nn.nodes (getNetworkNode l2 c2 n2)).connections
            ((nn.nodes (getNetworkNode l2 c2 n2)).backwardConnCount + j)).weightPtr) :
    ∃ nn', backPropagateNetwork m nn label = Except.ok nn' ∧
      SameWiring nn nn' ∧
      (∀ r, (nn'.nodes r).output = (nn.nodes r).output) ∧
      (1 < nn.layerCount → ∀ r, r.layer = 0 → nn'.nodes r = nn.nodes r) ∧
      (0 < nn.layerCount → ∀ w, (∀ (l : Nat) (c n i : Int), (l : Int) < nn.layerCount →
          nn.IsNode l c n → 0 ≤ i →
          i < (nn.nodes (getNetworkNode l c n)).backwardConnCount →
          ((nn.nodes (getNetworkNode l c n)).connections i).nodePtr ≠ none →
          ((nn.nodes (getNetworkNode l c n)).connections i).weightPtr ≠ w) →
        nn'.readWeight w = nn.readWeight w) := by
  obtain ⟨hs0w, hs0o, hs0n⟩ := backPropagateOutputLayer_frame m nn label
  have key := foldlM_ok_of_inv
    (fun s i => backPropagateLayer m s i)
    (backwardLayerIds nn.layerCount)
    (fun t => SameWiring nn t ∧ (∀ r, (t.nodes r).output = (nn.nodes r).output) ∧
      (1 < nn.layerCount → ∀ r, r.layer = 0 → t.nodes r = nn.nodes r) ∧
      (0 < nn.layerCount → ∀ w, (∀ (l : Nat) (c n i : Int), (l : Int) < nn.layerCount →
          nn.IsNode l c n → 0 ≤ i →
          i < (nn.nodes (getNetworkNode l c n)).backwardConnCount →
          ((nn.nodes (getNetworkNode l c n)).connections i).nodePtr ≠ none →
          ((nn.nodes (getNetworkNode l c n)).connections i).weightPtr ≠ w) →
        t.readWeight w = nn.readWeight w))
    (backPropagateOutputLayer m nn label)
    ⟨hs0w, hs0o,
      fun hlc r hr => hs0n r (by
        rw [hr]
        simp only [getNetworkLayer]
        omega),
      fun hlc w hw => backPropagateOutputLayer_untouched m nn label w
        (fun c n i hin hi0 hi hsrc => hw _ c n i
          (by simp only [getNetworkLayer]; omega) hin hi0 hi hsrc)⟩
    (by
      intro a t ha hI
      obtain ⟨hW, hO, hZ, hU⟩ := hI
      have ha' := mem_backwardLayerIds.1 ha
      have hanat : ((a.toNat : Nat) : Int) = a := by omega
      have hapos : 0 < a.toNat := by omega
      have hcg := wired_congr hW
      have hfwd' := hcg.2.1 hfwd
      have hweights' := hcg.2.2 hweights
      have hisnode : ∀ (b : Nat) (c n : Int), t.IsNode b c n ↔ nn.IsNode b c n := by
        intro b c n
        unfold Network.IsNode
        rw [hW.layers, hW.columns]
      obtain ⟨t', hrun, hinv, -⟩ := backPropagateLayer_spec m t a.toNat
        (by
          intro c n j hn hj0 hj
          obtain ⟨x, hx, hlt⟩ := hfwd' a.toNat c n j hapos
            (by rw [hW.layerCount]; omega) hn hj0 hj
          exact ⟨x, hx, by omega⟩)
        (by
          intro c n j c' n' i hn hj0 hj hn' hi0 hi hsrc
          exact hweights' a.toNat a.toNat c' n' i c n j hapos (le_refl _)
            (by rw [hW.layerCount]; omega) hn' hi0 hi hsrc hn hj0 hj)
      rw [hanat] at hrun
      refine ⟨t', hrun, hW.trans hinv.wiring, fun r => (hinv.output r).trans (hO r), ?_, ?_⟩
      · intro hlc r hr
        rw [hinv.others r (by rw [hr]; omega), hZ hlc r hr]
      · intro hlc w hw
        rw [hinv.weights w, hU hlc w hw]
        intro c n i hin hi0 hi hsrc
        rw [hW.backwardConnCount] at hi
        rw [hW.connections] at hsrc ⊢
        exact hw a.toNat c n i (by omega) ((hisnode _ _ _).1 hin) hi0 hi hsrc)
  exact key

/-- **C33.** In every state `nn` of a constructed network (positive dimensions),
`feedForwardNetwork` changes outputs of nodes outside the input layer only: the weights, the
null-weight slot, the bias, the error sum, the connections, the connection counts and the
size of every node, the outputs of the nodes of the input layer, and the headers of the
network, of the layers and of the columns are the same after the call as before. -/
theorem feedForwardNetwork_changes_outputs_only (m : Libm R) (abi : Abi)
    (defs : List LayerDefinition) (layerCount : Int) (nn : Network R)
    (hc : Constructed abi defs layerCount nn) (hsw : 0 < abi.sizeofWeight)
    (hpos : PositiveDims defs layerCount) :
    (feedForwardNetwork m nn).weights = nn.weights ∧
    (feedForwardNetwork m nn).nullWeight = nn.nullWeight ∧
    (∀ r, ((feedForwardNetwork m nn).nodes r).bias = (nn.nodes r).bias ∧
      ((feedForwardNetwork m nn).nodes r).errorSum = (nn.nodes r).errorSum ∧
      ((feedForwardNetwork m nn).nodes r).connections = (nn.nodes r).connections ∧
      ((feedForwardNetwork m nn).nodes r).backwardConnCount = (nn.nodes r).backwardConnCount ∧
      ((feedForwardNetwork m nn).nodes r).forwardConnCount = (nn.nodes r).forwardConnCount ∧
      ((feedForwardNetwork m nn).nodes r).size = (nn.nodes r).size) ∧
    (∀ r, r.layer = 0 →
      ((feedForwardNetwork m nn).nodes r).output = (nn.nodes r).output) ∧
    SameWiring nn (feedForwardNetwork m nn) := by
  have hw := (hc.wired hsw hpos).1
  obtain ⟨hS, -⟩ := feedForwardNetwork_spec m nn hw
  refine ⟨hS.weights, hS.nullWeight, ?_, ?_, hS.wiring⟩
  · intro r
    exact ⟨hS.bias r, hS.errorSum r, hS.wiring.connections r, hS.wiring.backwardConnCount r,
      hS.wiring.forwardConnCount r, hS.wiring.nodeSize r⟩
  · intro r hr
    exact feedForwardNetwork_input m nn hw r hr

/-- The nodes that `feedInput` does not write stay as they are. -/
theorem feedInput_others (nn nn1 : Network R) (v : Vector R)
    (h : feedInput nn v = Except.ok nn1) (r : NodeRef)
    (hr : ¬ (r.layer = 0 ∧ 0 ≤ r.column ∧ r.column < v.count ∧ r.node = 0)) :
    nn1.nodes r = nn.nodes r := by
  unfold feedInput at h
  simp only at h
  by_cases hc : v.count ≠ (nn.layers 0).columnCount
  · rw [if_pos hc] at h
    exact absurd h (by simp [throw, throwThe, MonadExceptOf.throw])
  · rw [if_neg hc] at h
    refine foldlM_inv _ (fun t => t.nodes r = nn.nodes r) (forRange v.count) nn nn1 rfl ?_ h
    intro a t t' ha hQ hstep
    have ha' := mem_forRange.1 ha
    cases hx : v.vals[a.toNat]? with
    | none =>
      rw [hx] at hstep
      exact absurd hstep (by simp [throw, throwThe, MonadExceptOf.throw])
    | some x =>
      rw [hx] at hstep
      simp only [pure, Except.pure, Except.ok.injEq] at hstep
      rw [← hstep, setNode_nodes_ne, hQ]
      intro heq
      apply hr
      rw [heq]
      exact ⟨rfl, ha'.1, ha'.2, rfl⟩

/-- **C36.** For every state `nn` of a network and every vector `v` that holds `v.count`
values, with `v.count` equal to the number of the columns of the input layer, `feedInput`
returns; afterwards the output of the input node at column `i`, level 0, is `v.vals[i]` for
every `0 ≤ i < v.count`, and nothing else has changed: every other node is as before, and
so are the weights, the null-weight slot, and of every node the bias, the error sum, the
connections, the connection counts and the size, and the headers of the network, of the
layers and of the columns. -/
theorem feedInput_frame (nn : Network R) (v : Vector R)
    (hcount : v.count = (nn.layers 0).columnCount)
    (hv : v.count ≤ (v.vals.length : Int)) :
    ∃ nn1, feedInput nn v = Except.ok nn1 ∧
      (∀ i, 0 ≤ i → i < v.count →
        v.vals[i.toNat]? = some (nn1.nodes (getNetworkNode 0 i 0)).output) ∧
      (∀ r, ¬ (r.layer = 0 ∧ 0 ≤ r.column ∧ r.column < v.count ∧ r.node = 0) →
        nn1.nodes r = nn.nodes r) ∧
      nn1.weights = nn.weights ∧ nn1.nullWeight = nn.nullWeight ∧
      (∀ r, (nn1.nodes r).bias = (nn.nodes r).bias ∧
        (nn1.nodes r).errorSum = (nn.nodes r).errorSum ∧
        (nn1.nodes r).connections = (nn.nodes r).connections ∧
        (nn1.nodes r).backwardConnCount = (nn.nodes r).backwardConnCount ∧
        (nn1.nodes r).forwardConnCount = (nn.nodes r).forwardConnCount ∧
        (nn1.nodes r).size = (nn.nodes r).size) ∧
      SameWiring nn nn1 := by
  obtain ⟨nn1, h, hS⟩ := feedInput_spec nn v hcount hv
  refine ⟨nn1, h, feedInput_outputs nn nn1 v h, feedInput_others nn nn1 v h, hS.weights,
    hS.nullWeight, ?_, hS.wiring⟩
  intro r
  exact ⟨hS.bias r, hS.errorSum r, hS.wiring.connections r, hS.wiring.backwardConnCount r,
    hS.wiring.forwardConnCount r, hS.wiring.nodeSize r⟩

/-- **C37.** In every state `nn` of a constructed network (positive dimensions) and for
every label, `backPropagateNetwork` returns and leaves the output of every node as it is, so
`getNetworkClassification` gives the same index before and after the call; the structure
stays as it is, and with more than one layer the nodes of the input layer are not
changed. -/
theorem backPropagateNetwork_keeps_outputs (m : Libm R) (abi : Abi)
    (defs : List LayerDefinition) (layerCount : Int) (nn : Network R) (label : Int)
    (hc : Constructed abi defs layerCount nn) (hsw : 0 < abi.sizeofWeight)
    (hpos : PositiveDims defs layerCount) :
    ∃ nn', backPropagateNetwork m nn label = Except.ok nn' ∧
      (∀ r, (nn'.nodes r).output = (nn.nodes r).output) ∧
      getNetworkClassification nn' = getNetworkClassification nn ∧
      (1 < layerCount → ∀ r, r.layer = 0 → nn'.nodes r = nn.nodes r) ∧
      SameWiring nn nn' := by
  obtain ⟨-, hfwd, hweights⟩ := hc.wired hsw hpos
  obtain ⟨nn', hrun, hW, hO, hZ, -⟩ := backPropagateNetwork_returns m nn label hfwd hweights
  refine ⟨nn', hrun, hO, ?_, ?_, hW⟩
  · apply getNetworkClassification_congr
    · rw [hW.layerCount, hW.layers]
    · intro i _ _
      rw [hW.layerCount]
      exact hO _
  · intro hlc
    exact hZ (by rw [hc.layerCount_eq]; exact hlc)

end Frames

theorem fcNet_constructed : Constructed lp64 fcDefs 3 fcNet :=
  ⟨fcNet0, fcNet, rfl, rfl, fcNet_built, SameWiring.refl fcNet⟩

/-- C33 at the network `fcNet`. -/
theorem feedForwardNetwork_changes_outputs_only_witness :
    (feedForwardNetwork libmQ fcNet).weights = fcNet.weights ∧
    (feedForwardNetwork libmQ fcNet).nullWeight = fcNet.nullWeight ∧
    (∀ r, ((feedForwardNetwork libmQ fcNet).nodes r).bias = (fcNet.nodes r).bias ∧
      ((feedForwardNetwork libmQ fcNet).nodes r).errorSum = (fcNet.nodes r).errorSum ∧
      ((feedForwardNetwork libmQ fcNet).nodes r).connections = (fcNet.nodes r).connections ∧
      ((feedForwardNetwork libmQ fcNet).nodes r).backwardConnCount
        = (fcNet.nodes r).backwardConnCount ∧
      ((feedForwardNetwork libmQ fcNet).nodes r).forwardConnCount
        = (fcNet.nodes r).forwardConnCount ∧
      ((feedForwardNetwork libmQ fcNet).nodes r).size = (fcNet.nodes r).size) ∧
    (∀ r, r.layer = 0 →
      ((feedForwardNetwork libmQ fcNet).nodes r).output = (fcNet.nodes r).output) ∧
    SameWiring fcNet (feedForwardNetwork libmQ fcNet) :=
  feedForwardNetwork_changes_outputs_only libmQ lp64 fcDefs 3 fcNet fcNet_constructed
    (by decide) (by decide)

/-- C36 at the network `fcNet` and the vector `[1, 0]`. -/
theorem feedInput_frame_witness :
    ∃ nn1, feedInput fcNet unitVector = Except.ok nn1 ∧
      (∀ i, 0 ≤ i → i < unitVector.count →
        unitVector.vals[i.toNat]? = some (nn1.nodes (getNetworkNode 0 i 0)).output) ∧
      (∀ r, ¬ (r.layer = 0 ∧ 0 ≤ r.column ∧ r.column < unitVector.count ∧ r.node = 0) →
        nn1.nodes r = fcNet.nodes r) ∧
      nn1.weights = fcNet.weights ∧ nn1.nullWeight = fcNet.nullWeight ∧
      (∀ r, (nn1.nodes r).bias = (fcNet.nodes r).bias ∧
        (nn1.nodes r).errorSum = (fcNet.nodes r).errorSum ∧
        (nn1.nodes r).connections = (fcNet.nodes r).connections ∧
        (nn1.nodes r).backwardConnCount = (fcNet.nodes r).backwardConnCount ∧
        (nn1.nodes r).forwardConnCount = (fcNet.nodes r).forwardConnCount ∧
        (nn1.nodes r).size = (fcNet.nodes r).size) ∧
      SameWiring fcNet nn1 :=
  feedInput_frame fcNet unitVector (by decide!) (by decide)

/-- C37 at the network `fcNet` and the label 0. -/
theorem backPropagateNetwork_keeps_outputs_witness :
    ∃ nn', backPropagateNetwork libmQ fcNet 0 = Except.ok nn' ∧
      (∀ r, (nn'.nodes r).output = (fcNet.nodes r).output) ∧
      getNetworkClassification nn' = getNetworkClassification fcNet ∧
      ((1 : Int) < 3 → ∀ r, r.layer = 0 → nn'.nodes r = fcNet.nodes r) ∧
      SameWiring fcNet nn' :=
  backPropagateNetwork_keeps_outputs libmQ lp64 fcDefs 3 fcNet 0 fcNet_constructed
    (by decide) (by decide)

/-! ## The null weight -/

section Created

variable {R : Type} [LinearOrderedField R]

/-- The function `initNetworkWeights` changes weights of the weight block and biases
only. -/
theorem initNetworkWeights_spec (rs : RandSource) (nn : Network R) :
    SameWiring nn (initNetworkWeights rs nn) ∧
    (initNetworkWeights rs nn).nullWeight = nn.nullWeight ∧
    (∀ r, ((initNetworkWeights rs nn).nodes r).output = (nn.nodes r).output) ∧
    (∀ r, ((initNetworkWeights rs nn).nodes r).errorSum = (nn.nodes r).errorSum) := by
  unfold initNetworkWeights
  simp only
  have h1 := foldl_inv
    (fun (st : Network R × Nat) (i : Int) =>
      ((if i.tmod 2 ≠ 0 then
          (st.1.writeWeight (WeightRef.block i)
            (4 / 10 * (rs.rand st.2 : R) / (rs.RAND_MAX : R))).writeWeight (WeightRef.block i)
            (-((st.1.writeWeight (WeightRef.block i)
              (4 / 10 * (rs.rand st.2 : R) / (rs.RAND_MAX : R))).readWeight
                (WeightRef.block i)))
        else st.1.writeWeight (WeightRef.block i)
          (4 / 10 * (rs.rand st.2 : R) / (rs.RAND_MAX : R))), st.2 + 1))
    (fun st => SameWiring nn st.1 ∧ st.1.nullWeight = nn.nullWeight ∧ st.1.nodes = nn.nodes)
    (forRange nn.weightCount) (nn, 0) ⟨SameWiring.refl nn, rfl, rfl⟩
    (by
      intro i st _ hQ
      simp only
      split
      · refine ⟨(hQ.1.trans (SameWiring.writeWeight _ _ _)).trans
          (SameWiring.writeWeight _ _ _), ?_, ?_⟩
        · simp only [Network.writeWeight]
          exact hQ.2.1
        · simp only [writeWeight_nodes]
          exact hQ.2.2
      · refine ⟨hQ.1.trans (SameWiring.writeWeight _ _ _), ?_, ?_⟩
        · simp only [Network.writeWeight]
          exact hQ.2.1
        · simp only [writeWeight_nodes]
          exact hQ.2.2)
  generalize (forRange nn.weightCount).foldl _ (nn, 0) = st1 at h1 ⊢
  have h2 := foldl_inv
    (fun (st : Network R × Nat) (l : Int) =>
      (forRange (st.1.layers (getNetworkLayer st.1 l)).columnCount).foldl
        (fun (st : Network R × Nat) c =>
          (forRange (st.1.columns (getNetworkLayer st.1 l) c).nodeCount).foldl
            (fun (st : Network R × Nat) n =>
              ((if n.tmod 2 ≠ 0 then
                  (st.1.setNode (getNetworkNode (getNetworkLayer st.1 l) c n)
                    { st.1.nodes (getNetworkNode (getNetworkLayer st.1 l) c n) with
                      bias := (rs.rand st.2 : R) / (rs.RAND_MAX : R) }).setNode
                    (getNetworkNode (getNetworkLayer st.1 l) c n)
                    { (st.1.setNode (getNetworkNode (getNetworkLayer st.1 l) c n)
                        { st.1.nodes (getNetworkNode (getNetworkLayer st.1 l) c n) with
                          bias := (rs.rand st.2 : R) / (rs.RAND_MAX : R) }).nodes
                        (getNetworkNode (getNetworkLayer st.1 l) c n) with
                      bias := -((st.1.setNode (getNetworkNode (getNetworkLayer st.1 l) c n)
                        { st.1.nodes (getNetworkNode (getNetworkLayer st.1 l) c n) with
                          bias := (rs.rand st.2 : R) / (rs.RAND_MAX : R) }).nodes
                        (getNetworkNode (getNetworkLayer st.1 l) c n)).bias }
                else
                  st.1.setNode (getNetworkNode (getNetworkLayer st.1 l) c n)
                    { st.1.nodes (getNetworkNode (getNetworkLayer st.1 l) c n) with
                      bias := (rs.rand st.2 : R) / (rs.RAND_MAX : R) }), st.2 + 1)) st) st)
    (fun st => SameWiring nn st.1 ∧ st.1.nullWeight = nn.nullWeight ∧
      (∀ r, (st.1.nodes r).output = (nn.nodes r).output) ∧
      (∀ r, (st.1.nodes r).errorSum = (nn.nodes r).errorSum))
    (forRange nn.layerCount) st1
    ⟨h1.1, h1.2.1, fun r => by rw [h1.2.2], fun r => by rw [h1.2.2]⟩
    (by
      intro l st _ hQ
      refine foldl_inv _ (fun st => SameWiring nn st.1 ∧ st.1.nullWeight = nn.nullWeight ∧
        (∀ r, (st.1.nodes r).output = (nn.nodes r).output) ∧
        (∀ r, (st.1.nodes r).errorSum = (nn.nodes r).errorSum)) _ st hQ ?_
      intro c st2 _ hQ2
      refine foldl_inv _ (fun st => SameWiring nn st.1 ∧ st.1.nullWeight = nn.nullWeight ∧
        (∀ r, (st.1.nodes r).output = (nn.nodes r).output) ∧
        (∀ r, (st.1.nodes r).errorSum = (nn.nodes r).errorSum)) _ st2 hQ2 ?_
      intro n st3 _ hQ3
      have hstep : ∀ (u : Network R) (node : NodeRef) (b : R),
          (SameWiring nn u ∧ u.nullWeight = nn.nullWeight ∧
            (∀ r, (u.nodes r).output = (nn.nodes r).output) ∧
            (∀ r, (u.nodes r).errorSum = (nn.nodes r).errorSum)) →
          (SameWiring nn (u.setNode node { u.nodes node with bias := b }) ∧
            (u.setNode node { u.nodes node with bias := b }).nullWeight = nn.nullWeight ∧
            (∀ r, ((u.setNode node { u.nodes node with bias := b }).nodes r).output
              = (nn.nodes r).output) ∧
            (∀ r, ((u.setNode node { u.nodes node with bias := b }).nodes r).errorSum
              = (nn.nodes r).errorSum)) := by
        intro u node b hu
        refine ⟨hu.1.trans (SameWiring.setNode _ _ _ rfl rfl rfl rfl), hu.2.1, ?_, ?_⟩
        · intro r
          rw [setNode_nodes]
          split
          · next h => subst h; exact hu.2.2.1 _
          · exact hu.2.2.1 r
        · intro r
          rw [setNode_nodes]
          split
          · next h => subst h; exact hu.2.2.2 _
          · exact hu.2.2.2 r
      simp only
      split
      · exact hstep _ _ _ (hstep _ _ _ hQ3)
      · exact hstep _ _ _ hQ3)
  exact h2

/-- The function `setNetworkDefaults` sets the null-weight slot to 0. -/
theorem setNetworkDefaults_nullWeight (abi : Abi) (nn nn' : Network R) (layerCount : Int)
    (defs : List LayerDefinition) (netSize : Int)
    (h : setNetworkDefaults abi nn layerCount defs netSize = Except.ok nn') :
    nn'.nullWeight = 0 := by
  unfold setNetworkDefaults at h
  obtain ⟨B, hB, h⟩ := bind_eq_ok.1 h
  obtain ⟨wc, hwc, h⟩ := bind_eq_ok.1 h
  by_cases hchk : wc * abi.sizeofWeight ≠ B
  · simp [hchk, bind, Except.bind, throw, throwThe, MonadExceptOf.throw] at h
  · simp only [hchk, if_false, pure, Except.pure, bind, Except.bind, Except.ok.injEq] at h
    rw [← h]

/-- A network that `createNetwork` returns is a state of a constructed network, and its
null-weight slot holds 0. -/
theorem createNetwork_constructed (rs : RandSource) (abi : Abi) (mem nn : Network R)
    (layerCount : Int) (defs : List LayerDefinition)
    (h : createNetwork rs abi mem layerCount defs = Except.ok nn) :
    Constructed abi defs layerCount nn ∧ nn.nullWeight = 0 := by
  unfold createNetwork at h
  obtain ⟨nnS, hS, h⟩ := bind_eq_ok.1 h
  simp only [pure, Except.pure, Except.ok.injEq] at h
  unfold createNetworkStructure at hS
  obtain ⟨netSize, -, hS⟩ := bind_eq_ok.1 hS
  obtain ⟨nn1, hdef, hinit⟩ := bind_eq_ok.1 hS
  obtain ⟨B, -, -, -, h3, -, -, h6⟩ :=
    setNetworkDefaults_result abi _ nn1 layerCount defs netSize hdef
  have h0 := setNetworkDefaults_nullWeight abi _ nn1 layerCount defs netSize hdef
  have hinit' := hinit
  unfold initNetwork at hinit'
  obtain ⟨p, hp1, hp2⟩ := bind_eq_ok.1 hinit'
  obtain ⟨hT1, -⟩ := backwardPhase_sizes abi defs nn1 p layerCount hp1
  have hT2 := forwardPhase_top p nnS layerCount hp2
  obtain ⟨hW, hN, -, -⟩ := initNetworkWeights_spec rs nnS
  rw [← h]
  refine ⟨⟨nn1, nnS, h6, h3, hinit, hW⟩, ?_⟩
  rw [hN, hT2.nullWeight, hT1.nullWeight, h0]

/-- A backward connection without a target node, of a node that is built, refers to the
null weight. -/
theorem NodeBuilt.null_link {abi : Abi} {defs : List LayerDefinition}
    {l c n layerCount : Int} {nd : Node R} (hb : NodeBuilt abi defs l c n nd)
    {d : LayerDefinition} (hd : defAt defs l = Except.ok d)
    (hpos : PositiveDims defs layerCount) (hl : l < layerCount) {i : Int} (hi0 : 0 ≤ i)
    (hi : i < nd.backwardConnCount) (ht : (nd.connections i).nodePtr = none) :
    (nd.connections i).weightPtr = WeightRef.nullWeight := by
  have hbc := hb.backwardConnCount
  cases htp : d.layerType with
  | EMPTY =>
    unfold getNodeBackwardConnectionCount at hbc
    simp [hd, htp, bind, Except.bind, throw, throwThe, MonadExceptOf.throw] at hbc
  | INPUT =>
    rw [getNodeBackwardConnectionCount_input hd htp] at hbc
    injection hbc with hbc
    omega
  | CONVOLUTIONAL =>
    have hbc' := hbc
    unfold getNodeBackwardConnectionCount at hbc'
    cases hp : defAt defs (l - 1) with
    | error e => simp [hd, hp, htp, bind, Except.bind] at hbc'
    | ok dp =>
      rw [getNodeBackwardConnectionCount_conv hd hp htp] at hbc
      injection hbc with hbc
      obtain ⟨vals, -, hv⟩ := hb.conv d dp hd hp htp
      have hff0 : 0 ≤ d.filter * d.filter := mul_self_nonneg _
      have hff : 0 < d.filter * d.filter := by
        rcases lt_or_eq_of_le hff0 with h | h
        · exact h
        · rw [← h] at hbc
          simp at hbc
          omega
      have hdecomp : i / (d.filter * d.filter) * (d.filter * d.filter)
          + i % (d.filter * d.filter) = i := Int.ediv_add_emod' i _
      have hi' : i < dp.nodeMap.depth * (d.filter * d.filter) := by
        rw [← hbc] at hi
        have : d.filter * d.filter * dp.nodeMap.depth
            = dp.nodeMap.depth * (d.filter * d.filter) := by ring
        omega
      have ht1 : i / (d.filter * d.filter) < dp.nodeMap.depth :=
        Int.ediv_lt_of_lt_mul hff hi'
      obtain ⟨col, -, hconn⟩ := hv (i / (d.filter * d.filter)) (i % (d.filter * d.filter))
        (Int.ediv_nonneg hi0 hff0) ht1 (Int.emod_nonneg _ (ne_of_gt hff))
        (Int.emod_lt_of_pos _ hff)
      rw [hdecomp] at hconn
      rw [hconn] at ht ⊢
      by_cases hcol : col ≠ OUT_OF_RANGE
      · simp [hcol] at ht
      · simp [hcol]
  | FULLY_CONNECTED =>
    obtain ⟨dp, hp⟩ := prev_of_fc hd (Or.inl htp) hbc
    have hdppos := hpos.at (by omega : l - 1 < layerCount) hp
    rw [getNodeBackwardConnectionCount_fc hd hp (Or.inl htp)] at hbc
    injection hbc with hbc
    have hi' : i < getLayerNodeCount dp := by rw [hbc]; exact hi
    have e1 := hb.fc d dp hd hp (Or.inl htp) hdppos.2.2 i hi0 hi'
    rw [e1] at ht
    simp at ht
  | OUTPUT =>
    obtain ⟨dp, hp⟩ := prev_of_fc hd (Or.inr htp) hbc
    have hdppos := hpos.at (by omega : l - 1 < layerCount) hp
    rw [getNodeBackwardConnectionCount_fc hd hp (Or.inr htp)] at hbc
    injection hbc with hbc
    have hi' : i < getLayerNodeCount dp := by rw [hbc]; exact hi
    have e1 := hb.fc d dp hd hp (Or.inr htp) hdppos.2.2 i hi0 hi'
    rw [e1] at ht
    simp at ht

/-- In every state of a constructed network with positive dimensions a backward connection
of a node of a layer has no target node if and only if it refers to the null weight. -/
theorem Constructed.null_iff {abi : Abi} {defs : List LayerDefinition}
    {layerCount : Int} {nn : Network R} (hc : Constructed abi defs layerCount nn)
    (hsw : 0 < abi.sizeofWeight) (hpos : PositiveDims defs layerCount)
    (l : Nat) (c n k : Int) (hl : (l : Int) < layerCount) (hA : nn.IsNode l c n)
    (hk0 : 0 ≤ k) (hk : k < (nn.nodes (getNetworkNode l c n)).backwardConnCount) :
    ((nn.nodes (getNetworkNode l c n)).connections k).nodePtr = none ↔
      ((nn.nodes (getNetworkNode l c n)).connections k).weightPtr = WeightRef.nullWeight := by
  obtain ⟨nn0, nnB, hdefs, hcount, h, hsame⟩ := hc
  have hAB : nnB.IsNode l c n := by
    unfold Network.IsNode at hA ⊢
    rw [hsame.layers, hsame.columns] at hA
    exact hA
  rw [hsame.connections]
  rw [hsame.backwardConnCount] at hk
  constructor
  · intro hnone
    obtain ⟨-, hL, -, -⟩ := initNetwork_spec abi defs nn0 nnB layerCount hdefs hcount h
    obtain ⟨⟨d, hd⟩, hb⟩ := hL (l : Int) (by omega) hl
    have hA' := (hb.isNode_iff hd c n).1 (by simpa using hAB)
    have hnb := hb.nodes d c n hd hA'.1 hA'.2.1 hA'.2.2.1 hA'.2.2.2
    simp only [Int.toNat_ofNat] at hnb
    exact hnb.null_link hd hpos hl hk0 hk hnone
  · intro hnull
    cases hx : ((nnB.nodes (getNetworkNode l c n)).connections k).nodePtr with
    | none => rfl
    | some t =>
      obtain ⟨-, -, e, he, -, -⟩ := backward_link abi defs nn0 nnB layerCount hdefs hcount h
        hsw hpos (l : Int) c n k t (by omega) hl (by simpa using hAB) hk0
        (by simpa using hk) (by simpa using hx)
      simp only [Int.toNat_ofNat] at he
      rw [he] at hnull
      exact absurd hnull (by simp)

/-- **C34.** In a network `nn` that `createNetwork` returns (positive dimensions), every
forward connection, at an index in `[backwardConnCount, backwardConnCount +
forwardConnCount)`, of every node of a hidden layer has a target node. So in every state
`s` of the network `calcNodeError` reads no error sum through a null pointer: for every node
of a hidden layer it returns the sum over the forward connections, and
`backPropagateNetwork` returns for every label. -/
theorem forward_connections_have_targets (rs : RandSource) (abi : Abi)
    (mem nn : Network R) (layerCount : Int) (defs : List LayerDefinition)
    (h : createNetwork rs abi mem layerCount defs = Except.ok nn)
    (hsw : 0 < abi.sizeofWeight) (hpos : PositiveDims defs layerCount) :
    (∀ (l : Nat) (c n j : Int), 0 < l → (l : Int) < layerCount - 1 → nn.IsNode l c n →
      0 ≤ j → j < (nn.nodes (getNetworkNode l c n)).forwardConnCount →
      ((nn.nodes (getNetworkNode l c n)).connections
        ((nn.nodes (getNetworkNode l c n)).backwardConnCount + j)).nodePtr ≠ none) ∧
    (∀ s : Network R, SameWiring nn s →
      (∀ (l : Nat) (c n : Int), 0 < l → (l : Int) < layerCount - 1 → nn.IsNode l c n →
        calcNodeError s (getNetworkNode l c n)
          = Except.ok (forwardErrorSum s (getNetworkNode l c n))) ∧
      ∀ (m : Libm R) (label : Int), ∃ s', backPropagateNetwork m s label = Except.ok s') := by
  obtain ⟨hc, -⟩ := createNetwork_constructed rs abi mem nn layerCount defs h
  have hlc := hc.layerCount_eq
  obtain ⟨-, hfwd, hweights⟩ := hc.wired hsw hpos
  refine ⟨?_, ?_⟩
  · intro l c n j hl0 hl hA hj0 hj
    obtain ⟨t, ht, -⟩ := hfwd l c n j hl0 (by rw [hlc]; exact hl) hA hj0 hj
    rw [ht]
    simp
  · intro s hs
    have hcs : Constructed abi defs layerCount s := by
      obtain ⟨nn0, nnB, h1, h2, h3, h4⟩ := hc
      exact ⟨nn0, nnB, h1, h2, h3, h4.trans hs⟩
    obtain ⟨-, hfwd', hweights'⟩ := hcs.wired hsw hpos
    refine ⟨?_, ?_⟩
    · intro l c n hl0 hl hA
      apply calcNodeError_eq
      intro j hj0 hj
      have hA' : s.IsNode l c n := by
        unfold Network.IsNode at hA ⊢
        rw [hs.layers, hs.columns]
        exact hA
      obtain ⟨t, ht, -⟩ := hfwd' l c n j hl0 (by rw [hcs.layerCount_eq]; exact hl) hA' hj0 hj
      rw [ht]
      simp
    · intro m label
      obtain ⟨s', hrun, -⟩ := backPropagateNetwork_returns m s label hfwd' hweights'
      exact ⟨s', hrun⟩

/-- What `feedInput` changes when it returns: outputs only. -/
theorem feedInput_sameUpToOutputs (nn nn1 : Network R) (v : Vector R)
    (h : feedInput nn v = Except.ok nn1) : SameUpToOutputs nn nn1 := by
  unfold feedInput at h
  simp only at h
  by_cases hc : v.count ≠ (nn.layers 0).columnCount
  · rw [if_pos hc] at h
    exact absurd h (by simp [throw, throwThe, MonadExceptOf.throw])
  · rw [if_neg hc] at h
    refine foldlM_inv _ (fun t => SameUpToOutputs nn t) (forRange v.count) nn nn1
      (SameUpToOutputs.refl_outputs nn) ?_ h
    intro a t t' _ hQ hstep
    cases hx : v.vals[a.toNat]? with
    | none =>
      rw [hx] at hstep
      exact absurd hstep (by simp [throw, throwThe, MonadExceptOf.throw])
    | some x =>
      rw [hx] at hstep
      simp only [pure, Except.pure, Except.ok.injEq] at hstep
      rw [← hstep]
      exact hQ.trans_outputs (SameUpToOutputs.setOutput _ _ _)

/-- One call in a state of a constructed network whose null-weight slot holds 0 leads, when
it returns, to a state of the network whose null-weight slot holds 0; the calls of
`feedForwardNetwork` and of `backPropagateNetwork` return, and so does the call of
`feedInput` with a vector of as many values as the input layer has columns. -/
theorem runCall_nullWeight (m : Libm R) {abi : Abi} {defs : List LayerDefinition}
    {layerCount : Int} (hsw : 0 < abi.sizeofWeight) (hpos : PositiveDims defs layerCount)
    (hlc : 0 < layerCount) (s : Network R) (hc : Constructed abi defs layerCount s)
    (h0 : s.nullWeight = 0) (call : Call R) :
    (∀ s', runCall m s call = Except.ok s' →
      Constructed abi defs layerCount s' ∧ s'.nullWeight = 0 ∧ SameWiring s s') ∧
    ((∀ v, call = Call.feedInput v →
        v.count = (s.layers 0).columnCount ∧ v.count ≤ (v.vals.length : Int)) →
      ∃ s', runCall m s call = Except.ok s') := by
  have hkeep : ∀ s', SameWiring s s' → Constructed abi defs layerCount s' := by
    intro s' hs
    obtain ⟨nn0, nnB, h1, h2, h3, h4⟩ := hc
    exact ⟨nn0, nnB, h1, h2, h3, h4.trans hs⟩
  obtain ⟨hwired, hfwd, hweights⟩ := hc.wired hsw hpos
  cases call with
  | feedInput v =>
    refine ⟨?_, ?_⟩
    · intro s' hrun
      have hS := feedInput_sameUpToOutputs s s' v hrun
      exact ⟨hkeep s' hS.wiring, by rw [hS.nullWeight, h0], hS.wiring⟩
    · intro hv
      obtain ⟨hv1, hv2⟩ := hv v rfl
      obtain ⟨s', hrun, -⟩ := feedInput_spec s v hv1 hv2
      exact ⟨s', hrun⟩
  | feedForwardNetwork =>
    obtain ⟨hS, -⟩ := feedForwardNetwork_spec m s hwired
    refine ⟨?_, fun _ => ⟨_, rfl⟩⟩
    intro s' hrun
    simp only [runCall, pure, Except.pure, Except.ok.injEq] at hrun
    rw [← hrun]
    exact ⟨hkeep _ hS.wiring, by rw [hS.nullWeight, h0], hS.wiring⟩
  | backPropagateNetwork label =>
    obtain ⟨s1, hrun1, hW, -, -, hU⟩ := backPropagateNetwork_returns m s label hfwd hweights
    refine ⟨?_, fun _ => ⟨s1, hrun1⟩⟩
    intro s' hrun
    simp only [runCall] at hrun
    rw [hrun1] at hrun
    injection hrun with hrun
    subst hrun
    refine ⟨hkeep _ hW, ?_, hW⟩
    have := hU (by rw [hc.layerCount_eq]; exact hlc) WeightRef.nullWeight
      (by
        intro l c n i hl hA hi0 hi hsrc hnull
        rw [hc.layerCount_eq] at hl
        exact hsrc ((hc.null_iff hsw hpos l c n i hl hA hi0 hi).2 hnull))
    simp only [Network.readWeight] at this
    rw [this, h0]

/-- **C35.** In a network `nn` that `createNetwork` returns (at least one layer, positive
dimensions) a backward connection of a node has no target node if and only if it refers to
the null-weight slot. The slot holds 0 after `createNetwork`, which includes
`initNetworkWeights`, and it holds 0 after every sequence of calls of `feedInput`,
`feedForwardNetwork` and `backPropagateNetwork` that returns; the structure of the network
is then the same, and a sequence returns when each of its calls of `feedInput` has a vector
of as many values as the input layer has columns. -/
theorem nullWeight_never_written (rs : RandSource) (abi : Abi) (mem nn : Network R)
    (layerCount : Int) (defs : List LayerDefinition)
    (h : createNetwork rs abi mem layerCount defs = Except.ok nn)
    (hsw : 0 < abi.sizeofWeight) (hpos : PositiveDims defs layerCount)
    (hlc : 0 < layerCount) :
    (∀ (l : Nat) (c n k : Int), (l : Int) < layerCount → nn.IsNode l c n → 0 ≤ k →
      k < (nn.nodes (getNetworkNode l c n)).backwardConnCount →
      (((nn.nodes (getNetworkNode l c n)).connections k).nodePtr = none ↔
        ((nn.nodes (getNetworkNode l c n)).connections k).weightPtr
          = WeightRef.nullWeight)) ∧
    nn.nullWeight = 0 ∧
    (∀ (m : Libm R) (calls : List (Call R)) (nn' : Network R),
      runCalls m nn calls = Except.ok nn' → nn'.nullWeight = 0 ∧ SameWiring nn nn') ∧
    (∀ (m : Libm R) (calls : List (Call R)),
      (∀ v, Call.feedInput v ∈ calls →
        v.count = (nn.layers 0).columnCount ∧ v.count ≤ (v.vals.length : Int)) →
      ∃ nn', runCalls m nn calls = Except.ok nn') := by
  obtain ⟨hc, h0⟩ := createNetwork_constructed rs abi mem nn layerCount defs h
  refine ⟨fun l c n k hl hA hk0 hk => hc.null_iff hsw hpos l c n k hl hA hk0 hk, h0, ?_, ?_⟩
  · intro m calls nn' hrun
    have key := foldlM_inv (runCall m)
      (fun s => Constructed abi defs layerCount s ∧ s.nullWeight = 0 ∧ SameWiring nn s)
      calls nn nn' ⟨hc, h0, SameWiring.refl nn⟩
      (by
        intro call s s' _ hQ hstep
        obtain ⟨h1, h2, h3⟩ := (runCall_nullWeight m hsw hpos hlc s hQ.1 hQ.2.1 call).1 s' hstep
        exact ⟨h1, h2, hQ.2.2.trans h3⟩)
      hrun
    exact ⟨key.2.1, key.2.2⟩
  · intro m calls hv
    obtain ⟨nn', hrun, -⟩ := foldlM_ok_of_inv (runCall m) calls
      (fun s => Constructed abi defs layerCount s ∧ s.nullWeight = 0 ∧ SameWiring nn s)
      nn ⟨hc, h0, SameWiring.refl nn⟩
      (by
        intro call s hmem hQ
        obtain ⟨hp, hr⟩ := runCall_nullWeight m hsw hpos hlc s hQ.1 hQ.2.1 call
        obtain ⟨s', hs'⟩ := hr (by
          intro v hcall
          rw [hcall] at hmem
          rw [hQ.2.2.layers]
          exact hv v hmem)
        obtain ⟨h1, h2, h3⟩ := hp s' hs'
        exact ⟨s', hs', h1, h2, hQ.2.2.trans h3⟩)
    exact ⟨nn', hrun⟩

end Created

theorem poolNetWeighted_created :
    createNetwork constantRand lp64 zeroMemory 4 poolDefs = Except.ok poolNetWeighted := by
  unfold createNetwork
  rw [poolNet_created]
  rfl

/-- C34 at the network of `poolDefs`. -/
theorem forward_connections_have_targets_witness :
    (∀ (l : Nat) (c n j : Int), 0 < l → (l : Int) < 4 - 1 → poolNetWeighted.IsNode l c n →
      0 ≤ j → j < (poolNetWeighted.nodes (getNetworkNode l c n)).forwardConnCount →
      ((poolNetWeighted.nodes (getNetworkNode l c n)).connections
        ((poolNetWeighted.nodes (getNetworkNode l c n)).backwardConnCount + j)).nodePtr
          ≠ none) ∧
    (∀ s : Network ℚ, SameWiring poolNetWeighted s →
      (∀ (l : Nat) (c n : Int), 0 < l → (l : Int) < 4 - 1 → poolNetWeighted.IsNode l c n →
        calcNodeError s (getNetworkNode l c n)
          = Except.ok (forwardErrorSum s (getNetworkNode l c n))) ∧
      ∀ (m : Libm ℚ) (label : Int), ∃ s', backPropagateNetwork m s label = Except.ok s') :=
  forward_connections_have_targets constantRand lp64 zeroMemory poolNetWeighted 4 poolDefs
    poolNetWeighted_created (by decide) (by decide)

/-- C35 at the network of `poolDefs`. -/
theorem nullWeight_never_written_witness :
    (∀ (l : Nat) (c n k : Int), (l : Int) < 4 → poolNetWeighted.IsNode l c n → 0 ≤ k →
      k < (poolNetWeighted.nodes (getNetworkNode l c n)).backwardConnCount →
      (((poolNetWeighted.nodes (getNetworkNode l c n)).connections k).nodePtr = none ↔
        ((poolNetWeighted.nodes (getNetworkNode l c n)).connections k).weightPtr
          = WeightRef.nullWeight)) ∧
    poolNetWeighted.nullWeight = 0 ∧
    (∀ (m : Libm ℚ) (calls : List (Call ℚ)) (nn' : Network ℚ),
      runCalls m poolNetWeighted calls = Except.ok nn' →
      nn'.nullWeight = 0 ∧ SameWiring poolNetWeighted nn') ∧
    (∀ (m : Libm ℚ) (calls : List (Call ℚ)),
      (∀ v, Call.feedInput v ∈ calls →
        v.count = (poolNetWeighted.layers 0).columnCount ∧
          v.count ≤ (v.vals.length : Int)) →
      ∃ nn', runCalls m poolNetWeighted calls = Except.ok nn') :=
  nullWeight_never_written constantRand lp64 zeroMemory poolNetWeighted 4 poolDefs
    poolNetWeighted_created (by decide) (by decide) (by decide)

/-! ## Accepted definitions that stop the construction -/

section Stride

variable {R : Type} [LinearOrderedField R]

/-- For a layer that is one column wide `createFilterColumnIds` divides by zero, whatever
the kind of the layer and its filter are. -/
theorem createFilterColumnIds_width_one (nn : Network R) (thisLayer prevLayer : Nat)
    (columnId : Int) (hw : (nn.layerDefOf thisLayer).nodeMap.width = 1) :
    createFilterColumnIds nn thisLayer columnId prevLayer = Except.error Fault.undefined := by
  unfold createFilterColumnIds calcFilterColumnIds filterWindow calcStride
  simp only [hw]
  rfl

/-- So the nodes of no column of such a layer are initialised. -/
theorem initNetworkNodes_width_one (abi : Abi) (nn : Network R) (layerId columnId : Int)
    (hw : (nn.layerDefOf (getNetworkLayer nn layerId)).nodeMap.width = 1) :
    ∃ e, initNetworkNodes abi nn layerId columnId = Except.error e := by
  unfold initNetworkNodes
  simp only
  cases hs : getNodeSize abi nn.layerDefs (nn.layers (getNetworkLayer nn layerId)).layerDef with
  | error e => exact ⟨e, rfl⟩
  | ok v =>
    rw [createFilterColumnIds_width_one nn _ _ _ hw]
    exact ⟨_, rfl⟩

end Stride

/-- **C38.** The claim fails for a layer that is one column wide. The definitions
`singleOutputRaw`, an input layer of two nodes and an output layer of one node, are
accepted by `isValidNetworkDefinition`, and `setLayerDefinitionDefaults` completes them to
`singleOutputDefs`. For a layer of the width 1 the divisor `srcWidth - 1` of `calcStride` is
zero for every previous layer and every filter, and `createNetwork` reaches that call for
the output layer: with the exact quotient undefined, the construction stops there. -/
theorem calcStride_divides_by_zero :
    isValidNetworkDefinition 2 singleOutputRaw = Except.ok true ∧
    setLayerDefinitionDefaults 2 singleOutputRaw = Except.ok singleOutputDefs ∧
    (∀ tgtWidth filter : Int, calcStride tgtWidth filter 1 = Except.error Fault.undefined) ∧
    createNetworkStructure lp64 zeroMemory 2 singleOutputDefs
      = Except.error Fault.undefined :=
  ⟨rfl, rfl, fun _ _ => rfl, rfl⟩

section Returns

/-- A layer definition that passes the checks has a known kind. -/
theorem checkLayerDefinition_known (defs : List LayerDefinition) (i : Int)
    (h : checkLayerDefinition defs i true = Except.ok true) :
    ∃ d, defAt defs i = Except.ok d ∧ d.layerType ≠ LayerType.EMPTY := by
  unfold checkLayerDefinition at h
  cases hd : defAt defs i with
  | error e => simp [hd, bind, Except.bind] at h
  | ok d =>
    refine ⟨d, rfl, ?_⟩
    intro ht
    simp [hd, ht, bind, Except.bind, pure, Except.pure] at h

/-- What the result `true` of `isValidNetworkDefinition` tells about the kinds of the
layers: there is a layer, the first layer is an input layer, the last layer is an output
layer, and every layer has a known kind. -/
theorem isValidNetworkDefinition_true (layerCount : Int) (defs : List LayerDefinition)
    (h : isValidNetworkDefinition layerCount defs = Except.ok true) :
    0 < layerCount ∧
    (∃ d, defAt defs 0 = Except.ok d ∧ d.layerType = LayerType.INPUT) ∧
    (∃ d, defAt defs (layerCount - 1) = Except.ok d ∧ d.layerType = LayerType.OUTPUT) ∧
    ∀ i, 0 ≤ i → i < layerCount →
      ∃ d, defAt defs i = Except.ok d ∧ d.layerType ≠ LayerType.EMPTY := by
  unfold isValidNetworkDefinition at h
  obtain ⟨first, hfirst, h⟩ := bind_eq_ok.1 h
  obtain ⟨last, hlast, h⟩ := bind_eq_ok.1 h
  obtain ⟨st, hloop, h⟩ := bind_eq_ok.1 h
  have hlc : 0 < layerCount := by
    have := (defAt_ok_iff.1 hlast).1
    omega
  have key := forRange_foldlM_inv _ layerCount
    (fun a (st : Option Bool × Bool) =>
      (st.1 = none → st.2 = true →
        (first.layerType = LayerType.INPUT ∧ last.layerType = LayerType.OUTPUT ∧
          ∀ i, 0 ≤ i → i < a →
            ∃ d, defAt defs i = Except.ok d ∧ d.layerType ≠ LayerType.EMPTY)) ∧
      (∀ r, st.1 = some r → r = false))
    _ st
    (by
      refine ⟨fun _ hv => ?_, fun r hr => by simp at hr⟩
      by_cases hF : first.layerType = LayerType.INPUT <;>
        by_cases hG : last.layerType = LayerType.OUTPUT <;> simp [hF, hG] at hv ⊢
      intro i hi0 hi
      omega)
    (by
      intro a t t' ha0 ha hI hstep
      obtain ⟨t1, t2⟩ := t
      cases t1 with
      | some r =>
        simp only [pure, Except.pure, Except.ok.injEq] at hstep
        rw [← hstep]
        exact ⟨fun h1 => by simp at h1, fun r' hr' => hI.2 r' hr'⟩
      | none =>
        cases t2 with
        | false =>
          simp only [Bool.not_false, if_true, pure, Except.pure, Except.ok.injEq] at hstep
          rw [← hstep]
          refine ⟨fun h1 => by simp at h1, fun r' hr' => ?_⟩
          simp only [Option.some.injEq] at hr'
          exact hr'.symm
        | true =>
          have hP := hI.1 rfl rfl
          simp only [Bool.not_true, Bool.false_eq_true, if_false] at hstep
          obtain ⟨b, hb, hstep⟩ := bind_eq_ok.1 hstep
          simp only [pure, Except.pure, Except.ok.injEq] at hstep
          rw [← hstep]
          refine ⟨fun _ hbt => ?_, fun r hr => by simp at hr⟩
          simp only at hbt
          rw [hbt] at hb
          refine ⟨hP.1, hP.2.1, ?_⟩
          intro i hi0 hi
          by_cases hia : i = a
          · subst hia
            exact checkLayerDefinition_known defs i hb
          · exact hP.2.2 i hi0 (by omega))
    hloop
  rw [max_eq_left hlc.le] at key
  obtain ⟨st1, st2⟩ := st
  cases st1 with
  | some r =>
    simp only [pure, Except.pure, Except.ok.injEq] at h
    have := key.2 r rfl
    rw [h] at this
    exact absurd this (by simp)
  | none =>
    simp only [pure, Except.pure, Except.ok.injEq] at h
    obtain ⟨h1, h2, h3⟩ := key.1 rfl h
    exact ⟨hlc, ⟨first, hfirst, h1⟩, ⟨last, hlast, h2⟩, h3⟩

/-- The three counts of a layer whose kind is known, that is not the first layer unless it
is an input layer, and whose next layer is a fully connected, a convolutional or an output
layer unless it is an input or an output layer itself. -/
theorem layerCounts_return (defs : List LayerDefinition) (l : Int) (d : LayerDefinition)
    (hd : defAt defs l = Except.ok d) (hkind : d.layerType ≠ LayerType.EMPTY)
    (hprev : d.layerType ≠ LayerType.INPUT → ∃ dp, defAt defs (l - 1) = Except.ok dp)
    (hnext : d.layerType ≠ LayerType.INPUT → d.layerType ≠ LayerType.OUTPUT →
      ∃ dn, defAt defs (l + 1) = Except.ok dn ∧ dn.layerType ≠ LayerType.EMPTY ∧
        dn.layerType ≠ LayerType.INPUT) :
    (∃ b, getNodeBackwardConnectionCount defs l = Except.ok b) ∧
    (∃ f, getNodeForwardConnectionCount defs l = Except.ok f) ∧
    (∃ w, getLayerWeightCount defs l = Except.ok w) := by
  unfold getNodeBackwardConnectionCount getNodeForwardConnectionCount getLayerWeightCount
  cases ht : d.layerType with
  | EMPTY => exact absurd ht hkind
  | INPUT =>
    simp [hd, ht, bind, Except.bind, pure, Except.pure]
  | OUTPUT =>
    obtain ⟨dp, hdp⟩ := hprev (by rw [ht]; simp)
    simp [hd, hdp, ht, bind, Except.bind, pure, Except.pure]
  | FULLY_CONNECTED =>
    obtain ⟨dp, hdp⟩ := hprev (by rw [ht]; simp)
    obtain ⟨dn, hdn, hn1, hn2⟩ := hnext (by rw [ht]; simp) (by rw [ht]; simp)
    cases htn : dn.layerType <;>
      simp_all [bind, Except.bind, pure, Except.pure]
  | CONVOLUTIONAL =>
    obtain ⟨dp, hdp⟩ := hprev (by rw [ht]; simp)
    obtain ⟨dn, hdn, hn1, hn2⟩ := hnext (by rw [ht]; simp) (by rw [ht]; simp)
    cases htn : dn.layerType <;>
      simp_all [bind, Except.bind, pure, Except.pure]

/-- The amended **C39.** For layer definitions that `isValidNetworkDefinition` accepts and
in which no fully connected or convolutional layer is directly followed by an input layer,
`setLayerDefinitionDefaults` returns the completed definitions, and for them
`getNetworkSize` returns a size, and `getNodeBackwardConnectionCount`,
`getNodeForwardConnectionCount` and `getLayerWeightCount` return for every layer: no branch
that stops the program is reached. -/
theorem getNetworkSize_returns (abi : Abi) (layerCount : Int) (raw : List LayerDefinition)
    (hvalid : isValidNetworkDefinition layerCount raw = Except.ok true)
    (hnext : NoInputBehindHidden raw layerCount) :
    ∃ defs, setLayerDefinitionDefaults layerCount raw = Except.ok defs ∧
      (∃ size, getNetworkSize abi layerCount defs = Except.ok size) ∧
      ∀ l, 0 ≤ l → l < layerCount →
        (∃ b, getNodeBackwardConnectionCount defs l = Except.ok b) ∧
        (∃ f, getNodeForwardConnectionCount defs l = Except.ok f) ∧
        (∃ w, getLayerWeightCount defs l = Except.ok w) := by
  obtain ⟨hlc, ⟨first, hfirst, hF⟩, ⟨last, hlast, hL⟩, hall⟩ :=
    isValidNetworkDefinition_true layerCount raw hvalid
  have hk : layerCount.toNat ≤ raw.length := by
    obtain ⟨-, hget⟩ := defAt_ok_iff.1 hlast
    have := (List.getElem?_eq_some_iff.1 hget).1
    omega
  have hdefs := setLayerDefinitionDefaults_prefix raw layerCount.toNat hk
  -- the completed definitions
  have hget : ∀ i d, 0 ≤ i → i < layerCount → defAt raw i = Except.ok d →
      defAt ((raw.take layerCount.toNat).map setLayerDefinitionDefault
        ++ raw.drop layerCount.toNat) i = Except.ok (setLayerDefinitionDefault d) := by
    intro i d hi0 hi hd
    obtain ⟨-, hg⟩ := defAt_ok_iff.1 hd
    apply defAt_ok_iff.2
    refine ⟨hi0, ?_⟩
    rw [getElem?_defaulted raw _ _ hk, if_pos (by omega), hg]
    rfl
  have hcounts : ∀ l, 0 ≤ l → l < layerCount →
      (∃ b, getNodeBackwardConnectionCount ((raw.take layerCount.toNat).map
        setLayerDefinitionDefault ++ raw.drop layerCount.toNat) l = Except.ok b) ∧
      (∃ f, getNodeForwardConnectionCount ((raw.take layerCount.toNat).map
        setLayerDefinitionDefault ++ raw.drop layerCount.toNat) l = Except.ok f) ∧
      (∃ w, getLayerWeightCount ((raw.take layerCount.toNat).map
        setLayerDefinitionDefault ++ raw.drop layerCount.toNat) l = Except.ok w) := by
    intro l hl0 hl
    obtain ⟨d, hd, hkind⟩ := hall l hl0 hl
    have htype := (setLayerDefinitionDefault_fields d).2.2.2.2.1
    apply layerCounts_return _ l (setLayerDefinitionDefault d) (hget l d hl0 hl hd)
    · rw [htype]; exact hkind
    · rw [htype]
      intro hne
      have hl1 : l ≠ 0 := by
        intro h0
        subst h0
        rw [hfirst] at hd
        injection hd with hd
        rw [← hd] at hne
        exact hne hF
      obtain ⟨dp, hdp, -⟩ := hall (l - 1) (by omega) (by omega)
      exact ⟨_, hget (l - 1) dp (by omega) (by omega) hdp⟩
    · rw [htype]
      intro hne1 hne2
      have hl1 : l ≠ layerCount - 1 := by
        intro h0
        subst h0
        rw [hlast] at hd
        injection hd with hd
        rw [← hd] at hne2
        exact hne2 hL
      obtain ⟨dn, hdn, hkn⟩ := hall (l + 1) (by omega) (by omega)
      refine ⟨_, hget (l + 1) dn (by omega) (by omega) hdn, ?_, ?_⟩
      · rw [(setLayerDefinitionDefault_fields dn).2.2.2.2.1]; exact hkn
      · rw [(setLayerDefinitionDefault_fields dn).2.2.2.2.1]
        apply hnext l (mem_forRange.2 ⟨hl0, by omega⟩) d (defAt_ok_iff.1 hd).2 dn
          (defAt_ok_iff.1 hdn).2
        cases ht : d.layerType with
        | EMPTY => exact absurd ht hkind
        | INPUT => exact absurd ht hne1
        | OUTPUT => exact absurd ht hne2
        | FULLY_CONNECTED => exact Or.inl rfl
        | CONVOLUTIONAL => exact Or.inr rfl
  refine ⟨_, hdefs, ?_, hcounts⟩
  generalize (raw.take layerCount.toNat).map setLayerDefinitionDefault
    ++ raw.drop layerCount.toNat = defs at hcounts hget
  have hsize : ∀ l, 0 ≤ l → l < layerCount → ∃ v, getLayerSize abi defs l = Except.ok v := by
    intro l hl0 hl
    obtain ⟨⟨b, hb⟩, ⟨f, hf⟩, -⟩ := hcounts l hl0 hl
    obtain ⟨d, hd, -⟩ := hall l hl0 hl
    have hd' := hget l d hl0 hl hd
    unfold getLayerSize getColumnSize getNodeSize
    simp only [hb, hf, hd', bind, Except.bind, pure, Except.pure]
    exact ⟨_, rfl⟩
  have hblock : ∀ l, 0 ≤ l → l < layerCount →
      ∃ v, getLayerWeightBlockSize abi defs l = Except.ok v := by
    intro l hl0 hl
    obtain ⟨-, -, ⟨w, hw⟩⟩ := hcounts l hl0 hl
    unfold getLayerWeightBlockSize
    simp only [hw, bind, Except.bind, pure, Except.pure]
    exact ⟨_, rfl⟩
  obtain ⟨S, hS, -⟩ := forRange_foldlM_ok
    (fun size i => (do pure (size + (← getLayerSize abi defs i)) : Except Fault Int))
    layerCount (fun _ _ => True) abi.sizeofNetwork trivial
    (by
      intro a t ha0 ha _
      obtain ⟨v, hv⟩ := hsize a ha0 ha
      exact ⟨t + v, by simp only [hv, bind, Except.bind, pure, Except.pure], trivial⟩)
  obtain ⟨B, hB, -⟩ := forRange_foldlM_ok
    (fun size l => (do pure ((size + (← getLayerWeightBlockSize abi defs l)) % 2 ^ 64) :
      Except Fault Int))
    layerCount (fun _ _ => True) 0 trivial
    (by
      intro a t ha0 ha _
      obtain ⟨v, hv⟩ := hblock a ha0 ha
      exact ⟨(t + v) % 2 ^ 64, by simp only [hv, bind, Except.bind, pure, Except.pure],
        trivial⟩)
  refine ⟨S + B, ?_⟩
  unfold getNetworkSize getNetworkWeightBlockSize
  rw [hS, hB]
  rfl

/-- The amended C39 at the definitions of the convolutional network of `main.c`. -/
theorem getNetworkSize_returns_witness :
    ∃ defs, setLayerDefinitionDefaults 4 rawDefs = Except.ok defs ∧
      (∃ size, getNetworkSize lp64 4 defs = Except.ok size) ∧
      ∀ l, 0 ≤ l → l < (4 : Int) →
        (∃ b, getNodeBackwardConnectionCount defs l = Except.ok b) ∧
        (∃ f, getNodeForwardConnectionCount defs l = Except.ok f) ∧
        (∃ w, getLayerWeightCount defs l = Except.ok w) :=
  getNetworkSize_returns lp64 4 rawDefs rfl (by decide)

/-- **C39**, where it fails: the definitions `misplacedInputRaw`, in which an input layer
follows a fully connected layer, are accepted by `isValidNetworkDefinition` and completed
to `misplacedInputDefs`; for the fully connected layer `getNodeForwardConnectionCount`
finds an input layer behind it and stops the program, and so do `getNetworkSize` and
`createNetwork`. -/
theorem getNetworkSize_misplaced_input :
    isValidNetworkDefinition 4 misplacedInputRaw = Except.ok true ∧
    setLayerDefinitionDefaults 4 misplacedInputRaw = Except.ok misplacedInputDefs ∧
    getNodeForwardConnectionCount misplacedInputDefs 1 = Except.error Fault.exit1 ∧
    getNetworkSize lp64 4 misplacedInputDefs = Except.error Fault.exit1 ∧
    createNetworkStructure lp64 zeroMemory 4 misplacedInputDefs
      = Except.error Fault.exit1 :=
  ⟨rfl, rfl, rfl, rfl, rfl⟩

end Returns

/-! ## The layout of the nodes -/

section Layout

variable {R : Type} [LinearOrderedField R]

/-- What `initNetworkColumns` stores in `maxConnCountPerNode` of the columns of the layer;
the columns of the other layers stay as they are. -/
theorem initNetworkColumns_maxConn (abi : Abi) (s s' : Network R) (l : Int)
    (h : initNetworkColumns abi s l = Except.ok s') :
    ∃ b f, getNodeBackwardConnectionCount s.layerDefs (s.layers l.toNat).layerDef
        = Except.ok b ∧
      getNodeForwardConnectionCount s.layerDefs (s.layers l.toNat).layerDef = Except.ok f ∧
      (∀ c, 0 ≤ c → c < (s.layers l.toNat).columnCount →
        (s'.columns l.toNat c).maxConnCountPerNode = b + f) ∧
      ∀ L' c', L' ≠ l.toNat → s'.columns L' c' = s.columns L' c' := by
  rw [initNetworkColumns_unchecked] at h
  unfold initNetworkColumnsUnchecked at h
  simp only [getNetworkLayer] at h
  obtain ⟨b, hb, h⟩ := bind_eq_ok.1 h
  obtain ⟨f, hf, h⟩ := bind_eq_ok.1 h
  obtain ⟨cs, -, h⟩ := bind_eq_ok.1 h
  refine ⟨b, f, hb, hf, ?_⟩
  have key := forRange_foldlM_inv _ (s.layers l.toNat).columnCount
    (fun a t => (∀ c, 0 ≤ c → c < a → (t.columns l.toNat c).maxConnCountPerNode = b + f) ∧
      ∀ L' c', L' ≠ l.toNat → t.columns L' c' = s.columns L' c')
    s s' ⟨by intro c h0 h1; omega, fun _ _ _ => rfl⟩
    (by
      intro a t t' ha0 ha hI hstep
      obtain ⟨-, -, hC⟩ := initNetworkNodes_frame abi _ t' l a hstep
      refine ⟨?_, ?_⟩
      · intro c hc0 hc
        rw [hC, setColumn_columns]
        by_cases hca : c = a
        · rw [if_pos ⟨rfl, hca⟩]
        · rw [if_neg (by intro e; exact hca e.2)]
          exact hI.1 c hc0 (by omega)
      · intro L' c' hne
        rw [hC, setColumn_columns, if_neg (by intro e; exact hne e.1)]
        exact hI.2 L' c' hne)
    h
  refine ⟨?_, key.2⟩
  intro c hc0 hc
  exact key.1 c hc0 (by omega)

/-- What `initNetworkLayer` stores in `maxConnCountPerNode` of the columns of the layer. -/
theorem initNetworkLayer_maxConn (abi : Abi) (defs : List LayerDefinition)
    (s s' : Network R) (l : Int) (hdefs : s.layerDefs = defs)
    (h : initNetworkLayer abi s l defs = Except.ok s') :
    ∃ d b f, defAt defs l = Except.ok d ∧
      getNodeBackwardConnectionCount defs l = Except.ok b ∧
      getNodeForwardConnectionCount defs l = Except.ok f ∧
      (∀ c, 0 ≤ c → c < getColumnCount d →
        (s'.columns l.toNat c).maxConnCountPerNode = b + f) ∧
      ∀ L' c', L' ≠ l.toNat → s'.columns L' c' = s.columns L' c' := by
  unfold initNetworkLayer at h
  simp only at h
  obtain ⟨sbptr1, -, h⟩ := bind_eq_ok.1 h
  obtain ⟨sbptr2, -, h⟩ := bind_eq_ok.1 h
  obtain ⟨size, -, h⟩ := bind_eq_ok.1 h
  obtain ⟨d, hd, h⟩ := bind_eq_ok.1 h
  by_cases hchk : getNetworkLayerOffset (s.setLayer l.toNat
      { id := l, layerDef := l, weightsPtr := sbptr2 / abi.sizeofWeight, size := size,
        columnCount := getColumnCount d }) l ≠ sbptr1
  · simp [hchk, bind, Except.bind, throw, throwThe, MonadExceptOf.throw] at h
  · simp only [hchk, if_false] at h
    have h' : initNetworkColumns abi (s.setLayer l.toNat
        { id := l, layerDef := l, weightsPtr := sbptr2 / abi.sizeofWeight, size := size,
          columnCount := getColumnCount d }) l = Except.ok s' := by
      simpa [bind, Except.bind] using h
    obtain ⟨b, f, hb, hf, h1, h2⟩ := initNetworkColumns_maxConn abi _ s' l h'
    have e1 : (s.setLayer l.toNat
        { id := l, layerDef := l, weightsPtr := sbptr2 / abi.sizeofWeight, size := size,
          columnCount := getColumnCount d }).layerDefs = defs := hdefs
    rw [e1, setLayer_layers, if_pos rfl] at hb hf
    rw [setLayer_layers, if_pos rfl] at h1
    exact ⟨d, b, f, hd, hb, hf, h1, h2⟩

/-- The values of `maxConnCountPerNode` that the first loop of `initNetwork` has stored
after `l` iterations. -/
theorem backwardPhase_columns (abi : Abi) (defs : List LayerDefinition) (nn0 t : Network R)
    (l : Int) (hdefs : nn0.layerDefs = defs)
    (h : (forRange l).foldlM (fun s i => initNetworkLayer abi s i defs) nn0 = Except.ok t) :
    ∀ j, 0 ≤ j → j < l → ∃ d b f, defAt defs j = Except.ok d ∧
      getNodeBackwardConnectionCount defs j = Except.ok b ∧
      getNodeForwardConnectionCount defs j = Except.ok f ∧
      ∀ c, 0 ≤ c → c < getColumnCount d →
        (t.columns j.toNat c).maxConnCountPerNode = b + f := by
  have key := forRange_foldlM_inv _ l
    (fun a u => SameTop nn0 u ∧ ∀ j, 0 ≤ j → j < a → ∃ d b f, defAt defs j = Except.ok d ∧
      getNodeBackwardConnectionCount defs j = Except.ok b ∧
      getNodeForwardConnectionCount defs j = Except.ok f ∧
      ∀ c, 0 ≤ c → c < getColumnCount d →
        (u.columns j.toNat c).maxConnCountPerNode = b + f)
    nn0 t ⟨SameTop.refl_top nn0, by intro j h0 h1; omega⟩
    (by
      intro a u u' ha0 _ hI hstep
      obtain ⟨hT, -, -, -⟩ := initNetworkLayer_size abi defs u u' a hstep
      obtain ⟨d, b, f, hd, hb, hf, h1, h2⟩ := initNetworkLayer_maxConn abi defs u u' a
        (hI.1.layerDefs.trans hdefs) hstep
      refine ⟨hI.1.trans_top hT, ?_⟩
      intro j hj0 hj
      by_cases hja : j = a
      · subst hja
        exact ⟨d, b, f, hd, hb, hf, h1⟩
      · obtain ⟨d', b', f', hd', hb', hf', h1'⟩ := hI.2 j hj0 (by omega)
        refine ⟨d', b', f', hd', hb', hf', ?_⟩
        intro c hc0 hc
        rw [h2 j.toNat c (by omega)]
        exact h1' c hc0 hc)
    h
  intro j hj0 hj
  exact key.2 j hj0 (by omega)

/-- With positive dimensions a node has no negative number of backward connections. -/
theorem getNodeBackwardConnectionCount_nonneg {defs : List LayerDefinition}
    {layerCount l b : Int} (hpos : PositiveDims defs layerCount) (hl : l < layerCount)
    (hb : getNodeBackwardConnectionCount defs l = Except.ok b) : 0 ≤ b := by
  have hb' := hb
  unfold getNodeBackwardConnectionCount at hb'
  obtain ⟨d, hd, -⟩ := bind_eq_ok.1 hb'
  cases ht : d.layerType with
  | EMPTY =>
    unfold getNodeBackwardConnectionCount at hb
    simp [hd, ht, bind, Except.bind, throw, throwThe, MonadExceptOf.throw] at hb
  | INPUT =>
    rw [getNodeBackwardConnectionCount_input hd ht] at hb
    injection hb with hb
    omega
  | CONVOLUTIONAL =>
    cases hp : defAt defs (l - 1) with
    | error e =>
      unfold getNodeBackwardConnectionCount at hb
      simp [hd, hp, ht, bind, Except.bind] at hb
    | ok dp =>
      have hdp := hpos.at (by omega : l - 1 < layerCount) hp
      rw [getNodeBackwardConnectionCount_conv hd hp ht] at hb
      injection hb with hb
      rw [← hb]
      exact mul_nonneg (mul_self_nonneg _) hdp.2.2.le
  | FULLY_CONNECTED =>
    obtain ⟨dp, hp⟩ := prev_of_fc hd (Or.inl ht) hb
    have hdp := hpos.at (by omega : l - 1 < layerCount) hp
    rw [getNodeBackwardConnectionCount_fc hd hp (Or.inl ht)] at hb
    injection hb with hb
    rw [← hb]
    exact mul_nonneg (mul_nonneg hdp.1.le hdp.2.1.le) hdp.2.2.le
  | OUTPUT =>
    obtain ⟨dp, hp⟩ := prev_of_fc hd (Or.inr ht) hb
    have hdp := hpos.at (by omega : l - 1 < layerCount) hp
    rw [getNodeBackwardConnectionCount_fc hd hp (Or.inr ht)] at hb
    injection hb with hb
    rw [← hb]
    exact mul_nonneg (mul_nonneg hdp.1.le hdp.2.1.le) hdp.2.2.le

/-- With positive dimensions of all the layer definitions of the array a node has no
negative number of forward connections. -/
theorem getNodeForwardConnectionCount_nonneg {defs : List LayerDefinition}
    {layerCount l f : Int} (hpos : PositiveDims defs layerCount)
    (hlen : (defs.length : Int) ≤ layerCount)
    (hf : getNodeForwardConnectionCount defs l = Except.ok f) : 0 ≤ f := by
  unfold getNodeForwardConnectionCount at hf
  obtain ⟨d, hd, hf⟩ := bind_eq_ok.1 hf
  by_cases ht : d.layerType = LayerType.INPUT ∨ d.layerType = LayerType.OUTPUT
  · simp [ht, pure, Except.pure] at hf
    omega
  · simp only [ht, if_false] at hf
    obtain ⟨dn, hdn, hf⟩ := bind_eq_ok.1 hf
    have hlt : l + 1 < layerCount := by
      obtain ⟨h0, hget⟩ := defAt_ok_iff.1 hdn
      have := (List.getElem?_eq_some_iff.1 hget).1
      omega
    have hp := hpos.at hlt hdn
    cases htn : dn.layerType <;>
      simp [htn, pure, Except.pure, throw, throwThe, MonadExceptOf.throw] at hf
    · rw [← hf]
      exact mul_nonneg (sq_nonneg _) hp.2.2.le
    · rw [← hf]
      exact mul_nonneg (mul_nonneg hp.1.le hp.2.1.le) hp.2.2.le
    · rw [← hf]
      exact mul_nonneg (mul_nonneg hp.1.le hp.2.1.le) hp.2.2.le

/-- One more layer in the walk of `getNetworkLayer`. -/
theorem getNetworkLayerOffset_succ (nn : Network R) {l : Int} (hl : 0 ≤ l) :
    getNetworkLayerOffset nn (l + 1)
      = getNetworkLayerOffset nn l + (nn.layers l.toNat).size := by
  unfold getNetworkLayerOffset
  rw [forRange_succ hl, List.foldl_append]
  rfl

/-- The walk of `getNetworkLayer` over layers without negative sizes: a layer ends before
a later layer starts. -/
theorem getNetworkLayerOffset_mono (nn : Network R) (layerCount : Int)
    (hsize : ∀ j, 0 ≤ j → j < layerCount → 0 ≤ (nn.layers j.toNat).size)
    {l : Int} (hl : 0 ≤ l) (k : Nat) (hk : l + 1 + k ≤ layerCount) :
    getNetworkLayerOffset nn l + (nn.layers l.toNat).size
      ≤ getNetworkLayerOffset nn (l + 1 + k) := by
  induction k with
  | zero =>
    simp only [Nat.cast_zero, add_zero]
    rw [getNetworkLayerOffset_succ nn hl]
  | succ k ih =>
    have h1 := ih (by push_cast at hk ⊢; omega)
    have e : l + 1 + ((k + 1 : Nat) : Int) = (l + 1 + (k : Int)) + 1 := by push_cast; ring
    rw [e, getNetworkLayerOffset_succ nn (by omega)]
    have := hsize (l + 1 + k) (by omega) (by push_cast at hk; omega)
    omega

end Layout

section Layout2

variable {R : Type} [LinearOrderedField R]

/-- The layout of the layers of a network that `createNetwork` has built from layer
definitions with positive dimensions: the weight block starts where the walk of
`getNetworkLayer` over all layers ends, and for every layer, with the numbers `b` and `f` of
the backward and forward connections of its nodes, the sizes of a node, of a column and of
the layer are `ns = sizeof(Node) + (b + f) * sizeof(Connection)`,
`cs = sizeof(Column) + depth * ns` and `ls = sizeof(Layer) + columns * cs`; the layer holds
the size `ls`, the column `c` starts `c * cs` bytes behind `layer->columns`, and the node
`n` of the column `c` is found at `sizeof(Layer) + c * cs + sizeof(Column) + n * ns` bytes
behind the start of the layer. -/
theorem layer_layout (abi : Abi) (defs : List LayerDefinition) (mem nn : Network R)
    (layerCount : Int) (hpos : PositiveDims defs layerCount)
    (hlen : (defs.length : Int) ≤ layerCount)
    (h : createNetworkStructure abi mem layerCount defs = Except.ok nn) :
    nn.weightsPtr = abi.sizeofNetwork + getNetworkLayerOffset nn layerCount ∧
    ∀ l, 0 ≤ l → l < layerCount → ∃ d b f, defAt defs l = Except.ok d ∧ 0 ≤ b ∧ 0 ≤ f ∧
      getNodeSize abi defs l
        = Except.ok (abi.sizeofNode + (b + f) * abi.sizeofConnection) ∧
      getColumnSize abi defs l
        = Except.ok (abi.sizeofColumn
            + d.nodeMap.depth * (abi.sizeofNode + (b + f) * abi.sizeofConnection)) ∧
      getLayerSize abi defs l
        = Except.ok (abi.sizeofLayer + getLayerColumnCount d * (abi.sizeofColumn
            + d.nodeMap.depth * (abi.sizeofNode + (b + f) * abi.sizeofConnection))) ∧
      (nn.layers l.toNat).size
        = abi.sizeofLayer + getLayerColumnCount d * (abi.sizeofColumn
            + d.nodeMap.depth * (abi.sizeofNode + (b + f) * abi.sizeofConnection)) ∧
      ∀ c n, 0 ≤ c → c < getLayerColumnCount d →
        getLayerColumnOffset abi nn (getNetworkLayer nn l) c
          = Except.ok (c * (abi.sizeofColumn
              + d.nodeMap.depth * (abi.sizeofNode + (b + f) * abi.sizeofConnection))) ∧
        getNetworkNodeOffset abi nn l c n
          = Except.ok (abi.sizeofNetwork + getNetworkLayerOffset nn l + abi.sizeofLayer
              + c * (abi.sizeofColumn
                + d.nodeMap.depth * (abi.sizeofNode + (b + f) * abi.sizeofConnection))
              + abi.sizeofColumn
              + n * (abi.sizeofNode + (b + f) * abi.sizeofConnection)) := by
  unfold createNetworkStructure at h
  obtain ⟨netSize, hsize, h⟩ := bind_eq_ok.1 h
  obtain ⟨nn1, hdef, hinit⟩ := bind_eq_ok.1 h
  obtain ⟨B, hB, h1, h2, h3, h4, h5, h6⟩ :=
    setNetworkDefaults_result abi _ nn1 layerCount defs netSize hdef
  have hdefs : nn1.layerDefs = defs := h6
  have hinit' := hinit
  unfold initNetwork at hinit'
  obtain ⟨p, hp1, hp2⟩ := bind_eq_ok.1 hinit'
  obtain ⟨hT1, hS⟩ := backwardPhase_sizes abi defs nn1 p layerCount hp1
  have hcols := backwardPhase_columns abi defs nn1 p layerCount hdefs hp1
  have hT2 := forwardPhase_top p nn layerCount hp2
  obtain ⟨hBS, -, -⟩ := forwardPhase_spec p nn layerCount (hT1.layerCount.trans h3) hp2
  have hnd : nn.layerDefs = defs := by rw [hT2.layerDefs, hT1.layerDefs, hdefs]
  -- the start of the weight block
  have hsize' := hsize
  unfold getNetworkSize at hsize'
  obtain ⟨layersEnd, hle, hsize'⟩ := bind_eq_ok.1 hsize'
  rw [hB] at hsize'
  simp only [bind, Except.bind, pure, Except.pure, Except.ok.injEq] at hsize'
  have hwp : nn.weightsPtr = layersEnd := by
    rw [hT2.weightsPtr, hT1.weightsPtr, h2, ← hsize']
    ring
  have hoff := getNetworkLayerOffset_eq abi defs nn layerCount
    (by
      intro j hj0 hj
      rw [hBS.layers]
      exact (hS j hj0 hj).1)
  have hfrom := layerSizes_from abi defs (forRange layerCount) 0 abi.sizeofNetwork _ hoff
  rw [add_zero, hle] at hfrom
  injection hfrom with hfrom
  refine ⟨hwp.trans hfrom, ?_⟩
  intro l hl0 hl
  obtain ⟨d, b, f, hd, hb, hf, hmax⟩ := hcols l hl0 hl
  have hb0 := getNodeBackwardConnectionCount_nonneg hpos hl hb
  have hf0 := getNodeForwardConnectionCount_nonneg hpos hlen hf
  have hns : getNodeSize abi defs l
      = Except.ok (abi.sizeofNode + (b + f) * abi.sizeofConnection) := by
    unfold getNodeSize
    simp only [hb, hf, bind, Except.bind, pure, Except.pure]
  have hcs : getColumnSize abi defs l
      = Except.ok (abi.sizeofColumn
          + d.nodeMap.depth * (abi.sizeofNode + (b + f) * abi.sizeofConnection)) := by
    unfold getColumnSize
    simp only [hd, hns, bind, Except.bind, pure, Except.pure]
  have hls : getLayerSize abi defs l
      = Except.ok (abi.sizeofLayer + getLayerColumnCount d * (abi.sizeofColumn
          + d.nodeMap.depth * (abi.sizeofNode + (b + f) * abi.sizeofConnection))) := by
    unfold getLayerSize
    simp only [hd, hcs, bind, Except.bind, pure, Except.pure]
  obtain ⟨hsz, hld⟩ := hS l hl0 hl
  rw [hls] at hsz
  injection hsz with hsz
  have hld' : (nn.layers l.toNat).layerDef = l := by rw [hBS.layers]; exact hld
  refine ⟨d, b, f, hd, hb0, hf0, hns, hcs, hls, by rw [hBS.layers]; exact hsz.symm, ?_⟩
  intro c n hc0 hc
  have hco : getLayerColumnOffset abi nn (getNetworkLayer nn l) c
      = Except.ok (c * (abi.sizeofColumn
          + d.nodeMap.depth * (abi.sizeofNode + (b + f) * abi.sizeofConnection))) := by
    unfold getLayerColumnOffset
    simp only [getNetworkLayer, hnd, hld', hcs, bind, Except.bind, pure, Except.pure]
  refine ⟨hco, ?_⟩
  unfold getNetworkNodeOffset
  simp only [hco, bind, Except.bind, pure, Except.pure]
  unfold getColumnNodeOffset
  simp only [getNetworkLayer]
  rw [hBS.columns, hmax c hc0 hc]

end Layout2

/-- The places in a layer of `cc` columns of `dep` nodes each, with the node size `ns`, the
column size `cs = sC + dep * ns` and the layer size `sL + cc * cs`: the node `n` of the
column `c` lies in its column, the column lies in the layer, and the last node of the last
column ends where the layer ends. -/
theorem nodePlace_bounds {sL sC ns dep cc c n : Int} (hsL : 0 ≤ sL) (hsC : 0 ≤ sC)
    (hns : 0 < ns) (hc0 : 0 ≤ c) (hc : c < cc) (hn0 : 0 ≤ n) (hn : n < dep) :
    0 ≤ sL + c * (sC + dep * ns) ∧
    sL + c * (sC + dep * ns) ≤ sL + c * (sC + dep * ns) + sC + n * ns ∧
    sL + c * (sC + dep * ns) + sC + n * ns + ns
      ≤ sL + c * (sC + dep * ns) + (sC + dep * ns) ∧
    sL + c * (sC + dep * ns) + (sC + dep * ns) ≤ sL + cc * (sC + dep * ns) ∧
    (c = cc - 1 → n = dep - 1 →
      sL + c * (sC + dep * ns) + sC + n * ns + ns = sL + cc * (sC + dep * ns)) := by
  have h1 : 0 ≤ dep * ns := mul_nonneg (by omega) hns.le
  have hcs : 0 ≤ sC + dep * ns := by omega
  have h2 : 0 ≤ c * (sC + dep * ns) := mul_nonneg hc0 hcs
  have h3 : 0 ≤ n * ns := mul_nonneg hn0 hns.le
  have h4 : (n + 1) * ns ≤ dep * ns := Int.mul_le_mul_of_nonneg_right (by omega) hns.le
  have h5 : (n + 1) * ns = n * ns + ns := by ring
  have h6 : (c + 1) * (sC + dep * ns) ≤ cc * (sC + dep * ns) :=
    Int.mul_le_mul_of_nonneg_right (by omega) hcs
  have h7 : (c + 1) * (sC + dep * ns) = c * (sC + dep * ns) + (sC + dep * ns) := by ring
  refine ⟨by omega, by omega, by omega, by omega, ?_⟩
  intro e1 e2
  subst e1 e2
  ring

/-- In one layer, a node ends before a node of a later column starts, and before a later
node of its column starts. -/
theorem nodePlace_ordered {sL sC ns dep c n c' n' : Int} (hsC : 0 ≤ sC) (hns : 0 < ns)
    (hn0 : 0 ≤ n) (hn : n < dep) (hn0' : 0 ≤ n')
    (hord : c < c' ∨ (c = c' ∧ n < n')) :
    sL + c * (sC + dep * ns) + sC + n * ns + ns
      ≤ sL + c' * (sC + dep * ns) + sC + n' * ns := by
  have h1 : 0 ≤ dep * ns := mul_nonneg (by omega) hns.le
  have hcs : 0 ≤ sC + dep * ns := by omega
  rcases hord with h | ⟨h, h'⟩
  · have h4 : (n + 1) * ns ≤ dep * ns := Int.mul_le_mul_of_nonneg_right (by omega) hns.le
    have h5 : (n + 1) * ns = n * ns + ns := by ring
    have h6 : (c + 1) * (sC + dep * ns) ≤ c' * (sC + dep * ns) :=
      Int.mul_le_mul_of_nonneg_right (by omega) hcs
    have h7 : (c + 1) * (sC + dep * ns) = c * (sC + dep * ns) + (sC + dep * ns) := by ring
    have h8 : 0 ≤ n' * ns := mul_nonneg hn0' hns.le
    omega
  · subst h
    have h4 : (n + 1) * ns ≤ n' * ns := Int.mul_le_mul_of_nonneg_right (by omega) hns.le
    have h5 : (n + 1) * ns = n * ns + ns := by ring
    omega

section Layout3

variable {R : Type} [LinearOrderedField R]

/-- **C31.** In a network that `createNetwork` has built from an array of `layerCount` layer
definitions with positive dimensions (with a positive size of the structure `Node` and no
negative size of the structures `Connection`, `Column` and `Layer`), let the node `n` of the
column `c` of the layer `l` lie in the node map of its layer definition. Then
`getNetworkNode` finds it at an offset `off`, and with the sizes `ns`, `cs` and `ls` that
`getNodeSize`, `getColumnSize` and `getLayerSize` give for the layer, and the offset `co`
of its column from `layer->columns`:

* the byte range `[off, off + ns)` of the node is not empty and lies inside the range of
  its column, which starts at `layer + sizeof(Layer) + co` and is `cs` bytes long;
* it lies inside the range of its layer, which starts where the walk of `getNetworkLayer`
  arrives and is `ls` bytes long;
* the last node of the last column ends exactly where the layer ends;
* the range ends before or where the weight block starts; and
* the range of every other node of the node maps lies before it or behind it. -/
theorem node_ranges_disjoint (abi : Abi) (defs : List LayerDefinition) (mem nn : Network R)
    (layerCount : Int) (hsn : 0 < abi.sizeofNode) (hsc : 0 ≤ abi.sizeofConnection)
    (hsC : 0 ≤ abi.sizeofColumn) (hsL : 0 ≤ abi.sizeofLayer)
    (hpos : PositiveDims defs layerCount) (hlen : (defs.length : Int) ≤ layerCount)
    (h : createNetworkStructure abi mem layerCount defs = Except.ok nn)
    (l c n : Int) (d : LayerDefinition) (hl0 : 0 ≤ l) (hl : l < layerCount)
    (hd : defAt defs l = Except.ok d) (hc0 : 0 ≤ c) (hc : c < getLayerColumnCount d)
    (hn0 : 0 ≤ n) (hn : n < d.nodeMap.depth) :
    ∃ off ns cs ls co, getNetworkNodeOffset abi nn l c n = Except.ok off ∧
      getNodeSize abi defs l = Except.ok ns ∧
      getColumnSize abi defs l = Except.ok cs ∧
      getLayerSize abi defs l = Except.ok ls ∧
      getLayerColumnOffset abi nn (getNetworkLayer nn l) c = Except.ok co ∧
      0 < ns ∧
      (abi.sizeofNetwork + getNetworkLayerOffset nn l + abi.sizeofLayer + co ≤ off ∧
        off + ns
          ≤ abi.sizeofNetwork + getNetworkLayerOffset nn l + abi.sizeofLayer + co + cs) ∧
      (abi.sizeofNetwork + getNetworkLayerOffset nn l ≤ off ∧
        off + ns ≤ abi.sizeofNetwork + getNetworkLayerOffset nn l + ls) ∧
      (c = getLayerColumnCount d - 1 → n = d.nodeMap.depth - 1 →
        off + ns = abi.sizeofNetwork + getNetworkLayerOffset nn l + ls) ∧
      off + ns ≤ nn.weightsPtr ∧
      ∀ l' c' n' d', 0 ≤ l' → l' < layerCount → defAt defs l' = Except.ok d' → 0 ≤ c' →
        c' < getLayerColumnCount d' → 0 ≤ n' → n' < d'.nodeMap.depth →
        (l ≠ l' ∨ c ≠ c' ∨ n ≠ n') →
        ∃ off' ns', getNetworkNodeOffset abi nn l' c' n' = Except.ok off' ∧
          getNodeSize abi defs l' = Except.ok ns' ∧
          (off + ns ≤ off' ∨ off' + ns' ≤ off) := by
  obtain ⟨hwp, hlay⟩ := layer_layout abi defs mem nn layerCount hpos hlen h
  -- no layer has a negative size
  have hnsize : ∀ (b f : Int), 0 ≤ b → 0 ≤ f →
      0 < abi.sizeofNode + (b + f) * abi.sizeofConnection := by
    intro b f hb hf
    have := mul_nonneg (by omega : 0 ≤ b + f) hsc
    omega
  have hsizes : ∀ j, 0 ≤ j → j < layerCount → 0 ≤ (nn.layers j.toNat).size := by
    intro j hj0 hj
    obtain ⟨dj, b, f, hdj, hb0, hf0, -, -, -, hsz, -⟩ := hlay j hj0 hj
    have hp := hpos.at hj hdj
    rw [hsz]
    have h1 := hnsize b f hb0 hf0
    have h2 : 0 ≤ getLayerColumnCount dj := mul_nonneg hp.1.le hp.2.1.le
    exact add_nonneg hsL (mul_nonneg h2 (add_nonneg hsC (mul_nonneg hp.2.2.le h1.le)))
  -- a layer ends before a later layer starts, and before the weight block
  have hlater : ∀ a a', 0 ≤ a → a < a' → a' ≤ layerCount →
      getNetworkLayerOffset nn a + (nn.layers a.toNat).size ≤ getNetworkLayerOffset nn a' := by
    intro a a' ha0 haa ha'
    have := getNetworkLayerOffset_mono nn layerCount hsizes ha0 (a' - (a + 1)).toNat
      (by omega)
    have e : a + 1 + ((a' - (a + 1)).toNat : Int) = a' := by omega
    rw [e] at this
    exact this
  -- the layer of the node
  obtain ⟨d1, b, f, hd1, hb0, hf0, hns, hcs, hls, hsz, hnodes⟩ := hlay l hl0 hl
  rw [hd] at hd1
  injection hd1 with hd1
  subst hd1
  obtain ⟨hco, hoff⟩ := hnodes c n hc0 hc
  have hns0 := hnsize b f hb0 hf0
  obtain ⟨k1, k2, k3, k4, k5⟩ := @nodePlace_bounds abi.sizeofLayer abi.sizeofColumn
    (abi.sizeofNode + (b + f) * abi.sizeofConnection) d.nodeMap.depth
    (getLayerColumnCount d) c n hsL hsC hns0 hc0 hc hn0 hn
  have hend := hlater l layerCount hl0 hl (le_refl _)
  rw [hsz] at hend
  refine ⟨_, _, _, _, _, hoff, hns, hcs, hls, hco, hns0, ⟨by omega, by omega⟩,
    ⟨by omega, by omega⟩, ?_, by rw [hwp]; omega, ?_⟩
  · intro e1 e2
    have := k5 e1 e2
    omega
  · intro l' c' n' d' hl0' hl' hd' hc0' hc' hn0' hn' hne
    obtain ⟨d2, b', f', hd2, hb0', hf0', hns', hcs', hls', hsz', hnodes'⟩ := hlay l' hl0' hl'
    rw [hd'] at hd2
    injection hd2 with hd2
    subst hd2
    obtain ⟨-, hoff'⟩ := hnodes' c' n' hc0' hc'
    have hns0' := hnsize b' f' hb0' hf0'
    obtain ⟨j1, j2, j3, j4, -⟩ := @nodePlace_bounds abi.sizeofLayer abi.sizeofColumn
      (abi.sizeofNode + (b' + f') * abi.sizeofConnection) d'.nodeMap.depth
      (getLayerColumnCount d') c' n' hsL hsC hns0' hc0' hc' hn0' hn'
    refine ⟨_, _, hoff', hns', ?_⟩
    rcases lt_trichotomy l l' with hlt | heq | hgt
    · left
      have := hlater l l' hl0 hlt hl'.le
      rw [hsz] at this
      omega
    · subst heq
      rw [hd] at hd'
      injection hd' with hd'
      subst hd'
      rw [hns] at hns'
      injection hns' with hns'
      have hord : (c < c' ∨ (c = c' ∧ n < n')) ∨ (c' < c ∨ (c' = c ∧ n' < n)) := by
        rcases hne with h1 | h1 | h1
        · exact absurd rfl h1
        · rcases lt_or_gt_of_ne h1 with h2 | h2
          · exact Or.inl (Or.inl h2)
          · exact Or.inr (Or.inl h2)
        · by_cases hcc : c = c'
          · rcases lt_or_gt_of_ne h1 with h2 | h2
            · exact Or.inl (Or.inr ⟨hcc, h2⟩)
            · exact Or.inr (Or.inr ⟨hcc.symm, h2⟩)
          · rcases lt_or_gt_of_ne hcc with h2 | h2
            · exact Or.inl (Or.inl h2)
            · exact Or.inr (Or.inl h2)
      rw [← hns']
      rcases hord with ho | ho
      · left
        have := @nodePlace_ordered abi.sizeofLayer abi.sizeofColumn
          (abi.sizeofNode + (b + f) * abi.sizeofConnection) d.nodeMap.depth c n c' n'
          hsC hns0 hn0 hn hn0' ho
        omega
      · right
        have := @nodePlace_ordered abi.sizeofLayer abi.sizeofColumn
          (abi.sizeofNode + (b + f) * abi.sizeofConnection) d.nodeMap.depth c' n' c n
          hsC hns0 hn0' hn' hn0 ho
        omega
    · right
      have := hlater l' l hl0' hgt hl.le
      rw [hsz'] at this
      omega

end Layout3

/-- C31 at the node at level 0 of the column 3 of the convolutional layer of the network
of `poolDefs`. -/
theorem node_ranges_disjoint_witness :
    ∃ off ns cs ls co, getNetworkNodeOffset lp64 poolNet 2 3 0 = Except.ok off ∧
      getNodeSize lp64 poolDefs 2 = Except.ok ns ∧
      getColumnSize lp64 poolDefs 2 = Except.ok cs ∧
      getLayerSize lp64 poolDefs 2 = Except.ok ls ∧
      getLayerColumnOffset lp64 poolNet (getNetworkLayer poolNet 2) 3 = Except.ok co ∧
      0 < ns ∧
      (lp64.sizeofNetwork + getNetworkLayerOffset poolNet 2 + lp64.sizeofLayer + co ≤ off ∧
        off + ns
          ≤ lp64.sizeofNetwork + getNetworkLayerOffset poolNet 2 + lp64.sizeofLayer + co
            + cs) ∧
      (lp64.sizeofNetwork + getNetworkLayerOffset poolNet 2 ≤ off ∧
        off + ns ≤ lp64.sizeofNetwork + getNetworkLayerOffset poolNet 2 + ls) ∧
      ((3 : Int) = getLayerColumnCount convHidden - 1 → (0 : Int) = convHidden.nodeMap.depth - 1 →
        off + ns = lp64.sizeofNetwork + getNetworkLayerOffset poolNet 2 + ls) ∧
      off + ns ≤ poolNet.weightsPtr ∧
      ∀ l' c' n' d', 0 ≤ l' → l' < (4 : Int) → defAt poolDefs l' = Except.ok d' → 0 ≤ c' →
        c' < getLayerColumnCount d' → 0 ≤ n' → n' < d'.nodeMap.depth →
        ((2 : Int) ≠ l' ∨ (3 : Int) ≠ c' ∨ (0 : Int) ≠ n') →
        ∃ off' ns', getNetworkNodeOffset lp64 poolNet l' c' n' = Except.ok off' ∧
          getNodeSize lp64 poolDefs l' = Except.ok ns' ∧
          (off + ns ≤ off' ∨ off' + ns' ≤ off) :=
  node_ranges_disjoint lp64 poolDefs zeroMemory poolNet 4 (by decide) (by decide)
    (by decide) (by decide) (by decide) (by decide) poolNet_created 2 3 0 convHidden
    (by decide) (by decide) rfl (by decide) (by decide) (by decide) (by decide)

end MnistDnn
